import Mathlib

/-!
# RapidFit: fit assembly and scan orchestration

A shallow embedding of `ScanStudies.cpp`, `FitAssembler.cpp`,
`ConstraintFunction.cpp`, `FunctionContour.cpp`, `ResultFormatter.cpp`,
`StringProcessing.cpp` and `Bs2JpsiPhi_mistagParameter_alt.cpp`, and theorems about it.

Conventions of the embedding.

* A C++ `double` is an exact rational number (`ℚ`).  Where the source divides
  without guarding the divisor (`FitAssembler::DoScan`), the value type is
  `Dbl`, a rational or a non-finite value (an infinity or NaN).
* The classes `PhysicsParameter`, `ParameterSet`, `ResultParameter`,
  `ResultParameterSet`, `FitResult`, `FitResultVector` and `ScanParam` are
  declared in headers that are not among the sources; each is modelled from
  the specification and from the way the sources use it.
* `FitAssembler::DoSafeFit` and the minimiser are external: they are
  parameters of the embedding (functions of a hidden fit state and of the
  current `ParameterSet`) that return a `FitResult` or raise an error.
* Loop counters of type `short int` and `unsigned short int` are natural
  numbers: collections are taken to be shorter than the counters' ranges.
* Diagnostic output (`cout`, `cerr`), stopwatches and `delete` are not
  modelled, except the lines that `FunctionContour` writes to `cerr`.
* A C++ `string` is the list of its characters.  Values of type `int` are
  integers, within the range where the arithmetic of the source is exact;
  the index arithmetic of `StringProcessing::ReplaceString`, which wraps on
  small inputs, is modular.
* The functions of `math.h` and of the library `Mathematics` that the PDF
  calls are parameters of the embedding.
-/

namespace RapidFit

/-! ## Data model -/

/-- Modelled from the spec: `PhysicsParameter` (PhysicsParameter.h is not among the
sources).  A parameter stores its blinded value, its type (`"Free"`, `"Fixed"`, ...) and
its unit; `unblind` is the blinded-value transform that `GetValue` applies to the stored
value. -/
structure PhysicsParameter (V : Type) where
  blindedValue : V
  type : String
  unit : String
  unblind : V → V

namespace PhysicsParameter
variable {V : Type}

def GetBlindedValue (p : PhysicsParameter V) : V := p.blindedValue

def GetType (p : PhysicsParameter V) : String := p.type

def GetUnit (p : PhysicsParameter V) : String := p.unit

def GetValue (p : PhysicsParameter V) : V := p.unblind p.blindedValue

def SetType (t : String) (p : PhysicsParameter V) : PhysicsParameter V :=
  { p with type := t }

def SetBlindedValue (v : V) (p : PhysicsParameter V) : PhysicsParameter V :=
  { p with blindedValue := v }

end PhysicsParameter

/-- Modelled from the spec: `ParameterSet` (ParameterSet.h is not among the sources), an
ordered mapping from parameter name to `PhysicsParameter`. -/
abbrev ParameterSet (V : Type) := List (String × PhysicsParameter V)

namespace ParameterSet
variable {V : Type}

def GetAllNames (ps : ParameterSet V) : List String := ps.map Prod.fst

/-- The parameter stored under `name` (the first one, should a name be repeated). -/
def GetPhysicsParameter (name : String) : ParameterSet V → Option (PhysicsParameter V)
  | [] => none
  | (n, p) :: rest => if n = name then some p else GetPhysicsParameter name rest

/-- Write through the pointer that `GetPhysicsParameter name` returns: the parameter stored
under `name` is replaced by `f` of it; nothing else changes. -/
def update (name : String) (f : PhysicsParameter V → PhysicsParameter V) :
    ParameterSet V → ParameterSet V
  | [] => []
  | (n, p) :: rest => if n = name then (n, f p) :: rest else (n, p) :: update name f rest

/-- The names of the parameters whose type is `"Fixed"`, in the order of the set. -/
def GetAllFixedNames (ps : ParameterSet V) : List String :=
  (ps.filter (fun e => e.2.type == "Fixed")).map Prod.fst

/-- The type read by `GetPhysicsParameter( name )->GetType()`. -/
def typeOf (ps : ParameterSet V) (name : String) : String :=
  match GetPhysicsParameter name ps with
  | some p => p.GetType
  | none => ""

/-- The unit read by `GetPhysicsParameter( name )->GetUnit()`. -/
def unitOf (ps : ParameterSet V) (name : String) : String :=
  match GetPhysicsParameter name ps with
  | some p => p.GetUnit
  | none => ""

end ParameterSet

/-- Modelled from the spec: `ResultParameter` (ResultParameter.h is not among the sources):
the fields that `SetResultParameter( name, value, originalValue, error, minimum, maximum,
type, unit )` fills, and the scan status set by `SetScanStatus`. -/
structure ResultParameter (V : Type) where
  value : V
  originalValue : V
  error : V
  minimum : V
  maximum : V
  type : String
  unit : String
  scanStatus : Bool

/-- Modelled from the spec: `ResultParameterSet` (ResultParameterSet.h is not among the
sources), the fitted parameters of a `FitResult` by name, in order. -/
abbrev ResultParameterSet (V : Type) := List (String × ResultParameter V)

namespace ResultParameterSet
variable {V : Type}

def GetAllNames (rs : ResultParameterSet V) : List String := rs.map Prod.fst

def GetResultParameter (name : String) : ResultParameterSet V → Option (ResultParameter V)
  | [] => none
  | (n, r) :: rest => if n = name then some r else GetResultParameter name rest

/-- Modelled from the spec: `SetResultParameter` overwrites the entry of `name` with a new
`ResultParameter` of the given fields; a set without that name is left as it is. -/
def SetResultParameter (name : String) (value originalValue error minimum maximum : V)
    (type unit : String) : ResultParameterSet V → ResultParameterSet V
  | [] => []
  | (n, r) :: rest =>
    if n = name then
      (n, ⟨value, originalValue, error, minimum, maximum, type, unit, false⟩) :: rest
    else
      (n, r) :: SetResultParameter name value originalValue error minimum maximum type unit rest

/-- Modelled from the spec: `ForceNewResultParameter` stores the new `ResultParameter` under
`name` whether or not the set has that name: an existing entry is overwritten, otherwise
the entry is appended. -/
def ForceNewResultParameter (name : String) (value originalValue error minimum maximum : V)
    (type unit : String) : ResultParameterSet V → ResultParameterSet V
  | [] => [(name, ⟨value, originalValue, error, minimum, maximum, type, unit, false⟩)]
  | (n, r) :: rest =>
    if n = name then
      (n, ⟨value, originalValue, error, minimum, maximum, type, unit, false⟩) :: rest
    else
      (n, r) ::
        ForceNewResultParameter name value originalValue error minimum maximum type unit rest

/-- The call `GetResultParameter( name )->SetScanStatus( b )`. -/
def SetScanStatus (name : String) (b : Bool) : ResultParameterSet V → ResultParameterSet V
  | [] => []
  | (n, r) :: rest =>
    if n = name then (n, { r with scanStatus := b }) :: rest
    else (n, r) :: SetScanStatus name b rest

end ResultParameterSet

/-- Modelled from the spec: `FitResult` (FitResult.h is not among the sources): the minimum
function value, the fit status code and the `ResultParameterSet`. -/
structure FitResult (V : Type) where
  minimumValue : V
  fitStatus : Int
  resultParameterSet : ResultParameterSet V

namespace FitResult
variable {V : Type}

def GetFitStatus (r : FitResult V) : Int := r.fitStatus

def GetMinimumValue (r : FitResult V) : V := r.minimumValue

def GetResultParameterSet (r : FitResult V) : ResultParameterSet V := r.resultParameterSet

end FitResult

/-- Modelled from the spec: `FitResultVector` (called `ToyStudyResult` in FitAssembler.cpp;
FitResultVector.h is not among the sources): the names it was constructed with and the
ordered, append-only sequence of results. -/
structure FitResultVector (V : Type) where
  allNames : List String
  allResults : List (FitResult V)

namespace FitResultVector
variable {V : Type}

/-- The constructor `FitResultVector( names )`: no result yet. -/
def new (names : List String) : FitResultVector V := ⟨names, []⟩

def AddFitResult (r : FitResult V) (o : FitResultVector V) : FitResultVector V :=
  { o with allResults := o.allResults ++ [r] }

def NumberResults (o : FitResultVector V) : Nat := o.allResults.length

end FitResultVector

/-- Modelled from the spec: `ScanParam` (ScanParam.h is not among the sources): the
descriptor (name, min, max, number of points) of a scan; `GetPoints` is an `int`. -/
structure ScanParam where
  name : String
  minimum : ℚ
  maximum : ℚ
  points : Int

namespace ScanParam

def GetName (p : ScanParam) : String := p.name

def GetMin (p : ScanParam) : ℚ := p.minimum

def GetMax (p : ScanParam) : ℚ := p.maximum

def GetPoints (p : ScanParam) : Int := p.points

end ScanParam

/-! ## The fit step -/

/-- What a fit raises: `throw` of an `int`, or anything else. -/
inductive FitError where
  | intCode (e : Int)
  | other
  deriving DecidableEq, Repr

/-- A fit returns a `FitResult` or raises an error. -/
inductive FitOutcome (V : Type) where
  | result (r : FitResult V)
  | throws (e : FitError)

/-- The fit step called by a scan (`FitAssembler::DoSafeFit` in ScanStudies.cpp,
`FitAssembler::DoFit` in FitAssembler.cpp) with the configurations, the data and the
constraints of the scan: a function of the hidden state `σ` of the fit machinery and of
the current `ParameterSet`, which it reads and does not write (during a scan the
`ParameterSet` is mutated by the scan alone). -/
abbrev FitStep (σ V : Type) := σ → ParameterSet V → FitOutcome V × σ

/-- One call of the fit step, as recorded: the `ParameterSet` it was called with and what
it did. -/
structure FitCall (V : Type) where
  params : ParameterSet V
  outcome : FitOutcome V

/-- The mutable state around a scan: the caller's `ParameterSet`, the hidden state of the fit
machinery, and the record of the fit calls made so far (oldest first). -/
structure World (σ V : Type) where
  params : ParameterSet V
  fitState : σ
  fitLog : List (FitCall V)

/-- Call the fit step on the current `ParameterSet` and record the call. -/
def callFit {σ V : Type} (fit : FitStep σ V) (w : World σ V) : FitOutcome V × World σ V :=
  let out := fit w.fitState w.params
  (out.1, { params := w.params, fitState := out.2,
            fitLog := w.fitLog ++ [⟨w.params, out.1⟩] })

/-- How control leaves a scan: it returns to its caller; the process is terminated by
`exit( code )`; an error propagates to the caller; the scanned name is not in the
`ParameterSet`, so that `GetPhysicsParameter` has no parameter to point to; or the step
budget of the embedding of the retry loop ran out. -/
inductive ScanExit where
  | returned
  | exited (code : Int)
  | threw (e : FitError)
  | noSuchParameter
  | outOfFuel
  deriving DecidableEq, Repr

/-! ## ScanStudies.cpp -/

namespace ScanStudies

/-- The local variables of the retry loop of `ScanStudies::DoScan` (lines 75-79 and the
current `scanStepResult`). -/
structure RetryVars where
  retries : Nat
  left_right : Int
  wiggle_step_num : Nat
  scanVal : ℚ
  scanStepResult : FitResult ℚ

/-- Lines 85-108 of `ScanStudies::DoScan`: the value of the next try.  The first pass is a
straight retry at the original value; every later pass steps to the right (even
`wiggle_step_num`) or to the left (odd) of the original value. -/
def nextTry (scanVal_orig wiggle_step_size : ℚ) (v : RetryVars) : RetryVars :=
  if v.retries ≠ 1 then
    { v with scanVal := scanVal_orig, retries := v.retries + 1 }
  else
    let left_right : Int := if (v.wiggle_step_num / 2) * 2 = v.wiggle_step_num then 1 else -1
    { v with
      left_right := left_right
      scanVal := scanVal_orig +
        (left_right : ℚ) * wiggle_step_size * ((v.wiggle_step_num / 2 + 1 : Nat) : ℚ)
      wiggle_step_num := v.wiggle_step_num + 1 }

/-- Lines 112-114: the scanned parameter gets the value of the try. -/
def setScanValue {σ : Type} (scanName : String) (scanVal : ℚ) (w : World σ ℚ) : World σ ℚ :=
  { w with params := w.params.update scanName (PhysicsParameter.SetBlindedValue scanVal) }

/-- The `while( scanStepResult->GetFitStatus() != 3 )` loop of `ScanStudies::DoScan`
(lines 82-115).  The first argument bounds the number of evaluations of the loop
condition; `retryFuel` of them are granted and never used up.  An error raised by the
`DoSafeFit` call of line 114, which no `try` block encloses, leaves the loop and the
function. -/
def retryLoop {σ : Type} (fit : FitStep σ ℚ) (scanName : String)
    (scanVal_orig wiggle_step_size : ℚ) :
    Nat → RetryVars → World σ ℚ → ScanExit × RetryVars × World σ ℚ
  | 0, v, w => (.outOfFuel, v, w)
  | fuel + 1, v, w =>
    if v.scanStepResult.GetFitStatus ≠ 3 then
      if (nextTry scanVal_orig wiggle_step_size v).wiggle_step_num ≥ 20 then
        (.returned, nextTry scanVal_orig wiggle_step_size v, w)
      else
        match callFit fit
            (setScanValue scanName (nextTry scanVal_orig wiggle_step_size v).scanVal w) with
        | (.result r, w2) =>
          retryLoop fit scanName scanVal_orig wiggle_step_size fuel
            { nextTry scanVal_orig wiggle_step_size v with scanStepResult := r } w2
        | (.throws e, w2) => (.threw e, nextTry scanVal_orig wiggle_step_size v, w2)
    else (.returned, v, w)

/-- The number of evaluations of the loop condition granted to `retryLoop`. -/
def retryFuel : Nat := 22

/-- The value of the try made by pass `k` of the retry loop around the grid value `v`: pass
0 is the straight retry at `v`; pass `k + 1` is wiggle `k`, which steps `k / 2 + 1` wiggle
steps to the right of `v` when `k` is even and to the left when `k` is odd. -/
def loopValue (v wiggle_step_size : ℚ) : Nat → ℚ
  | 0 => v
  | k + 1 =>
    v + ((if (k / 2) * 2 = k then 1 else -1 : Int) : ℚ) * wiggle_step_size *
      ((k / 2 + 1 : Nat) : ℚ)

/-- The value of try `k` of a grid point with grid value `v`: try 0 is the first fit, at
`v`; try `k + 1` is pass `k` of the retry loop. -/
def tryValue (v wiggle_step_size : ℚ) : Nat → ℚ
  | 0 => v
  | k + 1 => loopValue v wiggle_step_size k

/-- The blinded value that the parameter `name` had when the fit call `c` was made. -/
def fittedAt (name : String) (c : FitCall ℚ) : Option ℚ :=
  (c.params.GetPhysicsParameter name).map PhysicsParameter.GetBlindedValue

/-- The result of the last of the fit calls `calls` (`d` when there is none, or when a
call raised an error before any returned). -/
def lastResult : FitResult ℚ → List (FitCall ℚ) → FitResult ℚ
  | d, [] => d
  | d, c :: cs =>
    lastResult (match c.outcome with
      | .result r => r
      | .throws _ => d) cs

/-- The intended grid value of index `i` in the words of the specification:
`lo + i*(hi-lo)/(n-1)`, and `lo` when `n = 1`. -/
def gridValue (Wanted_Param : ScanParam) (i : Nat) : ℚ :=
  if Wanted_Param.points = 1 then Wanted_Param.minimum
  else Wanted_Param.minimum +
    (i : ℚ) * (Wanted_Param.maximum - Wanted_Param.minimum) / ((Wanted_Param.points : ℚ) - 1)

/-- The record of a grid point that was finished: `calls` are the fit calls made at the
point, whose grid value is `v` and whose wiggle step is `step`, `r0` is the accepted
result and `x` the value written for the scanned parameter.  The calls are the tries 0,
1, ... of the point, between one and twenty-one of them, each returned a result, and the
last one returned `r0`; `x` is the value of the last try when `r0` converged, and the
value of pass 20 of the retry loop when all twenty-one tries failed. -/
def PointRecord (name : String) (v step : ℚ) (calls : List (FitCall ℚ)) (x : ℚ)
    (r0 : FitResult ℚ) : Prop :=
  1 ≤ calls.length ∧ calls.length ≤ 21 ∧
  calls.map (fittedAt name) =
    (List.range' 0 calls.length).map (fun k => some (tryValue v step k)) ∧
  (∀ c ∈ calls, ∃ r, c.outcome = .result r) ∧
  calls.getLast?.map FitCall.outcome = some (.result r0) ∧
  (r0.GetFitStatus = 3 → x = tryValue v step (calls.length - 1)) ∧
  (r0.GetFitStatus ≠ 3 → calls.length = 21 ∧ x = loopValue v step 20)

/-- Lines 126-146 of `ScanStudies::DoScan`: every name of `Fixed_List` that is not in
`Fit_List` (the names of the result before the loop) is forced into the result set with
the parameter's current value, type and unit. -/
def reinjectFixed (params : ParameterSet ℚ) (Fit_List : List String) :
    List String → ResultParameterSet ℚ → ResultParameterSet ℚ
  | [], rs => rs
  | fixedName :: rest, rs =>
    let found : Bool := Fit_List.any (fun fitName => fitName == fixedName)
    if !found then
      match params.GetPhysicsParameter fixedName with
      | some p =>
        reinjectFixed params Fit_List rest
          (rs.ForceNewResultParameter fixedName p.GetValue p.GetValue 0 p.GetValue p.GetValue
            p.GetType p.GetUnit)
      | none => reinjectFixed params Fit_List rest rs
    else reinjectFixed params Fit_List rest rs

/-- Lines 118-150 of `ScanStudies::DoScan`: the accepted result gets the scanned parameter's
entry written from `scanVal`, the absent fixed parameters re-injected, and the scanned
parameter marked as used in the scan (`ResultFormatter::ReviewOutput` only prints). -/
def finishPoint (params : ParameterSet ℚ) (name : String) (scanVal : ℚ)
    (scanStepResult : FitResult ℚ) : FitResult ℚ :=
  let type := params.typeOf name
  let unit := params.unitOf name
  let rs1 := scanStepResult.GetResultParameterSet.SetResultParameter name
    scanVal scanVal 0 scanVal scanVal type unit
  let Fixed_List := params.GetAllFixedNames
  let Fit_List := rs1.GetAllNames
  let rs2 := reinjectFixed params Fit_List Fixed_List rs1
  let rs3 := rs2.SetScanStatus name true
  { scanStepResult with resultParameterSet := rs3 }

/-- The grid step of `ScanStudies::DoScan` (lines 48-49). -/
def deltaScan (Wanted_Param : ScanParam) : ℚ :=
  if Wanted_Param.GetPoints ≠ 1 then
    (Wanted_Param.GetMax - Wanted_Param.GetMin) / ((Wanted_Param.GetPoints : ℚ) - 1)
  else 0

/-- The body of the `for` loop of `ScanStudies::DoScan` (lines 46-152) for grid index
`si`.  An error raised by the first `DoSafeFit` call is caught and the process exits with
`-987` (an `int`) or `-986` (anything else). -/
def scanPoint {σ : Type} (fit : FitStep σ ℚ) (Wanted_Param : ScanParam) (si : Nat)
    (w : World σ ℚ) (output_interface : FitResultVector ℚ) :
    ScanExit × World σ ℚ × FitResultVector ℚ :=
  let scanName := Wanted_Param.GetName
  let deltaScan := deltaScan Wanted_Param
  let scanVal : ℚ := Wanted_Param.GetMin + deltaScan * (si : ℚ)
  match callFit fit (setScanValue scanName scanVal w) with
  | (.throws (.intCode _), w2) => (.exited (-987), w2, output_interface)
  | (.throws .other, w2) => (.exited (-986), w2, output_interface)
  | (.result r, w2) =>
    match retryLoop fit scanName scanVal (deltaScan / 20) retryFuel
        ⟨0, 1, 0, scanVal, r⟩ w2 with
    | (.returned, v, w3) =>
      let scanStepResult := finishPoint w3.params Wanted_Param.GetName v.scanVal v.scanStepResult
      (.returned, w3, output_interface.AddFitResult scanStepResult)
    | (e, _, w3) => (e, w3, output_interface)

/-- The `for( int si=0; si<int(npoints); ++si )` loop of `ScanStudies::DoScan`: `todo`
iterations are left and the next grid index is `si`. -/
def scanLoop {σ : Type} (fit : FitStep σ ℚ) (Wanted_Param : ScanParam) :
    Nat → Nat → World σ ℚ → FitResultVector ℚ → ScanExit × World σ ℚ × FitResultVector ℚ
  | 0, _, w, out => (.returned, w, out)
  | todo + 1, si, w, out =>
    match scanPoint fit Wanted_Param si w out with
    | (.returned, w1, out1) => scanLoop fit Wanted_Param todo (si + 1) w1 out1
    | (e, w1, out1) => (e, w1, out1)

/-- The function `ScanStudies::DoScan` (lines 23-158).  The `DoSafeFit` of the scan, with
`FunctionConfig` after `SetIntegratorTest( false )`, is the parameter `fit`. -/
def DoScan {σ : Type} (fit : FitStep σ ℚ) (Wanted_Param : ScanParam)
    (w : World σ ℚ) (output_interface : FitResultVector ℚ) :
    ScanExit × World σ ℚ × FitResultVector ℚ :=
  let scanName := Wanted_Param.GetName
  match w.params.GetPhysicsParameter scanName with
  | none => (.noSuchParameter, w, output_interface)
  | some scanParameter =>
    let originalValue := scanParameter.GetBlindedValue
    let originalType := scanParameter.GetType
    let w0 : World σ ℚ :=
      { w with params := w.params.update scanName (PhysicsParameter.SetType "Fixed") }
    match scanLoop fit Wanted_Param Wanted_Param.GetPoints.toNat 0 w0 output_interface with
    | (.returned, w1, out1) =>
      let params1 := w1.params.update scanName (PhysicsParameter.SetType originalType)
      let params2 := params1.update scanName (PhysicsParameter.SetBlindedValue originalValue)
      (.returned, { w1 with params := params2 }, out1)
    | (e, w1, out1) => (e, w1, out1)

/-- Lines 206-210 of `ScanStudies::DoScan2D`: the outer parameter's entry is written into
every result of the inner scan and marked as used in the scan. -/
def stampOuter (name : String) (scanVal : ℚ) (type unit : String)
    (r : FitResult ℚ) : FitResult ℚ :=
  { r with resultParameterSet :=
      (r.GetResultParameterSet.SetResultParameter name
        scanVal scanVal 0 scanVal scanVal type unit).SetScanStatus name true }

/-- The `for` loop of `ScanStudies::DoScan2D` (lines 188-213): `todo` iterations are left
and the next outer grid index is `si`. -/
def scanLoop2D {σ : Type} (fit : FitStep σ ℚ) (Param_Set : ScanParam × ScanParam)
    (result_names : List String) (deltaScan : ℚ) :
    Nat → Nat → World σ ℚ → List (FitResultVector ℚ) →
      ScanExit × World σ ℚ × List (FitResultVector ℚ)
  | 0, _, w, out => (.returned, w, out)
  | todo + 1, si, w, out =>
    let scanName := Param_Set.1.GetName
    let scanVal : ℚ := Param_Set.1.GetMin + (si : ℚ) * deltaScan
    match DoScan fit Param_Set.2 (setScanValue scanName scanVal w)
        (FitResultVector.new result_names) with
    | (.returned, w2, Returnable_Result) =>
      let name := Param_Set.1.GetName
      let type := w2.params.typeOf name
      let unit := w2.params.unitOf name
      let stamped : FitResultVector ℚ :=
        { Returnable_Result with
          allResults := Returnable_Result.allResults.map (stampOuter name scanVal type unit) }
      scanLoop2D fit Param_Set result_names deltaScan todo (si + 1) w2 (out ++ [stamped])
    | (e, w2, _) => (e, w2, out)

/-- The function `ScanStudies::DoScan2D` (lines 161-218). -/
def DoScan2D {σ : Type} (fit : FitStep σ ℚ) (Param_Set : ScanParam × ScanParam)
    (w : World σ ℚ) (output_interface : List (FitResultVector ℚ)) :
    ScanExit × World σ ℚ × List (FitResultVector ℚ) :=
  let result_names := w.params.GetAllNames
  let scanName := Param_Set.1.GetName
  match w.params.GetPhysicsParameter scanName with
  | none => (.noSuchParameter, w, output_interface)
  | some scanParameter =>
    let originalValue := scanParameter.GetBlindedValue
    let originalType := scanParameter.GetType
    let w0 : World σ ℚ :=
      { w with params := w.params.update scanName (PhysicsParameter.SetType "Fixed") }
    let deltaScan := deltaScan Param_Set.1
    match scanLoop2D fit Param_Set result_names deltaScan Param_Set.1.GetPoints.toNat 0 w0
        output_interface with
    | (.returned, w1, out1) =>
      let params1 := w1.params.update scanName (PhysicsParameter.SetType originalType)
      let params2 := params1.update scanName (PhysicsParameter.SetBlindedValue originalValue)
      (.returned, { w1 with params := params2 }, out1)
    | (e, w1, out1) => (e, w1, out1)

/-- The function `ScanStudies::ContourScan` (lines 221-230): `DoScan2D` on a new, empty list, which is
returned.  The pair of `ScanParam`s that `OutputConfig->Get2DScanParams` resolves from the
two names is the parameter `Param_Set`. -/
def ContourScan {σ : Type} (fit : FitStep σ ℚ) (Param_Set : ScanParam × ScanParam)
    (w : World σ ℚ) : ScanExit × World σ ℚ × List (FitResultVector ℚ) :=
  DoScan2D fit Param_Set w []

end ScanStudies

/-! ## FitAssembler.cpp -/

/-- A `double` where a division is not guarded: an exact rational, or a non-finite value
(an infinity or NaN, which a division by zero produces). -/
inductive Dbl where
  | finite (q : ℚ)
  | nonFinite
  deriving DecidableEq

namespace Dbl

/-- Addition: a non-finite operand gives a non-finite sum. -/
def add : Dbl → Dbl → Dbl
  | finite a, finite b => finite (a + b)
  | _, _ => nonFinite

/-- Multiplication: a non-finite operand gives a non-finite product (`0 * inf` is NaN). -/
def mul : Dbl → Dbl → Dbl
  | finite a, finite b => finite (a * b)
  | _, _ => nonFinite

/-- Division of finite operands: a zero divisor gives an infinity or NaN. -/
def divFinite (a b : ℚ) : Dbl :=
  if b = 0 then nonFinite else finite (a / b)

end Dbl

/-- Modelled from the spec: `PhysicsBottle` (PhysicsBottle.h is not among the sources): the
`ParameterSet`, the (PDF, dataset) pairs and the constraints added so far, and whether
`Finalise` has been called.  PDFs, datasets and constraints are handles (pointers). -/
structure PhysicsBottle (P D C V : Type) where
  bottleParameters : ParameterSet V
  allResults : List (P × D)
  allConstraints : List C
  finalised : Bool

namespace PhysicsBottle
variable {P D C V : Type}

/-- The constructor `PhysicsBottle( BottleParameters )`. -/
def new (BottleParameters : ParameterSet V) : PhysicsBottle P D C V :=
  ⟨BottleParameters, [], [], false⟩

def GetParameterSet (b : PhysicsBottle P D C V) : ParameterSet V := b.bottleParameters

def AddResult (pdf : P) (data : D) (b : PhysicsBottle P D C V) : PhysicsBottle P D C V :=
  { b with allResults := b.allResults ++ [(pdf, data)] }

def AddConstraint (c : C) (b : PhysicsBottle P D C V) : PhysicsBottle P D C V :=
  { b with allConstraints := b.allConstraints ++ [c] }

def Finalise (b : PhysicsBottle P D C V) : PhysicsBottle P D C V :=
  { b with finalised := true }

end PhysicsBottle

/-- The collaborators of the Fit Assembler, acting on the hidden state `σ` of the PDFs, the
data and the minimiser: `IPDF::SetPhysicsParameters`, `PDFWithData::SetPhysicsParameters`,
`PDFWithData::GetPDF`, `PDFWithData::GetDataSet` (which may generate the data), and the
minimisation `GetMinimiser( ParameterNumber )`, `GetFitFunction`, `SetPhysicsBottle`,
`Minimise`, `GetFitResult`, which returns a `FitResult` or raises an error. -/
structure Collaborators (σ P D W C V : Type) where
  pdfSetPhysicsParameters : P → ParameterSet V → σ → σ
  dataSetPhysicsParameters : W → ParameterSet V → σ → σ
  GetPDF : W → σ → P
  GetDataSet : W → σ → D × σ
  Minimise : Nat → PhysicsBottle P D C V → σ → FitOutcome V × σ

/-- How control leaves `FitAssembler::DoFit`: with a `FitResult`, by `exit( code )`, or
with an error raised by the minimisation. -/
inductive DoFitExit (V : Type) where
  | returned (r : FitResult V)
  | exited (code : Int)
  | threw (e : FitError)

namespace FitAssembler

section DoFit
variable {σ P D W C V : Type}

/-- The overload `FitAssembler::DoFit( MinimiserConfig, FunctionConfig, Bottle )` (lines 29-40) with
`DoFit( minimiser, theFunction )` (lines 22-26): the minimiser is requested for
`Bottle->GetParameterSet()->GetAllNames().size()` parameters and minimises the function
bound to the bottle. -/
def DoFitBottle (ext : Collaborators σ P D W C V) (Bottle : PhysicsBottle P D C V) (s : σ) :
    FitOutcome V × σ :=
  ext.Minimise Bottle.GetParameterSet.GetAllNames.length Bottle s

/-- The loop of lines 49-53: each `PDFWithData` gets the parameters, then its PDF and its
dataset go into the bottle. -/
def fillFromData (ext : Collaborators σ P D W C V) (BottleParameters : ParameterSet V) :
    List W → PhysicsBottle P D C V → σ → PhysicsBottle P D C V × σ
  | [], bottle, s => (bottle, s)
  | pd :: rest, bottle, s =>
    let s1 := ext.dataSetPhysicsParameters pd BottleParameters s
    let pdf := ext.GetPDF pd s1
    let ds := ext.GetDataSet pd s1
    fillFromData ext BottleParameters rest (bottle.AddResult pdf ds.1) ds.2

/-- The loops of lines 56-59 and 84-87: the constraints go into the bottle in order. -/
def addConstraints : List C → PhysicsBottle P D C V → PhysicsBottle P D C V
  | [], bottle => bottle
  | c :: rest, bottle => addConstraints rest (bottle.AddConstraint c)

/-- The overload `FitAssembler::DoFit( MinimiserConfig, FunctionConfig, BottleParameters, BottleData,
BottleConstraints )` (lines 43-66). -/
def DoFitWithData (ext : Collaborators σ P D W C V) (BottleData : List W)
    (BottleConstraints : List C) : FitStep σ V :=
  fun s BottleParameters =>
    let filled := fillFromData ext BottleParameters BottleData
      (PhysicsBottle.new BottleParameters) s
    let bottle := (addConstraints BottleConstraints filled.1).Finalise
    DoFitBottle ext bottle filled.2

/-- The loop of lines 77-81, entered when the two lists have the same size: each PDF gets
the parameters and goes into the bottle with the dataset of the same index. -/
def fillFromLists (ext : Collaborators σ P D W C V) (BottleParameters : ParameterSet V) :
    List P → List D → PhysicsBottle P D C V → σ → PhysicsBottle P D C V × σ
  | pdf :: pdfs, data :: datas, bottle, s =>
    fillFromLists ext BottleParameters pdfs datas (bottle.AddResult pdf data)
      (ext.pdfSetPhysicsParameters pdf BottleParameters s)
  | _, _, bottle, s => (bottle, s)

/-- The overload `FitAssembler::DoFit( MinimiserConfig, FunctionConfig, BottleParameters, AllPDFs,
AllData, BottleConstraints )` (lines 69-100). -/
def DoFitLists (ext : Collaborators σ P D W C V) (BottleParameters : ParameterSet V)
    (AllPDFs : List P) (AllData : List D) (BottleConstraints : List C) (s : σ) :
    DoFitExit V × σ :=
  if AllPDFs.length = AllData.length then
    let filled := fillFromLists ext BottleParameters AllPDFs AllData
      (PhysicsBottle.new BottleParameters) s
    let bottle := (addConstraints BottleConstraints filled.1).Finalise
    match DoFitBottle ext bottle filled.2 with
    | (.result r, s1) => (.returned r, s1)
    | (.throws e, s1) => (.threw e, s1)
  else
    (.exited 1, s)

/-- The constructor `ResultParameterSet( names )`: one entry per name, in order, each the
default-constructed `ResultParameter`, which is the parameter `blank`. -/
def dummyFitResults (blank : ResultParameter V) (NewNamesList : List String) :
    ResultParameterSet V :=
  NewNamesList.map (fun n => (n, blank))

/-- The synthetic result of the `catch` blocks of `FitAssembler::DoScan` (lines 143-146 and
151-154); the macro `LLSCAN_FIT_FAILURE_VALUE` is a parameter. -/
def failureResult (LLSCAN_FIT_FAILURE_VALUE : V) (blank : ResultParameter V)
    (BottleParameters : ParameterSet V) : FitResult V :=
  let status : Int := -1
  let NewNamesList := BottleParameters.GetAllNames
  let DummyFitResults := dummyFitResults blank NewNamesList
  ⟨LLSCAN_FIT_FAILURE_VALUE, status, DummyFitResults⟩

/-- Modelled from the spec: `FitAssembler::DoSafeFit`, which FitAssembler.h declares and no
source file defines: the construction pipeline of `DoFit` with the minimisation step
wrapped in error isolation; any numerically-tagged failure and any unforeseen error is
caught and converted into a synthetic `FitResult` carrying the sentinel objective value,
a result parameter set populated with the input parameter names, and a negative status. -/
def DoSafeFit (ext : Collaborators σ P D W C V) (LLSCAN_FIT_FAILURE_VALUE : V)
    (blank : ResultParameter V) (BottleData : List W) (BottleConstraints : List C) :
    FitStep σ V :=
  fun s BottleParameters =>
    match DoFitWithData ext BottleData BottleConstraints s BottleParameters with
    | (.result r, s1) => (.result r, s1)
    | (.throws _, s1) =>
      (.result (failureResult LLSCAN_FIT_FAILURE_VALUE blank BottleParameters), s1)

end DoFit

/-- The grid step of `FitAssembler::DoScan` (line 122) and of `FitAssembler::DoScan2D`
(line 204): the division is not guarded. -/
def deltaScan (Wanted_Param : ScanParam) : Dbl :=
  Dbl.divFinite (Wanted_Param.GetMax - Wanted_Param.GetMin) ((Wanted_Param.GetPoints : ℚ) - 1)

/-- The body of the `for` loop of `FitAssembler::DoScan` (lines 126-163) for grid index
`si`; `fit` is the `DoFit` of line 136.  Whatever the fit raises is caught and replaced
by the synthetic result. -/
def scanPoint {σ : Type} (fit : FitStep σ Dbl) (LLSCAN_FIT_FAILURE_VALUE : Dbl)
    (blank : ResultParameter Dbl) (Wanted_Param : ScanParam) (deltaScan : Dbl) (si : Nat)
    (w : World σ Dbl) (output_interface : FitResultVector Dbl) :
    World σ Dbl × FitResultVector Dbl :=
  let scanName := Wanted_Param.GetName
  let scanVal : Dbl :=
    Dbl.add (Dbl.finite Wanted_Param.GetMin) (Dbl.mul (Dbl.finite (si : ℚ)) deltaScan)
  let w1 : World σ Dbl :=
    { w with params := w.params.update scanName (PhysicsParameter.SetBlindedValue scanVal) }
  let called := callFit fit w1
  let scanStepResult : FitResult Dbl :=
    match called.1 with
    | .result r => r
    | .throws (.intCode _) => failureResult LLSCAN_FIT_FAILURE_VALUE blank called.2.params
    | .throws .other => failureResult LLSCAN_FIT_FAILURE_VALUE blank called.2.params
  let name := Wanted_Param.GetName
  let type := called.2.params.typeOf name
  let unit := called.2.params.unitOf name
  let stamped : FitResult Dbl :=
    { scanStepResult with
      resultParameterSet := scanStepResult.GetResultParameterSet.SetResultParameter name
        scanVal scanVal (Dbl.finite 0) scanVal scanVal type unit }
  (called.2, output_interface.AddFitResult stamped)

/-- The `for( int si=0; si<npoints; si++ )` loop of `FitAssembler::DoScan`: `todo`
iterations are left and the next grid index is `si`. -/
def scanLoop {σ : Type} (fit : FitStep σ Dbl) (LLSCAN_FIT_FAILURE_VALUE : Dbl)
    (blank : ResultParameter Dbl) (Wanted_Param : ScanParam) (deltaScan : Dbl) :
    Nat → Nat → World σ Dbl → FitResultVector Dbl → World σ Dbl × FitResultVector Dbl
  | 0, _, w, out => (w, out)
  | todo + 1, si, w, out =>
    let step := scanPoint fit LLSCAN_FIT_FAILURE_VALUE blank Wanted_Param deltaScan si w out
    scanLoop fit LLSCAN_FIT_FAILURE_VALUE blank Wanted_Param deltaScan todo (si + 1)
      step.1 step.2

/-- The function `FitAssembler::DoScan` (lines 104-170). -/
def DoScan {σ : Type} (fit : FitStep σ Dbl) (LLSCAN_FIT_FAILURE_VALUE : Dbl)
    (blank : ResultParameter Dbl) (Wanted_Param : ScanParam)
    (w : World σ Dbl) (output_interface : FitResultVector Dbl) :
    ScanExit × World σ Dbl × FitResultVector Dbl :=
  let scanName := Wanted_Param.GetName
  match w.params.GetPhysicsParameter scanName with
  | none => (.noSuchParameter, w, output_interface)
  | some scanParameter =>
    let originalValue := scanParameter.GetBlindedValue
    let originalType := scanParameter.GetType
    let w0 : World σ Dbl :=
      { w with params := w.params.update scanName (PhysicsParameter.SetType "Fixed") }
    let done := scanLoop fit LLSCAN_FIT_FAILURE_VALUE blank Wanted_Param
      (deltaScan Wanted_Param) Wanted_Param.GetPoints.toNat 0 w0 output_interface
    let params1 := done.1.params.update scanName (PhysicsParameter.SetType originalType)
    let params2 := params1.update scanName (PhysicsParameter.SetBlindedValue originalValue)
    (.returned, { done.1 with params := params2 }, done.2)

end FitAssembler

/-! ## StringProcessing.cpp and ConstraintFunction.cpp -/

namespace StringProcessing

/-- The function `StringProcessing::VectorContains` (lines 315-327): the position of the search string
in the vector, or `-1` if it is not there. -/
def VectorContains (InputVector : List String) (SearchString : String) : Int :=
  if InputVector.isEmpty then -1
  else
    let position : Nat := InputVector.indexOf SearchString
    if position < InputVector.length then (position : Int) else -1

end StringProcessing

/-- Modelled from the spec: `ExternalConstraint` (ExternalConstraint.h is not among the
sources): the name of the constrained quantity, its measured value and the error. -/
structure ExternalConstraint where
  name : String
  value : ℚ
  error : ℚ

namespace ExternalConstraint

def GetName (c : ExternalConstraint) : String := c.name

def GetValue (c : ExternalConstraint) : ℚ := c.value

def GetError (c : ExternalConstraint) : ℚ := c.error

end ExternalConstraint

namespace ConstraintFunction

/-- The value read by `NewParameters->GetPhysicsParameter( name )->GetValue()`; there is
none when the set has no parameter of that name. -/
def valueOf (NewParameters : ParameterSet ℚ) (name : String) : Option ℚ :=
  (NewParameters.GetPhysicsParameter name).map PhysicsParameter.GetValue

/-- The loop of `ConstraintFunction::Evaluate` (lines 38-72) over the constraints that are
left, with the running `constraintValue`. -/
def evaluateLoop (NewParameters : ParameterSet ℚ) (parameterNames : List String) :
    List ExternalConstraint → ℚ → Option ℚ
  | [], constraintValue => some constraintValue
  | c :: rest, constraintValue =>
    let name := c.GetName
    if name = "GammaL" then
      match valueOf NewParameters "gamma", valueOf NewParameters "deltaGamma" with
      | some gamma, some dgam =>
        let gaml_fit := gamma + (dgam / 2)
        let gaml_con := c.GetValue
        let gaussSqrt := (gaml_fit - gaml_con) / c.GetError
        evaluateLoop NewParameters parameterNames rest (constraintValue + gaussSqrt * gaussSqrt)
      | _, _ => none
    else if name = "GammaObs" then
      match valueOf NewParameters "gamma", valueOf NewParameters "deltaGamma" with
      | some gamma, some dgam =>
        let gamobs_fit := gamma * (1 - (dgam / 2 / gamma) * (dgam / 2 / gamma)) /
          (1 + (dgam / 2 / gamma) * (dgam / 2 / gamma))
        let gamobs_con := c.GetValue
        let gaussSqrt := (gamobs_fit - gamobs_con) / c.GetError
        evaluateLoop NewParameters parameterNames rest (constraintValue + gaussSqrt * gaussSqrt)
      | _, _ => none
    else if StringProcessing.VectorContains parameterNames name ≥ 0 then
      match valueOf NewParameters name with
      | some parameterValue =>
        let gaussSqrt := (parameterValue - c.GetValue) / c.GetError
        evaluateLoop NewParameters parameterNames rest (constraintValue + gaussSqrt * gaussSqrt)
      | none => none
    else evaluateLoop NewParameters parameterNames rest constraintValue

/-- The function `ConstraintFunction::Evaluate` (lines 32-75) for the constraints `allConstraints` of
the function.  There is no value when a `GammaL` or `GammaObs` constraint is evaluated on
a set without `gamma` or `deltaGamma`. -/
def Evaluate (allConstraints : List ExternalConstraint) (NewParameters : ParameterSet ℚ) :
    Option ℚ :=
  let parameterNames := NewParameters.GetAllNames
  (evaluateLoop NewParameters parameterNames allConstraints 0).map (fun constraintValue =>
    (1 / 2 : ℚ) * constraintValue)

/-- The term of one constraint in the words of the specification, `((value - target) /
error)^2`: `value` is the derived combination `gamma + deltaGamma/2` for the name
`GammaL` and `gamma * (1 - x^2) / (1 + x^2)` with `x = deltaGamma/2/gamma` for the name
`GammaObs`, the value of the named parameter for any other name that the set has, and the
term is 0 for a name that the set does not have. -/
def constraintTerm (NewParameters : ParameterSet ℚ) (gamma deltaGamma : ℚ)
    (c : ExternalConstraint) : ℚ :=
  if c.name = "GammaL" then
    ((gamma + deltaGamma / 2 - c.value) / c.error) ^ 2
  else if c.name = "GammaObs" then
    ((gamma * (1 - (deltaGamma / 2 / gamma) ^ 2) / (1 + (deltaGamma / 2 / gamma) ^ 2)
      - c.value) / c.error) ^ 2
  else
    match valueOf NewParameters c.name with
    | some value => ((value - c.value) / c.error) ^ 2
    | none => 0

end ConstraintFunction

/-! ## The assembly of the bottle, step by step -/

/-- One step of the assembly of a fit by `FitAssembler::DoFit` on `PDFWithData` entries
(lines 43-66): `SetPhysicsParameters` on an entry, `AddResult` of the PDF and the dataset
of an entry, `AddConstraint` of a constraint, `Finalise`, and the minimisation. -/
inductive AssemblyEvent (W C : Type) where
  | SetPhysicsParameters (entry : W)
  | AddResult (entry : W)
  | AddConstraint (c : C)
  | Finalise
  | Minimise
  deriving DecidableEq

namespace FitAssembler

section Trace
variable {σ P D W C V : Type}

/-- The loop of lines 49-53 with the record of its steps: `fillFromData` and the events of
its statements, in the order of execution. -/
def fillFromDataTrace (ext : Collaborators σ P D W C V) (BottleParameters : ParameterSet V) :
    List W → PhysicsBottle P D C V → σ → List (AssemblyEvent W C) →
      PhysicsBottle P D C V × σ × List (AssemblyEvent W C)
  | [], bottle, s, events => (bottle, s, events)
  | pd :: rest, bottle, s, events =>
    let s1 := ext.dataSetPhysicsParameters pd BottleParameters s
    let events1 := events ++ [AssemblyEvent.SetPhysicsParameters pd]
    let pdf := ext.GetPDF pd s1
    let ds := ext.GetDataSet pd s1
    let bottle1 := bottle.AddResult pdf ds.1
    let events2 := events1 ++ [AssemblyEvent.AddResult pd]
    fillFromDataTrace ext BottleParameters rest bottle1 ds.2 events2

/-- The loop of lines 56-59 with the record of its steps. -/
def addConstraintsTrace :
    List C → PhysicsBottle P D C V → List (AssemblyEvent W C) →
      PhysicsBottle P D C V × List (AssemblyEvent W C)
  | [], bottle, events => (bottle, events)
  | c :: rest, bottle, events =>
    addConstraintsTrace rest (bottle.AddConstraint c) (events ++ [AssemblyEvent.AddConstraint c])

/-- The overload `FitAssembler::DoFit( MinimiserConfig, FunctionConfig, BottleParameters,
BottleData, BottleConstraints )` (lines 43-66) with the record of its steps: what the fit
returns or raises, the state of the collaborators afterwards, the bottle that the
minimisation was given, and the events in the order of execution. -/
def DoFitWithDataTrace (ext : Collaborators σ P D W C V) (BottleData : List W)
    (BottleConstraints : List C) (s : σ) (BottleParameters : ParameterSet V) :
    (FitOutcome V × σ) × PhysicsBottle P D C V × List (AssemblyEvent W C) :=
  let filled := fillFromDataTrace ext BottleParameters BottleData
    (PhysicsBottle.new BottleParameters) s []
  let constrained := addConstraintsTrace BottleConstraints filled.1 filled.2.2
  let bottle := constrained.1.Finalise
  let events1 := constrained.2 ++ [AssemblyEvent.Finalise]
  let result := DoFitBottle ext bottle filled.2.1
  (result, bottle, events1 ++ [AssemblyEvent.Minimise])

end Trace

/-- The number of free parameters in the words of the specification: the parameters of
the set whose type is not `"Fixed"`. -/
def numberOfFreeParameters {V : Type} (ps : ParameterSet V) : Nat :=
  (ps.filter (fun e => e.2.type != "Fixed")).length

end FitAssembler

/-! ## FunctionContour.cpp -/

/-- The class `FunctionContour` (FunctionContour.h is not among the sources; the members
are those that FunctionContour.cpp uses): the names of the two axes and the stored
contours, each a list of points. -/
structure FunctionContour where
  xName : String
  yName : String
  allContours : List (List (ℚ × ℚ))

/-- How a call of `FunctionContour::GetPlot` ends: with the contour it returns, or by
flowing off the end of the function without a `return` statement, so that the caller
gets no defined value. -/
inductive GetPlotExit where
  | plot (contour : List (ℚ × ℚ))
  | noReturn
  deriving DecidableEq

namespace FunctionContour

/-- The constructor `FunctionContour( XName, YName, ContourNumber )` (lines 19-27): one
empty contour per index below `ContourNumber`. -/
def new (XName YName : String) (ContourNumber : Int) : FunctionContour :=
  ⟨XName, YName, List.replicate ContourNumber.toNat []⟩

def GetXName (fc : FunctionContour) : String := fc.xName

def GetYName (fc : FunctionContour) : String := fc.yName

/-- The member `GetContourNumber` (lines 47-50). -/
def GetContourNumber (fc : FunctionContour) : Int := (fc.allContours.length : Int)

/-- The test `Sigma > allContours.size() || Sigma < 1` of lines 55, 74 and 87.  The first
comparison is made in the unsigned size type, where a negative `Sigma` is a large number;
for a negative `Sigma` the second comparison holds as well, so the test is the one of the
integers. -/
def invalidSigma (fc : FunctionContour) (Sigma : Int) : Bool :=
  decide (Sigma > (fc.allContours.length : Int)) || decide (Sigma < 1)

/-- The line written to `cerr` for an invalid `Sigma`. -/
def diagnostic (Sigma : Int) : String :=
  "Contour sigma value (" ++ toString Sigma ++ ") is invalid"

/-- The overload `FunctionContour::SetPlot( Sigma, Contour )` (lines 72-82): the object
afterwards and the lines written to `cerr`.  The call returns in both branches. -/
def SetPlot (Sigma : Int) (Contour : List (ℚ × ℚ)) (fc : FunctionContour) :
    FunctionContour × List String :=
  if invalidSigma fc Sigma then
    (fc, [diagnostic Sigma])
  else
    ({ fc with allContours := fc.allContours.set (Sigma - 1).toNat Contour }, [])

/-- The overload `FunctionContour::SetPlot( Sigma, NumberPoints, XValues, YValues )`
(lines 53-71); the two arrays are read at the indices below `NumberPoints`. -/
def SetPlotArrays (Sigma : Int) (NumberPoints : Int) (XValues YValues : Nat → ℚ)
    (fc : FunctionContour) : FunctionContour × List String :=
  if invalidSigma fc Sigma then
    (fc, [diagnostic Sigma])
  else
    let newContourPlot : List (ℚ × ℚ) :=
      (List.range NumberPoints.toNat).map (fun pointIndex =>
        (XValues pointIndex, YValues pointIndex))
    ({ fc with allContours := fc.allContours.set (Sigma - 1).toNat newContourPlot }, [])

/-- The member `FunctionContour::GetPlot( Sigma )` (lines 85-95): how the call ends and the
lines written to `cerr`.  For an invalid `Sigma` no `return` statement is reached. -/
def GetPlot (Sigma : Int) (fc : FunctionContour) : GetPlotExit × List String :=
  if invalidSigma fc Sigma then
    (.noReturn, [diagnostic Sigma])
  else
    (.plot (fc.allContours.getD (Sigma - 1).toNat []), [])

end FunctionContour

/-! ## StringProcessing.cpp: splitting, searching and replacing

A C++ `string` is the list of its characters.  Positions of type `int` and
`unsigned int` are computed in the integers and the natural numbers, except in
`ReplaceString`, whose index arithmetic wraps for an empty search string. -/

namespace StringProcessing

/-- The value of `Input[ index ]` for a `const string`: the character at the index, and the
terminating NUL at the index `Input.size()`.  A read beyond that is undefined in C++; here
it reads NUL as well. -/
def charAt (Input : List Char) (index : Nat) : Char := Input.getD index (Char.ofNat 0)

/-- The loop of `StringProcessing::CharacterPosition` (lines 95-108) over the characters that are left,
`characterIndex` being the index of the first of them: the index of the first character
equal to `SearchCharacter`, or `-1`.  (The test of line 104 only anticipates the end of
the loop.) -/
def characterPositionFrom (SearchCharacter : Char) : List Char → Nat → Int
  | [], _ => -1
  | c :: rest, characterIndex =>
    if c = SearchCharacter then (characterIndex : Int)
    else characterPositionFrom SearchCharacter rest (characterIndex + 1)

/-- The function `StringProcessing::CharacterPosition` (lines 93-110). -/
def CharacterPosition (Input : List Char) (SearchCharacter : Char) : Int :=
  characterPositionFrom SearchCharacter Input 0

/-- The `while(true)` loop of `StringProcessing::SplitString` (lines 57-87).  The first
argument bounds the number of passes; there is no value when it is used up.  The test
of line 65 is on `Input`, the argument of the function, not on `Loop_Str`. -/
def splitLoop (Input : List Char) (SplitCharacter : Char) :
    Nat → List Char → List (List Char) → Option (List (List Char))
  | 0, _, _ => none
  | fuel + 1, Loop_Str, splitParts =>
    let position := CharacterPosition Loop_Str SplitCharacter
    if position = -1 then
      if Input ≠ [] then some (splitParts ++ [Loop_Str]) else some splitParts
    else
      let tempString := Loop_Str.take position.toNat
      let newInput := Loop_Str.drop (position + 1).toNat
      if tempString ≠ [] then
        splitLoop Input SplitCharacter fuel newInput (splitParts ++ [tempString])
      else
        splitLoop Input SplitCharacter fuel newInput splitParts

/-- The function `StringProcessing::SplitString` (lines 51-90).  Every pass but the last shortens
`Loop_Str`, so one pass more than the input has characters is granted. -/
def SplitString (Input : List Char) (SplitCharacter : Char) : Option (List (List Char)) :=
  splitLoop Input SplitCharacter (Input.length + 1) Input []

/-- The comparison loop of `StringPositions` (lines 131-139) and of `ReplaceString` (lines
184-191): whether `Input`, read from the index `offset` on, agrees with `SearchString`
at every index of `SearchString`. -/
def matchesAt (Input SearchString : List Char) (offset : Nat) : Bool :=
  (List.range SearchString.length).all (fun characterIndex =>
    charAt Input (characterIndex + offset) == charAt SearchString characterIndex)

/-- The `while (true)` loop of `StringProcessing::StringPositions` (lines 120-151).  The first
argument bounds the number of passes.  The comparison of line 134 reads `Input`, the
argument of the function, at the position found in `Loop_Str`. -/
def positionsLoop (Input SearchString : List Char) :
    Nat → List Char → Int → List Int → Option (List Int)
  | 0, _, _, _ => none
  | fuel + 1, Loop_Str, numberDiscarded, positions =>
    let firstCharacterPosition := CharacterPosition Loop_Str (charAt SearchString 0)
    if firstCharacterPosition = -1 then some positions
    else
      let found := matchesAt Input SearchString firstCharacterPosition.toNat
      let positions1 :=
        if found then positions ++ [firstCharacterPosition + numberDiscarded] else positions
      let tempString := Loop_Str.drop (firstCharacterPosition + 1).toNat
      positionsLoop Input SearchString fuel tempString
        (numberDiscarded + (firstCharacterPosition + 1)) positions1

/-- The function `StringProcessing::StringPositions` (lines 113-154). -/
def StringPositions (Input SearchString : List Char) : Option (List Int) :=
  positionsLoop Input SearchString (Input.length + 1) Input 0 []

/-- The positions at which `SearchString` occurs in `Input`, in the words of the
specification: the `p` with `Input[p .. p+len)` equal to `SearchString`, in increasing
order. -/
def occurrences (Input SearchString : List Char) : List Int :=
  ((List.range (Input.length + 1)).filter (fun p =>
    decide ((Input.drop p).take SearchString.length = SearchString) &&
      decide (p + SearchString.length ≤ Input.length))).map (fun p => (p : Int))

/-- The conversion of a `size_t` to `unsigned`, and the arithmetic of `unsigned int`. -/
def toUnsigned (x : Nat) : Nat := x % 2 ^ 32

/-- The value of `unsigned( FindString.size() - 1 )` (line 201): the subtraction is made in
`size_t`, where `0 - 1` is `2^64 - 1`. -/
def findAdvance (FindString : List Char) : Nat :=
  toUnsigned ((FindString.length + (2 ^ 64 - 1)) % 2 ^ 64)

/-- The `for` loop of `StringProcessing::ReplaceString` (lines 181-208): `characterIndex` is the index
at the test of the loop condition and `output` the string built so far.  The first
argument bounds the number of passes; there is no value when it is used up. -/
def replaceLoop (Input FindString ReplaceString : List Char) :
    Nat → Nat → List Char → Option (List Char)
  | 0, _, _ => none
  | fuel + 1, characterIndex, output =>
    if characterIndex < Input.length then
      let isInstance := matchesAt Input FindString characterIndex
      if isInstance then
        replaceLoop Input FindString ReplaceString fuel
          (toUnsigned (toUnsigned (characterIndex + findAdvance FindString) + 1))
          (output ++ ReplaceString)
      else
        replaceLoop Input FindString ReplaceString fuel (toUnsigned (characterIndex + 1))
          (output ++ [charAt Input characterIndex])
    else some output

/-- The function `StringProcessing::ReplaceString` (lines 175-211) with `fuel` passes of its loop
granted. -/
def ReplaceString (fuel : Nat) (Input FindString ReplaceString : List Char) :
    Option (List Char) :=
  replaceLoop Input FindString ReplaceString fuel 0 []

end StringProcessing

/-! ## ResultFormatter.cpp -/

namespace ResultFormatter

/-- The index that `ResultFormatter::GetElementFromCovarianceMatrix` computes (lines
277-278), `col+row*(row+1)/2` when `row > col` and `row+col*(col+1)/2` otherwise, with the
division of C++.  The `int` arithmetic of the source is exact as long as
`row*(row+1)` and `col*(col+1)` are below `2^31`, that is for indices up to 46340; the
index is computed here in the integers. -/
def covarianceIndex (row col : Int) : Int :=
  if row > col then col + (row * (row + 1)).tdiv 2 else row + (col * (col + 1)).tdiv 2

/-- The function `ResultFormatter::GetElementFromCovarianceMatrix` (lines 275-279): the element of the
packed vector at `unsigned( index )`; there is no value when the vector is shorter. -/
def GetElementFromCovarianceMatrix (matrix : List ℚ) (row col : Int) : Option ℚ :=
  matrix[(covarianceIndex row col % 2 ^ 32).toNat]?

end ResultFormatter

/-! ## Bs2JpsiPhi_mistagParameter_alt.cpp: the normalisation and its cache -/

namespace Bs2JpsiPhi_mistagParameter_alt

/-- The functions of `math.h` and of the helper library `Mathematics` that the
normalisation calls.  Their sources are not in the repository and they are not rational
functions: they are parameters of the embedding. -/
structure External where
  cos : ℚ → ℚ
  sin : ℚ → ℚ
  sqrt : ℚ → ℚ
  ExpInt : ℚ → ℚ → ℚ → ℚ → ℚ
  ExpSinInt : ℚ → ℚ → ℚ → ℚ → ℚ → ℚ
  ExpCosInt : ℚ → ℚ → ℚ → ℚ → ℚ → ℚ

/-- What `boundary->GetConstraint( "time" )` returns (IConstraint.h is not among the
sources): a constraint with its unit, minimum and maximum; the unit is
`"NameNotFoundError"` when the boundary has no constraint of that name. -/
structure IConstraint where
  unit : String
  minimum : ℚ
  maximum : ℚ

namespace IConstraint

def GetUnit (c : IConstraint) : String := c.unit

def GetMinimum (c : IConstraint) : ℚ := c.minimum

def GetMaximum (c : IConstraint) : ℚ := c.maximum

end IConstraint

/-- The member variables of `Bs2JpsiPhi_mistagParameter_alt` that `SetPhysicsParameters`
and `Normalisation` read or write.  The two cache arrays have three elements, with the
indices 0, 1 and 2. -/
structure PDF where
  gamma_in : ℚ
  dgam : ℚ
  delta_ms : ℚ
  phi_s : ℚ
  Rt : ℚ
  Rp : ℚ
  delta1 : ℚ
  delta2 : ℚ
  tagFraction : ℚ
  resolution1 : ℚ
  resolution2 : ℚ
  resolution1Fraction : ℚ
  timeOffset : ℚ
  angAccI1 : ℚ
  angAccI2 : ℚ
  angAccI3 : ℚ
  angAccI4 : ℚ
  angAccI5 : ℚ
  angAccI6 : ℚ
  t : ℚ
  ctheta_tr : ℚ
  phi_tr : ℚ
  ctheta_1 : ℚ
  tag : Int
  tlo : ℚ
  thi : ℚ
  resolution : ℚ
  normalisationCacheValid : Bool
  normalisationCacheValueRes1 : Nat → ℚ
  normalisationCacheValueRes2 : Nat → ℚ

/-- The conversion `(int)x` of a `double`: the fraction is dropped. -/
def toInt (x : ℚ) : Int := x.num.tdiv (x.den : Int)

/-- The constructor (lines 20-56): the cache is marked as not valid; the other members
are not initialised and keep whatever `uninitialised` holds. -/
def construct (uninitialised : PDF) : PDF :=
  { uninitialised with normalisationCacheValid := false }

/-- The member `SetPhysicsParameters` (lines 106-146).  The argument is the value that
`allParameters.GetPhysicsParameter( name )->GetValue()` returns for each name after
`allParameters.SetPhysicsParameters( NewParameterSet )`. -/
def SetPhysicsParameters (allParameters : String → ℚ) (pdf : PDF) : PDF :=
  let _R0 := allParameters "Azero_sq"
  let Rt := allParameters "Aperp_sq"
  let _delta_zero := allParameters "delta_zero"
  let _delta_para := allParameters "delta_para"
  let _delta_perp := allParameters "delta_perp"
  { pdf with
    normalisationCacheValid := false
    gamma_in := allParameters "gamma"
    dgam := allParameters "deltaGamma"
    delta_ms := allParameters "deltaM"
    phi_s := allParameters "Phi_s"
    Rt := Rt
    Rp := 1 - _R0 - Rt
    delta1 := _delta_perp - _delta_para
    delta2 := _delta_perp - _delta_zero
    tagFraction := allParameters "mistag"
    resolution1 := allParameters "timeResolution1"
    resolution2 := allParameters "timeResolution2"
    resolution1Fraction := allParameters "timeResolution1Fraction"
    timeOffset := allParameters "timeOffset"
    angAccI1 := allParameters "angAccI1"
    angAccI2 := allParameters "angAccI2"
    angAccI3 := allParameters "angAccI3"
    angAccI4 := allParameters "angAccI4"
    angAccI5 := allParameters "angAccI5"
    angAccI6 := allParameters "angAccI6" }

section Members
variable (E : External) (pdf : PDF)

def AT : ℚ := E.sqrt pdf.Rt

def AP : ℚ := E.sqrt pdf.Rp

def A0 : ℚ := if 1 - pdf.Rt - pdf.Rp < 0 then 0 else E.sqrt (1 - pdf.Rt - pdf.Rp)

def gamma : ℚ := pdf.gamma_in

def gamma_l : ℚ := gamma pdf + pdf.dgam / 2

def gamma_h : ℚ := gamma pdf - pdf.dgam / 2

def q : ℚ := (pdf.tag : ℚ)

def intExpL : ℚ := E.ExpInt pdf.tlo pdf.thi (gamma_l pdf) pdf.resolution

def intExpH : ℚ := E.ExpInt pdf.tlo pdf.thi (gamma_h pdf) pdf.resolution

def intExpSin : ℚ := E.ExpSinInt pdf.tlo pdf.thi (gamma pdf) pdf.delta_ms pdf.resolution

def intExpCos : ℚ := E.ExpCosInt pdf.tlo pdf.thi (gamma pdf) pdf.delta_ms pdf.resolution

def timeFactorEvenInt : ℚ :=
  (1 + E.cos pdf.phi_s) * intExpL E pdf
    + (1 - E.cos pdf.phi_s) * intExpH E pdf
    + q pdf * (2 * E.sin pdf.phi_s) * intExpSin E pdf * (1 - 2 * pdf.tagFraction)

def timeFactorOddInt : ℚ :=
  (1 - E.cos pdf.phi_s) * intExpL E pdf
    + (1 + E.cos pdf.phi_s) * intExpH E pdf
    - q pdf * (2 * E.sin pdf.phi_s) * intExpSin E pdf * (1 - 2 * pdf.tagFraction)

def timeFactorA0A0Int : ℚ := timeFactorEvenInt E pdf

def timeFactorAPAPInt : ℚ := timeFactorEvenInt E pdf

def timeFactorATATInt : ℚ := timeFactorOddInt E pdf

def timeFactorReA0APInt : ℚ := E.cos (pdf.delta2 - pdf.delta1) * timeFactorEvenInt E pdf

def timeFactorImAPATInt : ℚ :=
  q pdf * 2 * (E.sin pdf.delta1 * intExpCos E pdf
      - E.cos pdf.delta1 * E.cos pdf.phi_s * intExpSin E pdf) * (1 - 2 * pdf.tagFraction)
    - 1 * (intExpH E pdf - intExpL E pdf) * E.cos pdf.delta1 * E.sin pdf.phi_s

def timeFactorImA0ATInt : ℚ :=
  q pdf * 2 * (E.sin pdf.delta2 * intExpCos E pdf
      - E.cos pdf.delta2 * E.cos pdf.phi_s * intExpSin E pdf) * (1 - 2 * pdf.tagFraction)
    - 1 * (intExpH E pdf - intExpL E pdf) * E.cos pdf.delta2 * E.sin pdf.phi_s

/-- The member `diffXsecNorm1` (lines 611-624): the integral over the time and the
angles, for the members `tlo`, `thi`, `resolution` and `tag` as they are. -/
def diffXsecNorm1 : ℚ :=
  (1 / 2 : ℚ) * A0 E pdf * A0 E pdf * timeFactorA0A0Int E pdf * pdf.angAccI1 +
  (1 / 2 : ℚ) * AP E pdf * AP E pdf * timeFactorAPAPInt E pdf * pdf.angAccI2 +
  (1 / 2 : ℚ) * AT E pdf * AT E pdf * timeFactorATATInt E pdf * pdf.angAccI3 +
  (1 / 2 : ℚ) * A0 E pdf * AP E pdf * timeFactorReA0APInt E pdf * pdf.angAccI5 +
  (1 / 2 : ℚ) * AP E pdf * AT E pdf * timeFactorImAPATInt E pdf * pdf.angAccI4 +
  (1 / 2 : ℚ) * A0 E pdf * AT E pdf * timeFactorImA0ATInt E pdf * pdf.angAccI6

end Members

/-- One pass of the loop of lines 238-243, for the value `tag` of the loop variable. -/
def cachePass (E : External) (pdf : PDF) (tag : Int) : PDF :=
  let pdf1 := { pdf with tag := tag, resolution := pdf.resolution1 }
  let pdf2 := { pdf1 with
    normalisationCacheValueRes1 :=
      Function.update pdf1.normalisationCacheValueRes1 (tag + 1).toNat (diffXsecNorm1 E pdf1) }
  let pdf3 := { pdf2 with resolution := pdf2.resolution2 }
  { pdf3 with
    normalisationCacheValueRes2 :=
      Function.update pdf3.normalisationCacheValueRes2 (tag + 1).toNat (diffXsecNorm1 E pdf3) }

/-- The member `Normalisation` (lines 203-252): the value returned and the object
afterwards.  `measurement` gives the value of each observable by name and `timeBound` is
what `boundary->GetConstraint( "time" )` returns.  The cache is read at `tag+1`, which is
an index of the arrays for the tags -1, 0 and 1. -/
def Normalisation (E : External) (measurement : String → ℚ) (timeBound : IConstraint)
    (pdf : PDF) : ℚ × PDF :=
  let pdf1 := { pdf with
    t := measurement "time" - pdf.timeOffset
    ctheta_tr := measurement "cosTheta"
    phi_tr := measurement "phi"
    ctheta_1 := measurement "cosPsi" }
  if timeBound.GetUnit = "NameNotFoundError" then (0, pdf1)
  else
    let pdf2 := { pdf1 with tlo := timeBound.GetMinimum, thi := timeBound.GetMaximum }
    let pdf3 :=
      if !pdf2.normalisationCacheValid then
        { ([-1, 0, 1].foldl (cachePass E) pdf2) with tag := 2, normalisationCacheValid := true }
      else pdf2
    let pdf4 := { pdf3 with tag := toInt (measurement "tag") }
    (pdf4.resolution1Fraction * pdf4.normalisationCacheValueRes1 (pdf4.tag + 1).toNat +
      (1 - pdf4.resolution1Fraction) * pdf4.normalisationCacheValueRes2 (pdf4.tag + 1).toNat,
     pdf4)

/-- A call of one of the two members on the object. -/
inductive Call where
  | SetPhysicsParameters (allParameters : String → ℚ)
  | Normalisation (measurement : String → ℚ) (timeBound : IConstraint)

/-- A sequence of calls on the object: the values that the `Normalisation` calls return,
in order. -/
def run (E : External) : PDF → List Call → List ℚ
  | _, [] => []
  | pdf, .SetPhysicsParameters allParameters :: rest =>
    run E (SetPhysicsParameters allParameters pdf) rest
  | pdf, .Normalisation measurement timeBound :: rest =>
    (Normalisation E measurement timeBound pdf).1 ::
      run E (Normalisation E measurement timeBound pdf).2 rest

/-- The normalisation in the words of the specification, computed without a cache for the
parameters of the object, the time boundary `[tlo, thi]` and the tag:
`resolution1Fraction * diffXsecNorm1` at `resolution1` plus
`(1 - resolution1Fraction) * diffXsecNorm1` at `resolution2`. -/
def uncachedNormalisation (E : External) (pdf : PDF) (tlo thi : ℚ) (tag : Int) : ℚ :=
  pdf.resolution1Fraction *
      diffXsecNorm1 E { pdf with tlo := tlo, thi := thi, tag := tag,
                                 resolution := pdf.resolution1 } +
    (1 - pdf.resolution1Fraction) *
      diffXsecNorm1 E { pdf with tlo := tlo, thi := thi, tag := tag,
                                 resolution := pdf.resolution2 }

/-- The sequence of calls with every `Normalisation` computed without the cache, for the
time boundary of the call. -/
def uncachedRun (E : External) : PDF → List Call → List ℚ
  | _, [] => []
  | pdf, .SetPhysicsParameters allParameters :: rest =>
    uncachedRun E (SetPhysicsParameters allParameters pdf) rest
  | pdf, .Normalisation measurement timeBound :: rest =>
    (if timeBound.GetUnit = "NameNotFoundError" then 0
      else uncachedNormalisation E pdf timeBound.GetMinimum timeBound.GetMaximum
        (toInt (measurement "tag"))) ::
      uncachedRun E (Normalisation E measurement timeBound pdf).2 rest

/-- The sequence of calls with every `Normalisation` computed without the cache, for the
time boundary `filled` at which the cache was last filled, if it is filled, and for the
time boundary of the call otherwise. -/
def filledRun (E : External) : PDF → Option (ℚ × ℚ) → List Call → List ℚ
  | _, _, [] => []
  | pdf, _, .SetPhysicsParameters allParameters :: rest =>
    filledRun E (SetPhysicsParameters allParameters pdf) none rest
  | pdf, filled, .Normalisation measurement timeBound :: rest =>
    if timeBound.GetUnit = "NameNotFoundError" then
      0 :: filledRun E (Normalisation E measurement timeBound pdf).2 filled rest
    else
      uncachedNormalisation E pdf
          (filled.getD (timeBound.GetMinimum, timeBound.GetMaximum)).1
          (filled.getD (timeBound.GetMinimum, timeBound.GetMaximum)).2
          (toInt (measurement "tag")) ::
        filledRun E (Normalisation E measurement timeBound pdf).2
          (some (filled.getD (timeBound.GetMinimum, timeBound.GetMaximum))) rest

/-- The state of the cache: it is valid exactly when it was filled, and then it holds,
for the time boundary `filled` at which it was filled and each of the tags -1, 0 and 1,
the two integrals for the parameters of the object. -/
def CacheHolds (E : External) (pdf : PDF) (filled : Option (ℚ × ℚ)) : Prop :=
  pdf.normalisationCacheValid = filled.isSome ∧
  ∀ b, filled = some b → ∀ tag : Int, -1 ≤ tag → tag ≤ 1 →
    pdf.normalisationCacheValueRes1 (tag + 1).toNat =
      diffXsecNorm1 E { pdf with tlo := b.1, thi := b.2, tag := tag,
                                 resolution := pdf.resolution1 } ∧
    pdf.normalisationCacheValueRes2 (tag + 1).toNat =
      diffXsecNorm1 E { pdf with tlo := b.1, thi := b.2, tag := tag,
                                 resolution := pdf.resolution2 }

end Bs2JpsiPhi_mistagParameter_alt

/-! ## Concrete inputs -/

namespace Examples

/-- What a scripted fit does at one call: return a result of the given status, raise an
`int`, or raise something else. -/
inductive Scripted where
  | status (s : Int)
  | throwInt (e : Int)
  | throwOther

/-- The result of a fit that reports every parameter of the set at its blinded value. -/
def echoResult {V : Type} (minimum error : V) (status : Int) (ps : ParameterSet V) :
    FitResult V :=
  ⟨minimum, status, ps.map (fun e =>
    (e.1, ⟨e.2.blindedValue, e.2.blindedValue, error, e.2.blindedValue, e.2.blindedValue,
      e.2.type, e.2.unit, false⟩))⟩

/-- A fit step that follows a script, one entry per call, and converges (status 3) once
the script is used up. -/
def scriptedFit {V : Type} (minimum error : V) : FitStep (List Scripted) V :=
  fun script ps =>
    match script with
    | [] => (.result (echoResult minimum error 3 ps), [])
    | .status st :: rest => (.result (echoResult minimum error st ps), rest)
    | .throwInt e :: rest => (.throws (.intCode e), rest)
    | .throwOther :: rest => (.throws .other, rest)

/-- A fit step that never raises an error: it returns the statuses of a script, one per
call, and converges (status 3) once the script is used up. -/
def statusFit : FitStep (List Int) ℚ :=
  fun script ps =>
    match script with
    | [] => (.result (echoResult 0 1 3 ps), [])
    | st :: rest => (.result (echoResult 0 1 st ps), rest)

/-- A parameter set with a free parameter `x` and a fixed parameter `y`. -/
def params : ParameterSet ℚ :=
  [("x", ⟨5, "Free", "ps", id⟩), ("y", ⟨7, "Fixed", "ps", id⟩)]

/-- The same parameter set with `double`s that may be non-finite. -/
def paramsDbl : ParameterSet Dbl :=
  [("x", ⟨Dbl.finite 5, "Free", "ps", id⟩), ("y", ⟨Dbl.finite 7, "Fixed", "ps", id⟩)]

/-- The state before a scan of `params` with a scripted fit. -/
def world (script : List Scripted) : World (List Scripted) ℚ := ⟨params, script, []⟩

/-- The state before a scan of `paramsDbl` with a scripted fit. -/
def worldDbl (script : List Scripted) : World (List Scripted) Dbl := ⟨paramsDbl, script, []⟩

/-- The default-constructed `ResultParameter` of the examples. -/
def blank : ResultParameter Dbl :=
  ⟨Dbl.finite 0, Dbl.finite 0, Dbl.finite 0, Dbl.finite 0, Dbl.finite 0,
    "Uninitialised", "Uninitialised", false⟩

/-- Collaborators that keep a log of what is done to them; the minimisation returns a
converged result that reports every parameter of the bottle. -/
def collaborators : Collaborators (List String) String String String String ℚ where
  pdfSetPhysicsParameters := fun pdf _ log => log ++ ["SetPhysicsParameters " ++ pdf]
  dataSetPhysicsParameters := fun pd _ log => log ++ ["SetPhysicsParameters " ++ pd]
  GetPDF := fun pd _ => pd ++ ".pdf"
  GetDataSet := fun pd log => (pd ++ ".data", log ++ ["GetDataSet " ++ pd])
  Minimise := fun _ bottle log =>
    (.result (echoResult 0 1 3 bottle.bottleParameters), log ++ ["Minimise"])

/-- The parameter set of the constraint example: `gamma = 0.66`, `deltaGamma = 0.1`. -/
def gammaParams : ParameterSet ℚ :=
  [("gamma", ⟨0.66, "Free", "ps^-1", id⟩), ("deltaGamma", ⟨0.1, "Free", "ps^-1", id⟩)]

/-- Collaborators whose state is the list of the sizes that the minimiser was requested
with; the minimisation returns a converged result. -/
def sizeRecorder : Collaborators (List Nat) String String String String ℚ where
  pdfSetPhysicsParameters := fun _ _ sizes => sizes
  dataSetPhysicsParameters := fun _ _ sizes => sizes
  GetPDF := fun pd _ => pd ++ ".pdf"
  GetDataSet := fun pd sizes => (pd ++ ".data", sizes)
  Minimise := fun ParameterNumber bottle sizes =>
    (.result (echoResult 0 1 3 bottle.bottleParameters), sizes ++ [ParameterNumber])

/-- A fit step that never raises an error and reports only the parameters that are not
fixed, at their blinded values; it follows a script of statuses as `statusFit` does. -/
def freeFit : FitStep (List Int) ℚ :=
  fun script ps =>
    match script with
    | [] => (.result (echoResult 0 1 3 (ps.filter (fun e => e.2.type != "Fixed"))), [])
    | st :: rest =>
      (.result (echoResult 0 1 st (ps.filter (fun e => e.2.type != "Fixed"))), rest)

/-- A parameter set with the free parameters `x` and `z` and the fixed parameter `y`. -/
def threeParams : ParameterSet ℚ :=
  [("x", ⟨5, "Free", "ps", id⟩), ("y", ⟨7, "Fixed", "ps", id⟩), ("z", ⟨9, "Free", "ps", id⟩)]

/-- Stand-ins for the external functions, for concrete runs: `cos` is 1, `sin` is 0, `sqrt`
is the identity, the integral of the exponential is the length `thi - tlo` of the time
range, and the two other integrals are 0. -/
def standIns : Bs2JpsiPhi_mistagParameter_alt.External where
  cos := fun _ => 1
  sin := fun _ => 0
  sqrt := fun x => x
  ExpInt := fun tlo thi _ _ => thi - tlo
  ExpSinInt := fun _ _ _ _ _ => 0
  ExpCosInt := fun _ _ _ _ _ => 0

/-- A parameter set of the PDF: `Azero_sq` and `angAccI1` are 1, the fraction of the first
resolution is 1/2, every other parameter is 0. -/
def pdfParameters : String → ℚ :=
  fun name =>
    if name = "Azero_sq" ∨ name = "angAccI1" then 1
    else if name = "timeResolution1Fraction" then 1 / 2
    else 0

/-- A measurement with the tag 1 and every other observable 0. -/
def measurement : String → ℚ :=
  fun name => if name = "tag" then 1 else 0

/-- A new object of the PDF whose members that the constructor leaves alone are 0. -/
def newPDF : Bs2JpsiPhi_mistagParameter_alt.PDF :=
  Bs2JpsiPhi_mistagParameter_alt.construct
    ⟨0, 0, 0, 0, 0, 0, 0, 0, 0, 0, 0, 0, 0, 0, 0, 0, 0, 0, 0, 0, 0, 0, 0, 0, 0, 0, 0, true,
      fun _ => 0, fun _ => 0⟩

/-- A parameter set whose free parameter `x` is blinded by an offset of 100, with a fixed
parameter `y`. -/
def blindedParams : ParameterSet ℚ :=
  [("x", ⟨5, "Free", "ps", fun v => v + 100⟩), ("y", ⟨7, "Fixed", "ps", id⟩)]

end Examples

/-! ## Writing through a parameter pointer -/

namespace ParameterSet
variable {V : Type}

theorem update_update (name : String) (f g : PhysicsParameter V → PhysicsParameter V)
    (ps : ParameterSet V) :
    update name f (update name g ps) = update name (f ∘ g) ps := by
  induction ps with
  | nil => rfl
  | cons e rest ih =>
    obtain ⟨n, p⟩ := e
    by_cases h : n = name
    · simp [update, h]
    · simp [update, h, ih]

theorem update_congr (name : String) (f g : PhysicsParameter V → PhysicsParameter V)
    (ps : ParameterSet V) (p : PhysicsParameter V)
    (hp : GetPhysicsParameter name ps = some p) (hfg : f p = g p) :
    update name f ps = update name g ps := by
  induction ps with
  | nil => rfl
  | cons e rest ih =>
    obtain ⟨n, q⟩ := e
    by_cases h : n = name
    · simp only [GetPhysicsParameter, h, if_true, Option.some.injEq] at hp
      subst hp
      simp [update, h, hfg]
    · simp only [GetPhysicsParameter, h, if_false] at hp
      simp [update, h, ih hp]

theorem update_self (name : String) (f : PhysicsParameter V → PhysicsParameter V)
    (ps : ParameterSet V) (p : PhysicsParameter V)
    (hp : GetPhysicsParameter name ps = some p) (hf : f p = p) :
    update name f ps = ps := by
  induction ps with
  | nil => rfl
  | cons e rest ih =>
    obtain ⟨n, q⟩ := e
    by_cases h : n = name
    · simp only [GetPhysicsParameter, h, if_true, Option.some.injEq] at hp
      subst hp
      simp [update, h, hf]
    · simp only [GetPhysicsParameter, h, if_false] at hp
      simp [update, h, ih hp]

theorem get_update (name : String) (f : PhysicsParameter V → PhysicsParameter V)
    (ps : ParameterSet V) :
    GetPhysicsParameter name (update name f ps) = (GetPhysicsParameter name ps).map f := by
  induction ps with
  | nil => rfl
  | cons e rest ih =>
    obtain ⟨n, q⟩ := e
    by_cases h : n = name
    · simp [update, GetPhysicsParameter, h]
    · simp [update, GetPhysicsParameter, h, ih]

theorem names_update (name : String) (f : PhysicsParameter V → PhysicsParameter V)
    (ps : ParameterSet V) :
    GetAllNames (update name f ps) = GetAllNames ps := by
  induction ps with
  | nil => rfl
  | cons e rest ih =>
    obtain ⟨n, q⟩ := e
    by_cases h : n = name
    · simp [update, GetAllNames, h]
    · simp only [GetAllNames] at ih
      simp [update, GetAllNames, h, ih]

theorem get_update_ne (a b : String) (f : PhysicsParameter V → PhysicsParameter V)
    (ps : ParameterSet V) (h : a ≠ b) :
    GetPhysicsParameter a (update b f ps) = GetPhysicsParameter a ps := by
  induction ps with
  | nil => rfl
  | cons e rest ih =>
    obtain ⟨n, q⟩ := e
    by_cases hb : n = b
    · have hna : ¬ n = a := fun hc => h (hc.symm.trans hb)
      simp [update, GetPhysicsParameter, hb, hna, Ne.symm h]
    · by_cases ha : n = a
      · subst ha
        simp [update, GetPhysicsParameter, hb]
      · simp [update, GetPhysicsParameter, hb, ha, ih]

/-- A parameter that is fixed stays fixed under a write that keeps types or fixes them. -/
theorem fixed_update (a b : String) (f : PhysicsParameter V → PhysicsParameter V)
    (ps : ParameterSet V) (hf : ∀ q, (f q).type = q.type ∨ (f q).type = "Fixed")
    (h : ∃ p, GetPhysicsParameter a ps = some p ∧ p.type = "Fixed") :
    ∃ p, GetPhysicsParameter a (update b f ps) = some p ∧ p.type = "Fixed" := by
  obtain ⟨p, hp, ht⟩ := h
  by_cases hab : a = b
  · subst hab
    refine ⟨f p, by rw [get_update, hp]; rfl, ?_⟩
    rcases hf p with h1 | h1
    · rw [h1, ht]
    · exact h1
  · exact ⟨p, by rw [get_update_ne _ _ _ _ hab, hp], ht⟩

theorem mem_fixedNames (a : String) (ps : ParameterSet V) (p : PhysicsParameter V)
    (hp : GetPhysicsParameter a ps = some p) (ht : p.type = "Fixed") :
    a ∈ GetAllFixedNames ps := by
  induction ps with
  | nil => simp [GetPhysicsParameter] at hp
  | cons e rest ih =>
    obtain ⟨n, q⟩ := e
    by_cases hn : n = a
    · simp only [GetPhysicsParameter, hn, if_true, Option.some.injEq] at hp
      subst hp
      simp [GetAllFixedNames, List.filter_cons, ht, hn]
    · simp only [GetPhysicsParameter, hn, if_false] at hp
      have := ih hp
      simp only [GetAllFixedNames, List.mem_map, List.mem_filter] at this ⊢
      obtain ⟨e, ⟨he1, he2⟩, he3⟩ := this
      exact ⟨e, ⟨List.mem_cons_of_mem _ he1, he2⟩, he3⟩

theorem isSome_update (a b : String) (f : PhysicsParameter V → PhysicsParameter V)
    (ps : ParameterSet V) (h : (GetPhysicsParameter b ps).isSome) :
    (GetPhysicsParameter b (update a f ps)).isSome := by
  by_cases hab : b = a
  · subst hab
    rw [get_update]
    cases hq : GetPhysicsParameter b ps with
    | none => simp [hq] at h
    | some p => rfl
  · rw [get_update_ne _ _ _ _ hab]; exact h

theorem setBlinded_comp (x y : V) :
    (PhysicsParameter.SetBlindedValue x ∘ PhysicsParameter.SetBlindedValue y :
      PhysicsParameter V → PhysicsParameter V) = PhysicsParameter.SetBlindedValue x := by
  funext p
  rfl

/-- Two writes of the blinded value through the same pointer: the second one stays. -/
theorem update_setBlinded_twice (name : String) (x y : V) (ps : ParameterSet V) :
    update name (PhysicsParameter.SetBlindedValue x)
      (update name (PhysicsParameter.SetBlindedValue y) ps) =
    update name (PhysicsParameter.SetBlindedValue x) ps := by
  rw [update_update, setBlinded_comp]

end ParameterSet

namespace ResultParameterSet
variable {V : Type}

theorem names_SetResultParameter (name : String) (v ov e mn mx : V) (t u : String)
    (rs : ResultParameterSet V) :
    GetAllNames (SetResultParameter name v ov e mn mx t u rs) = GetAllNames rs := by
  induction rs with
  | nil => rfl
  | cons a rest ih =>
    obtain ⟨n, r⟩ := a
    by_cases h : n = name
    · simp [SetResultParameter, GetAllNames, h]
    · simp only [GetAllNames] at ih
      simp [SetResultParameter, GetAllNames, h, ih]

theorem names_SetScanStatus (name : String) (b : Bool) (rs : ResultParameterSet V) :
    GetAllNames (SetScanStatus name b rs) = GetAllNames rs := by
  induction rs with
  | nil => rfl
  | cons a rest ih =>
    obtain ⟨n, r⟩ := a
    by_cases h : n = name
    · simp [SetScanStatus, GetAllNames, h]
    · simp only [GetAllNames] at ih
      simp [SetScanStatus, GetAllNames, h, ih]

/-- The call `SetResultParameter` on a set that has the name: the entry is the new one. -/
theorem get_SetResultParameter (name : String) (v ov e mn mx : V) (t u : String)
    (rs : ResultParameterSet V) (h : name ∈ GetAllNames rs) :
    GetResultParameter name (SetResultParameter name v ov e mn mx t u rs) =
      some ⟨v, ov, e, mn, mx, t, u, false⟩ := by
  induction rs with
  | nil => simp [GetAllNames] at h
  | cons a rest ih =>
    obtain ⟨n, r⟩ := a
    by_cases hn : n = name
    · simp [SetResultParameter, GetResultParameter, hn]
    · have h' : name ∈ GetAllNames rest := by
        simp only [GetAllNames, List.map_cons, List.mem_cons] at h
        rcases h with h | h
        · exact absurd h.symm hn
        · exact h
      simp [SetResultParameter, GetResultParameter, hn, ih h']

theorem get_ForceNew_ne (name other : String) (v ov e mn mx : V) (t u : String)
    (rs : ResultParameterSet V) (h : other ≠ name) :
    GetResultParameter name (ForceNewResultParameter other v ov e mn mx t u rs) =
      GetResultParameter name rs := by
  induction rs with
  | nil => simp [ForceNewResultParameter, GetResultParameter, h]
  | cons a rest ih =>
    obtain ⟨n, r⟩ := a
    by_cases hn : n = other
    · have hne : ¬ n = name := fun hc => h (hn.symm.trans hc)
      simp [ForceNewResultParameter, GetResultParameter, hn, hne, h]
    · by_cases hn2 : n = name
      · subst hn2
        simp [ForceNewResultParameter, GetResultParameter, hn]
      · simp [ForceNewResultParameter, GetResultParameter, hn, hn2, ih]

theorem get_SetScanStatus (name : String) (b : Bool) (rs : ResultParameterSet V) :
    GetResultParameter name (SetScanStatus name b rs) =
      (GetResultParameter name rs).map (fun r => { r with scanStatus := b }) := by
  induction rs with
  | nil => rfl
  | cons a rest ih =>
    obtain ⟨n, r⟩ := a
    by_cases hn : n = name
    · simp [SetScanStatus, GetResultParameter, hn]
    · simp [SetScanStatus, GetResultParameter, hn, ih]

/-- The call `ForceNewResultParameter` keeps every name of the set and makes sure of the new one. -/
theorem names_ForceNew (other : String) (v ov e mn mx : V) (t u : String)
    (rs : ResultParameterSet V) :
    other ∈ GetAllNames (ForceNewResultParameter other v ov e mn mx t u rs) ∧
    ∀ n ∈ GetAllNames rs, n ∈ GetAllNames (ForceNewResultParameter other v ov e mn mx t u rs) := by
  induction rs with
  | nil => simp [ForceNewResultParameter, GetAllNames]
  | cons a rest ih =>
    obtain ⟨n, r⟩ := a
    by_cases hn : n = other
    · simp [ForceNewResultParameter, GetAllNames, hn]
    · simp only [GetAllNames] at ih
      simp only [ForceNewResultParameter, GetAllNames, hn, if_false, List.map_cons,
        List.mem_cons]
      refine ⟨Or.inr ih.1, ?_⟩
      intro m hm
      rcases hm with hm | hm
      · exact Or.inl hm
      · exact Or.inr (ih.2 m hm)

end ResultParameterSet

theorem callFit_params {σ V : Type} (fit : FitStep σ V) (w : World σ V) :
    (callFit fit w).2.params = w.params := rfl

namespace ScanStudies

open ParameterSet

theorem setScanValue_params {σ : Type} (scanName : String) (x : ℚ) (w : World σ ℚ) :
    (setScanValue scanName x w).params =
      update scanName (PhysicsParameter.SetBlindedValue x) w.params := rfl

theorem callFit_eq_params {σ : Type} {fit : FitStep σ ℚ} {w w2 : World σ ℚ}
    {o : FitOutcome ℚ} (h : callFit fit w = (o, w2)) : w2.params = w.params := by
  have := congrArg (fun t => t.2.params) h
  simpa [callFit] using this.symm

theorem retryLoop_done {σ : Type} (fit : FitStep σ ℚ) (scanName : String) (orig step : ℚ)
    (fuel : Nat) (v : RetryVars) (w : World σ ℚ) (h : v.scanStepResult.GetFitStatus = 3) :
    retryLoop fit scanName orig step (fuel + 1) v w = (.returned, v, w) := by
  simp [retryLoop, h]

theorem retryLoop_break {σ : Type} (fit : FitStep σ ℚ) (scanName : String) (orig step : ℚ)
    (fuel : Nat) (v : RetryVars) (w : World σ ℚ) (h : v.scanStepResult.GetFitStatus ≠ 3)
    (hb : (nextTry orig step v).wiggle_step_num ≥ 20) :
    retryLoop fit scanName orig step (fuel + 1) v w = (.returned, nextTry orig step v, w) := by
  simp [retryLoop, h, hb]

theorem retryLoop_result {σ : Type} (fit : FitStep σ ℚ) (scanName : String) (orig step : ℚ)
    (fuel : Nat) (v : RetryVars) (w w2 : World σ ℚ) (r : FitResult ℚ)
    (h : v.scanStepResult.GetFitStatus ≠ 3)
    (hb : ¬ (nextTry orig step v).wiggle_step_num ≥ 20)
    (hc : callFit fit (setScanValue scanName (nextTry orig step v).scanVal w) =
      (.result r, w2)) :
    retryLoop fit scanName orig step (fuel + 1) v w =
      retryLoop fit scanName orig step fuel
        { nextTry orig step v with scanStepResult := r } w2 := by
  simp only [retryLoop, h, hb, hc, ne_eq, not_false_eq_true, if_true, if_false]

theorem retryLoop_throws {σ : Type} (fit : FitStep σ ℚ) (scanName : String) (orig step : ℚ)
    (fuel : Nat) (v : RetryVars) (w w2 : World σ ℚ) (e : FitError)
    (h : v.scanStepResult.GetFitStatus ≠ 3)
    (hb : ¬ (nextTry orig step v).wiggle_step_num ≥ 20)
    (hc : callFit fit (setScanValue scanName (nextTry orig step v).scanVal w) =
      (.throws e, w2)) :
    retryLoop fit scanName orig step (fuel + 1) v w = (.threw e, nextTry orig step v, w2) := by
  simp only [retryLoop, h, hb, hc, ne_eq, not_false_eq_true, if_true, if_false]

/-- The retry loop only writes blinded values of the scanned parameter. -/
theorem retryLoop_params {σ : Type} (fit : FitStep σ ℚ) (scanName : String)
    (orig step : ℚ) (fuel : Nat) (v : RetryVars) (w : World σ ℚ) :
    (retryLoop fit scanName orig step fuel v w).2.2.params = w.params ∨
    ∃ x, (retryLoop fit scanName orig step fuel v w).2.2.params =
      update scanName (PhysicsParameter.SetBlindedValue x) w.params := by
  induction fuel generalizing v w with
  | zero => exact Or.inl rfl
  | succ k ih =>
    by_cases h : v.scanStepResult.GetFitStatus = 3
    · rw [retryLoop_done _ _ _ _ _ _ _ h]; exact Or.inl rfl
    by_cases hb : (nextTry orig step v).wiggle_step_num ≥ 20
    · rw [retryLoop_break _ _ _ _ _ _ _ h hb]; exact Or.inl rfl
    rcases hc : callFit fit (setScanValue scanName (nextTry orig step v).scanVal w) with ⟨o, w2⟩
    have hw2 := callFit_eq_params hc
    rw [setScanValue_params] at hw2
    cases o with
    | result r =>
      rw [retryLoop_result _ _ _ _ _ _ _ _ _ h hb hc]
      rcases ih _ w2 with h3 | ⟨x, h3⟩
      · exact Or.inr ⟨_, h3.trans hw2⟩
      · refine Or.inr ⟨x, ?_⟩
        rw [h3, hw2, update_setBlinded_twice]
    | throws e =>
      rw [retryLoop_throws _ _ _ _ _ _ _ _ _ h hb hc]
      exact Or.inr ⟨_, hw2⟩

theorem nextTry_result (orig step : ℚ) (v : RetryVars) :
    (nextTry orig step v).scanStepResult = v.scanStepResult := by
  unfold nextTry; split_ifs <;> rfl

/-- The pass that follows `j` passes of the retry loop tries the value `loopValue j`. -/
theorem nextTry_spec (orig step : ℚ) (v : RetryVars) (j : Nat)
    (h0 : v.retries = 0 → v.wiggle_step_num = 0) (h1 : v.retries ≤ 1)
    (hj : v.retries + v.wiggle_step_num = j) :
    (nextTry orig step v).scanVal = loopValue orig step j ∧
    (nextTry orig step v).retries = 1 ∧
    (nextTry orig step v).wiggle_step_num = j := by
  by_cases hr : v.retries = 1
  · have hjw : j = v.wiggle_step_num + 1 := by omega
    subst hjw
    simp [nextTry, hr, loopValue]
  · have hr0 : v.retries = 0 := by omega
    have hw := h0 hr0
    have hjw : j = 0 := by omega
    subst hjw
    simp [nextTry, hr0, hw, loopValue]

/-- The accepted result is the default or the result of one of the calls. -/
theorem lastResult_mem (d : FitResult ℚ) (cs : List (FitCall ℚ)) :
    lastResult d cs = d ∨ ∃ c ∈ cs, c.outcome = .result (lastResult d cs) := by
  induction cs generalizing d with
  | nil => exact Or.inl rfl
  | cons a rest ih =>
    simp only [lastResult]
    rcases ih (match a.outcome with
      | .result r => r
      | .throws _ => d) with h | ⟨c, hc, h⟩
    · rw [h]
      cases ha : a.outcome with
      | result r => exact Or.inr ⟨a, List.mem_cons_self _ _, by simp [ha]⟩
      | throws e => exact Or.inl rfl
    · exact Or.inr ⟨c, List.mem_cons_of_mem _ hc, h⟩

theorem fittedAt_setScanValue {σ : Type} (name : String) (x : ℚ) (w : World σ ℚ)
    (o : FitOutcome ℚ) (hp : (GetPhysicsParameter name w.params).isSome) :
    fittedAt name ⟨(setScanValue name x w).params, o⟩ = some x := by
  simp only [fittedAt, setScanValue_params, get_update]
  cases h : GetPhysicsParameter name w.params with
  | none => simp [h] at hp
  | some p => rfl

theorem callFit_log {σ : Type} {fit : FitStep σ ℚ} {w w2 : World σ ℚ}
    {o : FitOutcome ℚ} (h : callFit fit w = (o, w2)) :
    w2.fitLog = w.fitLog ++ [⟨w.params, o⟩] ∧ (fit w.fitState w.params).1 = o := by
  have h1 := congrArg (fun t => t.2.fitLog) h
  have h2 := congrArg (fun t => t.1) h
  simp only [callFit] at h1 h2
  exact ⟨by rw [← h2]; exact h1.symm, h2⟩

/-- What the retry loop does, started after `j` passes: the fit calls it makes are at the
values of the passes `j`, `j + 1`, ... in order, no pass beyond the twentieth is fitted,
the step budget is not used up, and when the loop ends the accepted result is the result
of the last fit; `scanVal` is the value of that fit when it converged, and the value of
pass 20, which is not fitted, when none did. -/
theorem retryLoop_spec {σ : Type} (fit : FitStep σ ℚ) (name : String) (orig step : ℚ)
    (fuel : Nat) (v : RetryVars) (w : World σ ℚ) (j : Nat)
    (h0 : v.retries = 0 → v.wiggle_step_num = 0) (h1 : v.retries ≤ 1)
    (hj : v.retries + v.wiggle_step_num = j) (hj20 : j ≤ 20) (hfuel : 20 - j < fuel)
    (hp : (GetPhysicsParameter name w.params).isSome) :
    ∃ calls : List (FitCall ℚ),
      (retryLoop fit name orig step fuel v w).2.2.fitLog = w.fitLog ++ calls ∧
      calls.map (fittedAt name) =
        (List.range' j calls.length).map (fun i => some (loopValue orig step i)) ∧
      j + calls.length ≤ 20 ∧
      (∀ c ∈ calls, ∃ s, (fit s c.params).1 = c.outcome) ∧
      ((retryLoop fit name orig step fuel v w).1 = .returned ∨
        ∃ e, (retryLoop fit name orig step fuel v w).1 = .threw e ∧
          ∃ c ∈ calls, c.outcome = .throws e) ∧
      ((retryLoop fit name orig step fuel v w).1 = .returned →
        (∀ c ∈ calls, ∃ r, c.outcome = .result r) ∧
        (retryLoop fit name orig step fuel v w).2.1.scanStepResult =
          lastResult v.scanStepResult calls ∧
        ((retryLoop fit name orig step fuel v w).2.1.scanStepResult.GetFitStatus = 3 →
          (retryLoop fit name orig step fuel v w).2.1.scanVal =
            if calls.length = 0 then v.scanVal
            else loopValue orig step (j + calls.length - 1)) ∧
        ((retryLoop fit name orig step fuel v w).2.1.scanStepResult.GetFitStatus ≠ 3 →
          j + calls.length = 20 ∧
          (retryLoop fit name orig step fuel v w).2.1.scanVal = loopValue orig step 20)) := by
  induction fuel generalizing v w j with
  | zero => omega
  | succ k ih =>
    obtain ⟨hval, hret, hwig⟩ := nextTry_spec orig step v j h0 h1 hj
    by_cases h : v.scanStepResult.GetFitStatus = 3
    · rw [retryLoop_done _ _ _ _ _ _ _ h]
      refine ⟨[], by simp, by simp, by simpa using hj20, by simp, Or.inl rfl, ?_⟩
      intro _
      exact ⟨by simp, rfl, fun _ => by simp, fun hne => absurd h hne⟩
    by_cases hb : (nextTry orig step v).wiggle_step_num ≥ 20
    · rw [retryLoop_break _ _ _ _ _ _ _ h hb]
      have hj' : j = 20 := by omega
      refine ⟨[], by simp, by simp, by simpa using hj20, by simp, Or.inl rfl, ?_⟩
      intro _
      refine ⟨by simp, nextTry_result _ _ _, fun h3 => ?_, fun _ => ⟨by simpa using hj', ?_⟩⟩
      · rw [nextTry_result] at h3; exact absurd h3 h
      · show (nextTry orig step v).scanVal = _
        rw [hval, hj']
    rcases hc : callFit fit (setScanValue name (nextTry orig step v).scanVal w) with ⟨o, w2⟩
    have hw2 := callFit_eq_params hc
    obtain ⟨hlog0, hfit⟩ := callFit_log hc
    have hlog : w2.fitLog = w.fitLog ++
        [⟨(setScanValue name (nextTry orig step v).scanVal w).params, o⟩] := hlog0
    have hat : fittedAt name ⟨(setScanValue name (nextTry orig step v).scanVal w).params, o⟩ =
        some (loopValue orig step j) := by
      rw [fittedAt_setScanValue name _ w o hp, hval]
    have hjlt : j < 20 := by omega
    cases o with
    | throws e =>
      rw [retryLoop_throws _ _ _ _ _ _ _ _ _ h hb hc]
      refine ⟨[⟨(setScanValue name (nextTry orig step v).scanVal w).params, .throws e⟩],
        hlog, ?_, by simp; omega, ?_, Or.inr ⟨e, rfl, _, List.mem_singleton_self _, rfl⟩, ?_⟩
      · simp [hat]
      · intro c hcm
        rw [List.mem_singleton] at hcm
        subst hcm
        exact ⟨_, hfit⟩
      · intro hcontra
        simp at hcontra
    | result r =>
      rw [retryLoop_result _ _ _ _ _ _ _ _ _ h hb hc]
      have hp2 : (GetPhysicsParameter name w2.params).isSome := by
        rw [hw2, setScanValue_params, get_update]
        cases hq : GetPhysicsParameter name w.params with
        | none => simp [hq] at hp
        | some p => rfl
      obtain ⟨calls, hl, hv, hn, hf, hex, hres⟩ :=
        ih { nextTry orig step v with scanStepResult := r } w2 (j + 1)
          (fun h => by simp [hret] at h) (by simp [hret]) (by simp [hret, hwig]; omega)
          (by omega) (by omega) hp2
      refine ⟨⟨(setScanValue name (nextTry orig step v).scanVal w).params, .result r⟩ :: calls,
        ?_, ?_, by simp; omega, ?_, ?_, ?_⟩
      · rw [hl, hlog]; simp
      · simp only [List.map_cons, List.length_cons, List.range'_succ, hat, hv]
      · intro c hcm
        rcases List.mem_cons.1 hcm with hcm | hcm
        · subst hcm; exact ⟨_, hfit⟩
        · exact hf c hcm
      · rcases hex with hex | ⟨e, he, c, hcm, hce⟩
        · exact Or.inl hex
        · exact Or.inr ⟨e, he, c, List.mem_cons_of_mem _ hcm, hce⟩
      · intro hr
        obtain ⟨hall, ha, hb3, hbn⟩ := hres hr
        refine ⟨?_, by rw [ha]; rfl, fun h3 => ?_, fun hn3 => ?_⟩
        · intro c hcm
          rcases List.mem_cons.1 hcm with hcm | hcm
          · subst hcm; exact ⟨r, rfl⟩
          · exact hall c hcm
        · rw [hb3 h3]
          by_cases hcl : calls.length = 0
          · simp [hcl, hval]
          · simp only [hcl, if_false, List.length_cons]
            have : j + 1 + calls.length - 1 = j + (calls.length + 1) - 1 := by omega
            simp [this]
        · obtain ⟨hcount, hv20⟩ := hbn hn3
          exact ⟨by simp only [List.length_cons]; omega, hv20⟩

/-- When every call returned a result, the accepted result is the outcome of the last
call. -/
theorem lastResult_getLast (c0 : FitCall ℚ) (r0 : FitResult ℚ) (calls : List (FitCall ℚ))
    (h0 : c0.outcome = .result r0) (h : ∀ c ∈ calls, ∃ r, c.outcome = .result r) :
    (c0 :: calls).getLast?.map FitCall.outcome = some (.result (lastResult r0 calls)) := by
  induction calls generalizing c0 r0 with
  | nil => simp [lastResult, h0]
  | cons a rest ih =>
    obtain ⟨r, hr⟩ := h a (List.mem_cons_self _ _)
    rw [List.getLast?_cons_cons]
    simp only [lastResult, hr]
    exact ih a r hr (fun c hc => h c (List.mem_cons_of_mem _ hc))

theorem range'_tryValue (v step : ℚ) (n : Nat) :
    (List.range' 0 n).map (fun i => some (loopValue v step i)) =
      (List.range' 1 n).map (fun k => some (tryValue v step k)) := by
  have h : List.range' 1 n = (List.range' 0 n).map (1 + ·) := by
    rw [List.map_add_range']
  rw [h, List.map_map]
  apply List.map_congr_left
  intro i _
  simp only [Function.comp, Nat.add_comm 1 i, tryValue]

/-- What a grid point does: its fit calls are the tries 0, 1, ... of the point in order, at
least one and at most twenty-one; when control stays in the scan, every call returned a
result, the result of the last call is accepted and appended, and the value written for
the scanned parameter is the value of the last try when that fit converged, and the value
of pass 20 of the retry loop, which is not fitted, when no fit converged. -/
theorem scanPoint_spec {σ : Type} (fit : FitStep σ ℚ) (P : ScanParam) (si : Nat)
    (w : World σ ℚ) (out : FitResultVector ℚ)
    (hp : (GetPhysicsParameter P.GetName w.params).isSome) :
    ∃ calls : List (FitCall ℚ),
      (scanPoint fit P si w out).2.1.fitLog = w.fitLog ++ calls ∧
      1 ≤ calls.length ∧ calls.length ≤ 21 ∧
      calls.map (fittedAt P.GetName) = (List.range' 0 calls.length).map (fun k =>
        some (tryValue (P.GetMin + deltaScan P * (si : ℚ)) (deltaScan P / 20) k)) ∧
      (∀ c ∈ calls, ∃ s, (fit s c.params).1 = c.outcome) ∧
      ((scanPoint fit P si w out).1 ≠ .returned →
        (∃ c ∈ calls, ∃ e, c.outcome = .throws e) ∧ (scanPoint fit P si w out).2.2 = out) ∧
      ((scanPoint fit P si w out).1 = .returned →
        (∀ c ∈ calls, ∃ r, c.outcome = .result r) ∧
        ∃ x r0, (scanPoint fit P si w out).2.2 =
            out.AddFitResult (finishPoint (scanPoint fit P si w out).2.1.params P.GetName x r0) ∧
          calls.getLast?.map FitCall.outcome = some (.result r0) ∧
          (r0.GetFitStatus = 3 →
            x = tryValue (P.GetMin + deltaScan P * (si : ℚ)) (deltaScan P / 20)
              (calls.length - 1)) ∧
          (r0.GetFitStatus ≠ 3 → calls.length = 21 ∧
            x = loopValue (P.GetMin + deltaScan P * (si : ℚ)) (deltaScan P / 20) 20)) := by
  rcases hc : callFit fit
    (setScanValue P.GetName (P.GetMin + deltaScan P * (si : ℚ)) w) with ⟨o, w2⟩
  have hw2 := callFit_eq_params hc
  obtain ⟨hlog0, hfit⟩ := callFit_log hc
  have hlog : w2.fitLog = w.fitLog ++
      [⟨(setScanValue P.GetName (P.GetMin + deltaScan P * (si : ℚ)) w).params, o⟩] := hlog0
  have hat := fittedAt_setScanValue P.GetName (P.GetMin + deltaScan P * (si : ℚ)) w o hp
  cases o with
  | throws e =>
    refine ⟨[⟨(setScanValue P.GetName (P.GetMin + deltaScan P * (si : ℚ)) w).params,
      .throws e⟩], ?_, by simp, by simp, by simp [hat, tryValue], ?_, ?_, ?_⟩
    · cases e <;> simp only [scanPoint, hc] <;> exact hlog
    · intro c hcm
      rw [List.mem_singleton] at hcm
      subst hcm
      exact ⟨_, hfit⟩
    · intro _
      refine ⟨⟨_, List.mem_singleton_self _, e, rfl⟩, ?_⟩
      cases e <;> simp only [scanPoint, hc]
    · intro h
      cases e <;> simp [scanPoint, hc] at h
  | result r =>
    have hp2 : (GetPhysicsParameter P.GetName w2.params).isSome := by
      rw [hw2, setScanValue_params, get_update]
      cases hq : GetPhysicsParameter P.GetName w.params with
      | none => simp [hq] at hp
      | some p => rfl
    obtain ⟨calls, hl, hv, hn, hf, hex, hres⟩ :=
      retryLoop_spec fit P.GetName (P.GetMin + deltaScan P * (si : ℚ)) (deltaScan P / 20)
        retryFuel ⟨0, 1, 0, P.GetMin + deltaScan P * (si : ℚ), r⟩ w2 0
        (fun _ => rfl) (by simp) rfl (by omega) (by simp [retryFuel]) hp2
    rcases hr : retryLoop fit P.GetName (P.GetMin + deltaScan P * (si : ℚ))
      (deltaScan P / 20) retryFuel ⟨0, 1, 0, P.GetMin + deltaScan P * (si : ℚ), r⟩ w2
      with ⟨e, v, w3⟩
    rw [hr] at hl hex hres
    simp only at hl hex hres
    have hmem : ∀ c ∈ (⟨(setScanValue P.GetName (P.GetMin + deltaScan P * (si : ℚ)) w).params,
        .result r⟩ : FitCall ℚ) :: calls, ∃ s, (fit s c.params).1 = c.outcome := by
      intro c hcm
      rcases List.mem_cons.1 hcm with hcm | hcm
      · subst hcm; exact ⟨_, hfit⟩
      · exact hf c hcm
    have hvals : ((⟨(setScanValue P.GetName (P.GetMin + deltaScan P * (si : ℚ)) w).params,
        .result r⟩ : FitCall ℚ) :: calls).map (fittedAt P.GetName) =
        (List.range' 0 (calls.length + 1)).map (fun k =>
          some (tryValue (P.GetMin + deltaScan P * (si : ℚ)) (deltaScan P / 20) k)) := by
      rw [List.range'_succ, List.map_cons, List.map_cons, hat, hv, range'_tryValue]
      rfl
    refine ⟨⟨(setScanValue P.GetName (P.GetMin + deltaScan P * (si : ℚ)) w).params,
      .result r⟩ :: calls, ?_, by simp, by simp only [List.length_cons]; omega, hvals, hmem, ?_, ?_⟩
    · have : (scanPoint fit P si w out).2.1 = w3 := by
        cases e <;> simp only [scanPoint, hc, hr]
      rw [this, hl, hlog]; simp
    · intro hne
      have hex' : e ≠ .returned := by
        intro he
        apply hne
        subst he
        simp only [scanPoint, hc, hr]
      rcases hex with hex | ⟨err, he, c, hcm, hce⟩
      · exact absurd hex hex'
      · refine ⟨⟨c, List.mem_cons_of_mem _ hcm, err, hce⟩, ?_⟩
        subst he
        simp only [scanPoint, hc, hr]
    · intro hret
      have he : e = .returned := by
        cases e <;> simp [scanPoint, hc, hr] at hret ⊢
      subst he
      obtain ⟨hall, ha, hb3, hbn⟩ := hres rfl
      refine ⟨?_, v.scanVal, v.scanStepResult, by simp only [scanPoint, hc, hr], ?_, ?_, ?_⟩
      · intro c hcm
        rcases List.mem_cons.1 hcm with hcm | hcm
        · subst hcm; exact ⟨r, rfl⟩
        · exact hall c hcm
      · rw [ha]
        exact lastResult_getLast _ r calls rfl hall
      · intro h3
        rw [hb3 h3]
        by_cases hcl : calls.length = 0
        · simp [hcl, tryValue]
        · obtain ⟨m, hm⟩ : ∃ m, calls.length = m + 1 := ⟨calls.length - 1, by omega⟩
          simp [hm, tryValue]
      · intro hn3
        obtain ⟨hcount, hv20⟩ := hbn hn3
        exact ⟨by simp only [List.length_cons]; omega, hv20⟩

theorem get_reinjectFixed (params : ParameterSet ℚ) (Fit_List Fixed_List : List String)
    (name : String) (rs : ResultParameterSet ℚ) (h : name ∈ Fit_List) :
    ResultParameterSet.GetResultParameter name (reinjectFixed params Fit_List Fixed_List rs) =
      ResultParameterSet.GetResultParameter name rs := by
  induction Fixed_List generalizing rs with
  | nil => rfl
  | cons f rest ih =>
    by_cases hf : Fit_List.any (fun fitName => fitName == f) = true
    · simp only [reinjectFixed, hf, Bool.not_true, Bool.false_eq_true, if_false]
      exact ih rs
    · have hne : f ≠ name := by
        intro hc
        apply hf
        rw [List.any_eq_true]
        exact ⟨name, h, by simp [hc]⟩
      simp only [reinjectFixed, hf, Bool.not_false, if_true]
      cases hq : GetPhysicsParameter f params with
      | none => simp only []; exact ih rs
      | some q =>
        simp only []
        rw [ih, ResultParameterSet.get_ForceNew_ne _ _ _ _ _ _ _ _ _ _ hne]

/-- The entry that a finished point has for the scanned parameter, when the accepted
result came with an entry of that name: the written value with error 0, marked as used in
the scan. -/
theorem finishPoint_entry (params : ParameterSet ℚ) (name : String) (x : ℚ)
    (r0 : FitResult ℚ) (h : name ∈ r0.GetResultParameterSet.GetAllNames) :
    (finishPoint params name x r0).GetResultParameterSet.GetResultParameter name =
      some ⟨x, x, 0, x, x, params.typeOf name, params.unitOf name, true⟩ := by
  simp only [finishPoint, FitResult.GetResultParameterSet]
  rw [ResultParameterSet.get_SetScanStatus, get_reinjectFixed,
    ResultParameterSet.get_SetResultParameter]
  · rfl
  · exact h
  · rw [ResultParameterSet.names_SetResultParameter]; exact h

/-- The grid value that `ScanStudies::DoScan` computes is the intended one. -/
theorem gridValue_eq (P : ScanParam) (i : Nat) :
    P.GetMin + deltaScan P * (i : ℚ) = gridValue P i := by
  unfold deltaScan gridValue ScanParam.GetPoints ScanParam.GetMin ScanParam.GetMax
  by_cases h : P.points = 1
  · simp [h]
  · simp only [h, ne_eq, not_false_eq_true, if_true, if_false]
    ring

/-- A grid point leaves the `ParameterSet` as it found it, up to the blinded value of the
scanned parameter, however control leaves the point. -/
theorem scanPoint_params {σ : Type} (fit : FitStep σ ℚ) (P : ScanParam) (si : Nat)
    (w : World σ ℚ) (out : FitResultVector ℚ) :
    ∃ x, (scanPoint fit P si w out).2.1.params =
      update P.GetName (PhysicsParameter.SetBlindedValue x) w.params := by
  rcases hc : callFit fit
    (setScanValue P.GetName (P.GetMin + deltaScan P * (si : ℚ)) w) with ⟨o, w2⟩
  have hw2 := callFit_eq_params hc
  rw [setScanValue_params] at hw2
  cases o with
  | throws e =>
    cases e with
    | intCode c => simp only [scanPoint, hc]; exact ⟨_, hw2⟩
    | other => simp only [scanPoint, hc]; exact ⟨_, hw2⟩
  | result r =>
    rcases hr : retryLoop fit P.GetName (P.GetMin + deltaScan P * (si : ℚ))
      (deltaScan P / 20) retryFuel ⟨0, 1, 0, P.GetMin + deltaScan P * (si : ℚ), r⟩ w2
      with ⟨e, v, w3⟩
    have h3 := retryLoop_params fit P.GetName (P.GetMin + deltaScan P * (si : ℚ))
      (deltaScan P / 20) retryFuel ⟨0, 1, 0, P.GetMin + deltaScan P * (si : ℚ), r⟩ w2
    rw [hr] at h3
    have key : ∃ x, w3.params = update P.GetName (PhysicsParameter.SetBlindedValue x) w.params := by
      rcases h3 with h3 | ⟨x, h3⟩
      · exact ⟨_, h3.trans hw2⟩
      · exact ⟨x, by rw [h3, hw2, update_setBlinded_twice]⟩
    cases e <;> simp only [scanPoint, hc, hr] <;> exact key

/-- The scan loop leaves the `ParameterSet` as it found it, up to the blinded value of the
scanned parameter. -/
theorem scanLoop_params {σ : Type} (fit : FitStep σ ℚ) (P : ScanParam) (todo si : Nat)
    (w : World σ ℚ) (out : FitResultVector ℚ) :
    (scanLoop fit P todo si w out).2.1.params = w.params ∨
    ∃ x, (scanLoop fit P todo si w out).2.1.params =
      update P.GetName (PhysicsParameter.SetBlindedValue x) w.params := by
  induction todo generalizing si w out with
  | zero => exact Or.inl rfl
  | succ k ih =>
    rcases hp : scanPoint fit P si w out with ⟨e, w1, out1⟩
    obtain ⟨x, hx⟩ := scanPoint_params fit P si w out
    rw [hp] at hx
    have hx1 : w1.params = update P.GetName (PhysicsParameter.SetBlindedValue x) w.params := hx
    cases e with
    | returned =>
      simp only [scanLoop, hp]
      rcases ih (si + 1) w1 out1 with h | ⟨y, h⟩
      · exact Or.inr ⟨x, h.trans hx1⟩
      · exact Or.inr ⟨y, by rw [h, hx1, update_setBlinded_twice]⟩
    | exited c => simp only [scanLoop, hp]; exact Or.inr ⟨x, hx1⟩
    | threw c => simp only [scanLoop, hp]; exact Or.inr ⟨x, hx1⟩
    | noSuchParameter => simp only [scanLoop, hp]; exact Or.inr ⟨x, hx1⟩
    | outOfFuel => simp only [scanLoop, hp]; exact Or.inr ⟨x, hx1⟩

/-- In the record of a point whose accepted fit converged, the written value is the value
at which the last fit was made, which is the grid value when at most two fits were
made. -/
theorem PointRecord_converged (name : String) (v step : ℚ) (calls : List (FitCall ℚ))
    (x : ℚ) (r0 : FitResult ℚ) (h : PointRecord name v step calls x r0)
    (hconv : r0.GetFitStatus = 3) :
    calls.getLast?.map (fittedAt name) = some (some x) ∧
    x = tryValue v step (calls.length - 1) ∧
    (calls.length ≤ 2 → x = v) := by
  obtain ⟨h1, _, hvals, _, _, h3, _⟩ := h
  have hx := h3 hconv
  obtain ⟨m, hm⟩ : ∃ m, calls.length = m + 1 := ⟨calls.length - 1, by omega⟩
  refine ⟨?_, hx, ?_⟩
  · rw [← List.getLast?_map, hvals, hm, List.range'_1_concat, List.map_append,
      List.map_singleton, List.getLast?_concat]
    simp only [Nat.zero_add]
    rw [hx, hm]
    rfl
  · intro h2
    rw [hx, hm]
    have : m = 0 ∨ m = 1 := by omega
    rcases this with h | h <;> subst h <;> rfl

/-- A fit step that never raises an error returns a result at every call. -/
theorem no_throw_of_calls {σ : Type} (fit : FitStep σ ℚ)
    (hfit : ∀ s ps, ∃ r, (fit s ps).1 = .result r) (calls : List (FitCall ℚ))
    (hf : ∀ c ∈ calls, ∃ s, (fit s c.params).1 = c.outcome) :
    ¬ ∃ c ∈ calls, ∃ e, c.outcome = .throws e := by
  rintro ⟨c, hc, e, he⟩
  obtain ⟨s, hs⟩ := hf c hc
  obtain ⟨r, hr⟩ := hfit s c.params
  rw [hs, he] at hr
  cases hr

/-- A grid point whose fits all return a result is finished, and has its record. -/
theorem scanPoint_record {σ : Type} (fit : FitStep σ ℚ) (P : ScanParam) (si : Nat)
    (w : World σ ℚ) (out : FitResultVector ℚ)
    (hfit : ∀ s ps, ∃ r, (fit s ps).1 = .result r)
    (hp : (GetPhysicsParameter P.GetName w.params).isSome) :
    (scanPoint fit P si w out).1 = .returned ∧
    ∃ calls x r0,
      (scanPoint fit P si w out).2.1.fitLog = w.fitLog ++ calls ∧
      (scanPoint fit P si w out).2.2 =
        out.AddFitResult (finishPoint (scanPoint fit P si w out).2.1.params P.GetName x r0) ∧
      PointRecord P.GetName (gridValue P si) (deltaScan P / 20) calls x r0 := by
  obtain ⟨calls, hlog, h1, h21, hvals, hf, hne, hres⟩ := scanPoint_spec fit P si w out hp
  have hret : (scanPoint fit P si w out).1 = .returned := by
    by_contra hcon
    exact no_throw_of_calls fit hfit calls hf (hne hcon).1
  obtain ⟨hall, x, r0, hout, hlast, h3, hn3⟩ := hres hret
  rw [gridValue_eq] at hvals h3 hn3
  exact ⟨hret, calls, x, r0, hlog, hout, h1, h21, hvals, hall, hlast, h3, hn3⟩

theorem scanPoint_isSome {σ : Type} (fit : FitStep σ ℚ) (P : ScanParam) (si : Nat)
    (w : World σ ℚ) (out : FitResultVector ℚ)
    (hp : (GetPhysicsParameter P.GetName w.params).isSome) :
    (GetPhysicsParameter P.GetName (scanPoint fit P si w out).2.1.params).isSome := by
  obtain ⟨x, hx⟩ := scanPoint_params fit P si w out
  rw [hx, get_update]
  cases hq : GetPhysicsParameter P.GetName w.params with
  | none => simp [hq] at hp
  | some p => rfl

/-- The scan loop with a fit step that never raises an error: it runs to its end, the fit
calls of the grid points follow one another in the log, and each grid point appends one
result, in the order of the grid. -/
theorem scanLoop_spec {σ : Type} (fit : FitStep σ ℚ) (P : ScanParam) (todo si : Nat)
    (w : World σ ℚ) (out : FitResultVector ℚ)
    (hfit : ∀ s ps, ∃ r, (fit s ps).1 = .result r)
    (hp : (GetPhysicsParameter P.GetName w.params).isSome) :
    (scanLoop fit P todo si w out).1 = .returned ∧
    (scanLoop fit P todo si w out).2.2.allNames = out.allNames ∧
    ∃ (segs : List (List (FitCall ℚ))) (rs : List (FitResult ℚ)),
      segs.length = todo ∧ rs.length = todo ∧
      (scanLoop fit P todo si w out).2.1.fitLog = w.fitLog ++ segs.flatten ∧
      (scanLoop fit P todo si w out).2.2.allResults = out.allResults ++ rs ∧
      ∀ i, i < todo → ∃ calls ps x r0,
        segs[i]? = some calls ∧ rs[i]? = some (finishPoint ps P.GetName x r0) ∧
        (∃ y, ps = update P.GetName (PhysicsParameter.SetBlindedValue y) w.params) ∧
        PointRecord P.GetName (gridValue P (si + i)) (deltaScan P / 20) calls x r0 := by
  induction todo generalizing si w out with
  | zero => exact ⟨rfl, rfl, [], [], rfl, rfl, by simp [scanLoop], by simp [scanLoop], by simp⟩
  | succ k ih =>
    obtain ⟨hret, calls, x, r0, hlog, hout, hrec⟩ := scanPoint_record fit P si w out hfit hp
    have hp1 := scanPoint_isSome fit P si w out hp
    obtain ⟨y0, hy0⟩ := scanPoint_params fit P si w out
    rcases hsp : scanPoint fit P si w out with ⟨e, w1, out1⟩
    rw [hsp] at hret hlog hout hp1 hy0
    simp only at hret hlog hout hp1 hy0
    subst hret
    obtain ⟨hr, hnames, segs, rs, hsl, hrl, hlog2, hres2, hall⟩ := ih (si + 1) w1 out1 hp1
    simp only [scanLoop, hsp]
    refine ⟨hr, ?_, calls :: segs, finishPoint w1.params P.GetName x r0 :: rs,
      by simp [hsl], by simp [hrl], ?_, ?_, ?_⟩
    · rw [hnames, hout]; rfl
    · rw [hlog2, hlog]; simp
    · rw [hres2, hout]; simp [FitResultVector.AddFitResult]
    · intro i hi
      cases i with
      | zero => exact ⟨calls, w1.params, x, r0, by simp, by simp, ⟨y0, hy0⟩, hrec⟩
      | succ i' =>
        obtain ⟨calls', ps', x', r0', hs', hr', ⟨y, hy⟩, hrec'⟩ := hall i' (by omega)
        have : si + 1 + i' = si + (i' + 1) := by omega
        rw [this] at hrec'
        exact ⟨calls', ps', x', r0', by simpa using hs', by simpa using hr',
          ⟨y, by rw [hy, hy0, update_setBlinded_twice]⟩, hrec'⟩

/-- The function `ScanStudies::DoScan` with a fit step that never raises an error, on a `ParameterSet`
that has the scanned parameter: it returns, and each of the `n` grid points has appended
one result, in the order of the grid. -/
theorem DoScan_spec {σ : Type} (fit : FitStep σ ℚ) (P : ScanParam)
    (w : World σ ℚ) (out : FitResultVector ℚ)
    (hfit : ∀ s ps, ∃ r, (fit s ps).1 = .result r)
    (hp : (GetPhysicsParameter P.GetName w.params).isSome) :
    (DoScan fit P w out).1 = .returned ∧
    (DoScan fit P w out).2.2.allNames = out.allNames ∧
    ∃ (segs : List (List (FitCall ℚ))) (rs : List (FitResult ℚ)),
      segs.length = P.GetPoints.toNat ∧ rs.length = P.GetPoints.toNat ∧
      (DoScan fit P w out).2.1.fitLog = w.fitLog ++ segs.flatten ∧
      (DoScan fit P w out).2.2.allResults = out.allResults ++ rs ∧
      ∀ i, i < P.GetPoints.toNat → ∃ calls ps x r0,
        segs[i]? = some calls ∧ rs[i]? = some (finishPoint ps P.GetName x r0) ∧
        (∃ y, ps = update P.GetName (PhysicsParameter.SetBlindedValue y)
          (update P.GetName (PhysicsParameter.SetType "Fixed") w.params)) ∧
        PointRecord P.GetName (gridValue P i) (deltaScan P / 20) calls x r0 := by
  cases hq : GetPhysicsParameter P.GetName w.params with
  | none => simp [hq] at hp
  | some p =>
    have hp0 : (GetPhysicsParameter P.GetName
        ({ w with params := update P.GetName (PhysicsParameter.SetType "Fixed") w.params } :
          World σ ℚ).params).isSome := by
      simp [get_update, hq]
    obtain ⟨hr, hnames, segs, rs, hsl, hrl, hlog, hres, hall⟩ :=
      scanLoop_spec fit P P.GetPoints.toNat 0
        { w with params := update P.GetName (PhysicsParameter.SetType "Fixed") w.params }
        out hfit hp0
    rcases hl : scanLoop fit P P.GetPoints.toNat 0
      { w with params := update P.GetName (PhysicsParameter.SetType "Fixed") w.params } out
      with ⟨e, w1, out1⟩
    rw [hl] at hr hnames hlog hres
    simp only at hr hnames hlog hres
    subst hr
    simp only [DoScan, hq, hl]
    refine ⟨trivial, hnames, segs, rs, hsl, hrl, hlog, hres, ?_⟩
    intro i hi
    obtain ⟨calls, ps, x, r0, h1, h2, hy, h3⟩ := hall i hi
    rw [Nat.zero_add] at h3
    exact ⟨calls, ps, x, r0, h1, h2, hy, h3⟩

/-- Every fit call of the retry loop is made on the `ParameterSet` of the loop's start with
a blinded value written to the scanned parameter. -/
theorem retryLoop_calls {σ : Type} (fit : FitStep σ ℚ) (name : String) (orig step : ℚ)
    (fuel : Nat) (v : RetryVars) (w : World σ ℚ) :
    ∃ calls : List (FitCall ℚ),
      (retryLoop fit name orig step fuel v w).2.2.fitLog = w.fitLog ++ calls ∧
      ∀ c ∈ calls, ∃ x, c.params = update name (PhysicsParameter.SetBlindedValue x) w.params := by
  induction fuel generalizing v w with
  | zero => exact ⟨[], by simp [retryLoop], by simp⟩
  | succ k ih =>
    by_cases h : v.scanStepResult.GetFitStatus = 3
    · rw [retryLoop_done _ _ _ _ _ _ _ h]; exact ⟨[], by simp, by simp⟩
    by_cases hb : (nextTry orig step v).wiggle_step_num ≥ 20
    · rw [retryLoop_break _ _ _ _ _ _ _ h hb]; exact ⟨[], by simp, by simp⟩
    rcases hc : callFit fit (setScanValue name (nextTry orig step v).scanVal w) with ⟨o, w2⟩
    have hw2 := callFit_eq_params hc
    rw [setScanValue_params] at hw2
    obtain ⟨hlog0, _⟩ := callFit_log hc
    have hlog : w2.fitLog = w.fitLog ++
        [⟨(setScanValue name (nextTry orig step v).scanVal w).params, o⟩] := hlog0
    cases o with
    | throws e =>
      rw [retryLoop_throws _ _ _ _ _ _ _ _ _ h hb hc]
      refine ⟨[⟨(setScanValue name (nextTry orig step v).scanVal w).params, .throws e⟩],
        hlog, ?_⟩
      intro c hcm
      rw [List.mem_singleton] at hcm
      subst hcm
      exact ⟨_, rfl⟩
    | result r =>
      rw [retryLoop_result _ _ _ _ _ _ _ _ _ h hb hc]
      obtain ⟨calls, hl, hall⟩ := ih { nextTry orig step v with scanStepResult := r } w2
      refine ⟨⟨(setScanValue name (nextTry orig step v).scanVal w).params, .result r⟩ :: calls,
        by rw [hl, hlog]; simp, ?_⟩
      intro c hcm
      rcases List.mem_cons.1 hcm with hcm | hcm
      · subst hcm; exact ⟨_, rfl⟩
      · obtain ⟨x, hx⟩ := hall c hcm
        exact ⟨x, by rw [hx, hw2, update_setBlinded_twice]⟩

/-- Every fit call of a grid point is made on the `ParameterSet` of the point's start with
a blinded value written to the scanned parameter. -/
theorem scanPoint_calls {σ : Type} (fit : FitStep σ ℚ) (P : ScanParam) (si : Nat)
    (w : World σ ℚ) (out : FitResultVector ℚ) :
    ∃ calls : List (FitCall ℚ),
      (scanPoint fit P si w out).2.1.fitLog = w.fitLog ++ calls ∧
      ∀ c ∈ calls, ∃ x,
        c.params = update P.GetName (PhysicsParameter.SetBlindedValue x) w.params := by
  rcases hc : callFit fit
    (setScanValue P.GetName (P.GetMin + deltaScan P * (si : ℚ)) w) with ⟨o, w2⟩
  have hw2 := callFit_eq_params hc
  rw [setScanValue_params] at hw2
  obtain ⟨hlog0, _⟩ := callFit_log hc
  have hlog : w2.fitLog = w.fitLog ++
      [⟨(setScanValue P.GetName (P.GetMin + deltaScan P * (si : ℚ)) w).params, o⟩] := hlog0
  cases o with
  | throws e =>
    refine ⟨[⟨(setScanValue P.GetName (P.GetMin + deltaScan P * (si : ℚ)) w).params,
      .throws e⟩], ?_, ?_⟩
    · cases e <;> simp only [scanPoint, hc] <;> exact hlog
    · intro c hcm
      rw [List.mem_singleton] at hcm
      subst hcm
      exact ⟨_, rfl⟩
  | result r =>
    obtain ⟨calls, hl, hall⟩ := retryLoop_calls fit P.GetName
      (P.GetMin + deltaScan P * (si : ℚ)) (deltaScan P / 20) retryFuel
      ⟨0, 1, 0, P.GetMin + deltaScan P * (si : ℚ), r⟩ w2
    rcases hr : retryLoop fit P.GetName (P.GetMin + deltaScan P * (si : ℚ))
      (deltaScan P / 20) retryFuel ⟨0, 1, 0, P.GetMin + deltaScan P * (si : ℚ), r⟩ w2
      with ⟨e, v, w3⟩
    rw [hr] at hl
    simp only at hl
    refine ⟨⟨(setScanValue P.GetName (P.GetMin + deltaScan P * (si : ℚ)) w).params,
      .result r⟩ :: calls, ?_, ?_⟩
    · have : (scanPoint fit P si w out).2.1 = w3 := by
        cases e <;> simp only [scanPoint, hc, hr]
      rw [this, hl, hlog]; simp
    · intro c hcm
      rcases List.mem_cons.1 hcm with hcm | hcm
      · subst hcm; exact ⟨_, rfl⟩
      · obtain ⟨x, hx⟩ := hall c hcm
        exact ⟨x, by rw [hx, hw2, update_setBlinded_twice]⟩

/-- What a grid point leaves behind, however control leaves it: its fit calls, each made on
the `ParameterSet` of the point's start with a blinded value written to the scanned
parameter; and either one appended result, the finished result of one of these calls, when
every call returned a result, or no appended result, when a call raised an error. -/
theorem scanPoint_trace {σ : Type} (fit : FitStep σ ℚ) (P : ScanParam) (si : Nat)
    (w : World σ ℚ) (out : FitResultVector ℚ)
    (hp : (GetPhysicsParameter P.GetName w.params).isSome) :
    ∃ calls : List (FitCall ℚ),
      (scanPoint fit P si w out).2.1.fitLog = w.fitLog ++ calls ∧
      (∀ c ∈ calls, ∃ x,
        c.params = update P.GetName (PhysicsParameter.SetBlindedValue x) w.params) ∧
      (((scanPoint fit P si w out).1 = .returned ∧
          (∀ c ∈ calls, ∃ r, c.outcome = .result r) ∧
          ∃ x r0, (scanPoint fit P si w out).2.2 = out.AddFitResult
              (finishPoint (scanPoint fit P si w out).2.1.params P.GetName x r0) ∧
            ∃ c ∈ calls, c.outcome = .result r0) ∨
        ((scanPoint fit P si w out).1 ≠ .returned ∧
          (∃ c ∈ calls, ∃ e, c.outcome = .throws e) ∧
          (scanPoint fit P si w out).2.2 = out)) := by
  obtain ⟨calls, hlog, hpar⟩ := scanPoint_calls fit P si w out
  obtain ⟨calls', hlog', _, _, _, _, hne, hres⟩ := scanPoint_spec fit P si w out hp
  have hcc : calls' = calls := List.append_cancel_left (hlog'.symm.trans hlog)
  subst hcc
  refine ⟨calls', hlog, hpar, ?_⟩
  by_cases hret : (scanPoint fit P si w out).1 = .returned
  · obtain ⟨hall, x, r0, hout, hlast, _, _⟩ := hres hret
    refine Or.inl ⟨hret, hall, x, r0, hout, ?_⟩
    cases hgl : calls'.getLast? with
    | none => rw [hgl] at hlast; cases hlast
    | some c =>
      rw [hgl] at hlast
      simp only [Option.map_some', Option.some.injEq] at hlast
      exact ⟨c, List.mem_of_getLast?_eq_some hgl, hlast⟩
  · exact Or.inr ⟨hret, (hne hret).1, (hne hret).2⟩

/-- What the scan loop leaves behind, however control leaves it: the fit calls made, each
on the `ParameterSet` of the loop's start with a blinded value written to the scanned
parameter, and the appended results, each the finished result of one of these calls.
The loop runs to its end exactly when every call returned a result, and then it has
appended one result per grid point; otherwise a call raised an error and fewer results
were appended. -/
theorem scanLoop_trace {σ : Type} (fit : FitStep σ ℚ) (P : ScanParam) (todo si : Nat)
    (w : World σ ℚ) (out : FitResultVector ℚ)
    (hp : (GetPhysicsParameter P.GetName w.params).isSome) :
    ∃ (calls : List (FitCall ℚ)) (rs : List (FitResult ℚ)),
      (scanLoop fit P todo si w out).2.1.fitLog = w.fitLog ++ calls ∧
      (scanLoop fit P todo si w out).2.2.allResults = out.allResults ++ rs ∧
      (∀ c ∈ calls, ∃ x,
        c.params = update P.GetName (PhysicsParameter.SetBlindedValue x) w.params) ∧
      (∀ r ∈ rs, ∃ ps x r0, r = finishPoint ps P.GetName x r0 ∧
        (∃ y, ps = update P.GetName (PhysicsParameter.SetBlindedValue y) w.params) ∧
        ∃ c ∈ calls, c.outcome = .result r0) ∧
      ((scanLoop fit P todo si w out).1 = .returned →
        (∀ c ∈ calls, ∃ r, c.outcome = .result r) ∧ rs.length = todo) ∧
      ((scanLoop fit P todo si w out).1 ≠ .returned →
        (∃ c ∈ calls, ∃ e, c.outcome = .throws e) ∧ rs.length < todo) := by
  induction todo generalizing si w out with
  | zero =>
    exact ⟨[], [], by simp [scanLoop], by simp [scanLoop], by simp, by simp,
      fun _ => ⟨by simp, rfl⟩, fun h => absurd rfl h⟩
  | succ k ih =>
    obtain ⟨calls1, hlog1, hpar1, hcase⟩ := scanPoint_trace fit P si w out hp
    have hp1 := scanPoint_isSome fit P si w out hp
    obtain ⟨y0, hy0⟩ := scanPoint_params fit P si w out
    rcases hsp : scanPoint fit P si w out with ⟨e, w1, out1⟩
    rw [hsp] at hlog1 hcase hp1 hy0
    simp only at hlog1 hcase hp1 hy0
    rcases hcase with ⟨hret, hall1, x, r0, hout, c0, hc0, hc0r⟩ | ⟨hne, hthrow, hout⟩
    · subst hret
      obtain ⟨calls2, rs2, hlog2, hres2, hpar2, hrs2, hok2, hbad2⟩ := ih (si + 1) w1 out1 hp1
      simp only [scanLoop, hsp]
      refine ⟨calls1 ++ calls2, finishPoint w1.params P.GetName x r0 :: rs2, ?_, ?_, ?_, ?_,
        ?_, ?_⟩
      · rw [hlog2, hlog1]; simp
      · rw [hres2, hout]; simp [FitResultVector.AddFitResult]
      · intro c hc
        rcases List.mem_append.1 hc with hc | hc
        · exact hpar1 c hc
        · obtain ⟨x', hx'⟩ := hpar2 c hc
          exact ⟨x', by rw [hx', hy0, update_setBlinded_twice]⟩
      · intro r hr
        rcases List.mem_cons.1 hr with hr | hr
        · subst hr
          exact ⟨w1.params, x, r0, rfl, ⟨y0, hy0⟩, c0, List.mem_append_left _ hc0, hc0r⟩
        · obtain ⟨ps, x', r0', h1, ⟨y, hy⟩, c, hc, hcr⟩ := hrs2 r hr
          exact ⟨ps, x', r0', h1, ⟨y, by rw [hy, hy0, update_setBlinded_twice]⟩, c,
            List.mem_append_right _ hc, hcr⟩
      · intro hr
        obtain ⟨a1, a2⟩ := hok2 hr
        refine ⟨?_, by simp [a2]⟩
        intro c hc
        rcases List.mem_append.1 hc with hc | hc
        · exact hall1 c hc
        · exact a1 c hc
      · intro hr
        obtain ⟨⟨c, hc, e, he⟩, a2⟩ := hbad2 hr
        exact ⟨⟨c, List.mem_append_right _ hc, e, he⟩, by simp only [List.length_cons]; omega⟩
    · have hloop : scanLoop fit P (k + 1) si w out = (e, w1, out1) := by
        cases e <;> simp_all [scanLoop]
      rw [hloop]
      refine ⟨calls1, [], hlog1, by rw [hout]; simp, hpar1, by simp, ?_, ?_⟩
      · intro hr; exact absurd hr hne
      · intro _; exact ⟨hthrow, by simp⟩

/-- What `ScanStudies::DoScan` leaves behind on a `ParameterSet` that has the scanned
parameter, however control leaves it: during the scan the scanned parameter is fixed, at
every fit call and in every `ParameterSet` that a result is finished with. -/
theorem DoScan_trace {σ : Type} (fit : FitStep σ ℚ) (P : ScanParam)
    (w : World σ ℚ) (out : FitResultVector ℚ)
    (hp : (GetPhysicsParameter P.GetName w.params).isSome) :
    ∃ (calls : List (FitCall ℚ)) (rs : List (FitResult ℚ)),
      (DoScan fit P w out).2.1.fitLog = w.fitLog ++ calls ∧
      (DoScan fit P w out).2.2.allResults = out.allResults ++ rs ∧
      (∀ c ∈ calls, ∃ x,
        c.params = update P.GetName (PhysicsParameter.SetBlindedValue x)
          (update P.GetName (PhysicsParameter.SetType "Fixed") w.params)) ∧
      (∀ r ∈ rs, ∃ ps x r0, r = finishPoint ps P.GetName x r0 ∧
        (∃ y, ps = update P.GetName (PhysicsParameter.SetBlindedValue y)
          (update P.GetName (PhysicsParameter.SetType "Fixed") w.params)) ∧
        ∃ c ∈ calls, c.outcome = .result r0) ∧
      ((DoScan fit P w out).1 = .returned →
        (∀ c ∈ calls, ∃ r, c.outcome = .result r) ∧ rs.length = P.GetPoints.toNat) ∧
      ((DoScan fit P w out).1 ≠ .returned →
        (∃ c ∈ calls, ∃ e, c.outcome = .throws e) ∧ rs.length < P.GetPoints.toNat ∧
        ∃ x, (DoScan fit P w out).2.1.params =
          update P.GetName (PhysicsParameter.SetBlindedValue x)
            (update P.GetName (PhysicsParameter.SetType "Fixed") w.params)) := by
  cases hq : GetPhysicsParameter P.GetName w.params with
  | none => simp [hq] at hp
  | some p =>
    have hp0 : (GetPhysicsParameter P.GetName
        ({ w with params := update P.GetName (PhysicsParameter.SetType "Fixed") w.params } :
          World σ ℚ).params).isSome := by
      simp [get_update, hq]
    obtain ⟨calls, rs, hlog, hres, hpar, hrs, hok, hbad⟩ :=
      scanLoop_trace fit P P.GetPoints.toNat 0
        { w with params := update P.GetName (PhysicsParameter.SetType "Fixed") w.params }
        out hp0
    have hpl := scanLoop_params fit P P.GetPoints.toNat 0
        { w with params := update P.GetName (PhysicsParameter.SetType "Fixed") w.params } out
    rcases hl : scanLoop fit P P.GetPoints.toNat 0
      { w with params := update P.GetName (PhysicsParameter.SetType "Fixed") w.params } out
      with ⟨e, w1, out1⟩
    rw [hl] at hlog hres hok hbad hpl
    simp only at hlog hres hok hbad hpl
    by_cases he : e = .returned
    · subst he
      simp only [DoScan, hq, hl]
      exact ⟨calls, rs, hlog, hres, hpar, hrs, fun _ => hok rfl, fun h => absurd rfl h⟩
    · have hd : DoScan fit P w out = (e, w1, out1) := by
        cases e <;> simp_all [DoScan]
      rw [hd]
      refine ⟨calls, rs, hlog, hres, hpar, hrs, fun h => absurd h he, fun _ => ?_⟩
      obtain ⟨⟨c, hc, err, herr⟩, hlen⟩ := hbad he
      refine ⟨⟨c, hc, err, herr⟩, hlen, ?_⟩
      rcases hpl with hpl | ⟨x, hx⟩
      · refine ⟨p.blindedValue, ?_⟩
        rw [hpl, update_update]
        exact update_congr _ _ _ _ p hq rfl
      · exact ⟨x, hx⟩

/-- Writing back the original type and blinded value undoes every write of a scan. -/
theorem restore_eq {V : Type} (name : String) (ps ps1 : ParameterSet V) (p : PhysicsParameter V)
    (hp : GetPhysicsParameter name ps = some p)
    (h1 : ps1 = update name (PhysicsParameter.SetType "Fixed") ps ∨
      ∃ x, ps1 = update name (PhysicsParameter.SetBlindedValue x)
        (update name (PhysicsParameter.SetType "Fixed") ps)) :
    update name (PhysicsParameter.SetBlindedValue p.GetBlindedValue)
      (update name (PhysicsParameter.SetType p.GetType) ps1) = ps := by
  rcases h1 with h1 | ⟨x, h1⟩
  · rw [h1, update_update, update_update]
    exact update_self _ _ _ p hp rfl
  · rw [h1, update_update, update_update, update_update]
    exact update_self _ _ _ p hp rfl

/-- When `ScanStudies::DoScan` returns, the `ParameterSet` is the one it was called with. -/
theorem DoScan_restores {σ : Type} (fit : FitStep σ ℚ) (P : ScanParam)
    (w : World σ ℚ) (out : FitResultVector ℚ)
    (h : (DoScan fit P w out).1 = .returned) :
    (DoScan fit P w out).2.1.params = w.params := by
  cases hp : GetPhysicsParameter P.GetName w.params with
  | none => simp [DoScan, hp] at h
  | some p =>
    rcases hl : scanLoop fit P P.GetPoints.toNat 0
      { w with params := update P.GetName (PhysicsParameter.SetType "Fixed") w.params } out
      with ⟨e, w1, out1⟩
    have h1 := scanLoop_params fit P P.GetPoints.toNat 0
      { w with params := update P.GetName (PhysicsParameter.SetType "Fixed") w.params } out
    rw [hl] at h1
    cases e with
    | returned =>
      simp only [DoScan, hp, hl]
      exact restore_eq _ _ _ p hp h1
    | exited c => simp [DoScan, hp, hl] at h
    | threw c => simp [DoScan, hp, hl] at h
    | noSuchParameter => simp [DoScan, hp, hl] at h
    | outOfFuel => simp [DoScan, hp, hl] at h

theorem reinject_names_mono (params : ParameterSet ℚ) (Fit_List Fixed_List : List String)
    (rs : ResultParameterSet ℚ) (n : String) (h : n ∈ rs.GetAllNames) :
    n ∈ (reinjectFixed params Fit_List Fixed_List rs).GetAllNames := by
  induction Fixed_List generalizing rs with
  | nil => exact h
  | cons f rest ih =>
    by_cases hf : Fit_List.any (fun fitName => fitName == f) = true
    · simp only [reinjectFixed, hf, Bool.not_true, Bool.false_eq_true, if_false]
      exact ih rs h
    · simp only [reinjectFixed, hf, Bool.not_false, if_true]
      cases hq : GetPhysicsParameter f params with
      | none => simp only []; exact ih rs h
      | some q =>
        simp only []
        exact ih _ ((ResultParameterSet.names_ForceNew _ _ _ _ _ _ _ _ rs).2 n h)

/-- After the re-injection every fixed parameter of the set has an entry in the result. -/
theorem reinject_has (params : ParameterSet ℚ) (Fit_List Fixed_List : List String)
    (rs : ResultParameterSet ℚ) (f : String) (hf : f ∈ Fixed_List)
    (hp : (GetPhysicsParameter f params).isSome)
    (hsub : ∀ n ∈ Fit_List, n ∈ rs.GetAllNames) :
    f ∈ (reinjectFixed params Fit_List Fixed_List rs).GetAllNames := by
  induction Fixed_List generalizing rs with
  | nil => simp at hf
  | cons g rest ih =>
    have hmono : ∀ rs' : ResultParameterSet ℚ, (∀ n ∈ rs.GetAllNames, n ∈ rs'.GetAllNames) →
        ∀ n ∈ Fit_List, n ∈ rs'.GetAllNames := fun rs' h n hn => h n (hsub n hn)
    rcases List.mem_cons.1 hf with hfg | hfr
    · subst hfg
      by_cases hfound : Fit_List.any (fun fitName => fitName == f) = true
      · have hmem : f ∈ Fit_List := by
          rw [List.any_eq_true] at hfound
          obtain ⟨n, hn, hnf⟩ := hfound
          have : n = f := by simpa using hnf
          rw [← this]; exact hn
        simp only [reinjectFixed, hfound, Bool.not_true, Bool.false_eq_true, if_false]
        exact reinject_names_mono _ _ _ _ _ (hsub f hmem)
      · simp only [reinjectFixed, hfound, Bool.not_false, if_true]
        cases hq : GetPhysicsParameter f params with
        | none => simp [hq] at hp
        | some q =>
          simp only []
          exact reinject_names_mono _ _ _ _ _
            (ResultParameterSet.names_ForceNew _ _ _ _ _ _ _ _ rs).1
    · by_cases hfound : Fit_List.any (fun fitName => fitName == g) = true
      · simp only [reinjectFixed, hfound, Bool.not_true, Bool.false_eq_true, if_false]
        exact ih rs hfr hsub
      · simp only [reinjectFixed, hfound, Bool.not_false, if_true]
        cases hq : GetPhysicsParameter g params with
        | none => simp only []; exact ih rs hfr hsub
        | some q =>
          simp only []
          exact ih _ hfr (hmono _ (ResultParameterSet.names_ForceNew _ _ _ _ _ _ _ _ rs).2)

/-- A finished point has an entry for every parameter that is fixed in the set. -/
theorem finishPoint_hasFixed (params : ParameterSet ℚ) (name a : String) (x : ℚ)
    (r0 : FitResult ℚ) (h : ∃ p, GetPhysicsParameter a params = some p ∧ p.type = "Fixed") :
    a ∈ (finishPoint params name x r0).GetResultParameterSet.GetAllNames := by
  obtain ⟨p, hp, ht⟩ := h
  simp only [finishPoint, FitResult.GetResultParameterSet]
  rw [ResultParameterSet.names_SetScanStatus]
  exact reinject_has _ _ _ _ a (mem_fixedNames a params p hp ht) (by simp [hp])
    (fun n hn => hn)

/-- The entry that `DoScan2D` writes for the outer parameter into a result that has an
entry of that name. -/
theorem stampOuter_entry (a : String) (v : ℚ) (t u : String) (r : FitResult ℚ)
    (h : a ∈ r.GetResultParameterSet.GetAllNames) :
    (stampOuter a v t u r).GetResultParameterSet.GetResultParameter a =
      some ⟨v, v, 0, v, v, t, u, true⟩ := by
  have h' : a ∈ ResultParameterSet.GetAllNames r.resultParameterSet := h
  simp only [stampOuter, FitResult.GetResultParameterSet]
  rw [ResultParameterSet.get_SetScanStatus,
    ResultParameterSet.get_SetResultParameter _ _ _ _ _ _ _ _ _ h']
  rfl

/-- Every result of an inner scan has an entry for each parameter that was fixed when the
scan began. -/
theorem DoScan_results_haveFixed {σ : Type} (fit : FitStep σ ℚ) (P : ScanParam)
    (w : World σ ℚ) (out : FitResultVector ℚ) (a : String)
    (hfit : ∀ s ps, ∃ r, (fit s ps).1 = .result r)
    (hp : (GetPhysicsParameter P.GetName w.params).isSome)
    (ha : ∃ p, GetPhysicsParameter a w.params = some p ∧ p.type = "Fixed") :
    (DoScan fit P w out).1 = .returned ∧
    (DoScan fit P w out).2.2.allNames = out.allNames ∧
    ∃ rs : List (FitResult ℚ),
      (DoScan fit P w out).2.2.allResults = out.allResults ++ rs ∧
      rs.length = P.GetPoints.toNat ∧
      ∀ r ∈ rs, a ∈ r.GetResultParameterSet.GetAllNames := by
  obtain ⟨hret, hnames, segs, rs, _, hrl, _, hres, hall⟩ := DoScan_spec fit P w out hfit hp
  refine ⟨hret, hnames, rs, hres, hrl, ?_⟩
  intro r hr
  obtain ⟨i, hi⟩ := List.getElem?_of_mem hr
  have hlt : i < P.GetPoints.toNat := by
    obtain ⟨h, _⟩ := List.getElem?_eq_some.1 hi
    omega
  obtain ⟨calls, ps, x, r0, _, hri, ⟨y, hy⟩, _⟩ := hall i hlt
  rw [hi] at hri
  simp only [Option.some.injEq] at hri
  subst hri
  apply finishPoint_hasFixed
  rw [hy]
  exact fixed_update a P.GetName (PhysicsParameter.SetBlindedValue y) _ (fun q => Or.inl rfl)
    (fixed_update a P.GetName (PhysicsParameter.SetType "Fixed") _ (fun q => Or.inr rfl) ha)

/-- The outer loop of `DoScan2D` with a fit step that never raises an error: it runs to its
end and each outer grid point appends one vector, which holds one result per inner grid
point; every result of the vector of outer index `si + j` has the outer grid value of that
index as the value of the outer parameter, marked as used in the scan. -/
theorem scanLoop2D_spec {σ : Type} (fit : FitStep σ ℚ) (PP : ScanParam × ScanParam)
    (names : List String) (delta : ℚ) (todo si : Nat)
    (w : World σ ℚ) (out : List (FitResultVector ℚ))
    (hfit : ∀ s ps, ∃ r, (fit s ps).1 = .result r)
    (ha : ∃ p, GetPhysicsParameter PP.1.GetName w.params = some p ∧ p.type = "Fixed")
    (hb : (GetPhysicsParameter PP.2.GetName w.params).isSome) :
    (scanLoop2D fit PP names delta todo si w out).1 = .returned ∧
    ∃ vecs : List (FitResultVector ℚ),
      (scanLoop2D fit PP names delta todo si w out).2.2 = out ++ vecs ∧
      vecs.length = todo ∧
      ∀ j, j < todo → ∃ vec, vecs[j]? = some vec ∧ vec.allNames = names ∧
        vec.allResults.length = PP.2.GetPoints.toNat ∧
        ∀ r ∈ vec.allResults,
          (r.GetResultParameterSet.GetResultParameter PP.1.GetName).map
              (fun e => (e.value, e.scanStatus)) =
            some (PP.1.GetMin + ((si + j : Nat) : ℚ) * delta, true) := by
  induction todo generalizing si w out with
  | zero => exact ⟨rfl, [], by simp [scanLoop2D], rfl, by simp⟩
  | succ k ih =>
    have ha1 : ∃ p, GetPhysicsParameter PP.1.GetName
        (setScanValue PP.1.GetName (PP.1.GetMin + (si : ℚ) * delta) w).params = some p ∧
        p.type = "Fixed" := by
      rw [setScanValue_params]
      exact fixed_update _ _ _ _ (fun q => Or.inl rfl) ha
    have hb1 : (GetPhysicsParameter PP.2.GetName
        (setScanValue PP.1.GetName (PP.1.GetMin + (si : ℚ) * delta) w).params).isSome := by
      rw [setScanValue_params]
      exact isSome_update _ _ _ _ hb
    obtain ⟨hret, hnames, rs, hres, hrl, hmem⟩ :=
      DoScan_results_haveFixed fit PP.2
        (setScanValue PP.1.GetName (PP.1.GetMin + (si : ℚ) * delta) w)
        (FitResultVector.new names) PP.1.GetName hfit hb1 ha1
    have hrest := DoScan_restores fit PP.2
      (setScanValue PP.1.GetName (PP.1.GetMin + (si : ℚ) * delta) w)
      (FitResultVector.new names) hret
    rcases hd : DoScan fit PP.2 (setScanValue PP.1.GetName (PP.1.GetMin + (si : ℚ) * delta) w)
      (FitResultVector.new names) with ⟨e, w2, R⟩
    rw [hd] at hret hnames hres hrest
    simp only at hret hnames hres hrest
    subst hret
    have ha2 : ∃ p, GetPhysicsParameter PP.1.GetName w2.params = some p ∧ p.type = "Fixed" := by
      rw [hrest]; exact ha1
    have hb2 : (GetPhysicsParameter PP.2.GetName w2.params).isSome := by
      rw [hrest]; exact hb1
    simp only [scanLoop2D, hd]
    obtain ⟨hr, vecs, hout, hvl, hall⟩ := ih (si + 1) w2
      (out ++ [(⟨R.allNames, R.allResults.map
        (stampOuter PP.1.GetName (PP.1.GetMin + (si : ℚ) * delta)
          (w2.params.typeOf PP.1.GetName) (w2.params.unitOf PP.1.GetName))⟩ :
            FitResultVector ℚ)]) ha2 hb2
    have hRs : R.allResults = rs := by simpa [FitResultVector.new] using hres
    refine ⟨hr, (⟨R.allNames, R.allResults.map
        (stampOuter PP.1.GetName (PP.1.GetMin + (si : ℚ) * delta)
          (w2.params.typeOf PP.1.GetName) (w2.params.unitOf PP.1.GetName))⟩ :
            FitResultVector ℚ) :: vecs, by rw [hout]; simp, by simp [hvl], ?_⟩
    intro j hj
    cases j with
    | zero =>
      refine ⟨(⟨R.allNames, R.allResults.map
        (stampOuter PP.1.GetName (PP.1.GetMin + (si : ℚ) * delta)
          (w2.params.typeOf PP.1.GetName) (w2.params.unitOf PP.1.GetName))⟩ :
            FitResultVector ℚ), by simp, hnames, by simp [hRs, hrl], ?_⟩
      intro r hr
      simp only [hRs, List.mem_map] at hr
      obtain ⟨r', hr', hreq⟩ := hr
      rw [← hreq, stampOuter_entry _ _ _ _ _ (hmem r' hr')]
      simp
    | succ j' =>
      obtain ⟨vec, hv, hn, hl, hval⟩ := hall j' (by omega)
      refine ⟨vec, by simpa using hv, hn, hl, ?_⟩
      intro r hr
      rw [hval r hr]
      have : si + 1 + j' = si + (j' + 1) := by omega
      rw [this]

/-- The function `ScanStudies::DoScan2D` with a fit step that never raises an error, on a `ParameterSet`
that has both scanned parameters. -/
theorem DoScan2D_spec {σ : Type} (fit : FitStep σ ℚ) (PP : ScanParam × ScanParam)
    (w : World σ ℚ) (out : List (FitResultVector ℚ))
    (hfit : ∀ s ps, ∃ r, (fit s ps).1 = .result r)
    (ha : (GetPhysicsParameter PP.1.GetName w.params).isSome)
    (hb : (GetPhysicsParameter PP.2.GetName w.params).isSome) :
    (DoScan2D fit PP w out).1 = .returned ∧
    ∃ vecs : List (FitResultVector ℚ),
      (DoScan2D fit PP w out).2.2 = out ++ vecs ∧
      vecs.length = PP.1.GetPoints.toNat ∧
      ∀ j, j < PP.1.GetPoints.toNat → ∃ vec, vecs[j]? = some vec ∧
        vec.allNames = w.params.GetAllNames ∧
        vec.allResults.length = PP.2.GetPoints.toNat ∧
        ∀ r ∈ vec.allResults,
          (r.GetResultParameterSet.GetResultParameter PP.1.GetName).map
              (fun e => (e.value, e.scanStatus)) = some (gridValue PP.1 j, true) := by
  cases hq : GetPhysicsParameter PP.1.GetName w.params with
  | none => simp [hq] at ha
  | some p =>
    have ha0 : ∃ q, GetPhysicsParameter PP.1.GetName
        ({ w with params := update PP.1.GetName (PhysicsParameter.SetType "Fixed") w.params } :
          World σ ℚ).params = some q ∧ q.type = "Fixed" :=
      ⟨PhysicsParameter.SetType "Fixed" p, by simp [get_update, hq], rfl⟩
    have hb0 : (GetPhysicsParameter PP.2.GetName
        ({ w with params := update PP.1.GetName (PhysicsParameter.SetType "Fixed") w.params } :
          World σ ℚ).params).isSome := isSome_update _ _ _ _ hb
    obtain ⟨hr, vecs, hout, hvl, hall⟩ :=
      scanLoop2D_spec fit PP w.params.GetAllNames (deltaScan PP.1) PP.1.GetPoints.toNat 0
        { w with params := update PP.1.GetName (PhysicsParameter.SetType "Fixed") w.params }
        out hfit ha0 hb0
    rcases hl : scanLoop2D fit PP w.params.GetAllNames (deltaScan PP.1) PP.1.GetPoints.toNat 0
      { w with params := update PP.1.GetName (PhysicsParameter.SetType "Fixed") w.params } out
      with ⟨e, w1, out1⟩
    rw [hl] at hr hout
    simp only at hr hout
    subst hr
    simp only [DoScan2D, hq, hl]
    refine ⟨trivial, vecs, hout, hvl, ?_⟩
    intro j hj
    obtain ⟨vec, h1, h2, h3, h4⟩ := hall j hj
    refine ⟨vec, h1, h2, h3, ?_⟩
    intro r hr
    rw [h4 r hr, Nat.zero_add, mul_comm, gridValue_eq]

/-- The outer loop of `DoScan2D`, when it runs to its end, leaves the `ParameterSet` as it
found it, up to the blinded value of the outer parameter. -/
theorem scanLoop2D_params {σ : Type} (fit : FitStep σ ℚ) (PP : ScanParam × ScanParam)
    (names : List String) (delta : ℚ) (todo si : Nat)
    (w : World σ ℚ) (out : List (FitResultVector ℚ))
    (h : (scanLoop2D fit PP names delta todo si w out).1 = .returned) :
    (scanLoop2D fit PP names delta todo si w out).2.1.params = w.params ∨
    ∃ x, (scanLoop2D fit PP names delta todo si w out).2.1.params =
      update PP.1.GetName (PhysicsParameter.SetBlindedValue x) w.params := by
  induction todo generalizing si w out with
  | zero => exact Or.inl rfl
  | succ k ih =>
    rcases hd : DoScan fit PP.2 (setScanValue PP.1.GetName (PP.1.GetMin + (si : ℚ) * delta) w)
      (FitResultVector.new names) with ⟨e, w2, R⟩
    have hr := DoScan_restores fit PP.2
      (setScanValue PP.1.GetName (PP.1.GetMin + (si : ℚ) * delta) w) (FitResultVector.new names)
    rw [hd] at hr
    cases e with
    | returned =>
      have hw2 : w2.params = update PP.1.GetName
          (PhysicsParameter.SetBlindedValue (PP.1.GetMin + (si : ℚ) * delta)) w.params := hr rfl
      simp only [scanLoop2D, hd] at h ⊢
      rcases ih _ _ _ h with h3 | ⟨y, h3⟩
      · exact Or.inr ⟨_, h3.trans hw2⟩
      · exact Or.inr ⟨y, by rw [h3, hw2, update_setBlinded_twice]⟩
    | exited c => simp [scanLoop2D, hd] at h
    | threw c => simp [scanLoop2D, hd] at h
    | noSuchParameter => simp [scanLoop2D, hd] at h
    | outOfFuel => simp [scanLoop2D, hd] at h

/-- When `ScanStudies::DoScan2D` returns, the `ParameterSet` is the one it was called
with. -/
theorem DoScan2D_restores {σ : Type} (fit : FitStep σ ℚ) (PP : ScanParam × ScanParam)
    (w : World σ ℚ) (out : List (FitResultVector ℚ))
    (h : (DoScan2D fit PP w out).1 = .returned) :
    (DoScan2D fit PP w out).2.1.params = w.params := by
  cases hp : GetPhysicsParameter PP.1.GetName w.params with
  | none => simp [DoScan2D, hp] at h
  | some p =>
    rcases hl : scanLoop2D fit PP w.params.GetAllNames (deltaScan PP.1) PP.1.GetPoints.toNat 0
      { w with params := update PP.1.GetName (PhysicsParameter.SetType "Fixed") w.params } out
      with ⟨e, w1, out1⟩
    have h1 := scanLoop2D_params fit PP w.params.GetAllNames (deltaScan PP.1)
      PP.1.GetPoints.toNat 0
      { w with params := update PP.1.GetName (PhysicsParameter.SetType "Fixed") w.params } out
    rw [hl] at h1
    cases e with
    | returned =>
      simp only [DoScan2D, hp, hl]
      exact restore_eq _ _ _ p hp (h1 rfl)
    | exited c => simp [DoScan2D, hp, hl] at h
    | threw c => simp [DoScan2D, hp, hl] at h
    | noSuchParameter => simp [DoScan2D, hp, hl] at h
    | outOfFuel => simp [DoScan2D, hp, hl] at h

end ScanStudies

namespace FitAssembler

open ParameterSet

theorem assembler_scanPoint_params {σ : Type} (fit : FitStep σ Dbl) (L : Dbl) (blank : ResultParameter Dbl)
    (P : ScanParam) (delta : Dbl) (si : Nat) (w : World σ Dbl) (out : FitResultVector Dbl) :
    ∃ x, (scanPoint fit L blank P delta si w out).1.params =
      update P.GetName (PhysicsParameter.SetBlindedValue x) w.params :=
  ⟨_, rfl⟩

theorem assembler_scanLoop_params {σ : Type} (fit : FitStep σ Dbl) (L : Dbl) (blank : ResultParameter Dbl)
    (P : ScanParam) (delta : Dbl) (todo si : Nat) (w : World σ Dbl)
    (out : FitResultVector Dbl) :
    (scanLoop fit L blank P delta todo si w out).1.params = w.params ∨
    ∃ x, (scanLoop fit L blank P delta todo si w out).1.params =
      update P.GetName (PhysicsParameter.SetBlindedValue x) w.params := by
  induction todo generalizing si w out with
  | zero => exact Or.inl rfl
  | succ k ih =>
    obtain ⟨x, hx⟩ := assembler_scanPoint_params fit L blank P delta si w out
    simp only [scanLoop]
    rcases ih (si + 1) (scanPoint fit L blank P delta si w out).1
      (scanPoint fit L blank P delta si w out).2 with h | ⟨y, h⟩
    · exact Or.inr ⟨x, h.trans hx⟩
    · exact Or.inr ⟨y, by rw [h, hx, update_setBlinded_twice]⟩

/-- When `FitAssembler::DoScan` returns, the `ParameterSet` is the one it was called
with. -/
theorem assembler_DoScan_restores {σ : Type} (fit : FitStep σ Dbl) (L : Dbl) (blank : ResultParameter Dbl)
    (P : ScanParam) (w : World σ Dbl) (out : FitResultVector Dbl)
    (h : (DoScan fit L blank P w out).1 = .returned) :
    (DoScan fit L blank P w out).2.1.params = w.params := by
  cases hp : GetPhysicsParameter P.GetName w.params with
  | none => simp [DoScan, hp] at h
  | some p =>
    have h1 := assembler_scanLoop_params fit L blank P (deltaScan P) P.GetPoints.toNat 0
      { w with params := update P.GetName (PhysicsParameter.SetType "Fixed") w.params } out
    simp only [DoScan, hp]
    exact ScanStudies.restore_eq _ _ _ p hp h1

/-- What a grid point of `FitAssembler::DoScan` does: one fit call, on a `ParameterSet` of
the same names, and one appended result, which is the synthetic failure result when the
fit raised an error and carries the fit's status and minimum when it returned. -/
theorem assembler_scanPoint_spec {σ : Type} (fit : FitStep σ Dbl) (L : Dbl)
    (blank : ResultParameter Dbl) (P : ScanParam) (delta : Dbl) (si : Nat) (w : World σ Dbl)
    (out : FitResultVector Dbl) :
    ∃ (c : FitCall Dbl) (r : FitResult Dbl),
      (scanPoint fit L blank P delta si w out).1.fitLog = w.fitLog ++ [c] ∧
      (scanPoint fit L blank P delta si w out).2.allResults = out.allResults ++ [r] ∧
      (scanPoint fit L blank P delta si w out).2.allNames = out.allNames ∧
      c.params.GetAllNames = w.params.GetAllNames ∧
      (∃ s, (fit s c.params).1 = c.outcome) ∧
      (∀ e, c.outcome = .throws e →
        r.GetMinimumValue = L ∧ r.GetFitStatus = -1 ∧
        r.GetResultParameterSet.GetAllNames = w.params.GetAllNames) ∧
      (∀ r0, c.outcome = .result r0 →
        r.GetMinimumValue = r0.GetMinimumValue ∧ r.GetFitStatus = r0.GetFitStatus) := by
  refine ⟨⟨update P.GetName (PhysicsParameter.SetBlindedValue
      (Dbl.add (Dbl.finite P.GetMin) (Dbl.mul (Dbl.finite (si : ℚ)) delta))) w.params,
    (fit w.fitState (update P.GetName (PhysicsParameter.SetBlindedValue
      (Dbl.add (Dbl.finite P.GetMin) (Dbl.mul (Dbl.finite (si : ℚ)) delta))) w.params)).1⟩,
    _, rfl, rfl, rfl, names_update _ _ _, ⟨_, rfl⟩, ?_, ?_⟩
  · intro e he
    simp only at he
    simp only [callFit, he]
    cases e <;>
      exact ⟨rfl, rfl, by
        simp only [FitResult.GetResultParameterSet, failureResult, dummyFitResults,
          ResultParameterSet.names_SetResultParameter]
        simp only [ResultParameterSet.GetAllNames, List.map_map]
        rw [← names_update P.GetName (PhysicsParameter.SetBlindedValue
          (Dbl.add (Dbl.finite P.GetMin) (Dbl.mul (Dbl.finite (si : ℚ)) delta))) w.params]
        simp [ParameterSet.GetAllNames, Function.comp]⟩
  · intro r0 he
    simp only at he
    simp only [callFit, he]
    exact ⟨rfl, rfl⟩

/-- The scan loop of `FitAssembler::DoScan`: one fit call and one appended result per grid
point, in order. -/
theorem assembler_scanLoop_spec {σ : Type} (fit : FitStep σ Dbl) (L : Dbl)
    (blank : ResultParameter Dbl) (P : ScanParam) (delta : Dbl) (todo si : Nat)
    (w : World σ Dbl) (out : FitResultVector Dbl) :
    ∃ (calls : List (FitCall Dbl)) (rs : List (FitResult Dbl)),
      calls.length = todo ∧ rs.length = todo ∧
      (scanLoop fit L blank P delta todo si w out).1.fitLog = w.fitLog ++ calls ∧
      (scanLoop fit L blank P delta todo si w out).2.allResults = out.allResults ++ rs ∧
      (scanLoop fit L blank P delta todo si w out).2.allNames = out.allNames ∧
      ∀ i, i < todo → ∃ c r, calls[i]? = some c ∧ rs[i]? = some r ∧
        (∃ s, (fit s c.params).1 = c.outcome) ∧
        (∀ e, c.outcome = .throws e →
          r.GetMinimumValue = L ∧ r.GetFitStatus = -1 ∧
          r.GetResultParameterSet.GetAllNames = w.params.GetAllNames) ∧
        (∀ r0, c.outcome = .result r0 →
          r.GetMinimumValue = r0.GetMinimumValue ∧ r.GetFitStatus = r0.GetFitStatus) := by
  induction todo generalizing si w out with
  | zero => exact ⟨[], [], rfl, rfl, by simp [scanLoop], by simp [scanLoop], rfl, by simp⟩
  | succ k ih =>
    obtain ⟨c, r, hlog, hres, hnm, hcn, hfit, hthrow, hok⟩ :=
      assembler_scanPoint_spec fit L blank P delta si w out
    obtain ⟨x, hx⟩ := assembler_scanPoint_params fit L blank P delta si w out
    obtain ⟨calls, rs, hcl, hrl, hlog2, hres2, hnm2, hall⟩ :=
      ih (si + 1) (scanPoint fit L blank P delta si w out).1
        (scanPoint fit L blank P delta si w out).2
    refine ⟨c :: calls, r :: rs, by simp [hcl], by simp [hrl], ?_, ?_, ?_, ?_⟩
    · simp only [scanLoop]; rw [hlog2, hlog]; simp
    · simp only [scanLoop]; rw [hres2, hres]; simp
    · simp only [scanLoop]; rw [hnm2, hnm]
    · intro i hi
      cases i with
      | zero => exact ⟨c, r, by simp, by simp, hfit, hthrow, hok⟩
      | succ i' =>
        obtain ⟨c', r', h1, h2, h3, h4, h5⟩ := hall i' (by omega)
        refine ⟨c', r', by simpa using h1, by simpa using h2, h3, ?_, h5⟩
        intro e he
        obtain ⟨a1, a2, a3⟩ := h4 e he
        exact ⟨a1, a2, by rw [a3, hx, names_update]⟩

theorem fillFromData_params {σ P D W C V : Type} (ext : Collaborators σ P D W C V)
    (ps : ParameterSet V) (data : List W) (b : PhysicsBottle P D C V) (s : σ) :
    (fillFromData ext ps data b s).1.bottleParameters = b.bottleParameters ∧
    (fillFromData ext ps data b s).1.allResults.length = b.allResults.length + data.length ∧
    (fillFromData ext ps data b s).1.allConstraints = b.allConstraints := by
  induction data generalizing b s with
  | nil => simp [fillFromData]
  | cons pd rest ih =>
    obtain ⟨h1, h2, h3⟩ := ih
      (b.AddResult (ext.GetPDF pd (ext.dataSetPhysicsParameters pd ps s))
        (ext.GetDataSet pd (ext.dataSetPhysicsParameters pd ps s)).1)
      (ext.GetDataSet pd (ext.dataSetPhysicsParameters pd ps s)).2
    simp only [fillFromData]
    refine ⟨by rw [h1]; rfl, ?_, by rw [h3]; rfl⟩
    rw [h2]
    have : (b.AddResult (ext.GetPDF pd (ext.dataSetPhysicsParameters pd ps s))
        (ext.GetDataSet pd (ext.dataSetPhysicsParameters pd ps s)).1).allResults.length =
        b.allResults.length + 1 := by
      simp [PhysicsBottle.AddResult]
    rw [this, List.length_cons]
    omega

/-- The traced loop over the entries computes what `fillFromData` computes, and records one
`SetPhysicsParameters` followed by one `AddResult` per entry, in the order of the
entries. -/
theorem fillFromDataTrace_spec {σ P D W C V : Type} (ext : Collaborators σ P D W C V)
    (ps : ParameterSet V) (data : List W) (b : PhysicsBottle P D C V) (s : σ)
    (events : List (AssemblyEvent W C)) :
    (fillFromDataTrace ext ps data b s events).1 = (fillFromData ext ps data b s).1 ∧
    (fillFromDataTrace ext ps data b s events).2.1 = (fillFromData ext ps data b s).2 ∧
    (fillFromDataTrace ext ps data b s events).2.2 = events ++
      (data.map (fun pd =>
        [AssemblyEvent.SetPhysicsParameters pd, AssemblyEvent.AddResult pd])).flatten := by
  induction data generalizing b s events with
  | nil => simp [fillFromDataTrace, fillFromData]
  | cons pd rest ih =>
    obtain ⟨h1, h2, h3⟩ := ih
      (b.AddResult (ext.GetPDF pd (ext.dataSetPhysicsParameters pd ps s))
        (ext.GetDataSet pd (ext.dataSetPhysicsParameters pd ps s)).1)
      (ext.GetDataSet pd (ext.dataSetPhysicsParameters pd ps s)).2
      (events ++ [AssemblyEvent.SetPhysicsParameters pd] ++ [AssemblyEvent.AddResult pd])
    simp only [fillFromDataTrace, fillFromData]
    refine ⟨h1, h2, ?_⟩
    rw [h3]
    simp

/-- The traced loop over the constraints computes what `addConstraints` computes, and
records one `AddConstraint` per constraint, in order. -/
theorem addConstraintsTrace_spec {P D W C V : Type} (cs : List C) (b : PhysicsBottle P D C V)
    (events : List (AssemblyEvent W C)) :
    (addConstraintsTrace cs b events).1 = addConstraints cs b ∧
    (addConstraintsTrace cs b events).2 = events ++ cs.map AssemblyEvent.AddConstraint := by
  induction cs generalizing b events with
  | nil => simp [addConstraintsTrace, addConstraints]
  | cons c rest ih =>
    obtain ⟨h1, h2⟩ := ih (b.AddConstraint c) (events ++ [AssemblyEvent.AddConstraint c])
    simp only [addConstraintsTrace, addConstraints]
    refine ⟨h1, ?_⟩
    rw [h2]
    simp

theorem names_length_split {V : Type} (ps : ParameterSet V) :
    ps.GetAllNames.length = numberOfFreeParameters ps + ps.GetAllFixedNames.length := by
  induction ps with
  | nil => rfl
  | cons e rest ih =>
    simp only [ParameterSet.GetAllNames, numberOfFreeParameters, ParameterSet.GetAllFixedNames,
      List.length_map, List.length_cons] at ih ⊢
    by_cases h : e.2.type = "Fixed"
    · simp [List.filter_cons, h]
      omega
    · simp [List.filter_cons, h]
      omega

theorem fillFromLists_spec {σ P D W C V : Type} (ext : Collaborators σ P D W C V)
    (ps : ParameterSet V) (pdfs : List P) (datas : List D) (b : PhysicsBottle P D C V) (s : σ) :
    (fillFromLists ext ps pdfs datas b s).1.allResults = b.allResults ++ pdfs.zip datas ∧
    (fillFromLists ext ps pdfs datas b s).1.allConstraints = b.allConstraints ∧
    (fillFromLists ext ps pdfs datas b s).1.bottleParameters = b.bottleParameters ∧
    (fillFromLists ext ps pdfs datas b s).1.finalised = b.finalised := by
  induction pdfs generalizing datas b s with
  | nil => simp [fillFromLists]
  | cons pdf rest ih =>
    cases datas with
    | nil => simp [fillFromLists]
    | cons d ds =>
      obtain ⟨h1, h2, h3, h4⟩ := ih ds (b.AddResult pdf d) (ext.pdfSetPhysicsParameters pdf ps s)
      simp only [fillFromLists]
      exact ⟨by rw [h1]; simp [PhysicsBottle.AddResult], by rw [h2]; rfl, by rw [h3]; rfl,
        by rw [h4]; rfl⟩

theorem addConstraints_spec {P D C V : Type} (cs : List C) (b : PhysicsBottle P D C V) :
    (addConstraints cs b).allConstraints = b.allConstraints ++ cs ∧
    (addConstraints cs b).allResults = b.allResults ∧
    (addConstraints cs b).bottleParameters = b.bottleParameters ∧
    (addConstraints cs b).finalised = b.finalised := by
  induction cs generalizing b with
  | nil => simp [addConstraints]
  | cons c rest ih =>
    obtain ⟨h1, h2, h3, h4⟩ := ih (b.AddConstraint c)
    simp only [addConstraints]
    exact ⟨by rw [h1]; simp [PhysicsBottle.AddConstraint], by rw [h2]; rfl, by rw [h3]; rfl,
      by rw [h4]; rfl⟩

end FitAssembler

namespace ConstraintFunction

open ParameterSet

theorem VectorContains_nonneg_iff (names : List String) (name : String) :
    StringProcessing.VectorContains names name ≥ 0 ↔ name ∈ names := by
  unfold StringProcessing.VectorContains
  cases names with
  | nil => simp
  | cons a rest =>
    simp only [List.isEmpty_cons, Bool.false_eq_true, if_false]
    by_cases h : List.indexOf name (a :: rest) < (a :: rest).length
    · simp only [h, if_true]
      exact ⟨fun _ => List.indexOf_lt_length.1 h, fun _ => Int.ofNat_nonneg _⟩
    · simp only [h, if_false]
      exact ⟨fun hc => absurd hc (by decide), fun hm => absurd (List.indexOf_lt_length.2 hm) h⟩

theorem mem_names_iff (ps : ParameterSet ℚ) (name : String) :
    name ∈ ps.GetAllNames ↔ ∃ v, valueOf ps name = some v := by
  induction ps with
  | nil => simp [GetAllNames, valueOf, GetPhysicsParameter]
  | cons e rest ih =>
    obtain ⟨n, p⟩ := e
    by_cases h : n = name
    · simp [GetAllNames, valueOf, GetPhysicsParameter, h]
    · have h' : ¬ name = n := fun hc => h hc.symm
      simp only [GetAllNames, valueOf] at ih
      simp [GetAllNames, valueOf, GetPhysicsParameter, h, h', ih]

/-- The loop of `Evaluate` adds the terms of the constraints to the running value, provided
`gamma` and `deltaGamma` can be read when a constraint is named `GammaL` or `GammaObs`. -/
theorem evaluateLoop_spec (ps : ParameterSet ℚ) (γ δ : ℚ) (cs : List ExternalConstraint)
    (acc : ℚ)
    (h : (valueOf ps "gamma" = some γ ∧ valueOf ps "deltaGamma" = some δ) ∨
      ∀ c ∈ cs, c.name ≠ "GammaL" ∧ c.name ≠ "GammaObs") :
    evaluateLoop ps ps.GetAllNames cs acc =
      some (acc + (cs.map (constraintTerm ps γ δ)).sum) := by
  induction cs generalizing acc with
  | nil => simp [evaluateLoop]
  | cons c rest ih =>
    have hrest : (valueOf ps "gamma" = some γ ∧ valueOf ps "deltaGamma" = some δ) ∨
        ∀ c ∈ rest, c.name ≠ "GammaL" ∧ c.name ≠ "GammaObs" := by
      rcases h with h | h
      · exact Or.inl h
      · exact Or.inr (fun c hc => h c (List.mem_cons_of_mem _ hc))
    by_cases h1 : c.name = "GammaL"
    · rcases h with ⟨hg, hd⟩ | h
      · simp only [evaluateLoop, ExternalConstraint.GetName, h1, if_true, hg, hd,
          ExternalConstraint.GetValue, ExternalConstraint.GetError, ih _ hrest,
          List.map_cons, List.sum_cons, constraintTerm]
        congr 1; ring
      · exact absurd h1 (h c (List.mem_cons_self _ _)).1
    by_cases h2 : c.name = "GammaObs"
    · have hne : ¬ (("GammaObs" : String) = "GammaL") := by decide
      rcases h with ⟨hg, hd⟩ | h
      · simp only [evaluateLoop, ExternalConstraint.GetName, h2, hne, if_true, if_false, hg, hd,
          ExternalConstraint.GetValue, ExternalConstraint.GetError, ih _ hrest,
          List.map_cons, List.sum_cons, constraintTerm]
        congr 1; ring
      · exact absurd h2 (h c (List.mem_cons_self _ _)).2
    by_cases h3 : StringProcessing.VectorContains ps.GetAllNames c.name ≥ 0
    · obtain ⟨v, hv⟩ := (mem_names_iff ps c.name).1 ((VectorContains_nonneg_iff _ _).1 h3)
      simp only [evaluateLoop, ExternalConstraint.GetName, h1, h2, h3, if_true, if_false, hv,
        ExternalConstraint.GetValue, ExternalConstraint.GetError, ih _ hrest,
        List.map_cons, List.sum_cons, constraintTerm]
      congr 1; ring
    · have hnone : valueOf ps c.name = none := by
        cases hv : valueOf ps c.name with
        | none => rfl
        | some v =>
          exact absurd ((VectorContains_nonneg_iff _ _).2
            ((mem_names_iff ps c.name).2 ⟨v, hv⟩)) h3
      simp only [evaluateLoop, ExternalConstraint.GetName, h1, h2, h3, if_false, hnone,
        ih _ hrest, List.map_cons, List.sum_cons, constraintTerm]
      congr 1; ring

end ConstraintFunction

namespace ScanStudies
open ParameterSet

/-- The fit calls of the scan loop, grid point by grid point, whatever the fits do: the
log grows by one segment of calls per grid point entered, the segment of grid index `i`
holds the tries 0, 1, ... around grid value `i`, between one and twenty-one of them, and
every call sees the `ParameterSet` of the start with only the scanned value changed. -/
theorem scanLoop_segments {σ : Type} (fit : FitStep σ ℚ) (P : ScanParam) (todo si : Nat)
    (w : World σ ℚ) (out : FitResultVector ℚ)
    (hp : (GetPhysicsParameter P.GetName w.params).isSome) :
    ∃ segs : List (List (FitCall ℚ)),
      segs.length ≤ todo ∧
      (scanLoop fit P todo si w out).2.1.fitLog = w.fitLog ++ segs.flatten ∧
      ((scanLoop fit P todo si w out).1 = .returned → segs.length = todo) ∧
      ∀ i calls, segs[i]? = some calls →
        1 ≤ calls.length ∧ calls.length ≤ 21 ∧
        calls.map (fittedAt P.GetName) = (List.range' 0 calls.length).map (fun k =>
          some (tryValue (gridValue P (si + i)) (deltaScan P / 20) k)) ∧
        ∀ c ∈ calls, ∃ x,
          c.params = update P.GetName (PhysicsParameter.SetBlindedValue x) w.params := by
  induction todo generalizing si w out with
  | zero => exact ⟨[], by simp, by simp [scanLoop], fun _ => rfl, by simp⟩
  | succ k ih =>
    obtain ⟨calls, hlog, h1, h21, hvals, _⟩ := scanPoint_spec fit P si w out hp
    obtain ⟨calls', hlog', hpar⟩ := scanPoint_calls fit P si w out
    have hcc : calls' = calls := List.append_cancel_left (hlog'.symm.trans hlog)
    subst hcc
    rw [gridValue_eq] at hvals
    have hp1 := scanPoint_isSome fit P si w out hp
    obtain ⟨y0, hy0⟩ := scanPoint_params fit P si w out
    rcases hsp : scanPoint fit P si w out with ⟨e, w1, out1⟩
    rw [hsp] at hlog hp1 hy0
    simp only at hlog hp1 hy0
    by_cases he : e = .returned
    · subst he
      obtain ⟨segs, hsl, hlog2, hret2, hall⟩ := ih (si + 1) w1 out1 hp1
      simp only [scanLoop, hsp]
      refine ⟨calls' :: segs, by simp only [List.length_cons]; omega, ?_, ?_, ?_⟩
      · rw [hlog2, hlog]; simp
      · intro hr; simp only [List.length_cons]; rw [hret2 hr]
      · intro i cs hi
        cases i with
        | zero =>
          simp only [List.getElem?_cons_zero, Option.some.injEq] at hi
          subst hi
          exact ⟨h1, h21, hvals, hpar⟩
        | succ i' =>
          simp only [List.getElem?_cons_succ] at hi
          obtain ⟨a1, a2, a3, a4⟩ := hall i' cs hi
          have hidx : si + 1 + i' = si + (i' + 1) := by omega
          rw [hidx] at a3
          refine ⟨a1, a2, a3, ?_⟩
          intro c hc
          obtain ⟨x, hx⟩ := a4 c hc
          exact ⟨x, by rw [hx, hy0, update_setBlinded_twice]⟩
    · have hloop : scanLoop fit P (k + 1) si w out = (e, w1, out1) := by
        cases e <;> simp_all [scanLoop]
      rw [hloop]
      refine ⟨[calls'], by simp, by simp [hlog], fun hr => absurd hr he, ?_⟩
      intro i cs hi
      cases i with
      | zero =>
        simp only [List.getElem?_cons_zero, Option.some.injEq] at hi
        subst hi
        exact ⟨h1, h21, hvals, hpar⟩
      | succ i' => simp at hi

/-- The fit calls of `ScanStudies::DoScan`, grid point by grid point, whatever the fits
do: the segment of grid index `i` holds the tries 0, 1, ... around grid value `i`, and at
every call the scanned parameter is fixed. -/
theorem DoScan_segments {σ : Type} (fit : FitStep σ ℚ) (P : ScanParam)
    (w : World σ ℚ) (out : FitResultVector ℚ)
    (hp : (GetPhysicsParameter P.GetName w.params).isSome) :
    ∃ segs : List (List (FitCall ℚ)),
      segs.length ≤ P.GetPoints.toNat ∧
      (DoScan fit P w out).2.1.fitLog = w.fitLog ++ segs.flatten ∧
      ((DoScan fit P w out).1 = .returned → segs.length = P.GetPoints.toNat) ∧
      ∀ i calls, segs[i]? = some calls →
        1 ≤ calls.length ∧ calls.length ≤ 21 ∧
        calls.map (fittedAt P.GetName) = (List.range' 0 calls.length).map (fun k =>
          some (tryValue (gridValue P i) (deltaScan P / 20) k)) ∧
        ∀ c ∈ calls, ∃ x,
          c.params = update P.GetName (PhysicsParameter.SetBlindedValue x)
            (update P.GetName (PhysicsParameter.SetType "Fixed") w.params) := by
  cases hq : GetPhysicsParameter P.GetName w.params with
  | none => simp [hq] at hp
  | some p =>
    have hp0 : (GetPhysicsParameter P.GetName
        ({ w with params := update P.GetName (PhysicsParameter.SetType "Fixed") w.params } :
          World σ ℚ).params).isSome := by
      simp [get_update, hq]
    obtain ⟨segs, hsl, hlog, hret, hall⟩ :=
      scanLoop_segments fit P P.GetPoints.toNat 0
        { w with params := update P.GetName (PhysicsParameter.SetType "Fixed") w.params }
        out hp0
    have hall' : ∀ i calls, segs[i]? = some calls →
        1 ≤ calls.length ∧ calls.length ≤ 21 ∧
        calls.map (fittedAt P.GetName) = (List.range' 0 calls.length).map (fun k =>
          some (tryValue (gridValue P i) (deltaScan P / 20) k)) ∧
        ∀ c ∈ calls, ∃ x,
          c.params = update P.GetName (PhysicsParameter.SetBlindedValue x)
            (update P.GetName (PhysicsParameter.SetType "Fixed") w.params) := by
      intro i calls hi
      have := hall i calls hi
      rw [Nat.zero_add] at this
      exact this
    rcases hl : scanLoop fit P P.GetPoints.toNat 0
      { w with params := update P.GetName (PhysicsParameter.SetType "Fixed") w.params } out
      with ⟨e, w1, out1⟩
    rw [hl] at hlog hret
    simp only at hlog hret
    by_cases he : e = .returned
    · subst he
      simp only [DoScan, hq, hl]
      exact ⟨segs, hsl, hlog, fun _ => hret rfl, hall'⟩
    · have hd : DoScan fit P w out = (e, w1, out1) := by
        cases e <;> simp_all [DoScan]
      rw [hd]
      exact ⟨segs, hsl, hlog, fun h => absurd h he, hall'⟩

/-- The values of the tries of a grid point: try 1 is the straight retry at the grid value;
try `k + 2` is wiggle `k`, to the right by `k / 2 + 1` wiggle steps when `k` is even and
to the left when `k` is odd. -/
theorem tryValue_wiggle (v step : ℚ) (k : Nat) :
    tryValue v step 0 = v ∧ tryValue v step 1 = v ∧
    tryValue v step (k + 2) =
      if k % 2 = 0 then v + step * ((k / 2 + 1 : Nat) : ℚ)
      else v - step * ((k / 2 + 1 : Nat) : ℚ) := by
  refine ⟨rfl, rfl, ?_⟩
  show loopValue v step (k + 1) = _
  simp only [loopValue]
  by_cases h : k % 2 = 0
  · have h2 : k / 2 * 2 = k := by omega
    simp only [h, h2, if_true]
    push_cast
    ring
  · have h2 : ¬ k / 2 * 2 = k := by omega
    simp only [h, h2, if_false]
    push_cast
    ring

/-- A list whose image under `g` is the image of the indices under `f`, read at one index. -/
theorem map_range_at {α β : Type} (g : α → β) (f : Nat → β) (l : List α)
    (h : l.map g = (List.range' 0 l.length).map f) (k : Nat) (c : α)
    (hk : l[k]? = some c) : g c = f k := by
  have hlt : k < l.length := by
    rcases Nat.lt_or_ge k l.length with hlt | hge
    · exact hlt
    · rw [List.getElem?_eq_none hge] at hk; cases hk
  have h1 : (l.map g)[k]? = some (g c) := by rw [List.getElem?_map, hk]; rfl
  rw [h] at h1
  rw [List.getElem?_map, List.getElem?_range' _ _ hlt] at h1
  simp only [Option.map_some', Option.some.injEq] at h1
  simpa using h1.symm

end ScanStudies

namespace ParameterSet
variable {V : Type}

/-- A name of the set has a parameter stored under it. -/
theorem isSome_of_mem_names (ps : ParameterSet V) (n : String) (h : n ∈ GetAllNames ps) :
    (GetPhysicsParameter n ps).isSome := by
  induction ps with
  | nil => simp [GetAllNames] at h
  | cons e rest ih =>
    obtain ⟨m, p⟩ := e
    by_cases hm : m = n
    · simp [GetPhysicsParameter, hm]
    · simp only [GetAllNames, List.map_cons, List.mem_cons] at h
      rcases h with h | h
      · exact absurd h.symm hm
      · simp only [GetPhysicsParameter, hm, if_false]
        exact ih h

/-- The names of the fixed parameters are names of the set. -/
theorem fixedNames_sub_names (ps : ParameterSet V) (n : String)
    (h : n ∈ GetAllFixedNames ps) : n ∈ GetAllNames ps := by
  simp only [GetAllFixedNames, GetAllNames, List.mem_map, List.mem_filter] at h ⊢
  obtain ⟨e, ⟨he, _⟩, hn⟩ := h
  exact ⟨e, he, hn⟩

/-- A name of the set is the name of a fixed parameter or of one that is not fixed. -/
theorem names_split (ps : ParameterSet V) (n : String) (h : n ∈ GetAllNames ps) :
    n ∈ GetAllFixedNames ps ∨ ∃ e ∈ ps, e.1 = n ∧ e.2.type ≠ "Fixed" := by
  simp only [GetAllNames, List.mem_map] at h
  obtain ⟨e, he, hn⟩ := h
  by_cases ht : e.2.type = "Fixed"
  · left
    simp only [GetAllFixedNames, List.mem_map, List.mem_filter]
    exact ⟨e, ⟨he, by simp [ht]⟩, hn⟩
  · exact Or.inr ⟨e, he, hn, ht⟩

/-- An entry of the set after a write under `name` that has another name was there before. -/
theorem mem_of_mem_update_ne (name : String) (f : PhysicsParameter V → PhysicsParameter V)
    (ps : ParameterSet V) (e : String × PhysicsParameter V)
    (he : e ∈ update name f ps) (hne : e.1 ≠ name) : e ∈ ps := by
  induction ps with
  | nil => simp [update] at he
  | cons a rest ih =>
    obtain ⟨m, p⟩ := a
    by_cases hm : m = name
    · simp only [update, hm, if_true] at he
      rcases List.mem_cons.1 he with h | h
      · rw [h] at hne
        exact absurd rfl hne
      · exact List.mem_cons_of_mem _ h
    · simp only [update, hm, if_false] at he
      rcases List.mem_cons.1 he with h | h
      · rw [h]; exact List.mem_cons_self _ _
      · exact List.mem_cons_of_mem _ (ih h)

end ParameterSet

namespace ResultParameterSet
variable {V : Type}

/-- The call `ForceNewResultParameter` leaves the new entry under its name. -/
theorem get_ForceNew_self (other : String) (v ov e mn mx : V) (t u : String)
    (rs : ResultParameterSet V) :
    GetResultParameter other (ForceNewResultParameter other v ov e mn mx t u rs) =
      some ⟨v, ov, e, mn, mx, t, u, false⟩ := by
  induction rs with
  | nil => simp [ForceNewResultParameter, GetResultParameter]
  | cons a rest ih =>
    obtain ⟨n, r⟩ := a
    by_cases hn : n = other
    · simp [ForceNewResultParameter, GetResultParameter, hn]
    · simp [ForceNewResultParameter, GetResultParameter, hn, ih]

/-- The call `ForceNewResultParameter` adds no name but its own. -/
theorem names_ForceNew_sub (other : String) (v ov e mn mx : V) (t u : String)
    (rs : ResultParameterSet V) (n : String)
    (h : n ∈ GetAllNames (ForceNewResultParameter other v ov e mn mx t u rs)) :
    n = other ∨ n ∈ GetAllNames rs := by
  induction rs with
  | nil =>
    simp only [ForceNewResultParameter, GetAllNames, List.map_cons, List.map_nil,
      List.mem_singleton] at h
    exact Or.inl h
  | cons a rest ih =>
    obtain ⟨m, r⟩ := a
    by_cases hm : m = other
    · simp only [ForceNewResultParameter, hm, if_true, GetAllNames, List.map_cons,
        List.mem_cons] at h ⊢
      rcases h with h | h
      · exact Or.inl h
      · exact Or.inr (Or.inr h)
    · simp only [ForceNewResultParameter, hm, if_false, GetAllNames, List.map_cons,
        List.mem_cons] at h ⊢
      simp only [GetAllNames] at ih
      rcases h with h | h
      · exact Or.inr (Or.inl h)
      · rcases ih h with h2 | h2
        · exact Or.inl h2
        · exact Or.inr (Or.inr h2)

/-- Setting the scan status of one name leaves the entries of the other names alone. -/
theorem get_SetScanStatus_ne (name other : String) (b : Bool) (rs : ResultParameterSet V)
    (h : other ≠ name) :
    GetResultParameter other (SetScanStatus name b rs) = GetResultParameter other rs := by
  induction rs with
  | nil => rfl
  | cons a rest ih =>
    obtain ⟨n, r⟩ := a
    by_cases hn : n = name
    · have hne : ¬ n = other := fun hc => h (hc.symm.trans hn)
      simp [SetScanStatus, GetResultParameter, hn, hne, Ne.symm h]
    · by_cases hn2 : n = other
      · subst hn2
        simp [SetScanStatus, GetResultParameter, hn]
      · simp [SetScanStatus, GetResultParameter, hn, hn2, ih]

/-- Writing the entry of one name leaves the entries of the other names alone. -/
theorem get_SetResultParameter_ne (name other : String) (v ov e mn mx : V) (t u : String)
    (rs : ResultParameterSet V) (h : other ≠ name) :
    GetResultParameter other (SetResultParameter name v ov e mn mx t u rs) =
      GetResultParameter other rs := by
  induction rs with
  | nil => rfl
  | cons a rest ih =>
    obtain ⟨n, r⟩ := a
    by_cases hn : n = name
    · have hne : ¬ n = other := fun hc => h (hc.symm.trans hn)
      simp [SetResultParameter, GetResultParameter, hn, hne, Ne.symm h]
    · by_cases hn2 : n = other
      · subst hn2
        simp [SetResultParameter, GetResultParameter, hn]
      · simp [SetResultParameter, GetResultParameter, hn, hn2, ih]

end ResultParameterSet

namespace ScanStudies
open ParameterSet

/-- The re-injection adds only names of the list of fixed names. -/
theorem reinject_names_sub (params : ParameterSet ℚ) (Fit_List Fixed_List : List String)
    (rs : ResultParameterSet ℚ) (n : String)
    (h : n ∈ (reinjectFixed params Fit_List Fixed_List rs).GetAllNames) :
    n ∈ rs.GetAllNames ∨ n ∈ Fixed_List := by
  induction Fixed_List generalizing rs with
  | nil => exact Or.inl h
  | cons f rest ih =>
    by_cases hf : Fit_List.any (fun fitName => fitName == f) = true
    · simp only [reinjectFixed, hf, Bool.not_true, Bool.false_eq_true, if_false] at h
      rcases ih rs h with h1 | h1
      · exact Or.inl h1
      · exact Or.inr (List.mem_cons_of_mem _ h1)
    · simp only [reinjectFixed, hf, Bool.not_false, if_true] at h
      cases hq : GetPhysicsParameter f params with
      | none =>
        rw [hq] at h
        rcases ih rs h with h1 | h1
        · exact Or.inl h1
        · exact Or.inr (List.mem_cons_of_mem _ h1)
      | some q =>
        rw [hq] at h
        rcases ih _ h with h1 | h1
        · rcases ResultParameterSet.names_ForceNew_sub _ _ _ _ _ _ _ _ rs n h1 with h2 | h2
          · exact Or.inr (by rw [h2]; exact List.mem_cons_self _ _)
          · exact Or.inl h2
        · exact Or.inr (List.mem_cons_of_mem _ h1)

/-- The entry that the re-injection leaves for a name of the list of fixed names that is
not in the list of fitted names: the parameter's current value as value, original value,
minimum and maximum, the error 0, and the parameter's type and unit. -/
theorem reinject_entry (params : ParameterSet ℚ) (Fit_List Fixed_List : List String)
    (rs : ResultParameterSet ℚ) (f : String) (p : PhysicsParameter ℚ)
    (hp : GetPhysicsParameter f params = some p) (hnf : f ∉ Fit_List)
    (h : f ∈ Fixed_List ∨ ResultParameterSet.GetResultParameter f rs =
      some ⟨p.GetValue, p.GetValue, 0, p.GetValue, p.GetValue, p.GetType, p.GetUnit, false⟩) :
    ResultParameterSet.GetResultParameter f (reinjectFixed params Fit_List Fixed_List rs) =
      some ⟨p.GetValue, p.GetValue, 0, p.GetValue, p.GetValue, p.GetType, p.GetUnit, false⟩ := by
  induction Fixed_List generalizing rs with
  | nil =>
    rcases h with h | h
    · simp at h
    · exact h
  | cons g rest ih =>
    by_cases hfound : Fit_List.any (fun fitName => fitName == g) = true
    · have hgf : g ≠ f := by
        intro hc
        apply hnf
        rw [List.any_eq_true] at hfound
        obtain ⟨n, hn, hng⟩ := hfound
        have : n = g := by simpa using hng
        rw [← hc, ← this]; exact hn
      simp only [reinjectFixed, hfound, Bool.not_true, Bool.false_eq_true, if_false]
      apply ih rs
      rcases h with h | h
      · rcases List.mem_cons.1 h with h1 | h1
        · exact absurd h1.symm hgf
        · exact Or.inl h1
      · exact Or.inr h
    · simp only [reinjectFixed, hfound, Bool.not_false, if_true]
      by_cases hgf : g = f
      · subst hgf
        rw [hp]
        simp only []
        exact ih _ (Or.inr (ResultParameterSet.get_ForceNew_self _ _ _ _ _ _ _ _ rs))
      · have hrest : f ∈ rest ∨ ResultParameterSet.GetResultParameter f rs =
            some ⟨p.GetValue, p.GetValue, 0, p.GetValue, p.GetValue, p.GetType, p.GetUnit,
              false⟩ := by
          rcases h with h | h
          · rcases List.mem_cons.1 h with h1 | h1
            · exact absurd h1.symm hgf
            · exact Or.inl h1
          · exact Or.inr h
        cases hq : GetPhysicsParameter g params with
        | none => simp only []; exact ih rs hrest
        | some q =>
          simp only []
          apply ih
          rcases hrest with h1 | h1
          · exact Or.inl h1
          · exact Or.inr (by rw [ResultParameterSet.get_ForceNew_ne _ _ _ _ _ _ _ _ _ rs hgf]; exact h1)

/-- The names of a finished result: those of the accepted result and those of the fixed
parameters of the set. -/
theorem finishPoint_names (params : ParameterSet ℚ) (name : String) (x : ℚ)
    (r0 : FitResult ℚ) (n : String) :
    n ∈ (finishPoint params name x r0).GetResultParameterSet.GetAllNames ↔
      n ∈ r0.GetResultParameterSet.GetAllNames ∨ n ∈ params.GetAllFixedNames := by
  simp only [finishPoint, FitResult.GetResultParameterSet]
  rw [ResultParameterSet.names_SetScanStatus]
  constructor
  · intro h
    rcases reinject_names_sub _ _ _ _ n h with h1 | h1
    · rw [ResultParameterSet.names_SetResultParameter] at h1
      exact Or.inl h1
    · exact Or.inr h1
  · intro h
    rcases h with h | h
    · apply reinject_names_mono
      rw [ResultParameterSet.names_SetResultParameter]
      exact h
    · exact reinject_has _ _ _ _ n h
        (isSome_of_mem_names _ _ (fixedNames_sub_names _ _ h)) (fun m hm => hm)

end ScanStudies

namespace ScanStudies
open ParameterSet

/-- The retry loop makes a fit only while the result in hand is not converged: when it
makes a call at all the result it started with has a status other than 3, and so has the
result of every call but the last. -/
theorem retryLoop_statuses {σ : Type} (fit : FitStep σ ℚ) (name : String) (orig step : ℚ)
    (fuel : Nat) (v : RetryVars) (w : World σ ℚ) :
    ∃ calls : List (FitCall ℚ),
      (retryLoop fit name orig step fuel v w).2.2.fitLog = w.fitLog ++ calls ∧
      (calls ≠ [] → v.scanStepResult.GetFitStatus ≠ 3) ∧
      ∀ i c, calls[i]? = some c → i + 1 < calls.length →
        ∃ r, c.outcome = .result r ∧ r.GetFitStatus ≠ 3 := by
  induction fuel generalizing v w with
  | zero => exact ⟨[], by simp [retryLoop], by simp, by simp⟩
  | succ k ih =>
    by_cases h : v.scanStepResult.GetFitStatus = 3
    · rw [retryLoop_done _ _ _ _ _ _ _ h]; exact ⟨[], by simp, by simp, by simp⟩
    by_cases hb : (nextTry orig step v).wiggle_step_num ≥ 20
    · rw [retryLoop_break _ _ _ _ _ _ _ h hb]; exact ⟨[], by simp, by simp, by simp⟩
    rcases hc : callFit fit (setScanValue name (nextTry orig step v).scanVal w) with ⟨o, w2⟩
    obtain ⟨hlog0, _⟩ := callFit_log hc
    have hlog : w2.fitLog = w.fitLog ++
        [⟨(setScanValue name (nextTry orig step v).scanVal w).params, o⟩] := hlog0
    cases o with
    | throws e =>
      rw [retryLoop_throws _ _ _ _ _ _ _ _ _ h hb hc]
      refine ⟨[⟨(setScanValue name (nextTry orig step v).scanVal w).params, .throws e⟩],
        hlog, fun _ => h, ?_⟩
      intro i c _ hi
      simp only [List.length_singleton] at hi
      omega
    | result r =>
      rw [retryLoop_result _ _ _ _ _ _ _ _ _ h hb hc]
      obtain ⟨calls, hl, hne, hall⟩ := ih { nextTry orig step v with scanStepResult := r } w2
      refine ⟨⟨(setScanValue name (nextTry orig step v).scanVal w).params, .result r⟩ :: calls,
        by rw [hl, hlog]; simp, fun _ => h, ?_⟩
      intro i c hi hlen
      cases i with
      | zero =>
        simp only [List.getElem?_cons_zero, Option.some.injEq] at hi
        subst hi
        refine ⟨r, rfl, hne ?_⟩
        intro hnil
        rw [hnil] at hlen
        simp at hlen
      | succ i' =>
        simp only [List.getElem?_cons_succ] at hi
        exact hall i' c hi (by simp only [List.length_cons] at hlen; omega)

/-- The fit calls of a grid point: every call but the last returned a result whose status
is not 3. -/
theorem scanPoint_statuses {σ : Type} (fit : FitStep σ ℚ) (P : ScanParam) (si : Nat)
    (w : World σ ℚ) (out : FitResultVector ℚ) :
    ∃ calls : List (FitCall ℚ),
      (scanPoint fit P si w out).2.1.fitLog = w.fitLog ++ calls ∧
      ∀ i c, calls[i]? = some c → i + 1 < calls.length →
        ∃ r, c.outcome = .result r ∧ r.GetFitStatus ≠ 3 := by
  rcases hc : callFit fit
    (setScanValue P.GetName (P.GetMin + deltaScan P * (si : ℚ)) w) with ⟨o, w2⟩
  obtain ⟨hlog0, _⟩ := callFit_log hc
  have hlog : w2.fitLog = w.fitLog ++
      [⟨(setScanValue P.GetName (P.GetMin + deltaScan P * (si : ℚ)) w).params, o⟩] := hlog0
  cases o with
  | throws e =>
    refine ⟨[⟨(setScanValue P.GetName (P.GetMin + deltaScan P * (si : ℚ)) w).params,
      .throws e⟩], ?_, ?_⟩
    · cases e <;> simp only [scanPoint, hc] <;> exact hlog
    · intro i c _ hi
      simp only [List.length_singleton] at hi
      omega
  | result r =>
    obtain ⟨calls, hl, hne, hall⟩ := retryLoop_statuses fit P.GetName
      (P.GetMin + deltaScan P * (si : ℚ)) (deltaScan P / 20) retryFuel
      ⟨0, 1, 0, P.GetMin + deltaScan P * (si : ℚ), r⟩ w2
    rcases hr : retryLoop fit P.GetName (P.GetMin + deltaScan P * (si : ℚ))
      (deltaScan P / 20) retryFuel ⟨0, 1, 0, P.GetMin + deltaScan P * (si : ℚ), r⟩ w2
      with ⟨e, v, w3⟩
    rw [hr] at hl
    simp only at hl
    refine ⟨⟨(setScanValue P.GetName (P.GetMin + deltaScan P * (si : ℚ)) w).params,
      .result r⟩ :: calls, ?_, ?_⟩
    · have : (scanPoint fit P si w out).2.1 = w3 := by
        cases e <;> simp only [scanPoint, hc, hr]
      rw [this, hl, hlog]; simp
    · intro i c hi hlen
      cases i with
      | zero =>
        simp only [List.getElem?_cons_zero, Option.some.injEq] at hi
        subst hi
        refine ⟨r, rfl, hne ?_⟩
        intro hnil
        rw [hnil] at hlen
        simp at hlen
      | succ i' =>
        simp only [List.getElem?_cons_succ] at hi
        exact hall i' c hi (by simp only [List.length_cons] at hlen; omega)

/-- The entry of the scanned parameter in a finished result, when the parameter is fixed in
the `ParameterSet` of the moment: marked as used in the scan, of type `"Fixed"`, with the
error 0 and one number as value, original value, minimum and maximum. -/
theorem finishPoint_scanEntry (params : ParameterSet ℚ) (name : String) (x : ℚ)
    (r0 : FitResult ℚ) (p : PhysicsParameter ℚ)
    (hp : GetPhysicsParameter name params = some p) (ht : p.type = "Fixed") :
    ∃ e, (finishPoint params name x r0).GetResultParameterSet.GetResultParameter name =
        some e ∧
      e.scanStatus = true ∧ e.type = "Fixed" ∧ e.error = 0 ∧
      e.originalValue = e.value ∧ e.minimum = e.value ∧ e.maximum = e.value := by
  by_cases hmem : name ∈ r0.GetResultParameterSet.GetAllNames
  · refine ⟨_, finishPoint_entry params name x r0 hmem, rfl, ?_, rfl, rfl, rfl, rfl⟩
    show params.typeOf name = "Fixed"
    simp only [ParameterSet.typeOf, hp]
    exact ht
  · have hent := reinject_entry params
      (r0.GetResultParameterSet.SetResultParameter name x x 0 x x
        (params.typeOf name) (params.unitOf name)).GetAllNames params.GetAllFixedNames
      (r0.GetResultParameterSet.SetResultParameter name x x 0 x x
        (params.typeOf name) (params.unitOf name)) name p hp
      (by rw [ResultParameterSet.names_SetResultParameter]; exact hmem)
      (Or.inl (mem_fixedNames name params p hp ht))
    refine ⟨⟨p.GetValue, p.GetValue, 0, p.GetValue, p.GetValue, p.GetType, p.GetUnit, true⟩,
      ?_, rfl, ht, rfl, rfl, rfl, rfl⟩
    show ResultParameterSet.GetResultParameter name
      (ResultParameterSet.SetScanStatus name true _) = _
    rw [ResultParameterSet.get_SetScanStatus, hent]
    rfl

end ScanStudies

namespace ScanStudies

end ScanStudies

namespace ResultFormatter

/-- The number of elements of a packed matrix grows by `m + 1` with row `m`. -/
theorem triangle_succ (m : Nat) : (m + 1) * (m + 1 + 1) / 2 = m * (m + 1) / 2 + (m + 1) := by
  have h : (m + 1) * (m + 1 + 1) = m * (m + 1) + 2 * (m + 1) := by ring
  rw [h, Nat.add_mul_div_left _ _ (by decide : 0 < 2)]

theorem triangle_mono {a b : Nat} (h : a ≤ b) : a * (a + 1) / 2 ≤ b * (b + 1) / 2 :=
  Nat.div_le_div_right (Nat.mul_le_mul h (by omega))

/-- The packed index of an element of row `b` is below the number of elements of the rows
up to `b`. -/
theorem packed_lt_succ (a b : Nat) (h : a ≤ b) :
    a + b * (b + 1) / 2 < (b + 1) * (b + 1 + 1) / 2 := by
  rw [triangle_succ]
  omega

theorem packed_lt (a b n : Nat) (h1 : a ≤ b) (h2 : b < n) :
    a + b * (b + 1) / 2 < n * (n + 1) / 2 :=
  lt_of_lt_of_le (packed_lt_succ a b h1) (triangle_mono h2)

/-- Two ordered pairs with the same packed index are equal. -/
theorem packed_injective (a b a2 b2 : Nat) (h1 : a ≤ b) (h2 : a2 ≤ b2)
    (h : a + b * (b + 1) / 2 = a2 + b2 * (b2 + 1) / 2) : a = a2 ∧ b = b2 := by
  have hb : b = b2 := by
    rcases Nat.lt_trichotomy b b2 with hlt | heq | hgt
    · have := packed_lt a b b2 h1 hlt
      omega
    · exact heq
    · have := packed_lt a2 b2 b h2 hgt
      omega
  subst hb
  exact ⟨by omega, rfl⟩

/-- Every index below the number of elements is the packed index of an ordered pair. -/
theorem packed_surjective (n k : Nat) (h : k < n * (n + 1) / 2) :
    ∃ a b, a ≤ b ∧ b < n ∧ a + b * (b + 1) / 2 = k := by
  induction n with
  | zero => simp at h
  | succ m ih =>
    rw [triangle_succ] at h
    by_cases hk : k < m * (m + 1) / 2
    · obtain ⟨a, b, hab, hb, hidx⟩ := ih hk
      exact ⟨a, b, hab, by omega, hidx⟩
    · exact ⟨k - m * (m + 1) / 2, m, by omega, by omega, by omega⟩

/-- The index that the code computes for natural numbers `row` and `col`. -/
theorem covarianceIndex_nat (row col : Nat) :
    covarianceIndex row col =
      ((min row col + max row col * (max row col + 1) / 2 : Nat) : Int) := by
  have hdiv : ∀ a : Nat, ((a : Int) * ((a : Int) + 1)).tdiv 2 =
      ((a * (a + 1) / 2 : Nat) : Int) := by
    intro a
    rw [Int.tdiv_eq_ediv (by positivity) (by decide)]
    push_cast
    rfl
  unfold covarianceIndex
  by_cases h : (row : Int) > (col : Int)
  · have h2 : col < row := by exact_mod_cast h
    rw [if_pos h, hdiv, Nat.min_eq_right (le_of_lt h2), Nat.max_eq_left (le_of_lt h2)]
    push_cast
    rfl
  · have h2 : row ≤ col := by
      have : ¬ col < row := fun hc => h (by exact_mod_cast hc)
      omega
    rw [if_neg h, hdiv, Nat.min_eq_left h2, Nat.max_eq_right h2]
    push_cast
    rfl

end ResultFormatter

namespace StringProcessing

theorem charAt_eq (l : List Char) (i : Nat) : charAt l i = (l[i]?).getD (Char.ofNat 0) := by
  simp [charAt]

/-- A match of a search string without NUL lies within the input: the input holds the
search string from that index on. -/
theorem matchesAt_prefix (Input Find : List Char) (idx : Nat)
    (hnul : Char.ofNat 0 ∉ Find) (hidx : idx ≤ Input.length)
    (hm : matchesAt Input Find idx = true) :
    idx + Find.length ≤ Input.length ∧ (Input.drop idx).take Find.length = Find := by
  have hall : ∀ j, j < Find.length → Input[j + idx]? = Find[j]? := by
    intro j hj
    unfold matchesAt at hm
    rw [List.all_eq_true] at hm
    have h1 := hm j (List.mem_range.2 hj)
    simp only [beq_iff_eq, charAt_eq] at h1
    obtain ⟨c, hc⟩ : ∃ c, Find[j]? = some c := ⟨Find[j], List.getElem?_eq_getElem hj⟩
    have hcm : c ∈ Find := List.getElem?_mem hc
    rw [hc, Option.getD_some] at h1
    cases hI : Input[j + idx]? with
    | none =>
      rw [hI, Option.getD_none] at h1
      rw [← h1] at hcm
      exact absurd hcm hnul
    | some a =>
      rw [hI, Option.getD_some] at h1
      rw [hc, h1]
  have hlen : idx + Find.length ≤ Input.length := by
    rcases Nat.eq_zero_or_pos Find.length with h0 | hpos
    · omega
    · have h1 := hall (Find.length - 1) (by omega)
      have h2 : Find[Find.length - 1]? = some Find[Find.length - 1] :=
        List.getElem?_eq_getElem (by omega)
      rw [h2] at h1
      obtain ⟨hlt, _⟩ := List.getElem?_eq_some_iff.1 h1
      omega
  refine ⟨hlen, ?_⟩
  apply List.ext_getElem?
  intro j
  by_cases hj : j < Find.length
  · rw [List.getElem?_take_of_lt hj, List.getElem?_drop, Nat.add_comm]
    exact hall j hj
  · rw [List.getElem?_take_eq_none (by omega), List.getElem?_eq_none (by omega)]

/-- The advance of the index after a replacement, for a search string that is not empty. -/
theorem findAdvance_of_ne_nil (Find : List Char) (hne : Find ≠ [])
    (hsize : Find.length < 2 ^ 32) : findAdvance Find = Find.length - 1 := by
  have hpos : 0 < Find.length := List.length_pos.2 hne
  unfold findAdvance toUnsigned
  have h64 : (Find.length + (2 ^ 64 - 1)) % 2 ^ 64 = Find.length - 1 := by
    have : Find.length + (2 ^ 64 - 1) = (Find.length - 1) + 2 ^ 64 := by omega
    rw [this, Nat.add_mod_right]
    apply Nat.mod_eq_of_lt
    have : (2 : Nat) ^ 32 < 2 ^ 64 := by norm_num
    omega
  rw [h64]
  apply Nat.mod_eq_of_lt
  omega

/-- The index after a replacement: past the instance. -/
theorem index_after_match (Find : List Char) (idx : Nat) (hne : Find ≠ [])
    (hsize : idx + Find.length < 2 ^ 32) :
    toUnsigned (toUnsigned (idx + findAdvance Find) + 1) = idx + Find.length := by
  have hpos : 0 < Find.length := List.length_pos.2 hne
  rw [findAdvance_of_ne_nil Find hne (by omega)]
  unfold toUnsigned
  rw [Nat.mod_eq_of_lt (by omega), Nat.mod_eq_of_lt (by omega)]
  omega

theorem index_after_copy (idx : Nat) (hsize : idx + 1 < 2 ^ 32) :
    toUnsigned (idx + 1) = idx + 1 := Nat.mod_eq_of_lt hsize

/-- The loop of `ReplaceString` ends when the search string is not empty: every pass moves
the index forward. -/
theorem replaceLoop_isSome (Input Find Replace : List Char) (hne : Find ≠ [])
    (hsize : Input.length + Find.length < 2 ^ 32) (fuel idx : Nat) (output : List Char)
    (hfuel : Input.length - idx < fuel) :
    (replaceLoop Input Find Replace fuel idx output).isSome := by
  have hpos : 0 < Find.length := List.length_pos.2 hne
  induction fuel generalizing idx output with
  | zero => omega
  | succ k ih =>
    by_cases hlt : idx < Input.length
    · by_cases hm : matchesAt Input Find idx = true
      · simp only [replaceLoop, hlt, if_true, hm]
        rw [index_after_match Find idx hne (by omega)]
        exact ih _ _ (by omega)
      · simp only [replaceLoop, hlt, if_true, hm, Bool.false_eq_true, if_false]
        rw [index_after_copy idx (by omega)]
        exact ih _ _ (by omega)
    · simp [replaceLoop, hlt]

/-- The loop of `ReplaceString` copies the input when every instance found is replaced by
the search string itself. -/
theorem replaceLoop_copies (Input Find Replace : List Char) (hne : Find ≠ [])
    (hnul : Char.ofNat 0 ∉ Find) (hsize : Input.length + Find.length < 2 ^ 32)
    (hrep : ∀ idx, idx < Input.length → matchesAt Input Find idx = true → Replace = Find)
    (fuel idx : Nat) (output : List Char) (hidx : idx ≤ Input.length)
    (hfuel : Input.length - idx < fuel) :
    replaceLoop Input Find Replace fuel idx output = some (output ++ Input.drop idx) := by
  have hpos : 0 < Find.length := List.length_pos.2 hne
  induction fuel generalizing idx output with
  | zero => omega
  | succ k ih =>
    by_cases hlt : idx < Input.length
    · by_cases hm : matchesAt Input Find idx = true
      · obtain ⟨hlen, htake⟩ := matchesAt_prefix Input Find idx hnul hidx hm
        simp only [replaceLoop, hlt, if_true, hm]
        rw [index_after_match Find idx hne (by omega), ih _ _ hlen (by omega),
          hrep idx hlt hm]
        congr 1
        rw [List.append_assoc]
        congr 1
        have h1 := List.take_append_drop Find.length (Input.drop idx)
        rw [htake, List.drop_drop] at h1
        exact h1
      · simp only [replaceLoop, hlt, if_true, hm, Bool.false_eq_true, if_false]
        rw [index_after_copy idx (by omega), ih _ _ (by omega) (by omega)]
        congr 1
        rw [List.append_assoc]
        congr 1
        rw [List.drop_eq_getElem_cons hlt]
        simp [charAt, List.getElem?_eq_getElem hlt]
    · have : idx = Input.length := by omega
      subst this
      simp [replaceLoop]

/-- With an empty search string and an input that is not empty the loop of
`ReplaceString` stays at the index 0. -/
theorem replaceLoop_empty_find (Input Replace : List Char) (hne : Input ≠ [])
    (fuel : Nat) (output : List Char) :
    replaceLoop Input [] Replace fuel 0 output = none := by
  have hpos : 0 < Input.length := List.length_pos.2 hne
  have hback : toUnsigned (toUnsigned (0 + findAdvance []) + 1) = 0 := by decide
  induction fuel generalizing output with
  | zero => rfl
  | succ k ih =>
    have hm : matchesAt Input [] 0 = true := by simp [matchesAt]
    simp only [replaceLoop, hpos, if_true, hm]
    rw [hback]
    exact ih _

end StringProcessing

namespace StringProcessing

/-- The position that `CharacterPosition` returns is `-1` or an index of the string. -/
theorem characterPositionFrom_range (c : Char) (l : List Char) (i : Nat) :
    characterPositionFrom c l i = -1 ∨
    ∃ k, k < l.length ∧ characterPositionFrom c l i = ((i + k : Nat) : Int) := by
  induction l generalizing i with
  | nil => exact Or.inl rfl
  | cons a rest ih =>
    by_cases h : a = c
    · exact Or.inr ⟨0, by simp, by simp [characterPositionFrom, h]⟩
    · rcases ih (i + 1) with h1 | ⟨k, hk, h1⟩
      · exact Or.inl (by simp [characterPositionFrom, h, h1])
      · refine Or.inr ⟨k + 1, by simp [hk], ?_⟩
        simp only [characterPositionFrom, h, if_false, h1]
        congr 1
        omega

theorem CharacterPosition_range (l : List Char) (c : Char) :
    CharacterPosition l c = -1 ∨ ∃ k, k < l.length ∧ CharacterPosition l c = (k : Int) := by
  rcases characterPositionFrom_range c l 0 with h | ⟨k, hk, h⟩
  · exact Or.inl h
  · exact Or.inr ⟨k, hk, by rw [CharacterPosition, h, Nat.zero_add]⟩

/-- The loop of `SplitString` ends: every pass but the last shortens `Loop_Str`. -/
theorem splitLoop_isSome (Input : List Char) (c : Char) (fuel : Nat) (Loop_Str : List Char)
    (splitParts : List (List Char)) (h : Loop_Str.length < fuel) :
    (splitLoop Input c fuel Loop_Str splitParts).isSome := by
  induction fuel generalizing Loop_Str splitParts with
  | zero => omega
  | succ k ih =>
    rcases CharacterPosition_range Loop_Str c with hp | ⟨pos, hpos, hp⟩
    · by_cases hi : Input = [] <;> simp [splitLoop, hp, hi]
    · have hne : ¬ ((pos : Int) = -1) := by omega
      have hshort : (Loop_Str.drop ((pos : Int) + 1).toNat).length < k := by
        have : ((pos : Int) + 1).toNat = pos + 1 := by omega
        rw [this, List.length_drop]
        omega
      simp only [splitLoop, hp, hne, if_false]
      split
      · exact ih _ _ hshort
      · exact ih _ _ hshort

theorem SplitString_isSome (Input : List Char) (c : Char) : (SplitString Input c).isSome :=
  splitLoop_isSome Input c _ Input [] (Nat.lt_succ_self _)

/-- The loop of `StringPositions` ends: every pass but the last shortens `Loop_Str`. -/
theorem positionsLoop_isSome (Input SearchString : List Char) (fuel : Nat)
    (Loop_Str : List Char) (numberDiscarded : Int) (positions : List Int)
    (h : Loop_Str.length < fuel) :
    (positionsLoop Input SearchString fuel Loop_Str numberDiscarded positions).isSome := by
  induction fuel generalizing Loop_Str numberDiscarded positions with
  | zero => omega
  | succ k ih =>
    rcases CharacterPosition_range Loop_Str (charAt SearchString 0) with hp | ⟨pos, hpos, hp⟩
    · simp [positionsLoop, hp]
    · have hne : ¬ ((pos : Int) = -1) := by omega
      have hshort : (Loop_Str.drop ((pos : Int) + 1).toNat).length < k := by
        have : ((pos : Int) + 1).toNat = pos + 1 := by omega
        rw [this, List.length_drop]
        omega
      simp only [positionsLoop, hp, hne, if_false]
      exact ih _ _ _ hshort

theorem StringPositions_isSome (Input SearchString : List Char) :
    (StringPositions Input SearchString).isSome :=
  positionsLoop_isSome Input SearchString _ Input 0 [] (Nat.lt_succ_self _)

end StringProcessing

namespace Bs2JpsiPhi_mistagParameter_alt

/-- The cache after the loop of lines 238-243: for each of the tags -1, 0 and 1 the two
integrals, for the members as they were before the loop. -/
theorem cache_filled (E : External) (pdf : PDF) (tag : Int) (h1 : -1 ≤ tag) (h2 : tag ≤ 1) :
    ([-1, 0, 1].foldl (cachePass E) pdf).normalisationCacheValueRes1 (tag + 1).toNat =
      diffXsecNorm1 E { pdf with tag := tag, resolution := pdf.resolution1 } ∧
    ([-1, 0, 1].foldl (cachePass E) pdf).normalisationCacheValueRes2 (tag + 1).toNat =
      diffXsecNorm1 E { pdf with tag := tag, resolution := pdf.resolution2 } := by
  have h : tag = -1 ∨ tag = 0 ∨ tag = 1 := by omega
  have i0 : ((-1 : Int) + 1).toNat = 0 := by decide
  have i1 : ((0 : Int) + 1).toNat = 1 := by decide
  have i2 : ((1 : Int) + 1).toNat = 2 := by decide
  rcases h with h | h | h <;> subst h <;>
    simp only [List.foldl, cachePass, i0, i1, i2, Function.update_apply, diffXsecNorm1, A0, AP, AT,
      timeFactorA0A0Int, timeFactorAPAPInt, timeFactorATATInt, timeFactorReA0APInt,
      timeFactorImAPATInt, timeFactorImA0ATInt, timeFactorEvenInt, timeFactorOddInt,
      intExpL, intExpH, intExpSin, intExpCos, gamma_l, gamma_h, gamma, q] <;>
    simp

/-- After `SetPhysicsParameters` the cache is not valid. -/
theorem CacheHolds_SetPhysicsParameters (E : External) (allParameters : String → ℚ)
    (pdf : PDF) : CacheHolds E (SetPhysicsParameters allParameters pdf) none :=
  ⟨rfl, fun b hb => by cases hb⟩

/-- A call of `Normalisation` without a bound on the time returns 0 and leaves the cache
as it is. -/
theorem Normalisation_no_bound (E : External) (measurement : String → ℚ)
    (timeBound : IConstraint) (pdf : PDF) (filled : Option (ℚ × ℚ))
    (hinv : CacheHolds E pdf filled) (hu : timeBound.GetUnit = "NameNotFoundError") :
    (Normalisation E measurement timeBound pdf).1 = 0 ∧
    CacheHolds E (Normalisation E measurement timeBound pdf).2 filled := by
  have hN : Normalisation E measurement timeBound pdf =
      (0, { pdf with
        t := measurement "time" - pdf.timeOffset
        ctheta_tr := measurement "cosTheta"
        phi_tr := measurement "phi"
        ctheta_1 := measurement "cosPsi" }) := by
    simp only [Normalisation, hu, if_true]
  rw [hN]
  refine ⟨rfl, hinv.1, ?_⟩
  intro b hb tag h1 h2
  obtain ⟨a1, a2⟩ := hinv.2 b hb tag h1 h2
  constructor
  · show pdf.normalisationCacheValueRes1 (tag + 1).toNat = _
    rw [a1]
    simp only [diffXsecNorm1, A0, AP, AT,
      timeFactorA0A0Int, timeFactorAPAPInt, timeFactorATATInt, timeFactorReA0APInt,
      timeFactorImAPATInt, timeFactorImA0ATInt, timeFactorEvenInt, timeFactorOddInt,
      intExpL, intExpH, intExpSin, intExpCos, gamma_l, gamma_h, gamma, q]
  · show pdf.normalisationCacheValueRes2 (tag + 1).toNat = _
    rw [a2]
    simp only [diffXsecNorm1, A0, AP, AT,
      timeFactorA0A0Int, timeFactorAPAPInt, timeFactorATATInt, timeFactorReA0APInt,
      timeFactorImAPATInt, timeFactorImA0ATInt, timeFactorEvenInt, timeFactorOddInt,
      intExpL, intExpH, intExpSin, intExpCos, gamma_l, gamma_h, gamma, q]

/-- A call of `Normalisation` with a bound on the time and a tag among -1, 0 and 1: the
value returned is the uncached normalisation for the parameters of the object, the tag of
the measurement and the time boundary at which the cache was filled, which is the one of
the call when the cache was not valid. -/
theorem Normalisation_spec (E : External) (measurement : String → ℚ)
    (timeBound : IConstraint) (pdf : PDF) (filled : Option (ℚ × ℚ))
    (hinv : CacheHolds E pdf filled) (hu : ¬ timeBound.GetUnit = "NameNotFoundError")
    (h1 : -1 ≤ toInt (measurement "tag")) (h2 : toInt (measurement "tag") ≤ 1) :
    (Normalisation E measurement timeBound pdf).1 =
      uncachedNormalisation E pdf
        (filled.getD (timeBound.GetMinimum, timeBound.GetMaximum)).1
        (filled.getD (timeBound.GetMinimum, timeBound.GetMaximum)).2
        (toInt (measurement "tag")) ∧
    CacheHolds E (Normalisation E measurement timeBound pdf).2
      (some (filled.getD (timeBound.GetMinimum, timeBound.GetMaximum))) := by
  cases filled with
  | some b =>
    have hv : pdf.normalisationCacheValid = true := hinv.1
    have hN : Normalisation E measurement timeBound pdf =
        (pdf.resolution1Fraction *
            pdf.normalisationCacheValueRes1 (toInt (measurement "tag") + 1).toNat +
          (1 - pdf.resolution1Fraction) *
            pdf.normalisationCacheValueRes2 (toInt (measurement "tag") + 1).toNat,
         { pdf with
            t := measurement "time" - pdf.timeOffset
            ctheta_tr := measurement "cosTheta"
            phi_tr := measurement "phi"
            ctheta_1 := measurement "cosPsi"
            tlo := timeBound.GetMinimum
            thi := timeBound.GetMaximum
            tag := toInt (measurement "tag") }) := by
      simp only [Normalisation, hu, if_false, hv, Bool.not_true, Bool.false_eq_true]
    rw [hN]
    simp only [Option.getD_some]
    constructor
    · obtain ⟨a1, a2⟩ := hinv.2 b rfl (toInt (measurement "tag")) h1 h2
      simp only [a1, a2, uncachedNormalisation]
    · refine ⟨hv, ?_⟩
      intro b2 hb2 tag t1 t2
      cases hb2
      obtain ⟨a1, a2⟩ := hinv.2 b rfl tag t1 t2
      constructor
      · show pdf.normalisationCacheValueRes1 (tag + 1).toNat = _
        rw [a1]
        simp only [diffXsecNorm1, A0, AP, AT,
          timeFactorA0A0Int, timeFactorAPAPInt, timeFactorATATInt, timeFactorReA0APInt,
          timeFactorImAPATInt, timeFactorImA0ATInt, timeFactorEvenInt, timeFactorOddInt,
          intExpL, intExpH, intExpSin, intExpCos, gamma_l, gamma_h, gamma, q]
      · show pdf.normalisationCacheValueRes2 (tag + 1).toNat = _
        rw [a2]
        simp only [diffXsecNorm1, A0, AP, AT,
          timeFactorA0A0Int, timeFactorAPAPInt, timeFactorATATInt, timeFactorReA0APInt,
          timeFactorImAPATInt, timeFactorImA0ATInt, timeFactorEvenInt, timeFactorOddInt,
          intExpL, intExpH, intExpSin, intExpCos, gamma_l, gamma_h, gamma, q]
  | none =>
    have hv : pdf.normalisationCacheValid = false := hinv.1
    have hfill : ∀ tag : Int, -1 ≤ tag → tag ≤ 1 →
        ([-1, 0, 1].foldl (cachePass E)
          { pdf with
            t := measurement "time" - pdf.timeOffset
            ctheta_tr := measurement "cosTheta"
            phi_tr := measurement "phi"
            ctheta_1 := measurement "cosPsi"
            tlo := timeBound.GetMinimum
            thi := timeBound.GetMaximum }).normalisationCacheValueRes1 (tag + 1).toNat =
          diffXsecNorm1 E { pdf with tlo := timeBound.GetMinimum, thi := timeBound.GetMaximum,
                                     tag := tag, resolution := pdf.resolution1 } ∧
        ([-1, 0, 1].foldl (cachePass E)
          { pdf with
            t := measurement "time" - pdf.timeOffset
            ctheta_tr := measurement "cosTheta"
            phi_tr := measurement "phi"
            ctheta_1 := measurement "cosPsi"
            tlo := timeBound.GetMinimum
            thi := timeBound.GetMaximum }).normalisationCacheValueRes2 (tag + 1).toNat =
          diffXsecNorm1 E { pdf with tlo := timeBound.GetMinimum, thi := timeBound.GetMaximum,
                                     tag := tag, resolution := pdf.resolution2 } := by
      intro tag t1 t2
      obtain ⟨a1, a2⟩ := cache_filled E
        { pdf with
            t := measurement "time" - pdf.timeOffset
            ctheta_tr := measurement "cosTheta"
            phi_tr := measurement "phi"
            ctheta_1 := measurement "cosPsi"
            tlo := timeBound.GetMinimum
            thi := timeBound.GetMaximum } tag t1 t2
      rw [a1, a2]
      constructor <;>
      simp only [diffXsecNorm1, A0, AP, AT,
          timeFactorA0A0Int, timeFactorAPAPInt, timeFactorATATInt, timeFactorReA0APInt,
          timeFactorImAPATInt, timeFactorImA0ATInt, timeFactorEvenInt, timeFactorOddInt,
          intExpL, intExpH, intExpSin, intExpCos, gamma_l, gamma_h, gamma, q]
    have hN1 : (Normalisation E measurement timeBound pdf).1 =
        pdf.resolution1Fraction *
            ([-1, 0, 1].foldl (cachePass E)
              { pdf with
                t := measurement "time" - pdf.timeOffset
                ctheta_tr := measurement "cosTheta"
                phi_tr := measurement "phi"
                ctheta_1 := measurement "cosPsi"
                tlo := timeBound.GetMinimum
                thi := timeBound.GetMaximum }).normalisationCacheValueRes1
              (toInt (measurement "tag") + 1).toNat +
          (1 - pdf.resolution1Fraction) *
            ([-1, 0, 1].foldl (cachePass E)
              { pdf with
                t := measurement "time" - pdf.timeOffset
                ctheta_tr := measurement "cosTheta"
                phi_tr := measurement "phi"
                ctheta_1 := measurement "cosPsi"
                tlo := timeBound.GetMinimum
                thi := timeBound.GetMaximum }).normalisationCacheValueRes2
              (toInt (measurement "tag") + 1).toNat := by
      simp only [Normalisation, hu, if_false, hv, Bool.not_false, if_true]
      rfl
    have hN2 : (Normalisation E measurement timeBound pdf).2 =
        { ([-1, 0, 1].foldl (cachePass E)
              { pdf with
                t := measurement "time" - pdf.timeOffset
                ctheta_tr := measurement "cosTheta"
                phi_tr := measurement "phi"
                ctheta_1 := measurement "cosPsi"
                tlo := timeBound.GetMinimum
                thi := timeBound.GetMaximum }) with
          tag := toInt (measurement "tag"), normalisationCacheValid := true } := by
      simp only [Normalisation, hu, if_false, hv, Bool.not_false, if_true]
    simp only [Option.getD_none]
    constructor
    · rw [hN1]
      obtain ⟨a1, a2⟩ := hfill (toInt (measurement "tag")) h1 h2
      rw [a1, a2]
      rfl
    · rw [hN2]
      refine ⟨rfl, ?_⟩
      intro b hb tag t1 t2
      cases hb
      obtain ⟨a1, a2⟩ := hfill tag t1 t2
      constructor
      · show ([-1, 0, 1].foldl (cachePass E) _).normalisationCacheValueRes1 (tag + 1).toNat = _
        rw [a1]
        simp only [List.foldl, cachePass, diffXsecNorm1, A0, AP, AT,
          timeFactorA0A0Int, timeFactorAPAPInt, timeFactorATATInt, timeFactorReA0APInt,
          timeFactorImAPATInt, timeFactorImA0ATInt, timeFactorEvenInt, timeFactorOddInt,
          intExpL, intExpH, intExpSin, intExpCos, gamma_l, gamma_h, gamma, q]
      · show ([-1, 0, 1].foldl (cachePass E) _).normalisationCacheValueRes2 (tag + 1).toNat = _
        rw [a2]
        simp only [List.foldl, cachePass, diffXsecNorm1, A0, AP, AT,
          timeFactorA0A0Int, timeFactorAPAPInt, timeFactorATATInt, timeFactorReA0APInt,
          timeFactorImAPATInt, timeFactorImA0ATInt, timeFactorEvenInt, timeFactorOddInt,
          intExpL, intExpH, intExpSin, intExpCos, gamma_l, gamma_h, gamma, q]

end Bs2JpsiPhi_mistagParameter_alt

namespace Bs2JpsiPhi_mistagParameter_alt

/-- A sequence of calls on an object whose cache is in order returns what the uncached
computation returns when it is made for the time boundary at which the cache was
filled. -/
theorem run_eq_filledRun (E : External) (ops : List Call) (pdf : PDF)
    (filled : Option (ℚ × ℚ)) (hinv : CacheHolds E pdf filled)
    (htags : ∀ m tb, Call.Normalisation m tb ∈ ops →
      -1 ≤ toInt (m "tag") ∧ toInt (m "tag") ≤ 1) :
    run E pdf ops = filledRun E pdf filled ops := by
  induction ops generalizing pdf filled with
  | nil => simp [run, filledRun]
  | cons c rest ih =>
    have hrest : ∀ m tb, Call.Normalisation m tb ∈ rest →
        -1 ≤ toInt (m "tag") ∧ toInt (m "tag") ≤ 1 :=
      fun m tb h => htags m tb (List.mem_cons_of_mem _ h)
    cases c with
    | SetPhysicsParameters allParameters =>
      simp only [run, filledRun]
      exact ih _ none (CacheHolds_SetPhysicsParameters E allParameters pdf) hrest
    | Normalisation m tb =>
      by_cases hu : tb.GetUnit = "NameNotFoundError"
      · obtain ⟨r1, r2⟩ := Normalisation_no_bound E m tb pdf filled hinv hu
        simp only [run, filledRun, hu, if_true]
        rw [r1, ih _ filled r2 hrest]
      · obtain ⟨t1, t2⟩ := htags m tb (List.mem_cons_self _ _)
        obtain ⟨r1, r2⟩ := Normalisation_spec E m tb pdf filled hinv hu t1 t2
        simp only [run, filledRun, hu, if_false]
        rw [r1, ih _ _ r2 hrest]

/-- When every call of `Normalisation` is given the same time boundary, the boundary at
which the cache was filled is the boundary of the call. -/
theorem filledRun_eq_uncachedRun (E : External) (ops : List Call) (pdf : PDF)
    (filled : Option (ℚ × ℚ)) (lo hi : ℚ)
    (hf : filled = none ∨ filled = some (lo, hi))
    (hb : ∀ m tb, Call.Normalisation m tb ∈ ops → ¬ tb.GetUnit = "NameNotFoundError" →
      tb.GetMinimum = lo ∧ tb.GetMaximum = hi) :
    filledRun E pdf filled ops = uncachedRun E pdf ops := by
  induction ops generalizing pdf filled with
  | nil => simp [uncachedRun, filledRun]
  | cons c rest ih =>
    have hrest : ∀ m tb, Call.Normalisation m tb ∈ rest →
        ¬ tb.GetUnit = "NameNotFoundError" → tb.GetMinimum = lo ∧ tb.GetMaximum = hi :=
      fun m tb h => hb m tb (List.mem_cons_of_mem _ h)
    cases c with
    | SetPhysicsParameters allParameters =>
      simp only [uncachedRun, filledRun]
      exact ih _ none (Or.inl rfl) hrest
    | Normalisation m tb =>
      by_cases hu : tb.GetUnit = "NameNotFoundError"
      · simp only [uncachedRun, filledRun, hu, if_true]
        rw [ih _ filled hf hrest]
      · obtain ⟨b1, b2⟩ := hb m tb (List.mem_cons_self _ _) hu
        have hget : filled.getD (lo, hi) = (lo, hi) := by
          rcases hf with hf | hf <;> rw [hf] <;> rfl
        simp only [uncachedRun, filledRun, hu, if_false, b1, b2, hget]
        rw [ih _ (some (lo, hi)) (Or.inr rfl) hrest]

end Bs2JpsiPhi_mistagParameter_alt

namespace ScanStudies
open ParameterSet

/-- The retry loop leaves the `ParameterSet` as it was passed to its last fit call, and as
it found it when it makes no call. -/
theorem retryLoop_lastParams {σ : Type} (fit : FitStep σ ℚ) (name : String) (orig step : ℚ)
    (fuel : Nat) (v : RetryVars) (w : World σ ℚ) :
    ∃ calls : List (FitCall ℚ),
      (retryLoop fit name orig step fuel v w).2.2.fitLog = w.fitLog ++ calls ∧
      (retryLoop fit name orig step fuel v w).2.2.params =
        (calls.getLast?.map FitCall.params).getD w.params := by
  induction fuel generalizing v w with
  | zero => exact ⟨[], by simp [retryLoop], by simp [retryLoop]⟩
  | succ k ih =>
    by_cases h : v.scanStepResult.GetFitStatus = 3
    · rw [retryLoop_done _ _ _ _ _ _ _ h]; exact ⟨[], by simp, by simp⟩
    by_cases hb : (nextTry orig step v).wiggle_step_num ≥ 20
    · rw [retryLoop_break _ _ _ _ _ _ _ h hb]; exact ⟨[], by simp, by simp⟩
    rcases hc : callFit fit (setScanValue name (nextTry orig step v).scanVal w) with ⟨o, w2⟩
    have hw2 := callFit_eq_params hc
    obtain ⟨hlog0, _⟩ := callFit_log hc
    have hlog : w2.fitLog = w.fitLog ++
        [⟨(setScanValue name (nextTry orig step v).scanVal w).params, o⟩] := hlog0
    cases o with
    | throws e =>
      rw [retryLoop_throws _ _ _ _ _ _ _ _ _ h hb hc]
      exact ⟨[⟨(setScanValue name (nextTry orig step v).scanVal w).params, .throws e⟩],
        hlog, hw2⟩
    | result r =>
      rw [retryLoop_result _ _ _ _ _ _ _ _ _ h hb hc]
      obtain ⟨calls, hl, hpar⟩ := ih { nextTry orig step v with scanStepResult := r } w2
      refine ⟨⟨(setScanValue name (nextTry orig step v).scanVal w).params, .result r⟩ :: calls,
        by rw [hl, hlog]; simp, ?_⟩
      rw [hpar, List.getLast?_cons]
      cases calls.getLast? with
      | none => exact hw2
      | some c => rfl

/-- A grid point leaves the `ParameterSet` as it was passed to the last fit call of the
point, however control leaves the point. -/
theorem scanPoint_lastParams {σ : Type} (fit : FitStep σ ℚ) (P : ScanParam) (si : Nat)
    (w : World σ ℚ) (out : FitResultVector ℚ) :
    ∃ (calls : List (FitCall ℚ)) (c : FitCall ℚ),
      (scanPoint fit P si w out).2.1.fitLog = w.fitLog ++ calls ∧
      calls.getLast? = some c ∧
      (scanPoint fit P si w out).2.1.params = c.params := by
  rcases hc : callFit fit
    (setScanValue P.GetName (P.GetMin + deltaScan P * (si : ℚ)) w) with ⟨o, w2⟩
  have hw2 := callFit_eq_params hc
  obtain ⟨hlog0, _⟩ := callFit_log hc
  have hlog : w2.fitLog = w.fitLog ++
      [⟨(setScanValue P.GetName (P.GetMin + deltaScan P * (si : ℚ)) w).params, o⟩] := hlog0
  cases o with
  | throws e =>
    refine ⟨[⟨(setScanValue P.GetName (P.GetMin + deltaScan P * (si : ℚ)) w).params,
      .throws e⟩], _, ?_, rfl, ?_⟩
    · cases e <;> simp only [scanPoint, hc] <;> exact hlog
    · cases e <;> simp only [scanPoint, hc] <;> exact hw2
  | result r =>
    obtain ⟨calls, hl, hpar⟩ := retryLoop_lastParams fit P.GetName
      (P.GetMin + deltaScan P * (si : ℚ)) (deltaScan P / 20) retryFuel
      ⟨0, 1, 0, P.GetMin + deltaScan P * (si : ℚ), r⟩ w2
    rcases hr : retryLoop fit P.GetName (P.GetMin + deltaScan P * (si : ℚ))
      (deltaScan P / 20) retryFuel ⟨0, 1, 0, P.GetMin + deltaScan P * (si : ℚ), r⟩ w2
      with ⟨e, v, w3⟩
    rw [hr] at hl hpar
    simp only at hl hpar
    have hw : (scanPoint fit P si w out).2.1 = w3 := by
      cases e <;> simp only [scanPoint, hc, hr]
    refine ⟨⟨(setScanValue P.GetName (P.GetMin + deltaScan P * (si : ℚ)) w).params,
      .result r⟩ :: calls,
      calls.getLast?.getD ⟨(setScanValue P.GetName (P.GetMin + deltaScan P * (si : ℚ)) w).params,
        .result r⟩, ?_, List.getLast?_cons, ?_⟩
    · rw [hw, hl, hlog]; simp
    · rw [hw, hpar]
      cases calls.getLast? with
      | none => exact hw2
      | some c => rfl

/-- What a grid point does, whatever the fits do: its fit calls are the tries 0, 1, ...
around the grid value, each on the `ParameterSet` of the point's start with a blinded
value written to the scanned parameter, every call but the last returned a status other
than 3, and the point leaves the `ParameterSet` as it was passed to the last call.  When
control stays in the scan the last call returned the accepted result, which is finished
with that `ParameterSet` and appended; otherwise the last call raised an error and nothing
is appended. -/
theorem scanPoint_full {σ : Type} (fit : FitStep σ ℚ) (P : ScanParam) (si : Nat)
    (w : World σ ℚ) (out : FitResultVector ℚ)
    (hp : (GetPhysicsParameter P.GetName w.params).isSome) :
    ∃ (calls : List (FitCall ℚ)) (c : FitCall ℚ),
      (scanPoint fit P si w out).2.1.fitLog = w.fitLog ++ calls ∧
      calls.getLast? = some c ∧
      (scanPoint fit P si w out).2.1.params = c.params ∧
      1 ≤ calls.length ∧ calls.length ≤ 21 ∧
      calls.map (fittedAt P.GetName) = (List.range' 0 calls.length).map (fun k =>
        some (tryValue (gridValue P si) (deltaScan P / 20) k)) ∧
      (∀ c2 ∈ calls, ∃ y,
        c2.params = update P.GetName (PhysicsParameter.SetBlindedValue y) w.params) ∧
      (∀ j c2, calls[j]? = some c2 → j + 1 < calls.length →
        ∃ r, c2.outcome = .result r ∧ r.GetFitStatus ≠ 3) ∧
      ((scanPoint fit P si w out).1 = .returned →
        ∃ x r0, c.outcome = .result r0 ∧
          (scanPoint fit P si w out).2.2 =
            out.AddFitResult (finishPoint c.params P.GetName x r0) ∧
          (r0.GetFitStatus = 3 →
            x = tryValue (gridValue P si) (deltaScan P / 20) (calls.length - 1))) ∧
      ((scanPoint fit P si w out).1 ≠ .returned →
        (∃ e, c.outcome = .throws e) ∧ (scanPoint fit P si w out).2.2 = out) := by
  obtain ⟨calls, hlog, h1, h21, hvals, _, hne, hres⟩ := scanPoint_spec fit P si w out hp
  obtain ⟨calls1, c, hlog1, hlast, hpar⟩ := scanPoint_lastParams fit P si w out
  have e1 : calls = calls1 := List.append_cancel_left (hlog.symm.trans hlog1)
  subst e1
  obtain ⟨calls2, hlog2, hps⟩ := scanPoint_calls fit P si w out
  have e2 : calls = calls2 := List.append_cancel_left (hlog.symm.trans hlog2)
  subst e2
  obtain ⟨calls3, hlog3, hst⟩ := scanPoint_statuses fit P si w out
  have e3 : calls = calls3 := List.append_cancel_left (hlog.symm.trans hlog3)
  subst e3
  rw [gridValue_eq] at hvals hres
  refine ⟨calls, c, hlog, hlast, hpar, h1, h21, hvals, hps, hst, ?_, ?_⟩
  · intro hret
    obtain ⟨_, x, r0, hout, hl, h3, _⟩ := hres hret
    rw [hlast] at hl
    simp only [Option.map_some', Option.some.injEq] at hl
    refine ⟨x, r0, hl, ?_, h3⟩
    rw [hout, hpar]
  · intro hn
    obtain ⟨⟨c1, hc1, e, he⟩, hout⟩ := hne hn
    refine ⟨?_, hout⟩
    obtain ⟨i, hi⟩ := List.mem_iff_getElem?.1 hc1
    by_cases hlt : i + 1 < calls.length
    · obtain ⟨r, hr, _⟩ := hst i c1 hi hlt
      rw [he] at hr
      cases hr
    · have hil : i < calls.length := by
        rcases Nat.lt_or_ge i calls.length with h | h
        · exact h
        · rw [List.getElem?_eq_none h] at hi; cases hi
      have hidx : calls.length - 1 = i := by omega
      have hgl := hlast
      rw [List.getLast?_eq_getElem?, hidx, hi] at hgl
      simp only [Option.some.injEq] at hgl
      subst hgl
      exact ⟨e, he⟩

/-- What the scan loop does, whatever the fits do, grid point by grid point: the log grows
by one segment of fit calls per grid point entered and the collector by one result per
grid point finished; the `i`-th appended result is the result of the last call of the
`i`-th segment, finished with the `ParameterSet` of that call.  When control leaves the
loop other than at its end, the last call of the log raised an error, and the
`ParameterSet` is left as it was passed to that call. -/
theorem scanLoop_full {σ : Type} (fit : FitStep σ ℚ) (P : ScanParam) (todo si : Nat)
    (w : World σ ℚ) (out : FitResultVector ℚ)
    (hp : (GetPhysicsParameter P.GetName w.params).isSome) :
    ∃ (segs : List (List (FitCall ℚ))) (rs : List (FitResult ℚ)),
      (scanLoop fit P todo si w out).2.1.fitLog = w.fitLog ++ segs.flatten ∧
      (scanLoop fit P todo si w out).2.2.allResults = out.allResults ++ rs ∧
      ((scanLoop fit P todo si w out).1 = .returned → rs.length = todo) ∧
      (∀ i calls, segs[i]? = some calls →
        1 ≤ calls.length ∧ calls.length ≤ 21 ∧
        calls.map (fittedAt P.GetName) = (List.range' 0 calls.length).map (fun k =>
          some (tryValue (gridValue P (si + i)) (deltaScan P / 20) k)) ∧
        (∀ c ∈ calls, ∃ y,
          c.params = update P.GetName (PhysicsParameter.SetBlindedValue y) w.params) ∧
        (∀ j c, calls[j]? = some c → j + 1 < calls.length →
          ∃ r, c.outcome = .result r ∧ r.GetFitStatus ≠ 3)) ∧
      (∀ i r, rs[i]? = some r → ∃ calls c x r0,
        segs[i]? = some calls ∧ calls.getLast? = some c ∧ c.outcome = .result r0 ∧
        r = finishPoint c.params P.GetName x r0 ∧
        (r0.GetFitStatus = 3 →
          x = tryValue (gridValue P (si + i)) (deltaScan P / 20) (calls.length - 1))) ∧
      ((scanLoop fit P todo si w out).1 ≠ .returned →
        rs.length < todo ∧ ∃ calls c e,
          segs[rs.length]? = some calls ∧ calls.getLast? = some c ∧
          (scanLoop fit P todo si w out).2.1.fitLog.getLast? = some c ∧
          c.outcome = .throws e ∧
          (scanLoop fit P todo si w out).2.1.params = c.params) := by
  induction todo generalizing si w out with
  | zero =>
    exact ⟨[], [], by simp [scanLoop], by simp [scanLoop], fun _ => rfl, by simp, by simp,
      fun h => absurd rfl h⟩
  | succ k ih =>
    obtain ⟨calls, c, hlog, hlast, hpar, h1, h21, hvals, hps, hst, hret, hne⟩ :=
      scanPoint_full fit P si w out hp
    have hp1 := scanPoint_isSome fit P si w out hp
    obtain ⟨y0, hy0⟩ := scanPoint_params fit P si w out
    rcases hsp : scanPoint fit P si w out with ⟨e, w1, out1⟩
    rw [hsp] at hlog hpar hret hne hp1 hy0
    simp only at hlog hpar hret hne hp1 hy0
    by_cases he : e = .returned
    · subst he
      obtain ⟨x, r0, hc0, hout, hx3⟩ := hret rfl
      obtain ⟨segs, rs, hlog2, hres2, hret2, hsegs2, hrs2, hbad2⟩ := ih (si + 1) w1 out1 hp1
      simp only [scanLoop, hsp]
      refine ⟨calls :: segs, finishPoint c.params P.GetName x r0 :: rs, ?_, ?_, ?_, ?_, ?_,
        ?_⟩
      · rw [hlog2, hlog]; simp
      · rw [hres2, hout]; simp [FitResultVector.AddFitResult]
      · intro hr; simp only [List.length_cons]; rw [hret2 hr]
      · intro i cs hi
        cases i with
        | zero =>
          simp only [List.getElem?_cons_zero, Option.some.injEq] at hi
          subst hi
          exact ⟨h1, h21, hvals, hps, hst⟩
        | succ i' =>
          simp only [List.getElem?_cons_succ] at hi
          obtain ⟨a1, a2, a3, a4, a5⟩ := hsegs2 i' cs hi
          have hidx : si + 1 + i' = si + (i' + 1) := by omega
          rw [hidx] at a3
          refine ⟨a1, a2, a3, ?_, a5⟩
          intro c2 hc2
          obtain ⟨y, hy⟩ := a4 c2 hc2
          exact ⟨y, by rw [hy, hy0, update_setBlinded_twice]⟩
      · intro i r hi
        cases i with
        | zero =>
          simp only [List.getElem?_cons_zero, Option.some.injEq] at hi
          subst hi
          exact ⟨calls, c, x, r0, List.getElem?_cons_zero, hlast, hc0, rfl, hx3⟩
        | succ i' =>
          simp only [List.getElem?_cons_succ] at hi
          obtain ⟨cs, c2, x2, r2, b1, b2, b3, b4, b5⟩ := hrs2 i' r hi
          have hidx : si + 1 + i' = si + (i' + 1) := by omega
          rw [hidx] at b5
          exact ⟨cs, c2, x2, r2, by rw [List.getElem?_cons_succ]; exact b1, b2, b3, b4, b5⟩
      · intro hr
        obtain ⟨hlen, cs, c2, e2, d1, d2, d3, d4, d5⟩ := hbad2 hr
        exact ⟨by simp only [List.length_cons]; omega, cs, c2, e2,
          by simp only [List.length_cons, List.getElem?_cons_succ]; exact d1, d2, d3, d4, d5⟩
    · have hloop : scanLoop fit P (k + 1) si w out = (e, w1, out1) := by
        cases e <;> first | exact absurd rfl he | simp only [scanLoop, hsp]
      rw [hloop]
      obtain ⟨⟨e1, hce⟩, hout⟩ := hne he
      refine ⟨[calls], [], by simp [hlog], by rw [hout]; simp, fun hr => absurd hr he, ?_,
        by simp, ?_⟩
      · intro i cs hi
        cases i with
        | zero =>
          simp only [List.getElem?_cons_zero, Option.some.injEq] at hi
          subst hi
          exact ⟨h1, h21, hvals, hps, hst⟩
        | succ i' => simp at hi
      · intro _
        refine ⟨by simp, calls, c, e1, List.getElem?_cons_zero, hlast, ?_, hce, hpar⟩
        show w1.fitLog.getLast? = some c
        rw [hlog, List.getLast?_append, hlast]
        rfl

/-- What `ScanStudies::DoScan` does on a `ParameterSet` that has the scanned parameter,
whatever the fits do, grid point by grid point: at every fit call the scanned parameter is
fixed at the value of the try and every other parameter is as in the input; the `i`-th
appended result is the result of the last fit call at grid value `i`, finished with the
`ParameterSet` of that call.  When control leaves `DoScan` other than by returning, the
last call of the log raised an error and the `ParameterSet` is left as it was passed to
that call. -/
theorem DoScan_full {σ : Type} (fit : FitStep σ ℚ) (P : ScanParam)
    (w : World σ ℚ) (out : FitResultVector ℚ)
    (hp : (GetPhysicsParameter P.GetName w.params).isSome) :
    ∃ (segs : List (List (FitCall ℚ))) (rs : List (FitResult ℚ)),
      (DoScan fit P w out).2.1.fitLog = w.fitLog ++ segs.flatten ∧
      (DoScan fit P w out).2.2.allResults = out.allResults ++ rs ∧
      ((DoScan fit P w out).1 = .returned → rs.length = P.GetPoints.toNat) ∧
      (∀ i calls, segs[i]? = some calls →
        1 ≤ calls.length ∧ calls.length ≤ 21 ∧
        calls.map (fittedAt P.GetName) = (List.range' 0 calls.length).map (fun k =>
          some (tryValue (gridValue P i) (deltaScan P / 20) k)) ∧
        (∀ c ∈ calls, ∃ y,
          c.params = update P.GetName (PhysicsParameter.SetBlindedValue y)
            (update P.GetName (PhysicsParameter.SetType "Fixed") w.params)) ∧
        (∀ j c, calls[j]? = some c → j + 1 < calls.length →
          ∃ r, c.outcome = .result r ∧ r.GetFitStatus ≠ 3)) ∧
      (∀ i r, rs[i]? = some r → ∃ calls c x r0,
        segs[i]? = some calls ∧ calls.getLast? = some c ∧ c.outcome = .result r0 ∧
        r = finishPoint c.params P.GetName x r0 ∧
        (r0.GetFitStatus = 3 →
          x = tryValue (gridValue P i) (deltaScan P / 20) (calls.length - 1))) ∧
      ((DoScan fit P w out).1 ≠ .returned →
        rs.length < P.GetPoints.toNat ∧ ∃ calls c e,
          segs[rs.length]? = some calls ∧ calls.getLast? = some c ∧
          (DoScan fit P w out).2.1.fitLog.getLast? = some c ∧
          c.outcome = .throws e ∧
          (DoScan fit P w out).2.1.params = c.params) := by
  cases hq : GetPhysicsParameter P.GetName w.params with
  | none => simp [hq] at hp
  | some p =>
    have hp0 : (GetPhysicsParameter P.GetName
        ({ w with params := update P.GetName (PhysicsParameter.SetType "Fixed") w.params } :
          World σ ℚ).params).isSome := by
      simp [get_update, hq]
    obtain ⟨segs, rs, hlog, hres, hret, hsegs, hrs, hbad⟩ :=
      scanLoop_full fit P P.GetPoints.toNat 0
        { w with params := update P.GetName (PhysicsParameter.SetType "Fixed") w.params }
        out hp0
    simp only [Nat.zero_add] at hsegs hrs
    rcases hl : scanLoop fit P P.GetPoints.toNat 0
      { w with params := update P.GetName (PhysicsParameter.SetType "Fixed") w.params } out
      with ⟨e, w1, out1⟩
    rw [hl] at hlog hres hret hbad
    simp only at hlog hres hret hbad
    by_cases he : e = .returned
    · subst he
      simp only [DoScan, hq, hl]
      exact ⟨segs, rs, hlog, hres, fun _ => hret rfl, hsegs, hrs, fun h => absurd rfl h⟩
    · have hd : DoScan fit P w out = (e, w1, out1) := by
        cases e <;> first | exact absurd rfl he | simp only [DoScan, hq, hl]
      rw [hd]
      exact ⟨segs, rs, hlog, hres, fun h => absurd h he, hsegs, hrs, fun _ => hbad he⟩

/-- The last fit call of a grid point is made at the value of the last try. -/
theorem lastCall_value (name : String) (v step : ℚ) (calls : List (FitCall ℚ))
    (c : FitCall ℚ) (hlast : calls.getLast? = some c)
    (hvals : calls.map (fittedAt name) = (List.range' 0 calls.length).map (fun k =>
      some (tryValue v step k))) :
    fittedAt name c = some (tryValue v step (calls.length - 1)) := by
  rw [List.getLast?_eq_getElem?] at hlast
  exact map_range_at (fittedAt name) (fun k => some (tryValue v step k)) calls hvals
    (calls.length - 1) c hlast

/-- The `ParameterSet` of a fit call of a scan: the scanned parameter is the input one with
the type `"Fixed"` and the blinded value of the try, and every other parameter is as in
the input. -/
theorem callParams_get (name : String) (ps cps : ParameterSet ℚ) (p : PhysicsParameter ℚ)
    (y : ℚ) (hp : GetPhysicsParameter name ps = some p)
    (hc : cps = update name (PhysicsParameter.SetBlindedValue y)
      (update name (PhysicsParameter.SetType "Fixed") ps)) :
    GetPhysicsParameter name cps = some { p with type := "Fixed", blindedValue := y } ∧
    ∀ f, f ≠ name → GetPhysicsParameter f cps = GetPhysicsParameter f ps := by
  subst hc
  refine ⟨?_, ?_⟩
  · rw [get_update, get_update, hp]
    rfl
  · intro f hf
    rw [get_update_ne _ _ _ _ hf, get_update_ne _ _ _ _ hf]

/-- The `ParameterSet` of a fit call of a scan is the input one exactly when the scanned
parameter was already fixed at the value of the call. -/
theorem callParams_eq_iff (name : String) (ps : ParameterSet ℚ) (p : PhysicsParameter ℚ)
    (y : ℚ) (hp : GetPhysicsParameter name ps = some p) :
    update name (PhysicsParameter.SetBlindedValue y)
        (update name (PhysicsParameter.SetType "Fixed") ps) = ps ↔
      p.type = "Fixed" ∧ p.blindedValue = y := by
  constructor
  · intro h
    have hg := (callParams_get name ps _ p y hp rfl).1
    rw [h, hp] at hg
    simp only [Option.some.injEq] at hg
    exact ⟨by rw [hg], by rw [hg]⟩
  · rintro ⟨ht, hb⟩
    rw [update_update]
    apply update_self _ _ _ p hp
    cases p with
    | mk b t u ub =>
      simp only at ht hb
      subst ht hb
      rfl

end ScanStudies

/-! ## The claims -/

/-- C1 (restoration invariant): whenever `ScanStudies::DoScan`, `ScanStudies::DoScan2D` or
`FitAssembler::DoScan` returns to its caller, for any fit step, any scan descriptor (any
minimum, maximum and number of points, zero points included) and any `ParameterSet`, the
`ParameterSet` is exactly the one of before the call; in particular the scanned
parameter has the type and the blinded value it had. -/
theorem scan_restores_parameters :
    (∀ (σ : Type) (fit : FitStep σ ℚ) (P : ScanParam) (w : World σ ℚ)
        (out : FitResultVector ℚ),
      (ScanStudies.DoScan fit P w out).1 = .returned →
        (ScanStudies.DoScan fit P w out).2.1.params = w.params ∧
        ((ScanStudies.DoScan fit P w out).2.1.params.GetPhysicsParameter P.GetName).map
            (fun p => (p.GetType, p.GetBlindedValue)) =
          (w.params.GetPhysicsParameter P.GetName).map
            (fun p => (p.GetType, p.GetBlindedValue))) ∧
    (∀ (σ : Type) (fit : FitStep σ ℚ) (PP : ScanParam × ScanParam) (w : World σ ℚ)
        (out : List (FitResultVector ℚ)),
      (ScanStudies.DoScan2D fit PP w out).1 = .returned →
        (ScanStudies.DoScan2D fit PP w out).2.1.params = w.params ∧
        ∀ name, ((ScanStudies.DoScan2D fit PP w out).2.1.params.GetPhysicsParameter name).map
            (fun p => (p.GetType, p.GetBlindedValue)) =
          (w.params.GetPhysicsParameter name).map
            (fun p => (p.GetType, p.GetBlindedValue))) ∧
    (∀ (σ : Type) (fit : FitStep σ Dbl) (L : Dbl) (blank : ResultParameter Dbl)
        (P : ScanParam) (w : World σ Dbl) (out : FitResultVector Dbl),
      (FitAssembler.DoScan fit L blank P w out).1 = .returned →
        (FitAssembler.DoScan fit L blank P w out).2.1.params = w.params ∧
        ((FitAssembler.DoScan fit L blank P w out).2.1.params.GetPhysicsParameter
            P.GetName).map (fun p => (p.GetType, p.GetBlindedValue)) =
          (w.params.GetPhysicsParameter P.GetName).map
            (fun p => (p.GetType, p.GetBlindedValue))) := by
  refine ⟨?_, ?_, ?_⟩
  · intro σ fit P w out h
    have := ScanStudies.DoScan_restores fit P w out h
    exact ⟨this, by rw [this]⟩
  · intro σ fit PP w out h
    have := ScanStudies.DoScan2D_restores fit PP w out h
    exact ⟨this, fun name => by rw [this]⟩
  · intro σ fit L blank P w out h
    have := FitAssembler.assembler_DoScan_restores fit L blank P w out h
    exact ⟨this, by rw [this]⟩

/-- Witness of C1: a three-point scan of `x` whose first point needs a wiggle returns, and
`x` is free with blinded value 5 afterwards, as before; so it is after a contour scan of
`x` against `y`, and after a `FitAssembler::DoScan` of `x` with two failing fits. -/
theorem scan_restores_parameters_witness :
    ((ScanStudies.DoScan (Examples.scriptedFit 0 1) ⟨"x", 0, 10, 3⟩
        (Examples.world [.status 0, .status 0, .status 3]) (FitResultVector.new [])).1
      = .returned ∧
    ((ScanStudies.DoScan (Examples.scriptedFit 0 1) ⟨"x", 0, 10, 3⟩
        (Examples.world [.status 0, .status 0, .status 3])
        (FitResultVector.new [])).2.1.params.GetPhysicsParameter "x").map
      (fun p => (p.GetType, p.GetBlindedValue)) = some ("Free", 5)) ∧
    ((ScanStudies.DoScan2D (Examples.scriptedFit 0 1) (⟨"x", 0, 10, 3⟩, ⟨"y", 1, 2, 2⟩)
        (Examples.world [.status 0, .status 0, .status 3]) []).2.1.params.GetPhysicsParameter
        "y").map (fun p => (p.GetType, p.GetBlindedValue)) = some ("Fixed", 7) ∧
    ((FitAssembler.DoScan (Examples.scriptedFit (Dbl.finite 0) (Dbl.finite 1))
        (Dbl.finite (-9999)) Examples.blank ⟨"x", 0, 10, 3⟩
        (Examples.worldDbl [.throwInt 10, .throwOther])
        (FitResultVector.new [])).2.1.params.GetPhysicsParameter "x").map
      (fun p => (p.GetType, p.GetBlindedValue)) = some ("Free", Dbl.finite 5) :=
  ⟨⟨by decide,
    ((scan_restores_parameters.1 _ (Examples.scriptedFit 0 1) ⟨"x", 0, 10, 3⟩
      (Examples.world [.status 0, .status 0, .status 3]) (FitResultVector.new [])
      (by decide)).2).trans (by decide)⟩,
   ((scan_restores_parameters.2.1 _ (Examples.scriptedFit 0 1)
      (⟨"x", 0, 10, 3⟩, ⟨"y", 1, 2, 2⟩)
      (Examples.world [.status 0, .status 0, .status 3]) [] (by decide)).2 "y").trans
      (by decide),
   ((scan_restores_parameters.2.2 _ (Examples.scriptedFit (Dbl.finite 0) (Dbl.finite 1))
      (Dbl.finite (-9999)) Examples.blank ⟨"x", 0, 10, 3⟩
      (Examples.worldDbl [.throwInt 10, .throwOther]) (FitResultVector.new [])
      (by decide)).2).trans (by decide)⟩

/-- C2 (grid fidelity) fails as stated: in a three-point scan of `x` over [0, 10] whose
first point converges only at the first wiggle, the value written for `x` into the first
accepted result is the wiggled value 1/4, not the grid value 0. -/
theorem grid_fidelity_counterexample :
    (ScanStudies.DoScan (Examples.scriptedFit 0 1) ⟨"x", 0, 10, 3⟩
        (Examples.world [.status 0, .status 0, .status 3])
        (FitResultVector.new [])).2.2.allResults.map
      (fun r => (r.GetFitStatus,
        (r.GetResultParameterSet.GetResultParameter "x").map (fun e => e.value))) =
      [(3, some (1 / 4)), (3, some 5), (3, some 10)] ∧
    ScanStudies.gridValue ⟨"x", 0, 10, 3⟩ 0 = 0 ∧
    (1 / 4 : ℚ) ≠ ScanStudies.gridValue ⟨"x", 0, 10, 3⟩ 0 := by
  decide!

/-- C2 (grid fidelity), amended: in a scan by `ScanStudies::DoScan` on a `ParameterSet`
that has the scanned parameter `p`, whatever the fits do, the `i`-th appended result is
the result `r0` of the last fit call `c` made at grid index `i`, finished with the value
`x` written for the scanned parameter; one result per grid point is appended when
`DoScan` returns, which it does when no fit raises an error.  The call `c` was made with
the scanned parameter at the blinded value `y` of try `calls.length - 1` of the point: the
intended grid value `lo + i*(hi-lo)/(n-1)` (`lo` when `n = 1`) when the first fit or the
straight retry is the accepted one, a wiggled value otherwise; and when the accepted fit
converged (status 3) the written value `x` is `y`.  The entry of the scanned parameter in
the appended result has the value `x` when `r0` came with an entry of that name; when it
did not, the entry is the re-injected one, whose value is the parameter's `GetValue()` at
the blinded value `y`. -/
theorem written_value_is_fitted_value {σ : Type} (fit : FitStep σ ℚ) (P : ScanParam)
    (w : World σ ℚ) (out : FitResultVector ℚ) (p : PhysicsParameter ℚ)
    (hp : w.params.GetPhysicsParameter P.GetName = some p) :
    ∃ (segs : List (List (FitCall ℚ))) (rs : List (FitResult ℚ)),
      (ScanStudies.DoScan fit P w out).2.2.allResults = out.allResults ++ rs ∧
      (ScanStudies.DoScan fit P w out).2.1.fitLog = w.fitLog ++ segs.flatten ∧
      ((ScanStudies.DoScan fit P w out).1 = .returned → rs.length = P.GetPoints.toNat) ∧
      ((∀ s ps, ∃ r, (fit s ps).1 = .result r) →
        (ScanStudies.DoScan fit P w out).1 = .returned) ∧
      ∀ (i : Nat) (r : FitResult ℚ), rs[i]? = some r → ∃ calls c x y r0,
        segs[i]? = some calls ∧ calls.getLast? = some c ∧ c.outcome = .result r0 ∧
        r = ScanStudies.finishPoint c.params P.GetName x r0 ∧
        ScanStudies.fittedAt P.GetName c = some y ∧
        y = ScanStudies.tryValue (ScanStudies.gridValue P i)
          (ScanStudies.deltaScan P / 20) (calls.length - 1) ∧
        (calls.length ≤ 2 → y = ScanStudies.gridValue P i) ∧
        (r0.GetFitStatus = 3 → x = y) ∧
        (P.GetName ∈ r0.GetResultParameterSet.GetAllNames →
          (r.GetResultParameterSet.GetResultParameter P.GetName).map (fun e => e.value) =
            some x) ∧
        (P.GetName ∉ r0.GetResultParameterSet.GetAllNames →
          (r.GetResultParameterSet.GetResultParameter P.GetName).map (fun e => e.value) =
            some (p.unblind y)) := by
  have hps : (ParameterSet.GetPhysicsParameter P.GetName w.params).isSome := by simp [hp]
  obtain ⟨segs, rs, hlog, hres, hret, hsegs, hrs, _⟩ := ScanStudies.DoScan_full fit P w out hps
  refine ⟨segs, rs, hres, hlog, hret,
    fun hfit => (ScanStudies.DoScan_spec fit P w out hfit hps).1, ?_⟩
  intro i r hi
  obtain ⟨calls, c, x, r0, h1, h2, h3, h4, h5⟩ := hrs i r hi
  obtain ⟨_, _, hvals, hpar, _⟩ := hsegs i calls h1
  obtain ⟨y, hy⟩ := hpar c (List.mem_of_getLast?_eq_some h2)
  have hval := ScanStudies.lastCall_value P.GetName _ _ calls c h2 hvals
  obtain ⟨hget, _⟩ := ScanStudies.callParams_get P.GetName w.params c.params p y hp hy
  have hfy : ScanStudies.fittedAt P.GetName c = some y := by
    simp only [ScanStudies.fittedAt, hget]
    rfl
  have hyv : y = ScanStudies.tryValue (ScanStudies.gridValue P i)
      (ScanStudies.deltaScan P / 20) (calls.length - 1) := by
    rw [hfy] at hval
    exact Option.some.inj hval
  refine ⟨calls, c, x, y, r0, h1, h2, h3, h4, hfy, hyv, ?_, ?_, ?_, ?_⟩
  · intro hlen
    rw [hyv]
    have hcases : calls.length - 1 = 0 ∨ calls.length - 1 = 1 := by omega
    rcases hcases with h | h <;> rw [h] <;> rfl
  · intro hconv
    rw [h5 hconv, hyv]
  · intro hmem
    rw [h4, ScanStudies.finishPoint_entry _ _ _ _ hmem]
    rfl
  · intro hnot
    have hent := ScanStudies.reinject_entry c.params
      (r0.GetResultParameterSet.SetResultParameter P.GetName x x 0 x x
        (c.params.typeOf P.GetName) (c.params.unitOf P.GetName)).GetAllNames
      c.params.GetAllFixedNames
      (r0.GetResultParameterSet.SetResultParameter P.GetName x x 0 x x
        (c.params.typeOf P.GetName) (c.params.unitOf P.GetName)) P.GetName _ hget
      (by rw [ResultParameterSet.names_SetResultParameter]; exact hnot)
      (Or.inl (ParameterSet.mem_fixedNames P.GetName c.params _ hget rfl))
    rw [h4]
    show (ResultParameterSet.GetResultParameter P.GetName
      (ResultParameterSet.SetScanStatus P.GetName true _)).map _ = _
    rw [ResultParameterSet.get_SetScanStatus, hent]
    rfl

/-- Witness of the amended C2: three-point scans of `x` over [0, 10], with `x` blinded by
an offset of 100, whose first point converges at its third try, the first wiggle.  With a
fit step that reports `x` the entries of `x` carry the written values 1/4, 5 and 10;
with a fit step that leaves the fixed parameters out of its results the entries are the
re-injected ones and carry the unblinded values 100 + 1/4, 105 and 110. -/
theorem written_value_is_fitted_value_witness :
    Examples.blindedParams.GetPhysicsParameter "x" =
      some ⟨5, "Free", "ps", fun v => v + 100⟩ ∧
    (ScanStudies.DoScan Examples.statusFit ⟨"x", 0, 10, 3⟩
        ⟨Examples.blindedParams, [0, 0, 3], []⟩ (FitResultVector.new [])).2.2.allResults.map
      (fun r => (r.GetResultParameterSet.GetResultParameter "x").map (fun e => e.value)) =
      [some (1 / 4), some 5, some 10] ∧
    (ScanStudies.DoScan Examples.freeFit ⟨"x", 0, 10, 3⟩
        ⟨Examples.blindedParams, [0, 0, 3], []⟩ (FitResultVector.new [])).2.2.allResults.map
      (fun r => (r.GetResultParameterSet.GetResultParameter "x").map (fun e => e.value)) =
      [some (100 + 1 / 4), some 105, some 110] ∧
    ∃ (segs : List (List (FitCall ℚ))) (rs : List (FitResult ℚ)),
      (ScanStudies.DoScan Examples.freeFit ⟨"x", 0, 10, 3⟩
        ⟨Examples.blindedParams, [0, 0, 3], []⟩ (FitResultVector.new [])).2.2.allResults =
        [] ++ rs ∧
      (ScanStudies.DoScan Examples.freeFit ⟨"x", 0, 10, 3⟩
        ⟨Examples.blindedParams, [0, 0, 3], []⟩ (FitResultVector.new [])).2.1.fitLog =
        [] ++ segs.flatten ∧
      ((ScanStudies.DoScan Examples.freeFit ⟨"x", 0, 10, 3⟩
        ⟨Examples.blindedParams, [0, 0, 3], []⟩ (FitResultVector.new [])).1 = .returned →
        rs.length = 3) ∧
      ((∀ s ps, ∃ r, (Examples.freeFit s ps).1 = .result r) →
        (ScanStudies.DoScan Examples.freeFit ⟨"x", 0, 10, 3⟩
          ⟨Examples.blindedParams, [0, 0, 3], []⟩ (FitResultVector.new [])).1 = .returned) ∧
      ∀ (i : Nat) (r : FitResult ℚ), rs[i]? = some r → ∃ calls c x y r0,
        segs[i]? = some calls ∧ calls.getLast? = some c ∧ c.outcome = .result r0 ∧
        r = ScanStudies.finishPoint c.params "x" x r0 ∧
        ScanStudies.fittedAt "x" c = some y ∧
        y = ScanStudies.tryValue (ScanStudies.gridValue ⟨"x", 0, 10, 3⟩ i)
          (ScanStudies.deltaScan ⟨"x", 0, 10, 3⟩ / 20) (calls.length - 1) ∧
        (calls.length ≤ 2 → y = ScanStudies.gridValue ⟨"x", 0, 10, 3⟩ i) ∧
        (r0.GetFitStatus = 3 → x = y) ∧
        ("x" ∈ r0.GetResultParameterSet.GetAllNames →
          (r.GetResultParameterSet.GetResultParameter "x").map (fun e => e.value) =
            some x) ∧
        ("x" ∉ r0.GetResultParameterSet.GetAllNames →
          (r.GetResultParameterSet.GetResultParameter "x").map (fun e => e.value) =
            some (y + 100)) :=
  ⟨rfl, by decide!, by decide!,
   written_value_is_fitted_value Examples.freeFit ⟨"x", 0, 10, 3⟩
     ⟨Examples.blindedParams, [0, 0, 3], []⟩ (FitResultVector.new [])
     ⟨5, "Free", "ps", fun v => v + 100⟩ rfl⟩

/-- C3 (one result per grid point): with a fit step that always returns a `FitResult`,
`ScanStudies::DoScan` returns, keeps the results that the collector held and appends
exactly `n` results after them (`n` the number of points; none when `n` is not
positive).  The fit calls of the grid points follow one another in the order of the
grid, and the `i`-th appended result is the finished result of the last fit made at grid
value `i`, with the status of that fit, converged or not. -/
theorem one_result_per_grid_point {σ : Type} (fit : FitStep σ ℚ) (P : ScanParam)
    (w : World σ ℚ) (out : FitResultVector ℚ)
    (hfit : ∀ s ps, ∃ r, (fit s ps).1 = .result r)
    (hp : (w.params.GetPhysicsParameter P.GetName).isSome) :
    (ScanStudies.DoScan fit P w out).1 = .returned ∧
    (ScanStudies.DoScan fit P w out).2.2.allNames = out.allNames ∧
    ∃ (segs : List (List (FitCall ℚ))) (rs : List (FitResult ℚ)),
      (ScanStudies.DoScan fit P w out).2.2.allResults = out.allResults ++ rs ∧
      rs.length = P.GetPoints.toNat ∧
      segs.length = P.GetPoints.toNat ∧
      (ScanStudies.DoScan fit P w out).2.1.fitLog = w.fitLog ++ segs.flatten ∧
      ∀ i, i < P.GetPoints.toNat → ∃ calls ps x r0,
        segs[i]? = some calls ∧
        calls.map (ScanStudies.fittedAt P.GetName) = (List.range' 0 calls.length).map
          (fun k => some (ScanStudies.tryValue (ScanStudies.gridValue P i)
            (ScanStudies.deltaScan P / 20) k)) ∧
        calls.getLast?.map FitCall.outcome = some (.result r0) ∧
        rs[i]? = some (ScanStudies.finishPoint ps P.GetName x r0) ∧
        (ScanStudies.finishPoint ps P.GetName x r0).GetFitStatus = r0.GetFitStatus := by
  obtain ⟨hret, hnames, segs, rs, hsl, hrl, hlog, hres, hall⟩ :=
    ScanStudies.DoScan_spec fit P w out hfit hp
  refine ⟨hret, hnames, segs, rs, hres, hrl, hsl, hlog, ?_⟩
  intro i hi
  obtain ⟨calls, ps, x, r0, h1, h2, _, _, _, hv, _, hlast, _, _⟩ := hall i hi
  exact ⟨calls, ps, x, r0, h1, hv, hlast, h2, rfl⟩

/-- Witness of C3: a two-point scan whose first point never converges appends two results
after the one the collector held; the first carries the status 0 of its last fit. -/
theorem one_result_per_grid_point_witness :
    (∀ s ps, ∃ r, (Examples.statusFit s ps).1 = .result r) ∧
    (Examples.params.GetPhysicsParameter "x").isSome ∧
    ((ScanStudies.DoScan Examples.statusFit ⟨"x", 0, 10, 2⟩
        ⟨Examples.params, List.replicate 21 0, []⟩
        ⟨[], [Examples.echoResult 0 1 3 Examples.params]⟩).2.2.allResults.map
      FitResult.GetFitStatus = [3, 0, 3]) ∧
    ∃ rs : List (FitResult ℚ),
      (ScanStudies.DoScan Examples.statusFit ⟨"x", 0, 10, 2⟩
        ⟨Examples.params, List.replicate 21 0, []⟩
        ⟨[], [Examples.echoResult 0 1 3 Examples.params]⟩).2.2.allResults =
        [Examples.echoResult 0 1 3 Examples.params] ++ rs ∧ rs.length = 2 := by
  refine ⟨fun s ps => by cases s <;> exact ⟨_, rfl⟩, by decide, by decide, ?_⟩
  obtain ⟨_, _, _, rs, hres, hrl, _⟩ :=
    one_result_per_grid_point Examples.statusFit ⟨"x", 0, 10, 2⟩
      ⟨Examples.params, List.replicate 21 0, []⟩
      ⟨[], [Examples.echoResult 0 1 3 Examples.params]⟩
      (fun s ps => by cases s <;> exact ⟨_, rfl⟩) (by decide)
  exact ⟨rs, hres, hrl⟩

/-- C4 (retry bound): at every grid point of `ScanStudies::DoScan` the fit calls are the
tries 0, 1, ... of the point in order and there are at most 21 of them (the first fit
and at most 20 retries), whatever the fits return.  When every one of them returns a
status other than 3, there are exactly 21: the first fit, the straight retry (try 1)
and the 19 wiggle fits (tries 2 to 20); the loop then ends and the result of the last
fit is the one accepted and appended. -/
theorem retry_bound {σ : Type} (fit : FitStep σ ℚ) (P : ScanParam) (si : Nat)
    (w : World σ ℚ) (out : FitResultVector ℚ)
    (hp : (w.params.GetPhysicsParameter P.GetName).isSome) :
    ∃ calls : List (FitCall ℚ),
      (ScanStudies.scanPoint fit P si w out).2.1.fitLog = w.fitLog ++ calls ∧
      calls.length ≤ 21 ∧
      calls.map (ScanStudies.fittedAt P.GetName) = (List.range' 0 calls.length).map
        (fun k => some (ScanStudies.tryValue (ScanStudies.gridValue P si)
          (ScanStudies.deltaScan P / 20) k)) ∧
      ((∀ c ∈ calls, ∃ r, c.outcome = .result r ∧ r.GetFitStatus ≠ 3) →
        calls.length = 21 ∧
        (ScanStudies.scanPoint fit P si w out).1 = .returned ∧
        ∃ x r0, calls.getLast?.map FitCall.outcome = some (.result r0) ∧
          (ScanStudies.scanPoint fit P si w out).2.2 = out.AddFitResult
            (ScanStudies.finishPoint (ScanStudies.scanPoint fit P si w out).2.1.params
              P.GetName x r0)) := by
  obtain ⟨calls, hlog, h1, h21, hvals, _, hne, hres⟩ :=
    ScanStudies.scanPoint_spec fit P si w out hp
  rw [ScanStudies.gridValue_eq] at hvals
  refine ⟨calls, hlog, h21, hvals, ?_⟩
  intro hfail
  have hret : (ScanStudies.scanPoint fit P si w out).1 = .returned := by
    by_contra hcon
    obtain ⟨⟨c, hc, e, he⟩, _⟩ := hne hcon
    obtain ⟨r, hr, _⟩ := hfail c hc
    rw [he] at hr
    cases hr
  obtain ⟨_, x, r0, hout, hlast, _, hn3⟩ := hres hret
  have hr0 : r0.GetFitStatus ≠ 3 := by
    cases hgl : calls.getLast? with
    | none => rw [hgl] at hlast; cases hlast
    | some c =>
      rw [hgl] at hlast
      obtain ⟨r, hr, hr3⟩ := hfail c (List.mem_of_getLast?_eq_some hgl)
      simp only [Option.map_some', Option.some.injEq] at hlast
      rw [hr] at hlast
      cases hlast
      exact hr3
  exact ⟨(hn3 hr0).1, hret, x, r0, hlast, hout⟩

/-- Witness of C4: a point whose fits all return status 0 makes exactly 21 fit calls and
appends one result of status 0. -/
theorem retry_bound_witness :
    (Examples.params.GetPhysicsParameter "x").isSome ∧
    ((ScanStudies.scanPoint Examples.statusFit ⟨"x", 0, 10, 2⟩ 0
        ⟨Examples.params, List.replicate 30 0, []⟩ (FitResultVector.new [])).2.1.fitLog.length
      = 21) ∧
    ((ScanStudies.scanPoint Examples.statusFit ⟨"x", 0, 10, 2⟩ 0
        ⟨Examples.params, List.replicate 30 0, []⟩
        (FitResultVector.new [])).2.2.allResults.map FitResult.GetFitStatus = [0]) ∧
    ∃ calls : List (FitCall ℚ),
      (ScanStudies.scanPoint Examples.statusFit ⟨"x", 0, 10, 2⟩ 0
        ⟨Examples.params, List.replicate 30 0, []⟩ (FitResultVector.new [])).2.1.fitLog
        = [] ++ calls ∧ calls.length ≤ 21 := by
  refine ⟨by decide, by decide, by decide, ?_⟩
  obtain ⟨calls, hlog, h21, _⟩ :=
    retry_bound Examples.statusFit ⟨"x", 0, 10, 2⟩ 0
      ⟨Examples.params, List.replicate 30 0, []⟩ (FitResultVector.new []) (by decide)
  exact ⟨calls, hlog, h21⟩

/-- C5 (2D scan shape): with a fit step that always returns a `FitResult`, on a
`ParameterSet` that has both scanned parameters, `ScanStudies::DoScan2D` for an outer
`ScanParam` of `M` points and an inner one of `N` points returns and appends exactly `M`
`FitResultVector`s, in the order of the outer grid; each holds exactly `N` results, and
in every result of the `j`-th vector the value of the outer parameter is the `j`-th outer
grid value `lo + j*(hi-lo)/(M-1)` (`lo` when `M = 1`).  `ContourScan` is `DoScan2D` on an
empty list, so it returns exactly these `M` vectors. -/
theorem scan2D_shape {σ : Type} (fit : FitStep σ ℚ) (PP : ScanParam × ScanParam)
    (w : World σ ℚ) (out : List (FitResultVector ℚ))
    (hfit : ∀ s ps, ∃ r, (fit s ps).1 = .result r)
    (ha : (w.params.GetPhysicsParameter PP.1.GetName).isSome)
    (hb : (w.params.GetPhysicsParameter PP.2.GetName).isSome) :
    ((ScanStudies.DoScan2D fit PP w out).1 = .returned ∧
      ∃ vecs : List (FitResultVector ℚ),
        (ScanStudies.DoScan2D fit PP w out).2.2 = out ++ vecs ∧
        vecs.length = PP.1.GetPoints.toNat ∧
        ∀ j, j < PP.1.GetPoints.toNat → ∃ vec, vecs[j]? = some vec ∧
          vec.allResults.length = PP.2.GetPoints.toNat ∧
          ∀ r ∈ vec.allResults,
            (r.GetResultParameterSet.GetResultParameter PP.1.GetName).map
              (fun e => e.value) = some (ScanStudies.gridValue PP.1 j)) ∧
    ((ScanStudies.ContourScan fit PP w).1 = .returned ∧
      (ScanStudies.ContourScan fit PP w).2.2.length = PP.1.GetPoints.toNat ∧
      ∀ j, j < PP.1.GetPoints.toNat → ∃ vec,
        (ScanStudies.ContourScan fit PP w).2.2[j]? = some vec ∧
        vec.allResults.length = PP.2.GetPoints.toNat ∧
        ∀ r ∈ vec.allResults,
          (r.GetResultParameterSet.GetResultParameter PP.1.GetName).map
            (fun e => e.value) = some (ScanStudies.gridValue PP.1 j)) := by
  have key : ∀ out : List (FitResultVector ℚ),
      (ScanStudies.DoScan2D fit PP w out).1 = .returned ∧
      ∃ vecs : List (FitResultVector ℚ),
        (ScanStudies.DoScan2D fit PP w out).2.2 = out ++ vecs ∧
        vecs.length = PP.1.GetPoints.toNat ∧
        ∀ j, j < PP.1.GetPoints.toNat → ∃ vec, vecs[j]? = some vec ∧
          vec.allResults.length = PP.2.GetPoints.toNat ∧
          ∀ r ∈ vec.allResults,
            (r.GetResultParameterSet.GetResultParameter PP.1.GetName).map
              (fun e => e.value) = some (ScanStudies.gridValue PP.1 j) := by
    intro out
    obtain ⟨hret, vecs, hout, hvl, hall⟩ := ScanStudies.DoScan2D_spec fit PP w out hfit ha hb
    refine ⟨hret, vecs, hout, hvl, ?_⟩
    intro j hj
    obtain ⟨vec, h1, _, h3, h4⟩ := hall j hj
    refine ⟨vec, h1, h3, ?_⟩
    intro r hr
    have := h4 r hr
    cases hg : r.GetResultParameterSet.GetResultParameter PP.1.GetName with
    | none => rw [hg] at this; cases this
    | some e =>
      rw [hg] at this
      simp only [Option.map_some', Option.some.injEq, Prod.mk.injEq] at this ⊢
      exact this.1
  refine ⟨key out, ?_⟩
  obtain ⟨hret, vecs, hout, hvl, hall⟩ := key []
  simp only [List.nil_append] at hout
  refine ⟨hret, ?_, ?_⟩
  · show (ScanStudies.DoScan2D fit PP w []).2.2.length = _
    rw [hout, hvl]
  · intro j hj
    show ∃ vec, (ScanStudies.DoScan2D fit PP w []).2.2[j]? = some vec ∧ _
    rw [hout]
    exact hall j hj

/-- Witness of C5: a contour scan of `x` (3 points over [0, 10]) against `y` (2 points
over [1, 2]) returns 3 vectors of 2 results, with `x` at 0, 5 and 10. -/
theorem scan2D_shape_witness :
    (∀ s ps, ∃ r, (Examples.statusFit s ps).1 = .result r) ∧
    (Examples.params.GetPhysicsParameter "x").isSome ∧
    (Examples.params.GetPhysicsParameter "y").isSome ∧
    ((ScanStudies.ContourScan Examples.statusFit (⟨"x", 0, 10, 3⟩, ⟨"y", 1, 2, 2⟩)
        ⟨Examples.params, [0, 0, 3], []⟩).2.2.map (fun vec => vec.allResults.map (fun r =>
          (r.GetResultParameterSet.GetResultParameter "x").map (fun e => e.value))) =
      [[some 0, some 0], [some 5, some 5], [some 10, some 10]]) ∧
    (ScanStudies.ContourScan Examples.statusFit (⟨"x", 0, 10, 3⟩, ⟨"y", 1, 2, 2⟩)
        ⟨Examples.params, [0, 0, 3], []⟩).2.2.length = 3 :=
  ⟨fun s ps => by cases s <;> exact ⟨_, rfl⟩, by decide, by decide, by decide!,
   (scan2D_shape Examples.statusFit (⟨"x", 0, 10, 3⟩, ⟨"y", 1, 2, 2⟩)
      ⟨Examples.params, [0, 0, 3], []⟩ []
      (fun s ps => by cases s <;> exact ⟨_, rfl⟩) (by decide) (by decide)).2.2.1⟩

/-- C6 (safety guarantee): `FitAssembler::DoSafeFit`, as the specification describes it,
returns a `FitResult` for every input and every behaviour of the minimisation, and never
raises an error.  When the minimisation returned, the result is the minimiser's; when it
raised an error (the `int` 10, the `int` 13, any other `int` or anything else) the result
has the sentinel minimum value, the negative status -1 and a `ResultParameterSet` with
exactly the names of the input `ParameterSet`, in their order. -/
theorem DoSafeFit_always_returns {σ P D W C V : Type} (ext : Collaborators σ P D W C V)
    (LLSCAN_FIT_FAILURE_VALUE : V) (blank : ResultParameter V) (BottleData : List W)
    (BottleConstraints : List C) (s : σ) (BottleParameters : ParameterSet V) :
    ∃ r : FitResult V,
      (FitAssembler.DoSafeFit ext LLSCAN_FIT_FAILURE_VALUE blank BottleData BottleConstraints
        s BottleParameters).1 = .result r ∧
      ((FitAssembler.DoFitWithData ext BottleData BottleConstraints s BottleParameters).1 =
          .result r ∨
        ((∃ e, (FitAssembler.DoFitWithData ext BottleData BottleConstraints s
            BottleParameters).1 = .throws e) ∧
          r.GetMinimumValue = LLSCAN_FIT_FAILURE_VALUE ∧
          r.GetFitStatus = -1 ∧ r.GetFitStatus < 0 ∧
          r.GetResultParameterSet.GetAllNames = BottleParameters.GetAllNames)) := by
  rcases h : FitAssembler.DoFitWithData ext BottleData BottleConstraints s BottleParameters
    with ⟨o, s1⟩
  cases o with
  | result r =>
    exact ⟨r, by simp only [FitAssembler.DoSafeFit, h], Or.inl rfl⟩
  | throws e =>
    refine ⟨FitAssembler.failureResult LLSCAN_FIT_FAILURE_VALUE blank BottleParameters,
      by simp only [FitAssembler.DoSafeFit, h],
      Or.inr ⟨⟨e, rfl⟩, rfl, rfl, by show (-1 : Int) < 0; decide, ?_⟩⟩
    show List.map Prod.fst (List.map (fun n => (n, blank)) BottleParameters.GetAllNames) = _
    rw [List.map_map]
    exact List.map_id _

/-- C7 (failure conversion): in `FitAssembler::DoScan`, on a `ParameterSet` that has the
scanned parameter, there is one fit call and one appended result per grid point, in
order.  Whenever the fit of a grid point raises an error (the `int` 10, the `int` 13, any
other `int` or anything else), the result of that point has the minimum value
`LLSCAN_FIT_FAILURE_VALUE`, the status -1 and a `ResultParameterSet` with exactly the
names of the input `ParameterSet`, in their order; the scan goes on with the next grid
point and `DoScan` returns to its caller. -/
theorem failure_conversion {σ : Type} (fit : FitStep σ Dbl) (LLSCAN_FIT_FAILURE_VALUE : Dbl)
    (blank : ResultParameter Dbl) (P : ScanParam) (w : World σ Dbl)
    (out : FitResultVector Dbl)
    (hp : (w.params.GetPhysicsParameter P.GetName).isSome) :
    (FitAssembler.DoScan fit LLSCAN_FIT_FAILURE_VALUE blank P w out).1 = .returned ∧
    ∃ (calls : List (FitCall Dbl)) (rs : List (FitResult Dbl)),
      calls.length = P.GetPoints.toNat ∧ rs.length = P.GetPoints.toNat ∧
      (FitAssembler.DoScan fit LLSCAN_FIT_FAILURE_VALUE blank P w out).2.1.fitLog =
        w.fitLog ++ calls ∧
      (FitAssembler.DoScan fit LLSCAN_FIT_FAILURE_VALUE blank P w out).2.2.allResults =
        out.allResults ++ rs ∧
      ∀ i, i < P.GetPoints.toNat → ∃ c r, calls[i]? = some c ∧ rs[i]? = some r ∧
        (∀ e, c.outcome = .throws e →
          r.GetMinimumValue = LLSCAN_FIT_FAILURE_VALUE ∧
          r.GetFitStatus = -1 ∧ r.GetFitStatus < 0 ∧
          r.GetResultParameterSet.GetAllNames = w.params.GetAllNames) := by
  cases hq : w.params.GetPhysicsParameter P.GetName with
  | none => simp [hq] at hp
  | some p =>
    obtain ⟨calls, rs, hcl, hrl, hlog, hres, _, hall⟩ :=
      FitAssembler.assembler_scanLoop_spec fit LLSCAN_FIT_FAILURE_VALUE blank P
        (FitAssembler.deltaScan P) P.GetPoints.toNat 0
        { w with params := w.params.update P.GetName (PhysicsParameter.SetType "Fixed") } out
    simp only [FitAssembler.DoScan, hq]
    refine ⟨trivial, calls, rs, hcl, hrl, hlog, hres, ?_⟩
    intro i hi
    obtain ⟨c, r, h1, h2, _, h4, _⟩ := hall i hi
    refine ⟨c, r, h1, h2, ?_⟩
    intro e he
    obtain ⟨a1, a2, a3⟩ := h4 e he
    exact ⟨a1, a2, by rw [a2]; decide, by rw [a3]; exact ParameterSet.names_update _ _ _⟩

/-- Witness of C7: a three-point scan whose first fit raises the `int` 10 and whose second
fit raises something else returns three results; the first two are synthetic (minimum
-9999, status -1, the names `x` and `y`), the third is the fit's. -/
theorem failure_conversion_witness :
    (Examples.paramsDbl.GetPhysicsParameter "x").isSome ∧
    ((FitAssembler.DoScan (Examples.scriptedFit (Dbl.finite 0) (Dbl.finite 1))
        (Dbl.finite (-9999)) Examples.blank ⟨"x", 0, 10, 3⟩
        (Examples.worldDbl [.throwInt 10, .throwOther]) (FitResultVector.new [])).2.2.allResults.map
      (fun r => (r.GetMinimumValue, r.GetFitStatus, r.GetResultParameterSet.GetAllNames)) =
      [(Dbl.finite (-9999), -1, ["x", "y"]), (Dbl.finite (-9999), -1, ["x", "y"]),
        (Dbl.finite 0, 3, ["x", "y"])]) ∧
    (FitAssembler.DoScan (Examples.scriptedFit (Dbl.finite 0) (Dbl.finite 1))
        (Dbl.finite (-9999)) Examples.blank ⟨"x", 0, 10, 3⟩
        (Examples.worldDbl [.throwInt 10, .throwOther]) (FitResultVector.new [])).1 = .returned :=
  ⟨by decide, by decide!,
   (failure_conversion (Examples.scriptedFit (Dbl.finite 0) (Dbl.finite 1))
      (Dbl.finite (-9999)) Examples.blank ⟨"x", 0, 10, 3⟩
      (Examples.worldDbl [.throwInt 10, .throwOther]) (FitResultVector.new [])
      (by decide)).1⟩

/-- C8 (bottle consistency): `FitAssembler::DoFit` on separate lists of PDFs and datasets
ends in `exit(1)`, with the state of the collaborators untouched (no bottle is built, no
minimiser is called), if and only if the number of PDFs differs from the number of
datasets, and it ends in no other `exit`.  When the two numbers are equal it builds the
bottle (the PDFs paired with the datasets in order, then the constraints in order,
finalised), calls the minimisation on it and returns the `FitResult` of the
minimisation. -/
theorem DoFit_exits_iff_mismatch {σ P D W C V : Type} (ext : Collaborators σ P D W C V)
    (BottleParameters : ParameterSet V) (AllPDFs : List P) (AllData : List D)
    (BottleConstraints : List C) (s : σ) :
    (FitAssembler.DoFitLists ext BottleParameters AllPDFs AllData BottleConstraints s =
        (.exited 1, s) ↔ AllPDFs.length ≠ AllData.length) ∧
    ((∃ code, (FitAssembler.DoFitLists ext BottleParameters AllPDFs AllData
        BottleConstraints s).1 = .exited code) ↔ AllPDFs.length ≠ AllData.length) ∧
    (AllPDFs.length = AllData.length →
      ∃ (bottle : PhysicsBottle P D C V) (s1 : σ),
        bottle.bottleParameters = BottleParameters ∧
        bottle.allResults = AllPDFs.zip AllData ∧
        bottle.allConstraints = BottleConstraints ∧
        bottle.finalised = true ∧
        (∀ r s2, ext.Minimise BottleParameters.GetAllNames.length bottle s1 = (.result r, s2) →
          FitAssembler.DoFitLists ext BottleParameters AllPDFs AllData BottleConstraints s =
            (.returned r, s2)) ∧
        (∀ e s2, ext.Minimise BottleParameters.GetAllNames.length bottle s1 = (.throws e, s2) →
          FitAssembler.DoFitLists ext BottleParameters AllPDFs AllData BottleConstraints s =
            (.threw e, s2))) := by
  by_cases hlen : AllPDFs.length = AllData.length
  · have hne : ∀ code, (FitAssembler.DoFitLists ext BottleParameters AllPDFs AllData
        BottleConstraints s).1 ≠ .exited code := by
      intro code
      simp only [FitAssembler.DoFitLists, hlen, if_true]
      split <;> simp
    refine ⟨⟨fun h => ?_, fun h => absurd hlen h⟩, ⟨fun h => ?_, fun h => absurd hlen h⟩, ?_⟩
    · exact absurd (congrArg Prod.fst h) (hne 1)
    · obtain ⟨code, hc⟩ := h
      exact absurd hc (hne code)
    · intro _
      obtain ⟨f1, f2, f3, f4⟩ := FitAssembler.fillFromLists_spec ext BottleParameters AllPDFs
        AllData (PhysicsBottle.new BottleParameters) s
      obtain ⟨c1, c2, c3, c4⟩ := FitAssembler.addConstraints_spec BottleConstraints
        (FitAssembler.fillFromLists ext BottleParameters AllPDFs AllData
          (PhysicsBottle.new BottleParameters) s).1
      refine ⟨(FitAssembler.addConstraints BottleConstraints
          (FitAssembler.fillFromLists ext BottleParameters AllPDFs AllData
            (PhysicsBottle.new BottleParameters) s).1).Finalise,
        (FitAssembler.fillFromLists ext BottleParameters AllPDFs AllData
          (PhysicsBottle.new BottleParameters) s).2, ?_, ?_, ?_, rfl, ?_, ?_⟩
      · show (FitAssembler.addConstraints _ _).bottleParameters = _
        rw [c3, f3]; rfl
      · show (FitAssembler.addConstraints _ _).allResults = _
        rw [c2, f1]; simp [PhysicsBottle.new]
      · show (FitAssembler.addConstraints _ _).allConstraints = _
        rw [c1, f2]; simp [PhysicsBottle.new]
      · intro r s2 hm
        have hb : (FitAssembler.addConstraints BottleConstraints
            (FitAssembler.fillFromLists ext BottleParameters AllPDFs AllData
              (PhysicsBottle.new BottleParameters) s).1).Finalise.GetParameterSet =
            BottleParameters := by
          show (FitAssembler.addConstraints _ _).bottleParameters = _
          rw [c3, f3]; rfl
        simp only [FitAssembler.DoFitLists, hlen, if_true, FitAssembler.DoFitBottle, hb, hm]
      · intro e s2 hm
        have hb : (FitAssembler.addConstraints BottleConstraints
            (FitAssembler.fillFromLists ext BottleParameters AllPDFs AllData
              (PhysicsBottle.new BottleParameters) s).1).Finalise.GetParameterSet =
            BottleParameters := by
          show (FitAssembler.addConstraints _ _).bottleParameters = _
          rw [c3, f3]; rfl
        simp only [FitAssembler.DoFitLists, hlen, if_true, FitAssembler.DoFitBottle, hb, hm]
  · refine ⟨⟨fun _ => hlen, fun _ => ?_⟩, ⟨fun _ => hlen, fun _ => ⟨1, ?_⟩⟩,
      fun h => absurd h hlen⟩
    · simp only [FitAssembler.DoFitLists, hlen, if_false]
    · simp only [FitAssembler.DoFitLists, hlen, if_false]

/-- Witness of C8: with two PDFs and two datasets the fit is made on the bottle of the two
pairs; with two PDFs and one dataset the process exits with status 1 and nothing has been
done to the collaborators. -/
theorem DoFit_exits_iff_mismatch_witness :
    ["pdf1", "pdf2"].length = ["data1", "data2"].length ∧
    ["pdf1", "pdf2"].length ≠ ["data1"].length ∧
    (∃ (bottle : PhysicsBottle String String String ℚ) (s1 : List String),
      bottle.bottleParameters = Examples.params ∧
      bottle.allResults = ["pdf1", "pdf2"].zip ["data1", "data2"] ∧
      bottle.allConstraints = ["constraint"] ∧
      bottle.finalised = true ∧
      (∀ r s2, Examples.collaborators.Minimise Examples.params.GetAllNames.length bottle s1 =
          (.result r, s2) →
        FitAssembler.DoFitLists Examples.collaborators Examples.params ["pdf1", "pdf2"]
          ["data1", "data2"] ["constraint"] [] = (.returned r, s2)) ∧
      (∀ e s2, Examples.collaborators.Minimise Examples.params.GetAllNames.length bottle s1 =
          (.throws e, s2) →
        FitAssembler.DoFitLists Examples.collaborators Examples.params ["pdf1", "pdf2"]
          ["data1", "data2"] ["constraint"] [] = (.threw e, s2))) ∧
    FitAssembler.DoFitLists Examples.collaborators Examples.params ["pdf1", "pdf2"]
      ["data1"] ["constraint"] [] = (.exited 1, []) :=
  ⟨rfl, by decide,
   (DoFit_exits_iff_mismatch Examples.collaborators Examples.params ["pdf1", "pdf2"]
      ["data1", "data2"] ["constraint"] []).2.2 rfl,
   (DoFit_exits_iff_mismatch Examples.collaborators Examples.params ["pdf1", "pdf2"]
      ["data1"] ["constraint"] []).1.2 (by decide)⟩

/-- C9 (constraint arithmetic for GammaL): for a single constraint named `GammaL` with
target `T` and error `E` and a `ParameterSet` in which `gamma` has the value `g` and
`deltaGamma` the value `d`, `ConstraintFunction::Evaluate` returns
`0.5 * ((g + d/2 - T)/E)^2` in exact arithmetic; for `g = 0.66`, `d = 0.1`, `T = 0.7`,
`E = 0.05` it returns 0.02. -/
theorem evaluate_GammaL :
    (∀ (g d T E : ℚ) (ps : ParameterSet ℚ),
      ConstraintFunction.valueOf ps "gamma" = some g →
      ConstraintFunction.valueOf ps "deltaGamma" = some d →
      ConstraintFunction.Evaluate [⟨"GammaL", T, E⟩] ps =
        some (0.5 * ((g + d / 2 - T) / E) ^ 2)) ∧
    ConstraintFunction.Evaluate [⟨"GammaL", 0.7, 0.05⟩] Examples.gammaParams = some 0.02 := by
  have key : ∀ (g d T E : ℚ) (ps : ParameterSet ℚ),
      ConstraintFunction.valueOf ps "gamma" = some g →
      ConstraintFunction.valueOf ps "deltaGamma" = some d →
      ConstraintFunction.Evaluate [⟨"GammaL", T, E⟩] ps =
        some (0.5 * ((g + d / 2 - T) / E) ^ 2) := by
    intro g d T E ps hg hd
    simp only [ConstraintFunction.Evaluate,
      ConstraintFunction.evaluateLoop_spec ps g d _ 0 (Or.inl ⟨hg, hd⟩),
      Option.map_some', List.map_cons, List.map_nil, List.sum_cons, List.sum_nil,
      ConstraintFunction.constraintTerm, if_true]
    congr 1
    norm_num
  refine ⟨key, ?_⟩
  rw [key 0.66 0.1 0.7 0.05 Examples.gammaParams rfl rfl]
  norm_num

/-- Witness of C9: the parameter set of the example has `gamma = 0.66` and
`deltaGamma = 0.1`, and the constraint value is `0.5 * ((0.66 + 0.1/2 - 0.7)/0.05)^2`. -/
theorem evaluate_GammaL_witness :
    ConstraintFunction.valueOf Examples.gammaParams "gamma" = some 0.66 ∧
    ConstraintFunction.valueOf Examples.gammaParams "deltaGamma" = some 0.1 ∧
    ConstraintFunction.Evaluate [⟨"GammaL", 0.7, 0.05⟩] Examples.gammaParams =
      some (0.5 * ((0.66 + 0.1 / 2 - 0.7) / 0.05) ^ 2) :=
  ⟨rfl, rfl, evaluate_GammaL.1 0.66 0.1 0.7 0.05 Examples.gammaParams rfl rfl⟩

/-- C10 (constraint sum): `ConstraintFunction::Evaluate` returns 0.5 times the sum, over
the constraints of the list in turn, of `((value - target)/error)^2`, where `value` is
the derived combination for the names `GammaL` and `GammaObs`, the value of the named
parameter for another name that the set has, and where a name that the set does not
have contributes 0.  This holds for every list when `gamma` and `deltaGamma` can be read
from the set, and for every set when no constraint is named `GammaL` or `GammaObs`; for
the empty list the result is 0. -/
theorem evaluate_is_half_sum :
    (∀ (cs : List ExternalConstraint) (ps : ParameterSet ℚ) (g d : ℚ),
      ConstraintFunction.valueOf ps "gamma" = some g →
      ConstraintFunction.valueOf ps "deltaGamma" = some d →
      ConstraintFunction.Evaluate cs ps =
        some (0.5 * (cs.map (ConstraintFunction.constraintTerm ps g d)).sum)) ∧
    (∀ (cs : List ExternalConstraint) (ps : ParameterSet ℚ) (g d : ℚ),
      (∀ c ∈ cs, c.name ≠ "GammaL" ∧ c.name ≠ "GammaObs") →
      ConstraintFunction.Evaluate cs ps =
        some (0.5 * (cs.map (ConstraintFunction.constraintTerm ps g d)).sum)) ∧
    (∀ ps : ParameterSet ℚ, ConstraintFunction.Evaluate [] ps = some 0) := by
  refine ⟨?_, ?_, ?_⟩
  · intro cs ps g d hg hd
    simp only [ConstraintFunction.Evaluate,
      ConstraintFunction.evaluateLoop_spec ps g d cs 0 (Or.inl ⟨hg, hd⟩), Option.map_some']
    congr 1
    norm_num
  · intro cs ps g d hno
    simp only [ConstraintFunction.Evaluate,
      ConstraintFunction.evaluateLoop_spec ps g d cs 0 (Or.inr hno), Option.map_some']
    congr 1
    norm_num
  · intro ps
    simp [ConstraintFunction.Evaluate, ConstraintFunction.evaluateLoop]

/-- Witness of C10: four constraints on the example set, named `GammaL`, `GammaObs`,
`gamma` (a parameter of the set) and `phi_s` (not a parameter of the set). -/
theorem evaluate_is_half_sum_witness :
    ConstraintFunction.valueOf Examples.gammaParams "gamma" = some 0.66 ∧
    ConstraintFunction.valueOf Examples.gammaParams "deltaGamma" = some 0.1 ∧
    ConstraintFunction.Evaluate
        [⟨"GammaL", 0.7, 0.05⟩, ⟨"GammaObs", 0.65, 0.01⟩, ⟨"gamma", 0.6, 0.03⟩,
          ⟨"phi_s", 0, 1⟩] Examples.gammaParams =
      some (0.5 * ([⟨"GammaL", 0.7, 0.05⟩, ⟨"GammaObs", 0.65, 0.01⟩, ⟨"gamma", 0.6, 0.03⟩,
          ⟨"phi_s", 0, 1⟩].map
        (ConstraintFunction.constraintTerm Examples.gammaParams 0.66 0.1)).sum) :=
  ⟨rfl, rfl, evaluate_is_half_sum.1 _ Examples.gammaParams 0.66 0.1 rfl rfl⟩

/-- C11 (restoration on the exception path) fails as stated: when the first fit of the
first point raises the `int` 10 the process exits with -987, and when the first wiggle of
the first point raises it the error leaves `DoScan`; in both cases `x`, which was free
with blinded value 5, is left fixed at the value of the last try. -/
theorem restoration_on_error_counterexample :
    (ScanStudies.DoScan (Examples.scriptedFit 0 1) ⟨"x", 0, 10, 3⟩
        (Examples.world [.throwInt 10]) (FitResultVector.new [])).1 = .exited (-987) ∧
    ((ScanStudies.DoScan (Examples.scriptedFit 0 1) ⟨"x", 0, 10, 3⟩
        (Examples.world [.throwInt 10])
        (FitResultVector.new [])).2.1.params.GetPhysicsParameter "x").map
      (fun p => (p.GetType, p.GetBlindedValue)) = some ("Fixed", 0) ∧
    (ScanStudies.DoScan (Examples.scriptedFit 0 1) ⟨"x", 0, 10, 3⟩
        (Examples.world [.status 0, .status 0, .throwInt 10]) (FitResultVector.new [])).1 =
      .threw (.intCode 10) ∧
    ((ScanStudies.DoScan (Examples.scriptedFit 0 1) ⟨"x", 0, 10, 3⟩
        (Examples.world [.status 0, .status 0, .throwInt 10])
        (FitResultVector.new [])).2.1.params.GetPhysicsParameter "x").map
      (fun p => (p.GetType, p.GetBlindedValue)) = some ("Fixed", 1 / 4) ∧
    (Examples.params.GetPhysicsParameter "x").map
      (fun p => (p.GetType, p.GetBlindedValue)) = some ("Free", 5) := by
  decide!

/-- C11 (restoration on the exception path), amended: in a scan by `ScanStudies::DoScan`
on a `ParameterSet` that has the scanned parameter `p`, a `DoSafeFit` call raises an error
exactly when control leaves `DoScan` other than by returning.  The raising call `c` is
then the last call of the log, the last try made at the grid point that follows the
points finished, and no write is made after it: the `ParameterSet` is left as it was
passed to `c`, which is the input one with the scanned parameter of type `"Fixed"` at the
blinded value `x` of that try and every other parameter as before the scan.  So the set
is the one of before the scan exactly when the scanned parameter was already fixed at
the blinded value `x`.  When `DoScan` returns to its caller the `ParameterSet` is the one
of before the scan. -/
theorem no_restoration_on_error {σ : Type} (fit : FitStep σ ℚ) (P : ScanParam)
    (w : World σ ℚ) (out : FitResultVector ℚ) (p : PhysicsParameter ℚ)
    (hp : w.params.GetPhysicsParameter P.GetName = some p) :
    ((∃ c ∈ (ScanStudies.DoScan fit P w out).2.1.fitLog.drop w.fitLog.length,
        ∃ e, c.outcome = .throws e) ↔ (ScanStudies.DoScan fit P w out).1 ≠ .returned) ∧
    ((ScanStudies.DoScan fit P w out).1 ≠ .returned →
      ∃ (segs : List (List (FitCall ℚ))) (rs : List (FitResult ℚ))
          (calls : List (FitCall ℚ)) (c : FitCall ℚ) (x : ℚ),
        (ScanStudies.DoScan fit P w out).2.1.fitLog = w.fitLog ++ segs.flatten ∧
        (ScanStudies.DoScan fit P w out).2.2.allResults = out.allResults ++ rs ∧
        rs.length < P.GetPoints.toNat ∧
        segs[rs.length]? = some calls ∧ calls.getLast? = some c ∧
        (ScanStudies.DoScan fit P w out).2.1.fitLog.getLast? = some c ∧
        (∃ e, c.outcome = .throws e) ∧
        ScanStudies.fittedAt P.GetName c = some x ∧
        x = ScanStudies.tryValue (ScanStudies.gridValue P rs.length)
          (ScanStudies.deltaScan P / 20) (calls.length - 1) ∧
        (ScanStudies.DoScan fit P w out).2.1.params = c.params ∧
        (ScanStudies.DoScan fit P w out).2.1.params =
          (w.params.update P.GetName (PhysicsParameter.SetType "Fixed")).update P.GetName
            (PhysicsParameter.SetBlindedValue x) ∧
        (ScanStudies.DoScan fit P w out).2.1.params.GetPhysicsParameter P.GetName =
          some { p with type := "Fixed", blindedValue := x } ∧
        (∀ f, f ≠ P.GetName →
          (ScanStudies.DoScan fit P w out).2.1.params.GetPhysicsParameter f =
            w.params.GetPhysicsParameter f) ∧
        ((ScanStudies.DoScan fit P w out).2.1.params = w.params ↔
          p.type = "Fixed" ∧ p.blindedValue = x)) ∧
    ((ScanStudies.DoScan fit P w out).1 = .returned →
      (ScanStudies.DoScan fit P w out).2.1.params = w.params) := by
  have hps : (ParameterSet.GetPhysicsParameter P.GetName w.params).isSome := by simp [hp]
  refine ⟨?_, ?_, ScanStudies.DoScan_restores fit P w out⟩
  · obtain ⟨calls, rs, hlog, _, _, _, hok, hbad⟩ := ScanStudies.DoScan_trace fit P w out hps
    have hdrop :
        (ScanStudies.DoScan fit P w out).2.1.fitLog.drop w.fitLog.length = calls := by
      rw [hlog, List.drop_left]
    rw [hdrop]
    constructor
    · rintro ⟨c, hc, e, he⟩ hret
      obtain ⟨r, hr⟩ := (hok hret).1 c hc
      rw [he] at hr
      cases hr
    · intro hne
      exact (hbad hne).1
  · intro hne
    obtain ⟨segs, rs, hlog, hres, _, hsegs, _, hbad⟩ := ScanStudies.DoScan_full fit P w out hps
    obtain ⟨hlen, calls, c, e, h1, h2, h3, h4, h5⟩ := hbad hne
    obtain ⟨_, _, hvals, hpar, _⟩ := hsegs rs.length calls h1
    obtain ⟨y, hy⟩ := hpar c (List.mem_of_getLast?_eq_some h2)
    have hval := ScanStudies.lastCall_value P.GetName _ _ calls c h2 hvals
    obtain ⟨hget, hother⟩ := ScanStudies.callParams_get P.GetName w.params c.params p y hp hy
    have hfy : ScanStudies.fittedAt P.GetName c = some y := by
      simp only [ScanStudies.fittedAt, hget]
      rfl
    have hyv : y = ScanStudies.tryValue (ScanStudies.gridValue P rs.length)
        (ScanStudies.deltaScan P / 20) (calls.length - 1) := by
      rw [hfy] at hval
      exact Option.some.inj hval
    refine ⟨segs, rs, calls, c, y, hlog, hres, hlen, h1, h2, h3, ⟨e, h4⟩, hfy, hyv, h5,
      by rw [h5]; exact hy, by rw [h5]; exact hget,
      fun f hf => by rw [h5]; exact hother f hf, ?_⟩
    rw [h5, hy]
    exact ScanStudies.callParams_eq_iff P.GetName w.params p y hp

/-- Witness of the amended C11: the scan whose first wiggle raises the `int` 10.  The
raising call is the third try of the first grid point, at 1/4, and `x`, free at 5 before
the scan, is left fixed at 1/4. -/
theorem no_restoration_on_error_witness :
    Examples.params.GetPhysicsParameter "x" = some ⟨5, "Free", "ps", id⟩ ∧
    (ScanStudies.DoScan (Examples.scriptedFit 0 1) ⟨"x", 0, 10, 3⟩
        (Examples.world [.status 0, .status 0, .throwInt 10])
        (FitResultVector.new [])).1 ≠ .returned ∧
    ∃ (segs : List (List (FitCall ℚ))) (rs : List (FitResult ℚ))
        (calls : List (FitCall ℚ)) (c : FitCall ℚ) (x : ℚ),
      (ScanStudies.DoScan (Examples.scriptedFit 0 1) ⟨"x", 0, 10, 3⟩
        (Examples.world [.status 0, .status 0, .throwInt 10])
        (FitResultVector.new [])).2.1.fitLog = [] ++ segs.flatten ∧
      (ScanStudies.DoScan (Examples.scriptedFit 0 1) ⟨"x", 0, 10, 3⟩
        (Examples.world [.status 0, .status 0, .throwInt 10])
        (FitResultVector.new [])).2.2.allResults = [] ++ rs ∧
      rs.length < 3 ∧
      segs[rs.length]? = some calls ∧ calls.getLast? = some c ∧
      (ScanStudies.DoScan (Examples.scriptedFit 0 1) ⟨"x", 0, 10, 3⟩
        (Examples.world [.status 0, .status 0, .throwInt 10])
        (FitResultVector.new [])).2.1.fitLog.getLast? = some c ∧
      (∃ e, c.outcome = .throws e) ∧
      ScanStudies.fittedAt "x" c = some x ∧
      x = ScanStudies.tryValue (ScanStudies.gridValue ⟨"x", 0, 10, 3⟩ rs.length)
        (ScanStudies.deltaScan ⟨"x", 0, 10, 3⟩ / 20) (calls.length - 1) ∧
      (ScanStudies.DoScan (Examples.scriptedFit 0 1) ⟨"x", 0, 10, 3⟩
        (Examples.world [.status 0, .status 0, .throwInt 10])
        (FitResultVector.new [])).2.1.params = c.params ∧
      (ScanStudies.DoScan (Examples.scriptedFit 0 1) ⟨"x", 0, 10, 3⟩
        (Examples.world [.status 0, .status 0, .throwInt 10])
        (FitResultVector.new [])).2.1.params =
        (Examples.params.update "x" (PhysicsParameter.SetType "Fixed")).update "x"
          (PhysicsParameter.SetBlindedValue x) ∧
      (ScanStudies.DoScan (Examples.scriptedFit 0 1) ⟨"x", 0, 10, 3⟩
        (Examples.world [.status 0, .status 0, .throwInt 10])
        (FitResultVector.new [])).2.1.params.GetPhysicsParameter "x" =
        some { (⟨5, "Free", "ps", id⟩ : PhysicsParameter ℚ) with
          type := "Fixed", blindedValue := x } ∧
      (∀ f, f ≠ "x" →
        (ScanStudies.DoScan (Examples.scriptedFit 0 1) ⟨"x", 0, 10, 3⟩
          (Examples.world [.status 0, .status 0, .throwInt 10])
          (FitResultVector.new [])).2.1.params.GetPhysicsParameter f =
          Examples.params.GetPhysicsParameter f) ∧
      ((ScanStudies.DoScan (Examples.scriptedFit 0 1) ⟨"x", 0, 10, 3⟩
        (Examples.world [.status 0, .status 0, .throwInt 10])
        (FitResultVector.new [])).2.1.params = Examples.params ↔
        (⟨5, "Free", "ps", id⟩ : PhysicsParameter ℚ).type = "Fixed" ∧
          (⟨5, "Free", "ps", id⟩ : PhysicsParameter ℚ).blindedValue = x) :=
  ⟨rfl, by decide,
   (no_restoration_on_error (Examples.scriptedFit 0 1) ⟨"x", 0, 10, 3⟩
      (Examples.world [.status 0, .status 0, .throwInt 10]) (FitResultVector.new [])
      ⟨5, "Free", "ps", id⟩ rfl).2.1 (by decide)⟩

/-- C16 (single-point grid in `FitAssembler`): the code at a `ScanParam` of exactly one
point.  The step of `FitAssembler::DoScan` (and of the outer loop of
`FitAssembler::DoScan2D`, which computes it in the same way) is the quotient of
`hi - lo` by `n - 1 = 0`, which is not finite; the one fit of the scan is made with the
scanned parameter at `lo + 0 * step`, which is not finite either and is not `lo`, and
this value is written into the result. -/
theorem single_point_step_not_finite :
    (∀ P : ScanParam, P.GetPoints = 1 → FitAssembler.deltaScan P = Dbl.nonFinite) ∧
    FitAssembler.deltaScan ⟨"x", 0, 10, 1⟩ = Dbl.nonFinite ∧
    (FitAssembler.DoScan (Examples.scriptedFit (Dbl.finite 0) (Dbl.finite 1))
        (Dbl.finite (-9999)) Examples.blank ⟨"x", 0, 10, 1⟩
        (Examples.worldDbl []) (FitResultVector.new [])).2.1.fitLog.map
      (fun c => (c.params.GetPhysicsParameter "x").map PhysicsParameter.GetBlindedValue) =
      [some Dbl.nonFinite] ∧
    (FitAssembler.DoScan (Examples.scriptedFit (Dbl.finite 0) (Dbl.finite 1))
        (Dbl.finite (-9999)) Examples.blank ⟨"x", 0, 10, 1⟩
        (Examples.worldDbl []) (FitResultVector.new [])).2.2.allResults.map
      (fun r => (r.GetResultParameterSet.GetResultParameter "x").map (fun e => e.value)) =
      [some Dbl.nonFinite] ∧
    Dbl.nonFinite ≠ Dbl.finite 0 := by
  refine ⟨?_, by decide!⟩
  intro P h1
  simp [FitAssembler.deltaScan, Dbl.divFinite, h1]

/-- C17 (minimiser sizing) fails as stated: for a bottle whose `ParameterSet` has the free
parameter `x` and the fixed parameter `y`, the minimiser is requested with the size 2,
while the number of free parameters is 1. -/
theorem minimiser_size_counterexample :
    (FitAssembler.DoFitBottle Examples.sizeRecorder (PhysicsBottle.new Examples.params)
      []).2 = [2] ∧
    FitAssembler.numberOfFreeParameters Examples.params = 1 := by
  decide

/-- C17 (minimiser sizing), amended: `FitAssembler::DoFit` requests the minimiser with the
number of all the parameters of the bottle's `ParameterSet`, which is the number of the
free parameters plus the number of the fixed ones; so it does on the bottle that the
overload for `PDFWithData` entries builds from a `ParameterSet`. -/
theorem minimiser_sized_by_all_parameters {σ P D W C V : Type}
    (ext : Collaborators σ P D W C V) :
    (∀ (Bottle : PhysicsBottle P D C V) (s : σ),
      FitAssembler.DoFitBottle ext Bottle s =
        ext.Minimise Bottle.GetParameterSet.GetAllNames.length Bottle s ∧
      Bottle.GetParameterSet.GetAllNames.length =
        FitAssembler.numberOfFreeParameters Bottle.GetParameterSet +
          Bottle.GetParameterSet.GetAllFixedNames.length) ∧
    (∀ (BottleData : List W) (BottleConstraints : List C) (s : σ)
        (BottleParameters : ParameterSet V),
      ∃ (bottle : PhysicsBottle P D C V) (s1 : σ),
        bottle.GetParameterSet = BottleParameters ∧
        FitAssembler.DoFitWithData ext BottleData BottleConstraints s BottleParameters =
          ext.Minimise BottleParameters.GetAllNames.length bottle s1) := by
  refine ⟨fun Bottle s => ⟨rfl, FitAssembler.names_length_split _⟩, ?_⟩
  intro BottleData BottleConstraints s BottleParameters
  obtain ⟨f1, _, _⟩ := FitAssembler.fillFromData_params ext BottleParameters BottleData
    (PhysicsBottle.new BottleParameters) s
  obtain ⟨_, _, c3, _⟩ := FitAssembler.addConstraints_spec BottleConstraints
    (FitAssembler.fillFromData ext BottleParameters BottleData
      (PhysicsBottle.new BottleParameters) s).1
  have hb : (FitAssembler.addConstraints BottleConstraints
      (FitAssembler.fillFromData ext BottleParameters BottleData
        (PhysicsBottle.new BottleParameters) s).1).Finalise.GetParameterSet =
      BottleParameters := by
    show (FitAssembler.addConstraints _ _).bottleParameters = _
    rw [c3, f1]; rfl
  refine ⟨(FitAssembler.addConstraints BottleConstraints
      (FitAssembler.fillFromData ext BottleParameters BottleData
        (PhysicsBottle.new BottleParameters) s).1).Finalise,
    (FitAssembler.fillFromData ext BottleParameters BottleData
        (PhysicsBottle.new BottleParameters) s).2, hb, ?_⟩
  simp only [FitAssembler.DoFitWithData, FitAssembler.DoFitBottle, hb]

/-- C18 (invalid contour index) fails as stated: on a `FunctionContour` created with 2
contours, `SetPlot` with the sigma index 3 or 0 writes the diagnostic and returns to its
caller, with the contours as they were. -/
theorem invalid_sigma_counterexample :
    FunctionContour.SetPlot 3 [(1, 2)] (FunctionContour.new "x" "y" 2) =
      (FunctionContour.new "x" "y" 2, ["Contour sigma value (3) is invalid"]) ∧
    FunctionContour.SetPlotArrays 0 1 (fun _ => 1) (fun _ => 2)
        (FunctionContour.new "x" "y" 2) =
      (FunctionContour.new "x" "y" 2, ["Contour sigma value (0) is invalid"]) := by
  constructor <;> rfl

/-- C18 (invalid contour index), amended: a `FunctionContour` created with `C` contours has
`C` contours (none when `C` is negative), and on every `FunctionContour` each call of
`SetPlot`, in either overload, with a sigma index below 1 or above the number of
contours writes the diagnostic to `cerr` and returns to its caller, leaving every
contour as it was. -/
theorem invalid_sigma_is_diagnosed :
    (∀ (XName YName : String) (C : Int), 0 ≤ C →
      (FunctionContour.new XName YName C).GetContourNumber = C) ∧
    (∀ (fc : FunctionContour) (Sigma : Int) (Contour : List (ℚ × ℚ)),
      Sigma < 1 ∨ Sigma > fc.GetContourNumber →
      FunctionContour.SetPlot Sigma Contour fc = (fc, [FunctionContour.diagnostic Sigma])) ∧
    (∀ (fc : FunctionContour) (Sigma NumberPoints : Int) (XValues YValues : Nat → ℚ),
      Sigma < 1 ∨ Sigma > fc.GetContourNumber →
      FunctionContour.SetPlotArrays Sigma NumberPoints XValues YValues fc =
        (fc, [FunctionContour.diagnostic Sigma])) := by
  have hinv : ∀ (fc : FunctionContour) (Sigma : Int),
      Sigma < 1 ∨ Sigma > fc.GetContourNumber → FunctionContour.invalidSigma fc Sigma = true := by
    intro fc Sigma h
    simp only [FunctionContour.invalidSigma, Bool.or_eq_true, decide_eq_true_eq]
    rcases h with h | h
    · exact Or.inr h
    · exact Or.inl h
  refine ⟨?_, ?_, ?_⟩
  · intro XName YName C hC
    simp only [FunctionContour.GetContourNumber, FunctionContour.new, List.length_replicate]
    exact Int.toNat_of_nonneg hC
  · intro fc Sigma Contour h
    simp only [FunctionContour.SetPlot, hinv fc Sigma h, if_true]
  · intro fc Sigma NumberPoints XValues YValues h
    simp only [FunctionContour.SetPlotArrays, hinv fc Sigma h, if_true]

/-- Witness of the amended C18: the sigma index 3 is above the 2 contours of the object. -/
theorem invalid_sigma_is_diagnosed_witness :
    ((3 : Int) < 1 ∨ (3 : Int) > (FunctionContour.new "x" "y" 2).GetContourNumber) ∧
    (FunctionContour.new "x" "y" 2).GetContourNumber = 2 ∧
    FunctionContour.SetPlot 3 [(1, 2)] (FunctionContour.new "x" "y" 2) =
      (FunctionContour.new "x" "y" 2, [FunctionContour.diagnostic 3]) :=
  ⟨by decide, invalid_sigma_is_diagnosed.1 "x" "y" 2 (by decide),
   invalid_sigma_is_diagnosed.2.1 (FunctionContour.new "x" "y" 2) 3 [(1, 2)] (by decide)⟩

/-- C19 (scan-level failure aborts): the code at a scan whose first fit returns the status
0 and whose straight retry raises the `int` 10.  The error leaves `DoScan` towards the
caller, where the claim has the process exit with -987; no result is appended.  When it
is the first fit of a point that raises the `int` 10, or something else, the process
does exit, with -987 or -986. -/
theorem retry_error_leaves_scan :
    (ScanStudies.DoScan (Examples.scriptedFit 0 1) ⟨"x", 0, 10, 3⟩
        (Examples.world [.status 0, .throwInt 10]) (FitResultVector.new [])).1 =
      .threw (.intCode 10) ∧
    ScanExit.threw (.intCode 10) ≠ ScanExit.exited (-987) ∧
    (ScanStudies.DoScan (Examples.scriptedFit 0 1) ⟨"x", 0, 10, 3⟩
        (Examples.world [.status 0, .throwInt 10])
        (FitResultVector.new [])).2.2.allResults.length = 0 ∧
    (ScanStudies.DoScan (Examples.scriptedFit 0 1) ⟨"x", 0, 10, 3⟩
        (Examples.world [.throwInt 10]) (FitResultVector.new [])).1 = .exited (-987) ∧
    (ScanStudies.DoScan (Examples.scriptedFit 0 1) ⟨"x", 0, 10, 3⟩
        (Examples.world [.status 3, .throwOther]) (FitResultVector.new [])).1 =
      .exited (-986) := by
  decide

/-- C20 (bottle assembly order): `FitAssembler::DoFit` on `PDFWithData` entries, followed
step by step, does what the fit does, and its steps are, in this order: for each entry
in input order, `SetPhysicsParameters` on the entry and then `AddResult` of the entry's
PDF and dataset; `AddConstraint` for each constraint in input order; `Finalise`, once;
and the minimisation.  The bottle that the minimisation is given holds one pair per
entry and the constraints in input order, and is finalised. -/
theorem bottle_assembly_order {σ P D W C V : Type} (ext : Collaborators σ P D W C V)
    (BottleData : List W) (BottleConstraints : List C) (s : σ)
    (BottleParameters : ParameterSet V) :
    (FitAssembler.DoFitWithDataTrace ext BottleData BottleConstraints s BottleParameters).1 =
      FitAssembler.DoFitWithData ext BottleData BottleConstraints s BottleParameters ∧
    (FitAssembler.DoFitWithDataTrace ext BottleData BottleConstraints s BottleParameters).2.2 =
      (BottleData.map (fun pd =>
        [AssemblyEvent.SetPhysicsParameters pd, AssemblyEvent.AddResult pd])).flatten ++
      BottleConstraints.map AssemblyEvent.AddConstraint ++
      [AssemblyEvent.Finalise, AssemblyEvent.Minimise] ∧
    (FitAssembler.DoFitWithDataTrace ext BottleData BottleConstraints s
      BottleParameters).2.1.allResults.length = BottleData.length ∧
    (FitAssembler.DoFitWithDataTrace ext BottleData BottleConstraints s
      BottleParameters).2.1.allConstraints = BottleConstraints ∧
    (FitAssembler.DoFitWithDataTrace ext BottleData BottleConstraints s
      BottleParameters).2.1.finalised = true ∧
    ∃ s1, FitAssembler.DoFitWithData ext BottleData BottleConstraints s BottleParameters =
      FitAssembler.DoFitBottle ext
        (FitAssembler.DoFitWithDataTrace ext BottleData BottleConstraints s
          BottleParameters).2.1 s1 := by
  obtain ⟨t1, t2, t3⟩ := FitAssembler.fillFromDataTrace_spec ext BottleParameters BottleData
    (PhysicsBottle.new BottleParameters) s ([] : List (AssemblyEvent W C))
  have a1 : ∀ (b : PhysicsBottle P D C V) (events : List (AssemblyEvent W C)),
      (FitAssembler.addConstraintsTrace BottleConstraints b events).1 =
        FitAssembler.addConstraints BottleConstraints b :=
    fun b events => (FitAssembler.addConstraintsTrace_spec BottleConstraints b events).1
  have a2 : ∀ (b : PhysicsBottle P D C V) (events : List (AssemblyEvent W C)),
      (FitAssembler.addConstraintsTrace BottleConstraints b events).2 =
        events ++ BottleConstraints.map AssemblyEvent.AddConstraint :=
    fun b events => (FitAssembler.addConstraintsTrace_spec BottleConstraints b events).2
  obtain ⟨_, f2, f3⟩ := FitAssembler.fillFromData_params ext BottleParameters BottleData
    (PhysicsBottle.new BottleParameters) s
  obtain ⟨c1, c2, _, _⟩ := FitAssembler.addConstraints_spec BottleConstraints
    (FitAssembler.fillFromData ext BottleParameters BottleData
      (PhysicsBottle.new BottleParameters) s).1
  have hbottle : (FitAssembler.DoFitWithDataTrace ext BottleData BottleConstraints s
      BottleParameters).2.1 = (FitAssembler.addConstraints BottleConstraints
        (FitAssembler.fillFromData ext BottleParameters BottleData
          (PhysicsBottle.new BottleParameters) s).1).Finalise := by
    simp only [FitAssembler.DoFitWithDataTrace, a1, t1]
  refine ⟨?_, ?_, ?_, ?_, ?_, ?_⟩
  · simp only [FitAssembler.DoFitWithDataTrace, FitAssembler.DoFitWithData, a1, t1, t2]
  · simp only [FitAssembler.DoFitWithDataTrace, a2, t3]
    simp
  · rw [hbottle]
    show (FitAssembler.addConstraints _ _).allResults.length = _
    rw [c2, f2]
    simp [PhysicsBottle.new]
  · rw [hbottle]
    show (FitAssembler.addConstraints _ _).allConstraints = _
    rw [c1, f3]
    simp [PhysicsBottle.new]
  · rw [hbottle]
    rfl
  · exact ⟨(FitAssembler.fillFromData ext BottleParameters BottleData
        (PhysicsBottle.new BottleParameters) s).2, by rw [hbottle]; rfl⟩

/-- C13 (wiggle sequence): in every scan by `ScanStudies::DoScan`, whatever the fits do,
the fit calls come grid point by grid point, and among the calls of the point of grid
index `i`, with intended value `v = lo + i*(hi-lo)/(n-1)` and grid step `delta`, the call
after the first fit (the first retry) is made at exactly `v`, and the call after that of
index `k` (wiggle retry `k`, for `k = 0, 1, 2, ...`) is made at
`v + (delta/20) * (k/2 + 1)` when `k` is even and at `v - (delta/20) * (k/2 + 1)` when
`k` is odd, with `k/2` the integer quotient: every wiggle value is this function of `v`
and `k` alone, not of a value tried before. -/
theorem wiggle_sequence {σ : Type} (fit : FitStep σ ℚ) (P : ScanParam)
    (w : World σ ℚ) (out : FitResultVector ℚ)
    (hp : (w.params.GetPhysicsParameter P.GetName).isSome) :
    ∃ segs : List (List (FitCall ℚ)),
      (ScanStudies.DoScan fit P w out).2.1.fitLog = w.fitLog ++ segs.flatten ∧
      ((ScanStudies.DoScan fit P w out).1 = .returned → segs.length = P.GetPoints.toNat) ∧
      ∀ i calls, segs[i]? = some calls →
        1 ≤ calls.length ∧ calls.length ≤ 21 ∧
        (∀ c, calls[1]? = some c →
          ScanStudies.fittedAt P.GetName c = some (ScanStudies.gridValue P i)) ∧
        (∀ k c, calls[k + 2]? = some c →
          ScanStudies.fittedAt P.GetName c = some
            (if k % 2 = 0 then
              ScanStudies.gridValue P i +
                ScanStudies.deltaScan P / 20 * ((k / 2 + 1 : Nat) : ℚ)
            else
              ScanStudies.gridValue P i -
                ScanStudies.deltaScan P / 20 * ((k / 2 + 1 : Nat) : ℚ))) := by
  obtain ⟨segs, _, hlog, hret, hall⟩ := ScanStudies.DoScan_segments fit P w out hp
  refine ⟨segs, hlog, hret, ?_⟩
  intro i calls hi
  obtain ⟨h1, h21, hvals, _⟩ := hall i calls hi
  refine ⟨h1, h21, ?_, ?_⟩
  · intro c hc
    rw [ScanStudies.map_range_at _ _ calls hvals 1 c hc]
    rfl
  · intro k c hc
    rw [ScanStudies.map_range_at _ _ calls hvals (k + 2) c hc,
      (ScanStudies.tryValue_wiggle _ _ k).2.2]

/-- Witness of C13: a three-point scan of `x` over [0, 10] (grid step 5, wiggle step 1/4)
whose first point converges at its fifth fit: the fits are made at 0, 0, 1/4, -1/4 and
1/2, and then at 5 and at 10. -/
theorem wiggle_sequence_witness :
    (Examples.params.GetPhysicsParameter "x").isSome ∧
    ((ScanStudies.DoScan Examples.statusFit ⟨"x", 0, 10, 3⟩
        ⟨Examples.params, [0, 0, 0, 0, 3], []⟩ (FitResultVector.new [])).2.1.fitLog.map
      (ScanStudies.fittedAt "x") =
      [some 0, some 0, some (1 / 4), some (-1 / 4), some (1 / 2), some 5, some 10]) ∧
    ∃ segs : List (List (FitCall ℚ)),
      (ScanStudies.DoScan Examples.statusFit ⟨"x", 0, 10, 3⟩
        ⟨Examples.params, [0, 0, 0, 0, 3], []⟩ (FitResultVector.new [])).2.1.fitLog =
        [] ++ segs.flatten ∧
      ((ScanStudies.DoScan Examples.statusFit ⟨"x", 0, 10, 3⟩
        ⟨Examples.params, [0, 0, 0, 0, 3], []⟩ (FitResultVector.new [])).1 = .returned →
        segs.length = 3) := by
  refine ⟨by decide, by decide!, ?_⟩
  obtain ⟨segs, hlog, hret, _⟩ :=
    wiggle_sequence Examples.statusFit ⟨"x", 0, 10, 3⟩
      ⟨Examples.params, [0, 0, 0, 0, 3], []⟩ (FitResultVector.new []) (by decide)
  exact ⟨segs, hlog, hret⟩

/-- C15 (fix-then-fit at the grid value): in every scan by `ScanStudies::DoScan`, whatever
the fits do, the fit calls come grid point by grid point, one group of calls for each
grid index `i` from 0 on (all the `n` of them when the scan returns), and the first call
of the group of index `i` is made with the scanned parameter's type equal to `"Fixed"`
and its blinded value equal to `lo + i*(hi-lo)/(n-1)`, which is what the code computes as
`lo` plus `i` steps; with `n = 1` the step is 0 and the value is `lo`.  The first grid
value is `lo` and, for `n >= 2`, the last is `hi`. -/
theorem first_fit_at_grid_value {σ : Type} (fit : FitStep σ ℚ) (P : ScanParam)
    (w : World σ ℚ) (out : FitResultVector ℚ)
    (hp : (w.params.GetPhysicsParameter P.GetName).isSome) :
    (∃ segs : List (List (FitCall ℚ)),
      (ScanStudies.DoScan fit P w out).2.1.fitLog = w.fitLog ++ segs.flatten ∧
      segs.length ≤ P.GetPoints.toNat ∧
      ((ScanStudies.DoScan fit P w out).1 = .returned → segs.length = P.GetPoints.toNat) ∧
      ∀ i calls, segs[i]? = some calls → ∃ c, calls[0]? = some c ∧
        (c.params.GetPhysicsParameter P.GetName).map PhysicsParameter.GetType =
          some "Fixed" ∧
        (c.params.GetPhysicsParameter P.GetName).map PhysicsParameter.GetBlindedValue =
          some (ScanStudies.gridValue P i) ∧
        ScanStudies.gridValue P i = P.GetMin + ScanStudies.deltaScan P * (i : ℚ)) ∧
    (P.GetPoints = 1 → ScanStudies.deltaScan P = 0 ∧ ScanStudies.gridValue P 0 = P.GetMin) ∧
    ScanStudies.gridValue P 0 = P.GetMin ∧
    (2 ≤ P.GetPoints → ScanStudies.gridValue P (P.GetPoints.toNat - 1) = P.GetMax) := by
  have h0 : ScanStudies.gridValue P 0 = P.GetMin := by
    simp [ScanStudies.gridValue, ScanParam.GetMin]
  refine ⟨?_, ?_, h0, ?_⟩
  · obtain ⟨segs, hsl, hlog, hret, hall⟩ := ScanStudies.DoScan_segments fit P w out hp
    refine ⟨segs, hlog, hsl, hret, ?_⟩
    intro i calls hi
    obtain ⟨h1, _, hvals, hpar⟩ := hall i calls hi
    cases calls with
    | nil => simp at h1
    | cons c rest =>
      refine ⟨c, List.getElem?_cons_zero, ?_, ?_, (ScanStudies.gridValue_eq P i).symm⟩
      · obtain ⟨x, hx⟩ := hpar c (List.mem_cons_self _ _)
        rw [hx, ParameterSet.get_update, ParameterSet.get_update]
        cases hq : ParameterSet.GetPhysicsParameter P.GetName w.params with
        | none => rw [hq] at hp; cases hp
        | some p => rfl
      · exact ScanStudies.map_range_at _ _ (c :: rest) hvals 0 c List.getElem?_cons_zero
  · intro h1
    refine ⟨?_, h0⟩
    simp [ScanStudies.deltaScan, h1]
  · intro h2
    have hne : P.points ≠ 1 := by
      have : 2 ≤ P.points := h2
      omega
    have hcast : (((P.GetPoints.toNat - 1 : Nat)) : ℚ) = (P.points : ℚ) - 1 := by
      have h2' : 2 ≤ P.points := h2
      show (((P.points.toNat - 1 : Nat)) : ℚ) = (P.points : ℚ) - 1
      obtain ⟨m, hm⟩ : ∃ m : Nat, P.points = (m : Int) :=
        ⟨P.points.toNat, (Int.toNat_of_nonneg (by omega)).symm⟩
      rw [hm] at h2' ⊢
      have h1 : 1 ≤ m := by omega
      simp only [Int.toNat_ofNat, Int.cast_natCast]
      rw [Nat.cast_sub h1]
      simp
    have hpos : (P.points : ℚ) - 1 ≠ 0 := by
      have h2' : 2 ≤ P.points := h2
      have : (2 : ℚ) ≤ (P.points : ℚ) := by exact_mod_cast h2'
      intro hc
      linarith
    simp only [ScanStudies.gridValue, hne, if_false, hcast, ScanParam.GetMax]
    field_simp

/-- Witness of C15: a three-point scan of the free parameter `x` over [0, 10] whose first
point converges at a wiggle: the first fits of the three points are made with `x` fixed
at 0, 5 and 10. -/
theorem first_fit_at_grid_value_witness :
    (Examples.params.GetPhysicsParameter "x").isSome ∧
    ((ScanStudies.DoScan Examples.statusFit ⟨"x", 0, 10, 3⟩
        ⟨Examples.params, [0, 0, 3], []⟩ (FitResultVector.new [])).2.1.fitLog.map
      (fun c => (c.params.GetPhysicsParameter "x").map
        (fun p => (p.GetType, p.GetBlindedValue))) =
      [some ("Fixed", 0), some ("Fixed", 0), some ("Fixed", 1 / 4), some ("Fixed", 5),
        some ("Fixed", 10)]) ∧
    ScanStudies.gridValue ⟨"x", 0, 10, 3⟩ 0 = 0 ∧
    ScanStudies.gridValue ⟨"x", 0, 10, 3⟩ 2 = 10 :=
  ⟨by decide, by decide!,
   (first_fit_at_grid_value Examples.statusFit ⟨"x", 0, 10, 3⟩
     ⟨Examples.params, [0, 0, 3], []⟩ (FitResultVector.new []) (by decide)).2.2.1,
   (first_fit_at_grid_value Examples.statusFit ⟨"x", 0, 10, 3⟩
     ⟨Examples.params, [0, 0, 3], []⟩ (FitResultVector.new []) (by decide)).2.2.2
     (by decide)⟩

/-- C12 (schema uniformity): in every scan by `ScanStudies::DoScan`, provided each
`FitResult` that a fit call of the scan returned carries only names of the input
`ParameterSet` and an entry for each of its parameters that is not fixed (the scanned
one, which is fixed during the scan, need not be among them), every appended
`FitResult` has, as the set of names of its parameter set, the full set of names of the
input `ParameterSet`: the same set at all grid points, whatever the status of the
accepted fit, converged at once, after a wiggle, or not at all. -/
theorem schema_uniformity {σ : Type} (fit : FitStep σ ℚ) (P : ScanParam)
    (w : World σ ℚ) (out : FitResultVector ℚ)
    (hp : (w.params.GetPhysicsParameter P.GetName).isSome)
    (hfit : ∀ c ∈ (ScanStudies.DoScan fit P w out).2.1.fitLog.drop w.fitLog.length,
      ∀ r, c.outcome = .result r →
        (∀ n ∈ r.GetResultParameterSet.GetAllNames, n ∈ w.params.GetAllNames) ∧
        (∀ e ∈ w.params, e.2.type ≠ "Fixed" → e.1 ≠ P.GetName →
          e.1 ∈ r.GetResultParameterSet.GetAllNames)) :
    ∃ rs : List (FitResult ℚ),
      (ScanStudies.DoScan fit P w out).2.2.allResults = out.allResults ++ rs ∧
      ((ScanStudies.DoScan fit P w out).1 = .returned → rs.length = P.GetPoints.toNat) ∧
      ∀ r ∈ rs, ∀ n,
        n ∈ r.GetResultParameterSet.GetAllNames ↔ n ∈ w.params.GetAllNames := by
  obtain ⟨calls, rs, hlog, hres, _, hrs, hok, _⟩ := ScanStudies.DoScan_trace fit P w out hp
  rw [hlog, List.drop_left] at hfit
  refine ⟨rs, hres, fun h => (hok h).2, ?_⟩
  intro r hr n
  obtain ⟨ps, x, r0, hr0, ⟨y, hy⟩, c, hc, hcr⟩ := hrs r hr
  obtain ⟨hA, hB⟩ := hfit c hc r0 hcr
  have hnames : ps.GetAllNames = w.params.GetAllNames := by
    rw [hy, ParameterSet.names_update, ParameterSet.names_update]
  rw [hr0, ScanStudies.finishPoint_names]
  constructor
  · intro h
    rcases h with h | h
    · exact hA n h
    · rw [← hnames]
      exact ParameterSet.fixedNames_sub_names _ _ h
  · intro h
    by_cases hn : n = P.GetName
    · right
      cases hq : ParameterSet.GetPhysicsParameter P.GetName w.params with
      | none => rw [hq] at hp; cases hp
      | some p =>
        refine ParameterSet.mem_fixedNames n ps
          ((PhysicsParameter.SetBlindedValue y) ((PhysicsParameter.SetType "Fixed") p)) ?_ rfl
        rw [hn, hy, ParameterSet.get_update, ParameterSet.get_update, hq]
        rfl
    · rw [← hnames] at h
      rcases ParameterSet.names_split ps n h with h1 | ⟨e, he, hen, het⟩
      · exact Or.inr h1
      · left
        have hne : e.1 ≠ P.GetName := by rw [hen]; exact hn
        rw [hy] at he
        have he1 := ParameterSet.mem_of_mem_update_ne _ _ _ e he hne
        have he2 := ParameterSet.mem_of_mem_update_ne _ _ _ e he1 hne
        rw [← hen]
        exact hB e he2 het hne

/-- Witness of C12: a two-point scan of `x` on the set of the free parameters `x` and `z`
and the fixed parameter `y`, with a fit step that reports only the parameters that are
not fixed when it is called (so neither `y` nor the scanned `x`); the first point
converges at a wiggle.  Both appended results have the names `z`, `x` and `y`. -/
theorem schema_uniformity_witness :
    (Examples.threeParams.GetPhysicsParameter "x").isSome ∧
    ((ScanStudies.DoScan Examples.freeFit ⟨"x", 0, 10, 2⟩
        ⟨Examples.threeParams, [0, 0, 3], []⟩ (FitResultVector.new [])).2.2.allResults.map
      (fun r => r.GetResultParameterSet.GetAllNames) =
      [["z", "x", "y"], ["z", "x", "y"]]) ∧
    ∃ rs : List (FitResult ℚ),
      (ScanStudies.DoScan Examples.freeFit ⟨"x", 0, 10, 2⟩
        ⟨Examples.threeParams, [0, 0, 3], []⟩ (FitResultVector.new [])).2.2.allResults =
        [] ++ rs ∧
      ∀ r ∈ rs, ∀ n,
        n ∈ r.GetResultParameterSet.GetAllNames ↔ n ∈ Examples.threeParams.GetAllNames := by
  have hchk : ∀ c ∈ (ScanStudies.DoScan Examples.freeFit ⟨"x", 0, 10, 2⟩
      ⟨Examples.threeParams, [0, 0, 3], []⟩ (FitResultVector.new [])).2.1.fitLog.drop 0,
      (match c.outcome with
        | .result r =>
          decide ((∀ n ∈ r.GetResultParameterSet.GetAllNames,
              n ∈ Examples.threeParams.GetAllNames) ∧
            (∀ e ∈ Examples.threeParams, e.2.type ≠ "Fixed" → e.1 ≠ "x" →
              e.1 ∈ r.GetResultParameterSet.GetAllNames))
        | .throws _ => true) = true := by
    decide!
  refine ⟨by decide, by decide!, ?_⟩
  obtain ⟨rs, hres, _, hall⟩ :=
    schema_uniformity Examples.freeFit ⟨"x", 0, 10, 2⟩
      ⟨Examples.threeParams, [0, 0, 3], []⟩ (FitResultVector.new []) (by decide)
      (fun c hc r hr => by
        have h := hchk c hc
        rw [hr] at h
        exact of_decide_eq_true h)
  exact ⟨rs, hres, hall⟩

/-- C14 (re-injection of fixed parameters): in a scan by `ScanStudies::DoScan`, whatever
the fits do, the `i`-th appended result is the result `r0` returned by the last fit call
`c` made at grid index `i`, finished with the `ParameterSet` that was passed to that
call, which is the input one with the scanned parameter fixed at the value of the try:
its parameter set is that of `r0` after the write of the scanned entry, then the
re-injection, then the scan mark.  Every parameter that is fixed in that `ParameterSet`
(so every one that is fixed in the input, with its input value when it is not the scanned
one) and whose name is absent from `r0` has, after the re-injection and in the appended
result, its current value as value, original value, minimum and maximum, the error 0,
and its type and unit; and the entry of every name that `r0` had is left as it was by
the re-injection. -/
theorem fixed_parameters_reinjected {σ : Type} (fit : FitStep σ ℚ) (P : ScanParam)
    (w : World σ ℚ) (out : FitResultVector ℚ)
    (hp : (w.params.GetPhysicsParameter P.GetName).isSome) :
    ∃ (segs : List (List (FitCall ℚ))) (rs : List (FitResult ℚ)),
      (ScanStudies.DoScan fit P w out).2.1.fitLog = w.fitLog ++ segs.flatten ∧
      (ScanStudies.DoScan fit P w out).2.2.allResults = out.allResults ++ rs ∧
      ((ScanStudies.DoScan fit P w out).1 = .returned → rs.length = P.GetPoints.toNat) ∧
      ∀ (i : Nat) (r : FitResult ℚ), rs[i]? = some r → ∃ (calls : List (FitCall ℚ)) (c : FitCall ℚ) (x y : ℚ)
          (r0 : FitResult ℚ) (rs1 rs2 : ResultParameterSet ℚ),
        segs[i]? = some calls ∧ calls.getLast? = some c ∧ c.outcome = .result r0 ∧
        c.params =
          (w.params.update P.GetName (PhysicsParameter.SetType "Fixed")).update P.GetName
            (PhysicsParameter.SetBlindedValue y) ∧
        rs1 = r0.GetResultParameterSet.SetResultParameter P.GetName x x 0 x x
          (c.params.typeOf P.GetName) (c.params.unitOf P.GetName) ∧
        rs2 = ScanStudies.reinjectFixed c.params rs1.GetAllNames c.params.GetAllFixedNames
          rs1 ∧
        r.GetResultParameterSet = rs2.SetScanStatus P.GetName true ∧
        rs1.GetAllNames = r0.GetResultParameterSet.GetAllNames ∧
        (∀ f p0, w.params.GetPhysicsParameter f = some p0 → p0.GetType = "Fixed" →
          ∃ p, c.params.GetPhysicsParameter f = some p ∧ p.GetType = "Fixed" ∧
            (f ≠ P.GetName → p = p0)) ∧
        (∀ f p, c.params.GetPhysicsParameter f = some p → p.GetType = "Fixed" →
          f ∉ r0.GetResultParameterSet.GetAllNames →
          rs2.GetResultParameter f = some ⟨p.GetValue, p.GetValue, 0, p.GetValue, p.GetValue,
            p.GetType, p.GetUnit, false⟩ ∧
          (r.GetResultParameterSet.GetResultParameter f).map
            (fun e => (e.value, e.originalValue, e.error, e.minimum, e.maximum, e.type,
              e.unit)) =
            some (p.GetValue, p.GetValue, 0, p.GetValue, p.GetValue, p.GetType, p.GetUnit)) ∧
        (∀ f p0, f ≠ P.GetName → w.params.GetPhysicsParameter f = some p0 →
          p0.GetType = "Fixed" → f ∉ r0.GetResultParameterSet.GetAllNames →
          (r.GetResultParameterSet.GetResultParameter f).map
            (fun e => (e.value, e.originalValue, e.error, e.minimum, e.maximum, e.type,
              e.unit)) =
            some (p0.GetValue, p0.GetValue, 0, p0.GetValue, p0.GetValue, p0.GetType,
              p0.GetUnit)) ∧
        (∀ n ∈ r0.GetResultParameterSet.GetAllNames,
          rs2.GetResultParameter n = rs1.GetResultParameter n ∧
          (n ≠ P.GetName → r.GetResultParameterSet.GetResultParameter n =
            r0.GetResultParameterSet.GetResultParameter n)) := by
  obtain ⟨segs, rs, hlog, hres, hret, hsegs, hrs, _⟩ := ScanStudies.DoScan_full fit P w out hp
  refine ⟨segs, rs, hlog, hres, hret, ?_⟩
  intro i r hi
  obtain ⟨calls, c, x, r0, h1, h2, h3, hr0, _⟩ := hrs i r hi
  obtain ⟨_, _, _, hpar, _⟩ := hsegs i calls h1
  obtain ⟨y, hy⟩ := hpar c (List.mem_of_getLast?_eq_some h2)
  have hn1 : (r0.GetResultParameterSet.SetResultParameter P.GetName x x 0 x x
      (c.params.typeOf P.GetName) (c.params.unitOf P.GetName)).GetAllNames =
      r0.GetResultParameterSet.GetAllNames :=
    ResultParameterSet.names_SetResultParameter _ _ _ _ _ _ _ _ _
  have hfix : ∀ f p0, w.params.GetPhysicsParameter f = some p0 → p0.GetType = "Fixed" →
      ∃ p, c.params.GetPhysicsParameter f = some p ∧ p.GetType = "Fixed" ∧
        (f ≠ P.GetName → p = p0) := by
    intro f p0 hf0 ht0
    by_cases hfn : f = P.GetName
    · subst hfn
      refine ⟨(PhysicsParameter.SetBlindedValue y) ((PhysicsParameter.SetType "Fixed") p0),
        by rw [hy, ParameterSet.get_update, ParameterSet.get_update, hf0]; rfl,
        rfl, fun h => absurd rfl h⟩
    · refine ⟨p0, ?_, ht0, fun _ => rfl⟩
      rw [hy, ParameterSet.get_update_ne _ _ _ _ hfn, ParameterSet.get_update_ne _ _ _ _ hfn,
        hf0]
  have hinj : ∀ f p, c.params.GetPhysicsParameter f = some p → p.GetType = "Fixed" →
      f ∉ r0.GetResultParameterSet.GetAllNames →
      (ScanStudies.reinjectFixed c.params
          (r0.GetResultParameterSet.SetResultParameter P.GetName x x 0 x x
            (c.params.typeOf P.GetName) (c.params.unitOf P.GetName)).GetAllNames
          c.params.GetAllFixedNames
          (r0.GetResultParameterSet.SetResultParameter P.GetName x x 0 x x
            (c.params.typeOf P.GetName) (c.params.unitOf P.GetName))).GetResultParameter f =
        some ⟨p.GetValue, p.GetValue, 0, p.GetValue, p.GetValue, p.GetType, p.GetUnit,
          false⟩ ∧
      (r.GetResultParameterSet.GetResultParameter f).map
        (fun e => (e.value, e.originalValue, e.error, e.minimum, e.maximum, e.type,
          e.unit)) =
        some (p.GetValue, p.GetValue, 0, p.GetValue, p.GetValue, p.GetType, p.GetUnit) := by
    intro f p hf ht hnot
    have hmem : f ∈ c.params.GetAllFixedNames := ParameterSet.mem_fixedNames f c.params p hf ht
    have hent := ScanStudies.reinject_entry c.params
      (r0.GetResultParameterSet.SetResultParameter P.GetName x x 0 x x
        (c.params.typeOf P.GetName) (c.params.unitOf P.GetName)).GetAllNames
      c.params.GetAllFixedNames
      (r0.GetResultParameterSet.SetResultParameter P.GetName x x 0 x x
        (c.params.typeOf P.GetName) (c.params.unitOf P.GetName)) f p hf
      (by rw [hn1]; exact hnot) (Or.inl hmem)
    refine ⟨hent, ?_⟩
    rw [hr0]
    show (ResultParameterSet.GetResultParameter f
      (ResultParameterSet.SetScanStatus P.GetName true _)).map _ = _
    by_cases hfn : f = P.GetName
    · subst hfn
      rw [ResultParameterSet.get_SetScanStatus, hent]
      rfl
    · rw [ResultParameterSet.get_SetScanStatus_ne _ _ _ _ hfn, hent]
      rfl
  refine ⟨calls, c, x, y, r0, _, _, h1, h2, h3, hy, rfl, rfl, by rw [hr0]; rfl, hn1, hfix,
    hinj, ?_, ?_⟩
  · intro f p0 hfn hf0 ht0 hnot
    obtain ⟨q, hq, hqt, hqe⟩ := hfix f p0 hf0 ht0
    have hqp := hqe hfn
    subst hqp
    exact (hinj f q hq hqt hnot).2
  · intro n hn
    have h1 := ScanStudies.get_reinjectFixed c.params
      (r0.GetResultParameterSet.SetResultParameter P.GetName x x 0 x x
        (c.params.typeOf P.GetName) (c.params.unitOf P.GetName)).GetAllNames
      c.params.GetAllFixedNames n
      (r0.GetResultParameterSet.SetResultParameter P.GetName x x 0 x x
        (c.params.typeOf P.GetName) (c.params.unitOf P.GetName)) (by rw [hn1]; exact hn)
    refine ⟨h1, ?_⟩
    intro hne
    rw [hr0]
    show ResultParameterSet.GetResultParameter n
      (ResultParameterSet.SetScanStatus P.GetName true _) = _
    rw [ResultParameterSet.get_SetScanStatus_ne _ _ _ _ hne, h1,
      ResultParameterSet.get_SetResultParameter_ne _ _ _ _ _ _ _ _ _ _ hne]

/-- Witness of C14: the scan of the witness of C12.  The fit step leaves the fixed `y` out
of its results; both appended results have it, with the value 7 as value, original
value, minimum and maximum, the error 0, the type `"Fixed"` and the unit `"ps"`, and
the entry of `z` that the fit reported. -/
theorem fixed_parameters_reinjected_witness :
    (Examples.threeParams.GetPhysicsParameter "x").isSome ∧
    ((ScanStudies.DoScan Examples.freeFit ⟨"x", 0, 10, 2⟩
        ⟨Examples.threeParams, [0, 0, 3], []⟩ (FitResultVector.new [])).2.2.allResults.map
      (fun r => (r.GetResultParameterSet.GetResultParameter "y").map
        (fun e => [e.value, e.originalValue, e.error, e.minimum, e.maximum])) =
      [some [7, 7, 0, 7, 7], some [7, 7, 0, 7, 7]]) ∧
    ((ScanStudies.DoScan Examples.freeFit ⟨"x", 0, 10, 2⟩
        ⟨Examples.threeParams, [0, 0, 3], []⟩ (FitResultVector.new [])).2.2.allResults.map
      (fun r => ((r.GetResultParameterSet.GetResultParameter "y").map
          (fun e => (e.type, e.unit)),
        (r.GetResultParameterSet.GetResultParameter "z").map
          (fun e => (e.value, e.error)))) =
      [(some ("Fixed", "ps"), some (9, 1)), (some ("Fixed", "ps"), some (9, 1))]) ∧
    ∃ (segs : List (List (FitCall ℚ))) (rs : List (FitResult ℚ)),
      (ScanStudies.DoScan Examples.freeFit ⟨"x", 0, 10, 2⟩
        ⟨Examples.threeParams, [0, 0, 3], []⟩ (FitResultVector.new [])).2.1.fitLog =
        [] ++ segs.flatten ∧
      (ScanStudies.DoScan Examples.freeFit ⟨"x", 0, 10, 2⟩
        ⟨Examples.threeParams, [0, 0, 3], []⟩ (FitResultVector.new [])).2.2.allResults =
        [] ++ rs ∧
      ∀ (i : Nat) (r : FitResult ℚ), rs[i]? = some r → ∃ (c : FitCall ℚ) (r0 : FitResult ℚ),
        (∃ calls : List (FitCall ℚ), segs[i]? = some calls ∧ calls.getLast? = some c) ∧
        c.outcome = .result r0 ∧
        ("y" ∉ r0.GetResultParameterSet.GetAllNames →
          (r.GetResultParameterSet.GetResultParameter "y").map
            (fun e => (e.value, e.originalValue, e.error, e.minimum, e.maximum, e.type,
              e.unit)) = some (7, 7, 0, 7, 7, "Fixed", "ps")) := by
  refine ⟨by decide, by decide!, by decide!, ?_⟩
  obtain ⟨segs, rs, hlog, hres, _, hall⟩ :=
    fixed_parameters_reinjected Examples.freeFit ⟨"x", 0, 10, 2⟩
      ⟨Examples.threeParams, [0, 0, 3], []⟩ (FitResultVector.new []) (by decide)
  refine ⟨segs, rs, hlog, hres, ?_⟩
  intro i r hi
  obtain ⟨calls, c, x, y, r0, rs1, rs2, h1, h2, h3, _, _, _, _, _, _, _, hdirect, _⟩ :=
    hall i r hi
  exact ⟨c, r0, ⟨calls, h1, h2⟩, h3,
    fun hnot => hdirect "y" ⟨7, "Fixed", "ps", id⟩ (by decide) rfl rfl hnot⟩

/-- C21 (retry only on non-convergence): at every grid point of `ScanStudies::DoScan`,
whatever the fits do, no retry is made when the first fit returns the status 3, and every
fit of the point but the last returned a status other than 3: the fits are repeated
until the first one that returns 3 or until the cap of 21 fits.  When the point is
finished, the result accepted and appended is the result of the last fit made at the
point, with its status; that status is 3 or the cap was reached, and it is 3 whenever
a fit of the point returned 3. -/
theorem retry_only_on_nonconvergence {σ : Type} (fit : FitStep σ ℚ) (P : ScanParam)
    (si : Nat) (w : World σ ℚ) (out : FitResultVector ℚ)
    (hp : (w.params.GetPhysicsParameter P.GetName).isSome) :
    ∃ calls : List (FitCall ℚ),
      (ScanStudies.scanPoint fit P si w out).2.1.fitLog = w.fitLog ++ calls ∧
      1 ≤ calls.length ∧ calls.length ≤ 21 ∧
      (∀ c r, calls[0]? = some c → c.outcome = .result r → r.GetFitStatus = 3 →
        calls.length = 1) ∧
      (∀ i c, calls[i]? = some c → i + 1 < calls.length →
        ∃ r, c.outcome = .result r ∧ r.GetFitStatus ≠ 3) ∧
      ((ScanStudies.scanPoint fit P si w out).1 = .returned →
        ∃ x r0, calls.getLast?.map FitCall.outcome = some (.result r0) ∧
          (ScanStudies.scanPoint fit P si w out).2.2 = out.AddFitResult
            (ScanStudies.finishPoint (ScanStudies.scanPoint fit P si w out).2.1.params
              P.GetName x r0) ∧
          (ScanStudies.finishPoint (ScanStudies.scanPoint fit P si w out).2.1.params
              P.GetName x r0).GetFitStatus = r0.GetFitStatus ∧
          (r0.GetFitStatus = 3 ∨ calls.length = 21) ∧
          ((∃ c ∈ calls, ∃ r, c.outcome = .result r ∧ r.GetFitStatus = 3) →
            r0.GetFitStatus = 3)) := by
  obtain ⟨calls, hlog, h1, h21, _, _, _, hres⟩ :=
    ScanStudies.scanPoint_spec fit P si w out hp
  obtain ⟨calls2, hlog2, hst2⟩ := ScanStudies.scanPoint_statuses fit P si w out
  have hcc : calls2 = calls := List.append_cancel_left (hlog2.symm.trans hlog)
  subst hcc
  refine ⟨calls2, hlog, h1, h21, ?_, hst2, ?_⟩
  · intro c r hc hr h3
    by_contra hlen
    have hlt : 0 + 1 < calls2.length := by omega
    obtain ⟨r2, hr2, hn3⟩ := hst2 0 c hc hlt
    rw [hr] at hr2
    cases hr2
    exact hn3 h3
  · intro hret
    obtain ⟨_, x, r0, hout, hlast, _, hn3⟩ := hres hret
    refine ⟨x, r0, hlast, hout, rfl, ?_, ?_⟩
    · by_cases h3 : r0.GetFitStatus = 3
      · exact Or.inl h3
      · exact Or.inr (hn3 h3).1
    · rintro ⟨c, hc, r, hr, h3⟩
      obtain ⟨i, hi⟩ := List.mem_iff_getElem?.1 hc
      have hilt : i < calls2.length := by
        rcases Nat.lt_or_ge i calls2.length with h | h
        · exact h
        · rw [List.getElem?_eq_none h] at hi; cases hi
      have hlastidx : i = calls2.length - 1 := by
        by_contra hne
        have hlt : i + 1 < calls2.length := by omega
        obtain ⟨r2, hr2, hn⟩ := hst2 i c hi hlt
        rw [hr] at hr2
        cases hr2
        exact hn h3
      rw [List.getLast?_eq_getElem?, ← hlastidx, hi] at hlast
      simp only [Option.map_some', Option.some.injEq] at hlast
      rw [hr] at hlast
      cases hlast
      exact h3

/-- Witness of C21: a point whose first fit converges makes one fit; a point whose third
fit is the first to converge makes three fits and accepts the third. -/
theorem retry_only_on_nonconvergence_witness :
    (Examples.params.GetPhysicsParameter "x").isSome ∧
    ((ScanStudies.scanPoint Examples.statusFit ⟨"x", 0, 10, 3⟩ 0
        ⟨Examples.params, [3, 0, 0], []⟩ (FitResultVector.new [])).2.1.fitLog.length = 1) ∧
    ((ScanStudies.scanPoint Examples.statusFit ⟨"x", 0, 10, 3⟩ 0
        ⟨Examples.params, [0, 1, 3, 0], []⟩ (FitResultVector.new [])).2.1.fitLog.length = 3) ∧
    ((ScanStudies.scanPoint Examples.statusFit ⟨"x", 0, 10, 3⟩ 0
        ⟨Examples.params, [0, 1, 3, 0], []⟩
        (FitResultVector.new [])).2.2.allResults.map FitResult.GetFitStatus = [3]) ∧
    ∃ calls : List (FitCall ℚ),
      (ScanStudies.scanPoint Examples.statusFit ⟨"x", 0, 10, 3⟩ 0
        ⟨Examples.params, [0, 1, 3, 0], []⟩ (FitResultVector.new [])).2.1.fitLog =
        [] ++ calls ∧ 1 ≤ calls.length ∧ calls.length ≤ 21 := by
  refine ⟨by decide, by decide, by decide, by decide, ?_⟩
  obtain ⟨calls, hlog, h1, h21, _⟩ :=
    retry_only_on_nonconvergence Examples.statusFit ⟨"x", 0, 10, 3⟩ 0
      ⟨Examples.params, [0, 1, 3, 0], []⟩ (FitResultVector.new []) (by decide)
  exact ⟨calls, hlog, h1, h21⟩

/-- C22 (scanned-parameter entry): every `FitResult` that a scan by `ScanStudies::DoScan`
appends, whatever the fits do, has an entry of the scanned parameter, and that entry is
marked as used in the scan, has the type `"Fixed"` and the error 0, and one number as
value, original value, minimum and maximum.  With a fit step that always returns a
`FitResult`, in every result of every vector that `ScanStudies::DoScan2D` appends the
entry of the outer parameter is marked as used in the scan. -/
theorem scanned_entry_marked {σ : Type} (fit : FitStep σ ℚ) (P : ScanParam)
    (w : World σ ℚ) (out : FitResultVector ℚ)
    (hp : (w.params.GetPhysicsParameter P.GetName).isSome) :
    (∃ rs : List (FitResult ℚ),
      (ScanStudies.DoScan fit P w out).2.2.allResults = out.allResults ++ rs ∧
      ((ScanStudies.DoScan fit P w out).1 = .returned → rs.length = P.GetPoints.toNat) ∧
      ∀ r ∈ rs, ∃ e, r.GetResultParameterSet.GetResultParameter P.GetName = some e ∧
        e.scanStatus = true ∧ e.type = "Fixed" ∧ e.error = 0 ∧
        e.originalValue = e.value ∧ e.minimum = e.value ∧ e.maximum = e.value) ∧
    ((∀ s ps, ∃ r, (fit s ps).1 = .result r) →
      ∀ (PP : ScanParam × ScanParam) (out2 : List (FitResultVector ℚ)),
        (w.params.GetPhysicsParameter PP.1.GetName).isSome →
        (w.params.GetPhysicsParameter PP.2.GetName).isSome →
        ∃ vecs : List (FitResultVector ℚ),
          (ScanStudies.DoScan2D fit PP w out2).2.2 = out2 ++ vecs ∧
          vecs.length = PP.1.GetPoints.toNat ∧
          ∀ vec ∈ vecs, ∀ r ∈ vec.allResults,
            (r.GetResultParameterSet.GetResultParameter PP.1.GetName).map
              (fun e => e.scanStatus) = some true) := by
  constructor
  · obtain ⟨calls, rs, _, hres, _, hrs, hok, _⟩ := ScanStudies.DoScan_trace fit P w out hp
    refine ⟨rs, hres, fun h => (hok h).2, ?_⟩
    intro r hr
    obtain ⟨ps, x, r0, hr0, ⟨y, hy⟩, _⟩ := hrs r hr
    cases hq : ParameterSet.GetPhysicsParameter P.GetName w.params with
    | none => rw [hq] at hp; cases hp
    | some p =>
      rw [hr0]
      exact ScanStudies.finishPoint_scanEntry ps P.GetName x r0
        ((PhysicsParameter.SetBlindedValue y) ((PhysicsParameter.SetType "Fixed") p))
        (by rw [hy, ParameterSet.get_update, ParameterSet.get_update, hq]; rfl) rfl
  · intro hfit PP out2 ha hb
    obtain ⟨_, vecs, hout, hvl, hall⟩ := ScanStudies.DoScan2D_spec fit PP w out2 hfit ha hb
    refine ⟨vecs, hout, hvl, ?_⟩
    intro vec hvec r hr
    obtain ⟨j, hj⟩ := List.mem_iff_getElem?.1 hvec
    have hjlt : j < PP.1.GetPoints.toNat := by
      rw [← hvl]
      rcases Nat.lt_or_ge j vecs.length with h | h
      · exact h
      · rw [List.getElem?_eq_none h] at hj; cases hj
    obtain ⟨vec2, hv2, _, _, hent⟩ := hall j hjlt
    rw [hj] at hv2
    cases hv2
    have := hent r hr
    cases hg : ResultParameterSet.GetResultParameter PP.1.GetName r.GetResultParameterSet with
    | none => rw [hg] at this; cases this
    | some e =>
      rw [hg] at this
      simp only [Option.map_some', Option.some.injEq, Prod.mk.injEq] at this ⊢
      exact this.2

/-- Witness of C22: a two-point scan of `x` whose fit step leaves the fixed parameters, so
the scanned `x`, out of its results (the first point converges at the first wiggle, at
1/2), and the two-by-two scan of `x` and `z`. -/
theorem scanned_entry_marked_witness :
    (Examples.threeParams.GetPhysicsParameter "x").isSome ∧
    ((ScanStudies.DoScan Examples.freeFit ⟨"x", 0, 10, 2⟩
        ⟨Examples.threeParams, [0, 0, 3], []⟩ (FitResultVector.new [])).2.2.allResults.map
      (fun r => (r.GetResultParameterSet.GetResultParameter "x").map
        (fun e => (e.scanStatus, e.type, e.value))) =
      [some (true, "Fixed", 1 / 2), some (true, "Fixed", 10)]) ∧
    ((ScanStudies.DoScan2D Examples.freeFit (⟨"x", 0, 10, 2⟩, ⟨"z", 1, 2, 2⟩)
        ⟨Examples.threeParams, [], []⟩ []).2.2.map
      (fun vec => vec.allResults.map (fun r =>
        (r.GetResultParameterSet.GetResultParameter "x").map (fun e => e.scanStatus))) =
      [[some true, some true], [some true, some true]]) ∧
    ∃ rs : List (FitResult ℚ),
      (ScanStudies.DoScan Examples.freeFit ⟨"x", 0, 10, 2⟩
        ⟨Examples.threeParams, [0, 0, 3], []⟩ (FitResultVector.new [])).2.2.allResults =
        [] ++ rs := by
  refine ⟨by decide, by decide!, by decide!, ?_⟩
  obtain ⟨rs, hres, _⟩ :=
    (scanned_entry_marked Examples.freeFit ⟨"x", 0, 10, 2⟩
      ⟨Examples.threeParams, [0, 0, 3], []⟩ (FitResultVector.new []) (by decide)).1
  exact ⟨rs, hres⟩

/-- C24 (packed covariance index): for every dimension `n` and all `row`, `col` below `n`,
the index at which `ResultFormatter::GetElementFromCovarianceMatrix` reads the packed
vector is `min(row,col) + max(row,col)*(max(row,col)+1)/2`; it is at least 0 and below
`n(n+1)/2`, it is the same for `(row, col)` and `(col, row)`, two pairs with the same
index have the same minimum and the same maximum, and every index below `n(n+1)/2` is
the index of a pair below `n`.  For `n` up to 46340, where the `int` products of the
source are below `2^31`, the read of a vector of `n(n+1)/2` elements is the element at
that index. -/
theorem packed_covariance_index (n row col : Nat) (hr : row < n) (hc : col < n) :
    ResultFormatter.covarianceIndex row col =
      ((min row col + max row col * (max row col + 1) / 2 : Nat) : Int) ∧
    0 ≤ ResultFormatter.covarianceIndex row col ∧
    ResultFormatter.covarianceIndex row col < ((n * (n + 1) / 2 : Nat) : Int) ∧
    ResultFormatter.covarianceIndex row col = ResultFormatter.covarianceIndex col row ∧
    (∀ row2 col2 : Nat, row2 < n → col2 < n →
      ResultFormatter.covarianceIndex row col = ResultFormatter.covarianceIndex row2 col2 →
      min row col = min row2 col2 ∧ max row col = max row2 col2) ∧
    (∀ k : Nat, k < n * (n + 1) / 2 → ∃ r c : Nat, r ≤ c ∧ c < n ∧
      ResultFormatter.covarianceIndex r c = (k : Int)) ∧
    (n ≤ 46340 →
      max row col * (max row col + 1) < 2 ^ 31 ∧
      ∀ matrix : List ℚ, matrix.length = n * (n + 1) / 2 →
        ResultFormatter.GetElementFromCovarianceMatrix matrix row col =
          matrix[min row col + max row col * (max row col + 1) / 2]? ∧
        (ResultFormatter.GetElementFromCovarianceMatrix matrix row col).isSome) := by
  have hidx := ResultFormatter.covarianceIndex_nat row col
  have hmin : min row col ≤ max row col := le_trans (Nat.min_le_left _ _) (Nat.le_max_left _ _)
  have hmax : max row col < n := Nat.max_lt.2 ⟨hr, hc⟩
  have hlt := ResultFormatter.packed_lt _ _ n hmin hmax
  refine ⟨hidx, ?_, ?_, ?_, ?_, ?_, ?_⟩
  · rw [hidx]; exact Int.ofNat_nonneg _
  · rw [hidx]; exact_mod_cast hlt
  · rw [hidx, ResultFormatter.covarianceIndex_nat col row, Nat.min_comm, Nat.max_comm]
  · intro row2 col2 _ _ heq
    rw [hidx, ResultFormatter.covarianceIndex_nat row2 col2] at heq
    have heq2 : min row col + max row col * (max row col + 1) / 2 =
        min row2 col2 + max row2 col2 * (max row2 col2 + 1) / 2 := by exact_mod_cast heq
    exact ResultFormatter.packed_injective _ _ _ _ hmin
      (le_trans (Nat.min_le_left _ _) (Nat.le_max_left _ _)) heq2
  · intro k hk
    obtain ⟨a, b, hab, hb, hk2⟩ := ResultFormatter.packed_surjective n k hk
    refine ⟨a, b, hab, hb, ?_⟩
    rw [ResultFormatter.covarianceIndex_nat, Nat.min_eq_left hab, Nat.max_eq_right hab, hk2]
  · intro hn
    have hprod : max row col * (max row col + 1) < 2 ^ 31 := by
      have h1 : max row col ≤ 46339 := by omega
      calc max row col * (max row col + 1) ≤ 46339 * (46339 + 1) :=
            Nat.mul_le_mul h1 (by omega)
        _ < 2 ^ 31 := by norm_num
    refine ⟨hprod, ?_⟩
    intro matrix hlen
    have hsmall : min row col + max row col * (max row col + 1) / 2 < 2 ^ 32 := by
      have h2 : max row col * (max row col + 1) / 2 ≤ max row col * (max row col + 1) :=
        Nat.div_le_self _ _
      have h3 : min row col ≤ 46339 := by omega
      have h4 : (2 : Nat) ^ 31 = 2147483648 := by norm_num
      have h5 : (2 : Nat) ^ 32 = 4294967296 := by norm_num
      omega
    have hread : ResultFormatter.GetElementFromCovarianceMatrix matrix row col =
        matrix[min row col + max row col * (max row col + 1) / 2]? := by
      unfold ResultFormatter.GetElementFromCovarianceMatrix
      rw [hidx]
      have hmod : (((min row col + max row col * (max row col + 1) / 2 : Nat) : Int) %
          2 ^ 32).toNat = min row col + max row col * (max row col + 1) / 2 := by
        have : (((min row col + max row col * (max row col + 1) / 2 : Nat) : Int) % 2 ^ 32) =
            ((min row col + max row col * (max row col + 1) / 2 : Nat) : Int) := by
          apply Int.emod_eq_of_lt (Int.ofNat_nonneg _)
          exact_mod_cast hsmall
        rw [this, Int.toNat_ofNat]
      rw [hmod]
    refine ⟨hread, ?_⟩
    rw [hread]
    have : min row col + max row col * (max row col + 1) / 2 < matrix.length := by
      rw [hlen]; exact hlt
    simp [List.getElem?_eq_getElem this]

/-- Witness of C24: in a matrix of dimension 3, packed as six numbers, the element of row
2 and column 1 and the element of row 1 and column 2 are both read at index 4. -/
theorem packed_covariance_index_witness :
    (2 < 3) ∧ (1 < 3) ∧
    ResultFormatter.covarianceIndex 2 1 = 4 ∧
    ResultFormatter.covarianceIndex 1 2 = 4 ∧
    ResultFormatter.GetElementFromCovarianceMatrix [10, 11, 12, 13, 14, 15] 2 1 = some 14 ∧
    ResultFormatter.covarianceIndex ((2 : Nat) : Int) ((1 : Nat) : Int) =
      ResultFormatter.covarianceIndex ((1 : Nat) : Int) ((2 : Nat) : Int) :=
  ⟨by decide, by decide, by decide, by decide, by decide!,
   (packed_covariance_index 3 2 1 (by decide) (by decide)).2.2.2.1⟩

/-- C25 (contour store round trip): a `FunctionContour` constructed with `C >= 0` contours
has `C` contours, all empty.  On every `FunctionContour`, for every `sigma` from 1 to the
number of contours, `SetPlot( sigma, P )` writes nothing to `cerr`, `GetPlot( sigma )`
afterwards returns `P`, the number of contours and the axis names are unchanged and so
is every other stored contour, so that `GetPlot` of another valid index returns what it
returned before; the array overload stores what the vector overload stores given the
`N` pairs `(X[i], Y[i])`; and a `SetPlot` with `sigma` outside that range leaves the
object as it was. -/
theorem contour_round_trip :
    (∀ (XName YName : String) (C : Int), 0 ≤ C →
      (FunctionContour.new XName YName C).GetContourNumber = C ∧
      (FunctionContour.new XName YName C).GetXName = XName ∧
      (FunctionContour.new XName YName C).GetYName = YName ∧
      (∀ c ∈ (FunctionContour.new XName YName C).allContours, c = []) ∧
      ∀ Sigma : Int, 1 ≤ Sigma → Sigma ≤ C →
        FunctionContour.GetPlot Sigma (FunctionContour.new XName YName C) = (.plot [], [])) ∧
    (∀ (fc : FunctionContour) (Sigma : Int) (P : List (ℚ × ℚ)),
      1 ≤ Sigma → Sigma ≤ fc.GetContourNumber →
      (FunctionContour.SetPlot Sigma P fc).2 = [] ∧
      FunctionContour.GetPlot Sigma (FunctionContour.SetPlot Sigma P fc).1 = (.plot P, []) ∧
      (FunctionContour.SetPlot Sigma P fc).1.GetContourNumber = fc.GetContourNumber ∧
      (FunctionContour.SetPlot Sigma P fc).1.GetXName = fc.GetXName ∧
      (FunctionContour.SetPlot Sigma P fc).1.GetYName = fc.GetYName ∧
      (∀ k : Nat, k ≠ (Sigma - 1).toNat →
        (FunctionContour.SetPlot Sigma P fc).1.allContours[k]? = fc.allContours[k]?) ∧
      (∀ S2 : Int, 1 ≤ S2 → S2 ≤ fc.GetContourNumber → S2 ≠ Sigma →
        FunctionContour.GetPlot S2 (FunctionContour.SetPlot Sigma P fc).1 =
          FunctionContour.GetPlot S2 fc)) ∧
    (∀ (fc : FunctionContour) (Sigma N : Int) (X Y : Nat → ℚ),
      FunctionContour.SetPlotArrays Sigma N X Y fc =
        FunctionContour.SetPlot Sigma
          ((List.range N.toNat).map (fun i => (X i, Y i))) fc) ∧
    (∀ (fc : FunctionContour) (Sigma N : Int) (P : List (ℚ × ℚ)) (X Y : Nat → ℚ),
      Sigma < 1 ∨ Sigma > fc.GetContourNumber →
      (FunctionContour.SetPlot Sigma P fc).1 = fc ∧
      (FunctionContour.SetPlotArrays Sigma N X Y fc).1 = fc) := by
  have hvalid : ∀ (fc : FunctionContour) (Sigma : Int), 1 ≤ Sigma →
      Sigma ≤ fc.GetContourNumber → FunctionContour.invalidSigma fc Sigma = false := by
    intro fc Sigma h1 h2
    simp only [FunctionContour.invalidSigma, Bool.or_eq_false_iff, decide_eq_false_iff_not,
      not_lt, gt_iff_lt]
    exact ⟨h2, h1⟩
  have hinv : ∀ (fc : FunctionContour) (Sigma : Int),
      Sigma < 1 ∨ Sigma > fc.GetContourNumber → FunctionContour.invalidSigma fc Sigma = true := by
    intro fc Sigma h
    simp only [FunctionContour.invalidSigma, Bool.or_eq_true, decide_eq_true_eq]
    rcases h with h | h
    · exact Or.inr h
    · exact Or.inl h
  have hidx : ∀ (fc : FunctionContour) (Sigma : Int), 1 ≤ Sigma →
      Sigma ≤ fc.GetContourNumber → (Sigma - 1).toNat < fc.allContours.length := by
    intro fc Sigma h1 h2
    have h3 : Sigma ≤ (fc.allContours.length : Int) := h2
    omega
  refine ⟨?_, ?_, ?_, ?_⟩
  · intro XName YName C hC
    have hnum : (FunctionContour.new XName YName C).GetContourNumber = C := by
      simp only [FunctionContour.GetContourNumber, FunctionContour.new, List.length_replicate]
      exact Int.toNat_of_nonneg hC
    refine ⟨hnum, rfl, rfl, ?_, ?_⟩
    · intro c hc
      exact List.eq_of_mem_replicate hc
    · intro Sigma h1 h2
      have hv := hvalid (FunctionContour.new XName YName C) Sigma h1 (by rw [hnum]; exact h2)
      have hi := hidx (FunctionContour.new XName YName C) Sigma h1 (by rw [hnum]; exact h2)
      simp only [FunctionContour.GetPlot, hv, Bool.false_eq_true, if_false]
      simp only [FunctionContour.new, List.length_replicate] at hi ⊢
      rw [List.getD_eq_getElem?_getD, List.getElem?_eq_getElem (by simpa using hi)]
      simp
  · intro fc Sigma P h1 h2
    have hv := hvalid fc Sigma h1 h2
    have hi := hidx fc Sigma h1 h2
    have hset : FunctionContour.SetPlot Sigma P fc =
        ({ fc with allContours := fc.allContours.set (Sigma - 1).toNat P }, []) := by
      simp only [FunctionContour.SetPlot, hv, Bool.false_eq_true, if_false]
    have hnum : (FunctionContour.SetPlot Sigma P fc).1.GetContourNumber =
        fc.GetContourNumber := by
      rw [hset]
      simp [FunctionContour.GetContourNumber]
    refine ⟨by rw [hset], ?_, hnum, by rw [hset]; rfl, by rw [hset]; rfl, ?_, ?_⟩
    · have hv2 := hvalid (FunctionContour.SetPlot Sigma P fc).1 Sigma h1
        (by rw [hnum]; exact h2)
      simp only [FunctionContour.GetPlot, hv2, Bool.false_eq_true, if_false]
      rw [hset]
      simp only [List.getD_eq_getElem?_getD, List.getElem?_set_self hi, Option.getD_some]
    · intro k hk
      rw [hset]
      exact List.getElem?_set_ne (Ne.symm hk)
    · intro S2 h3 h4 hne
      have hv2 := hvalid (FunctionContour.SetPlot Sigma P fc).1 S2 h3
        (by rw [hnum]; exact h4)
      have hv3 := hvalid fc S2 h3 h4
      simp only [FunctionContour.GetPlot, hv2, hv3, Bool.false_eq_true, if_false]
      rw [hset]
      have hk : (Sigma - 1).toNat ≠ (S2 - 1).toNat := by omega
      simp only [List.getD_eq_getElem?_getD, List.getElem?_set_ne hk]
  · intro fc Sigma N X Y
    rfl
  · intro fc Sigma N P X Y h
    have hi := hinv fc Sigma h
    constructor
    · simp only [FunctionContour.SetPlot, hi, if_true]
    · simp only [FunctionContour.SetPlotArrays, hi, if_true]

/-- C26 (sign symmetry of `GammaObs`): for constraints that are all named `GammaObs` and
every two `ParameterSet`s with the same value of `gamma`, not 0, and opposite values of
`deltaGamma`, `ConstraintFunction::Evaluate` returns the same value, half the sum of the
squares of `(gamma*(1 - x^2)/(1 + x^2) - target) / error` with `x = deltaGamma/(2*gamma)`.
A constraint named `GammaL` on `gamma = 0.66`, `deltaGamma = 0.1` and on
`deltaGamma = -0.1` is evaluated to two different values. -/
theorem GammaObs_sign_symmetry (cs : List ExternalConstraint) (ps ps2 : ParameterSet ℚ)
    (g d : ℚ) (hcs : ∀ c ∈ cs, c.GetName = "GammaObs") (_hg : g ≠ 0)
    (h1 : ConstraintFunction.valueOf ps "gamma" = some g)
    (h2 : ConstraintFunction.valueOf ps "deltaGamma" = some d)
    (h3 : ConstraintFunction.valueOf ps2 "gamma" = some g)
    (h4 : ConstraintFunction.valueOf ps2 "deltaGamma" = some (-d)) :
    ConstraintFunction.Evaluate cs ps = ConstraintFunction.Evaluate cs ps2 ∧
    ConstraintFunction.Evaluate cs ps = some ((1 / 2 : ℚ) * (cs.map (fun c =>
      ((g * (1 - (d / (2 * g)) ^ 2) / (1 + (d / (2 * g)) ^ 2) - c.GetValue) /
        c.GetError) ^ 2)).sum) ∧
    ConstraintFunction.Evaluate [⟨"GammaL", 0.7, 0.05⟩] Examples.gammaParams ≠
      ConstraintFunction.Evaluate [⟨"GammaL", 0.7, 0.05⟩]
        [("gamma", ⟨0.66, "Free", "ps^-1", id⟩), ("deltaGamma", ⟨-0.1, "Free", "ps^-1", id⟩)] := by
  have hne : ¬ (("GammaObs" : String) = "GammaL") := by decide
  have hterm : ∀ (q : ParameterSet ℚ) (e : ℚ), e = d ∨ e = -d → ∀ c ∈ cs,
      ConstraintFunction.constraintTerm q g e c =
        ((g * (1 - (d / (2 * g)) ^ 2) / (1 + (d / (2 * g)) ^ 2) - c.GetValue) /
          c.GetError) ^ 2 := by
    intro q e he c hc
    have hn : c.name = "GammaObs" := hcs c hc
    have hx : (e / 2 / g) ^ 2 = (d / (2 * g)) ^ 2 := by
      rcases he with he | he
      · rw [he, div_div]
      · rw [he, div_div, neg_div, neg_sq]
    simp only [ConstraintFunction.constraintTerm, hn, hne, if_false, if_true, hx,
      ExternalConstraint.GetValue, ExternalConstraint.GetError]
  have hA : ConstraintFunction.Evaluate cs ps = some ((1 / 2 : ℚ) * (cs.map (fun c =>
      ((g * (1 - (d / (2 * g)) ^ 2) / (1 + (d / (2 * g)) ^ 2) - c.GetValue) /
        c.GetError) ^ 2)).sum) := by
    simp only [ConstraintFunction.Evaluate,
      ConstraintFunction.evaluateLoop_spec ps g d cs 0 (Or.inl ⟨h1, h2⟩), Option.map_some',
      zero_add]
    rw [List.map_congr_left (hterm ps d (Or.inl rfl))]
  have hB : ConstraintFunction.Evaluate cs ps2 = some ((1 / 2 : ℚ) * (cs.map (fun c =>
      ((g * (1 - (d / (2 * g)) ^ 2) / (1 + (d / (2 * g)) ^ 2) - c.GetValue) /
        c.GetError) ^ 2)).sum) := by
    simp only [ConstraintFunction.Evaluate,
      ConstraintFunction.evaluateLoop_spec ps2 g (-d) cs 0 (Or.inl ⟨h3, h4⟩),
      Option.map_some', zero_add]
    rw [List.map_congr_left (hterm ps2 (-d) (Or.inr rfl))]
  exact ⟨hA.trans hB.symm, hA, by decide!⟩

/-- Witness of C26: a `GammaObs` constraint on `gamma = 0.66` with `deltaGamma = 0.1` and
with `deltaGamma = -0.1`. -/
theorem GammaObs_sign_symmetry_witness :
    (∀ c ∈ [(⟨"GammaObs", 0.65, 0.01⟩ : ExternalConstraint)], c.GetName = "GammaObs") ∧
    (0.66 : ℚ) ≠ 0 ∧
    ConstraintFunction.Evaluate [⟨"GammaObs", 0.65, 0.01⟩] Examples.gammaParams =
      ConstraintFunction.Evaluate [⟨"GammaObs", 0.65, 0.01⟩]
        [("gamma", ⟨0.66, "Free", "ps^-1", id⟩),
          ("deltaGamma", ⟨-0.1, "Free", "ps^-1", id⟩)] :=
  ⟨by decide, by norm_num,
   (GammaObs_sign_symmetry [⟨"GammaObs", 0.65, 0.01⟩] Examples.gammaParams
      [("gamma", ⟨0.66, "Free", "ps^-1", id⟩), ("deltaGamma", ⟨-0.1, "Free", "ps^-1", id⟩)]
      0.66 0.1 (by decide) (by norm_num) rfl rfl rfl (by decide!)).1⟩

/-- C27 (`SplitString` ignores empty strings): the code at inputs that end with the split
character.  `SplitString` always returns, but for the input `a,` split at the comma it
returns the two parts `a` and the empty string, and for the input `,` the one part that
is the empty string: the test before the last part is added (line 65) is on the input,
not on the part.  Leading and repeated separators produce no empty part, and the empty
input has no part. -/
theorem split_keeps_empty_last_part :
    StringProcessing.SplitString ['a', ','] ',' = some [['a'], []] ∧
    StringProcessing.SplitString [','] ',' = some [[]] ∧
    StringProcessing.SplitString [',', 'a', ',', ',', 'b'] ',' = some [['a'], ['b']] ∧
    StringProcessing.SplitString [] ',' = some [] ∧
    (∀ (Input : List Char) (SplitCharacter : Char),
      (StringProcessing.SplitString Input SplitCharacter).isSome) :=
  ⟨by decide, by decide, by decide, by decide, StringProcessing.SplitString_isSome⟩

/-- C28 (`StringPositions` finds all instances): the code at inputs with an instance after
the first candidate position.  `StringPositions` always returns, but in `abab` it finds
`ab` at the position 0 only, where the instances are at 0 and 2, and in `aaa` it finds
`aa` at the positions 0, 1 and 2, where the instances are at 0 and 1: the comparison
(line 134) reads the input at the position found in what is left of it, which is the
position in the input only in the first pass.  In `xab` the instance at 1 is found in
the first pass. -/
theorem positions_compare_wrong_string :
    StringProcessing.StringPositions ['a', 'b', 'a', 'b'] ['a', 'b'] = some [0] ∧
    StringProcessing.occurrences ['a', 'b', 'a', 'b'] ['a', 'b'] = [0, 2] ∧
    StringProcessing.StringPositions ['a', 'a', 'a'] ['a', 'a'] = some [0, 1, 2] ∧
    StringProcessing.occurrences ['a', 'a', 'a'] ['a', 'a'] = [0, 1] ∧
    StringProcessing.StringPositions ['x', 'a', 'b'] ['a', 'b'] = some [1] ∧
    (∀ Input SearchString : List Char,
      (StringProcessing.StringPositions Input SearchString).isSome) :=
  ⟨by decide, by decide, by decide, by decide, by decide,
   StringProcessing.StringPositions_isSome⟩

/-- C29 (`ReplaceString` terminates) fails as stated: with the empty string to find and
the input `a` the loop never ends, whatever number of passes is granted, because the
index, advanced by `unsigned( 0 - 1 )` and incremented, is 0 again; and the string
`b` followed by NUL, which does not occur in the input `ab`, matches there against the
terminator of the input, so that replacing it by `x` returns `ax`. -/
theorem replace_empty_find_counterexample :
    (∀ fuel, StringProcessing.ReplaceString fuel ['a'] [] ['x'] = none) ∧
    StringProcessing.ReplaceString 3 ['a', 'b'] ['b', Char.ofNat 0] ['x'] =
      some ['a', 'x'] ∧
    ¬ ∃ pre post : List Char, pre ++ ['b', Char.ofNat 0] ++ post = ['a', 'b'] := by
  refine ⟨fun fuel => StringProcessing.replaceLoop_empty_find ['a'] ['x'] (by decide) fuel [],
    by decide, ?_⟩
  rintro ⟨pre, post, h⟩
  have hlen := congrArg List.length h
  simp only [List.length_append, List.length_cons, List.length_nil] at hlen
  have hpre : pre = [] := List.length_eq_zero.1 (by omega)
  subst hpre
  simp at h

/-- C29 (`ReplaceString` terminates), amended: for every input string, every string to
find that is not empty and every replacement string (of sizes below `2^32`),
`ReplaceString` returns once it is granted more passes than the input has characters.
When the string to find holds no NUL character, the result is the input if that string
does not occur in the input, and replacing it by itself returns the input. -/
theorem ReplaceString_terminates (Input FindString Replacement : List Char)
    (hne : FindString ≠ []) (hsize : Input.length + FindString.length < 2 ^ 32) :
    (∀ fuel, Input.length < fuel →
      (StringProcessing.ReplaceString fuel Input FindString Replacement).isSome) ∧
    (Char.ofNat 0 ∉ FindString →
      (∀ fuel, Input.length < fuel →
        (¬ ∃ pre post : List Char, pre ++ FindString ++ post = Input) →
        StringProcessing.ReplaceString fuel Input FindString Replacement = some Input) ∧
      (∀ fuel, Input.length < fuel →
        StringProcessing.ReplaceString fuel Input FindString FindString = some Input)) := by
  refine ⟨?_, ?_⟩
  · intro fuel hfuel
    exact StringProcessing.replaceLoop_isSome Input FindString Replacement hne hsize fuel 0 []
      (by omega)
  · intro hnul
    constructor
    · intro fuel hfuel hno
      have hrep : ∀ idx, idx < Input.length →
          StringProcessing.matchesAt Input FindString idx = true →
          Replacement = FindString := by
        intro idx hidx hm
        exfalso
        apply hno
        obtain ⟨_, htake⟩ := StringProcessing.matchesAt_prefix Input FindString idx hnul
          (le_of_lt hidx) hm
        refine ⟨Input.take idx, Input.drop (idx + FindString.length), ?_⟩
        have h1 := List.take_append_drop FindString.length (Input.drop idx)
        rw [htake, List.drop_drop] at h1
        rw [List.append_assoc, h1, List.take_append_drop]
      have := StringProcessing.replaceLoop_copies Input FindString Replacement hne hnul hsize
        hrep fuel 0 [] (Nat.zero_le _) (by omega)
      simpa [StringProcessing.ReplaceString] using this
    · intro fuel hfuel
      have := StringProcessing.replaceLoop_copies Input FindString FindString hne hnul hsize
        (fun _ _ _ => rfl) fuel 0 [] (Nat.zero_le _) (by omega)
      simpa [StringProcessing.ReplaceString] using this

/-- Witness of the amended C29: in `abcabc` the two instances of `bc` are replaced by `X`;
`zz` does not occur and the input is returned. -/
theorem ReplaceString_terminates_witness :
    (['b', 'c'] : List Char) ≠ [] ∧
    (['a', 'b', 'c', 'a', 'b', 'c'] : List Char).length + (['b', 'c'] : List Char).length
      < 2 ^ 32 ∧
    StringProcessing.ReplaceString 7 ['a', 'b', 'c', 'a', 'b', 'c'] ['b', 'c'] ['X'] =
      some ['a', 'X', 'a', 'X'] ∧
    StringProcessing.ReplaceString 7 ['a', 'b', 'c', 'a', 'b', 'c'] ['z', 'z'] ['X'] =
      some ['a', 'b', 'c', 'a', 'b', 'c'] ∧
    (StringProcessing.ReplaceString 7 ['a', 'b', 'c', 'a', 'b', 'c'] ['b', 'c']
      ['X']).isSome :=
  ⟨by decide, by decide, by decide, by decide,
   (ReplaceString_terminates ['a', 'b', 'c', 'a', 'b', 'c'] ['b', 'c'] ['X'] (by decide)
     (by decide)).1 7 (by decide)⟩

/-- C30 (normalisation cache) fails as stated: after `SetPhysicsParameters`, a call of
`Normalisation` with the time boundary [0, 1] and a second call with the time boundary
[0, 2], for a measurement with the tag 1, both return 1, where the computation without
the cache returns 1 and then 2 (the external functions are stand-ins for which the
normalisation is the length of the time range). -/
theorem normalisation_cache_counterexample :
    Bs2JpsiPhi_mistagParameter_alt.run Examples.standIns Examples.newPDF
      [.SetPhysicsParameters Examples.pdfParameters,
       .Normalisation Examples.measurement ⟨"ps", 0, 1⟩,
       .Normalisation Examples.measurement ⟨"ps", 0, 2⟩] = [1, 1] ∧
    Bs2JpsiPhi_mistagParameter_alt.uncachedRun Examples.standIns Examples.newPDF
      [.SetPhysicsParameters Examples.pdfParameters,
       .Normalisation Examples.measurement ⟨"ps", 0, 1⟩,
       .Normalisation Examples.measurement ⟨"ps", 0, 2⟩] = [1, 2] ∧
    Bs2JpsiPhi_mistagParameter_alt.toInt (Examples.measurement "tag") = 1 := by
  decide!

/-- C30 (normalisation cache), amended: for every sequence of `SetPhysicsParameters` and
`Normalisation` calls on a new object, with tags among -1, 0 and 1, each `Normalisation`
call returns what the computation without the cache returns for the current parameters,
the tag of the measurement and the time boundary of the first `Normalisation` call made
since the last `SetPhysicsParameters` (or since the construction), the call at which the
cache was filled: `resolution1Fraction * diffXsecNorm1` at `resolution1` plus
`(1 - resolution1Fraction) * diffXsecNorm1` at `resolution2`.  When every call is given
the same time boundary, that is the value for the boundary of the call.  The cache index
`tag+1` is within [0, 2]. -/
theorem normalisation_cache_refines (E : Bs2JpsiPhi_mistagParameter_alt.External)
    (uninitialised : Bs2JpsiPhi_mistagParameter_alt.PDF)
    (ops : List Bs2JpsiPhi_mistagParameter_alt.Call)
    (htags : ∀ m tb, Bs2JpsiPhi_mistagParameter_alt.Call.Normalisation m tb ∈ ops →
      -1 ≤ Bs2JpsiPhi_mistagParameter_alt.toInt (m "tag") ∧
      Bs2JpsiPhi_mistagParameter_alt.toInt (m "tag") ≤ 1) :
    Bs2JpsiPhi_mistagParameter_alt.run E
        (Bs2JpsiPhi_mistagParameter_alt.construct uninitialised) ops =
      Bs2JpsiPhi_mistagParameter_alt.filledRun E
        (Bs2JpsiPhi_mistagParameter_alt.construct uninitialised) none ops ∧
    (∀ lo hi : ℚ,
      (∀ m tb, Bs2JpsiPhi_mistagParameter_alt.Call.Normalisation m tb ∈ ops →
        ¬ tb.GetUnit = "NameNotFoundError" → tb.GetMinimum = lo ∧ tb.GetMaximum = hi) →
      Bs2JpsiPhi_mistagParameter_alt.run E
          (Bs2JpsiPhi_mistagParameter_alt.construct uninitialised) ops =
        Bs2JpsiPhi_mistagParameter_alt.uncachedRun E
          (Bs2JpsiPhi_mistagParameter_alt.construct uninitialised) ops) ∧
    (∀ m tb, Bs2JpsiPhi_mistagParameter_alt.Call.Normalisation m tb ∈ ops →
      0 ≤ Bs2JpsiPhi_mistagParameter_alt.toInt (m "tag") + 1 ∧
      Bs2JpsiPhi_mistagParameter_alt.toInt (m "tag") + 1 ≤ 2) := by
  have hinv : Bs2JpsiPhi_mistagParameter_alt.CacheHolds E
      (Bs2JpsiPhi_mistagParameter_alt.construct uninitialised) none :=
    ⟨rfl, fun b hb => by cases hb⟩
  have hrun := Bs2JpsiPhi_mistagParameter_alt.run_eq_filledRun E ops _ none hinv htags
  refine ⟨hrun, ?_, ?_⟩
  · intro lo hi hb
    rw [hrun]
    exact Bs2JpsiPhi_mistagParameter_alt.filledRun_eq_uncachedRun E ops _ none lo hi
      (Or.inl rfl) hb
  · intro m tb hm
    obtain ⟨h1, h2⟩ := htags m tb hm
    omega

/-- Witness of the amended C30: two calls of `Normalisation` with the time boundary
[0, 2] after `SetPhysicsParameters` both return 2, as the computation without the cache
does. -/
theorem normalisation_cache_refines_witness :
    (∀ m tb, Bs2JpsiPhi_mistagParameter_alt.Call.Normalisation m tb ∈
        [Bs2JpsiPhi_mistagParameter_alt.Call.SetPhysicsParameters Examples.pdfParameters,
         .Normalisation Examples.measurement ⟨"ps", 0, 2⟩,
         .Normalisation Examples.measurement ⟨"ps", 0, 2⟩] →
      -1 ≤ Bs2JpsiPhi_mistagParameter_alt.toInt (m "tag") ∧
      Bs2JpsiPhi_mistagParameter_alt.toInt (m "tag") ≤ 1) ∧
    Bs2JpsiPhi_mistagParameter_alt.run Examples.standIns Examples.newPDF
      [.SetPhysicsParameters Examples.pdfParameters,
       .Normalisation Examples.measurement ⟨"ps", 0, 2⟩,
       .Normalisation Examples.measurement ⟨"ps", 0, 2⟩] = [2, 2] ∧
    Bs2JpsiPhi_mistagParameter_alt.run Examples.standIns Examples.newPDF
      [.SetPhysicsParameters Examples.pdfParameters,
       .Normalisation Examples.measurement ⟨"ps", 0, 2⟩,
       .Normalisation Examples.measurement ⟨"ps", 0, 2⟩] =
      Bs2JpsiPhi_mistagParameter_alt.filledRun Examples.standIns Examples.newPDF none
        [.SetPhysicsParameters Examples.pdfParameters,
         .Normalisation Examples.measurement ⟨"ps", 0, 2⟩,
         .Normalisation Examples.measurement ⟨"ps", 0, 2⟩] := by
  have htags : ∀ m tb, Bs2JpsiPhi_mistagParameter_alt.Call.Normalisation m tb ∈
        [Bs2JpsiPhi_mistagParameter_alt.Call.SetPhysicsParameters Examples.pdfParameters,
         .Normalisation Examples.measurement ⟨"ps", 0, 2⟩,
         .Normalisation Examples.measurement ⟨"ps", 0, 2⟩] →
      -1 ≤ Bs2JpsiPhi_mistagParameter_alt.toInt (m "tag") ∧
      Bs2JpsiPhi_mistagParameter_alt.toInt (m "tag") ≤ 1 := by
    intro m tb hm
    have hmeas : m = Examples.measurement := by
      simp only [List.mem_cons, List.mem_singleton, List.not_mem_nil, or_false] at hm
      rcases hm with hm | hm | hm
      · cases hm
      · cases hm; rfl
      · cases hm; rfl
    rw [hmeas]
    decide
  exact ⟨htags, by decide!,
    (normalisation_cache_refines Examples.standIns Examples.newPDF _ htags).1⟩

end RapidFit
